import Mathlib

/-!
# Dakota multifidelity / multilevel control-variate sampling

A shallow embedding of the sample-allocation and accumulation routines of
`NonDNonHierarchSampling.cpp` and `NonDMultilevControlVarSampling.cpp`.

Conventions of the embedding

* The closed-form ratio estimators (`mfmc_analytic_solution`,
  `mfmc_reordered_analytic_solution`) are written over an arbitrary linearly
  ordered field with the library square root `std::sqrt` passed in as a
  function; the theorems instantiate the field with the real numbers and the
  square root with `Real.sqrt`.  Rounding is not modelled, nor are NaN and the
  infinities there; the restrictions a claim puts on its inputs (positive
  costs, correlations in `[0,1)`, a low-to-high ordering) are carried as
  hypotheses, and under them the source takes no square root of a negative
  number and divides by no zero.
* `RealVector` / `RealMatrix` arguments of the estimators are total functions
  of their indices; `size_t` indices and counts are natural numbers.
* The accumulators (`accumulate_mlcv_Qsums`, `accumulate_mlcv_Ysums`, all
  overloads) work on `Dbl`: a finite rational or NaN / an infinity.  Finite
  arithmetic is exact; the three non-finite values follow the IEEE rules.
* A `std::map<int, RealMatrix>` is the list of its entries in key order, an
  iterator into it a split of that list.  Every inner `while` loop is run with
  a bound `fuel` on its passes and yields `none` when the bound is hit, so that
  a loop that never ends has no result.
* The routines of the optimization sub-problem (`nonlinear_constraint`,
  `nonlinear_constraint_gradient`, `objective_function` and the formulation in
  `nonhierarch_numerical_solution`) are over a linearly ordered field as well,
  with `std::log` passed in.  The quiet NaN that `objective_function` returns
  for a non-positive average is the result `none`.  Constants and helpers
  defined outside the sources at hand (`DBL_MAX`, `RATIO_NUDGE`,
  `OFFLINE_PILOT`, the chain that computes `R_sq`) are parameters.
* A call of `abort_handler` is recorded in the result of the constructor that
  makes it (the code handed over, or `none`), next to the members set before
  the call.  The body of the refinement loop of the two drivers is a function
  parameter; the loop itself, its test and the 64-bit counter `mlmfIter` are
  embedded.  The enumerators of the pilot mode and `METHOD_ERROR` are
  parameters.
* The recovery of the optimizer results and the sample targets of the drivers
  are over the reals, with `std::exp` and `std::sqrt` passed in; the helper
  `level_cost` is modelled from its description.  The inner loops of the
  accumulators are also described through the orders still ahead of each
  iterator (`pending`).
* The `int` counter `active_ord` of the inner loops is a 32-bit integer:
  `++active_ord` is `int_incr`, which adds one below `INT_MAX` and wraps to
  `-2^31` at `INT_MAX` (the overflow is undefined in C++; the wrap is what
  two's-complement targets do).  Well-formed sum maps (`MapWF`) hold orders
  from `1` to below `INT_MAX`, which the counter reaches without overflow.
* Overloads are told apart by the number of sum maps they update:
  `accumulate_mlcv_Ysums1`, `accumulate_mlcv_Qsums2`, `accumulate_mlcv_Qsums6`,
  `accumulate_mlcv_Ysums6`, `accumulate_mlcv_Qsums16`.
-/

namespace Dakota

/-- The assignment `m(i, j) = v` on a `RealMatrix`. -/
def setEntry {β : Type} (m : Nat → Nat → β) (i j : Nat) (v : β) : Nat → Nat → β :=
  fun i' j' => if i' = i ∧ j' = j then v else m i' j'

/-- The assignment `v[i] = x` on a `RealVector`. -/
def setAt {β : Type} (v : Nat → β) (i : Nat) (x : β) : Nat → β :=
  fun i' => if i' = i then x else v i'

section Estimators

variable {α : Type} [LinearOrderedField α]

/-- Source function `NonDNonHierarchSampling::mfmc_analytic_solution` (lines 225-253).
`cost[numApprox]` is the truth cost; `factor` is the per-QoI vector filled by
the first loop; the second loop writes column `approx` of `eval_ratios`, with
the `if (approx)` split of the source.  `num_am1 = numApprox - 1` is only read
when `numFunctions > 0`. -/
def mfmc_analytic_solution (sqrt : α → α) (numFunctions numApprox : Nat)
    (rho2_LH : Nat → Nat → α) (cost : Nat → α) (eval_ratios : Nat → Nat → α) :
    Nat → Nat → α :=
  let num_am1 := numApprox - 1
  let cost_H := cost numApprox
  let factor : Nat → α :=
    (List.range numFunctions).foldl
      (fun factor qoi => setAt factor qoi (cost_H / (1 - rho2_LH qoi num_am1)))
      (fun _ => 0)
  (List.range numApprox).foldl
    (fun eval_ratios approx =>
      let cost_L := cost approx
      if approx ≠ 0 then
        (List.range numFunctions).foldl
          (fun er qoi => setEntry er qoi approx
            (sqrt (factor qoi / cost_L * (rho2_LH qoi approx - rho2_LH qoi (approx - 1)))))
          eval_ratios
      else
        (List.range numFunctions).foldl
          (fun er qoi => setEntry er qoi approx
            (sqrt (factor qoi / cost_L * rho2_LH qoi approx)))
          eval_ratios)
    eval_ratios

/-- Modelled from the spec: the helper `average(rho2_LH, 0, avg_rho2_LH)` is
declared outside the sources at hand; per the spec it yields the QoI-averaged
correlation of each approximation (the mean of column `approx` over the
`numFunctions` rows). -/
def average (numFunctions : Nat) (rho2_LH : Nat → Nat → α) : Nat → α :=
  fun approx =>
    ((List.range numFunctions).map (fun qoi => rho2_LH qoi approx)).sum / (numFunctions : α)

/-- The library call `std::max(a, b)`, which is `(a < b) ? b : a`. -/
def stdMax (a b : α) : α := if a < b then b else a

/-- The position-to-approximation map used by both loops of the reordered
solution: `approx = (ordered) ? i : model_sequence[i]`. -/
def seqApprox (ordered : Bool) (model_sequence : List Nat) (i : Nat) : Nat :=
  if ordered then i else model_sequence.getD i 0

/-- First loop of `mfmc_reordered_analytic_solution` (lines 284-294): fills
`r_unconstrained`, carrying `prev_rho2` from one position to the next. -/
def r_unconstrained_loop (sqrt : α → α) (numApprox : Nat) (avg_rho2_LH : Nat → α)
    (cost : Nat → α) (factor : α) (ordered : Bool) (model_sequence : List Nat) :
    (Nat → α) × α :=
  (List.range numApprox).foldl
    (fun (st : (Nat → α) × α) i =>
      let approx := seqApprox ordered model_sequence i
      let cost_L := cost approx
      let rho2 := avg_rho2_LH approx
      let rho2_diff := if i ≠ 0 then rho2 - st.2 else rho2
      (setAt st.1 i (sqrt (factor / cost_L * rho2_diff)), rho2))
    (fun _ => 0, 0)

/-- One pass of the body of the second loop of
`mfmc_reordered_analytic_solution` (lines 298-303) at position `i`; the state
is `(eval_ratios, prev_ri)`. -/
def sweep_step (numFunctions : Nat) (r_unconstrained : Nat → α)
    (ordered : Bool) (model_sequence : List Nat)
    (st : (Nat → Nat → α) × α) (i : Nat) : (Nat → Nat → α) × α :=
  let r_i := stdMax (r_unconstrained i) st.2
  let approx := seqApprox ordered model_sequence i
  ((List.range numFunctions).foldl (fun er qoi => setEntry er qoi approx r_i) st.1, r_i)

/-- Second loop of `mfmc_reordered_analytic_solution` (lines 295-304): walks the
positions `numApprox-1, ..., 0`, carrying `prev_ri` (initially `1.`), and
writes the clamped ratio to every QoI row of the approximation at that
position. -/
def reverse_sweep (numFunctions numApprox : Nat) (r_unconstrained : Nat → α)
    (ordered : Bool) (model_sequence : List Nat) (eval_ratios : Nat → Nat → α) :
    (Nat → Nat → α) × α :=
  (List.range numApprox).reverse.foldl
    (sweep_step numFunctions r_unconstrained ordered model_sequence) (eval_ratios, 1)

/-- Source function `NonDNonHierarchSampling::mfmc_reordered_analytic_solution` (lines 256-305).
`ordered` and `model_sequence` are the two results of the call
`ordered_model_sequence(avg_rho2_LH, model_sequence)`, a helper declared
outside the sources at hand; they are taken as given. -/
def mfmc_reordered_analytic_solution (sqrt : α → α) (numFunctions numApprox : Nat)
    (rho2_LH : Nat → Nat → α) (cost : Nat → α) (ordered : Bool)
    (model_sequence : List Nat) (eval_ratios : Nat → Nat → α) : Nat → Nat → α :=
  let num_am1 := numApprox - 1
  let cost_H := cost numApprox
  let avg_rho2_LH := average numFunctions rho2_LH
  let most_corr := if ordered then num_am1 else model_sequence.getD num_am1 0
  let factor := cost_H / (1 - avg_rho2_LH most_corr)
  let r_unconstrained :=
    (r_unconstrained_loop sqrt numApprox avg_rho2_LH cost factor ordered model_sequence).1
  (reverse_sweep numFunctions numApprox r_unconstrained ordered model_sequence eval_ratios).1

/-- The ratio reached at position `i` by a reverse sweep over the positions
`k-1, ..., i` that starts from `prev`:
`max(u i, max(u (i+1), ... max(u (k-1), prev)))`. -/
def clampFrom (u : Nat → α) (prev : α) (k i : Nat) : α :=
  (List.range' i (k - i)).foldr (fun j acc => stdMax (u j) acc) prev

end Estimators


/-! ### The optimization sub-problem of `NonDNonHierarchSampling.cpp` -/

/-- The three values of `optSubProblemForm` that the source switches on. -/
inductive SubProblemForm where
  | R_ONLY_LINEAR_CONSTRAINT
  | N_VECTOR_LINEAR_CONSTRAINT
  | R_AND_N_NONLINEAR_CONSTRAINT
  deriving DecidableEq, Repr

/-- The data handed to the optimizer by `nonhierarch_numerical_solution`: the
sizes, the initial point, the variable bounds, the bounds of the linear and of
the nonlinear inequalities, and the matrix of linear coefficients.  An entry of
a vector or matrix that the source sizes and never assigns reads `0` here. -/
structure SubProblem (α : Type) where
  num_cdv : Nat
  num_lin_con : Nat
  num_nln_con : Nat
  x0 : Nat → α
  x_lb : Nat → α
  x_ub : Nat → α
  lin_ineq_lb : Nat → α
  lin_ineq_ub : Nat → α
  nln_ineq_lb : Nat → α
  nln_ineq_ub : Nat → α
  lin_ineq_coeffs : Nat → Nat → α

section Optimizer

variable {α : Type} [LinearOrderedField α]

/-- Source function `NonDNonHierarchSampling::nonlinear_constraint` (lines 604-619):
the loop sums `sequenceCost[i] * r_and_N[i]` over the `numApprox` approximations,
the sum is divided by `sequenceCost[numApprox]`, and the value returned is
`r_and_N[numApprox] * (1. + inner_prod)`. -/
def nonlinear_constraint (numApprox : Nat) (sequenceCost : Nat → α) (r_and_N : Nat → α) : α :=
  let inner_prod : α :=
    (List.range numApprox).foldl
      (fun inner_prod i => inner_prod + sequenceCost i * r_and_N i) 0
  let inner_prod := inner_prod / sequenceCost numApprox
  let nln_con := r_and_N numApprox * (1 + inner_prod)
  nln_con

/-- Source function `NonDNonHierarchSampling::nonlinear_constraint_gradient` (lines 622-641).
`len` is `r_and_N.length()` and `r_len = len - 1` (a vector of length `0`, where
the unsigned `len - 1` of the source wraps, is outside the model).  The first
loop runs to `r_len`, the second to `numApprox`; the caller owns `grad_c`, and
the entries the function does not write keep their value. -/
def nonlinear_constraint_gradient (numApprox : Nat) (sequenceCost : Nat → α) (len : Nat)
    (r_and_N : Nat → α) (grad_c : Nat → α) : Nat → α :=
  let r_len := len - 1
  let cost_H := sequenceCost r_len
  let N_over_w := r_and_N r_len / cost_H
  let grad_c :=
    (List.range r_len).foldl
      (fun grad_c i => setAt grad_c i (N_over_w * sequenceCost i)) grad_c
  let inner_prod : α :=
    (List.range numApprox).foldl
      (fun inner_prod i => inner_prod + sequenceCost i * r_and_N i) 0
  setAt grad_c r_len (1 + inner_prod / cost_H)

/-- Modelled from the spec: the helper `average(est_var)` on a `RealVector` is
declared outside the sources at hand; per the spec it is the average over the
QoI, the arithmetic mean of the `numFunctions` entries. -/
def averageVector (numFunctions : Nat) (v : Nat → α) : α :=
  ((List.range numFunctions).map v).sum / (numFunctions : α)

/-- The vector passed to `compute_F_matrix` by `objective_function` (lines 538-549):
for `N_VECTOR_LINEAR_CONSTRAINT` the leading `numApprox` entries of `r_and_N`
scaled by `1./r_and_N[numApprox]`, for the other two forms `r_and_N` itself. -/
def objective_ratios (optSubProblemForm : SubProblemForm) (numApprox : Nat)
    (r_and_N : Nat → α) : Nat → α :=
  match optSubProblemForm with
  | .N_VECTOR_LINEAR_CONSTRAINT =>
      fun i => if i < numApprox then r_and_N i * (1 / r_and_N numApprox) else 0
  | .R_ONLY_LINEAR_CONSTRAINT => r_and_N
  | .R_AND_N_NONLINEAR_CONSTRAINT => r_and_N

/-- The vector `est_var` formed by `objective_function` (lines 563-577): with
`R_ONLY_LINEAR_CONSTRAINT` each QoI divides by its own count `numH[qoi]`, with
the other two forms by the design variable `N = r_and_N[numApprox]`. -/
def objective_est_var (optSubProblemForm : SubProblemForm) (numFunctions numApprox : Nat)
    (varH : Nat → α) (numH : Nat → Nat) (R_sq : Nat → α) (r_and_N : Nat → α) : Nat → α :=
  match optSubProblemForm with
  | .R_ONLY_LINEAR_CONSTRAINT =>
      (List.range numFunctions).foldl
        (fun est_var qoi => setAt est_var qoi (varH qoi / (numH qoi : α) * (1 - R_sq qoi)))
        (fun _ => 0)
  | .N_VECTOR_LINEAR_CONSTRAINT =>
      let N := r_and_N numApprox
      (List.range numFunctions).foldl
        (fun est_var qoi => setAt est_var qoi (varH qoi / N * (1 - R_sq qoi)))
        (fun _ => 0)
  | .R_AND_N_NONLINEAR_CONSTRAINT =>
      let N := r_and_N numApprox
      (List.range numFunctions).foldl
        (fun est_var qoi => setAt est_var qoi (varH qoi / N * (1 - R_sq qoi)))
        (fun _ => 0)

/-- The vector `R_sq` filled by the per-QoI loop of `objective_function`
(lines 552-561) from the vector `r` given to `compute_F_matrix`. -/
def objective_R_sq (numFunctions : Nat) (compute_Rsq : (Nat → α) → Nat → α)
    (r : Nat → α) : Nat → α :=
  (List.range numFunctions).foldl
    (fun R_sq qoi => setAt R_sq qoi (compute_Rsq r qoi)) (fun _ => 0)

/-- The divisor of `varH[qoi]` in `est_var[qoi]`: the count `numH[qoi]` in the
`R_ONLY_LINEAR_CONSTRAINT` form, the design variable `r_and_N[numApprox]` in the
other two. -/
def objective_N (optSubProblemForm : SubProblemForm) (numApprox : Nat) (numH : Nat → Nat)
    (r_and_N : Nat → α) (qoi : Nat) : α :=
  match optSubProblemForm with
  | .R_ONLY_LINEAR_CONSTRAINT => (numH qoi : α)
  | .N_VECTOR_LINEAR_CONSTRAINT => r_and_N numApprox
  | .R_AND_N_NONLINEAR_CONSTRAINT => r_and_N numApprox

/-- The local `avg_est_var` of `objective_function` (line 580): the average of
`est_var`, itself formed from the `R_sq` of lines 552-561.  The helpers
`compute_F_matrix`, `invert_CF`, `compute_A_vector` and `compute_Rsq` are
declared outside the sources at hand: their composition, from the vector given
to `compute_F_matrix` to the value stored in `R_sq[qoi]`, is the parameter
`compute_Rsq`. -/
def objective_avg_est_var (optSubProblemForm : SubProblemForm)
    (numFunctions numApprox : Nat) (varH : Nat → α) (numH : Nat → Nat)
    (compute_Rsq : (Nat → α) → Nat → α) (r_and_N : Nat → α) : α :=
  let r := objective_ratios optSubProblemForm numApprox r_and_N
  let R_sq := objective_R_sq numFunctions compute_Rsq r
  let est_var := objective_est_var optSubProblemForm numFunctions numApprox varH numH R_sq r_and_N
  averageVector numFunctions est_var

/-- Source function `NonDNonHierarchSampling::objective_function` (lines 535-588),
with `avg_est_var` as computed by `objective_avg_est_var`.  The library
logarithm `std::log` is the parameter `log`.  The result `none` stands for the
quiet NaN of the guarded branch. -/
def objective_function (log : α → α) (optSubProblemForm : SubProblemForm)
    (numFunctions numApprox : Nat) (varH : Nat → α) (numH : Nat → Nat)
    (compute_Rsq : (Nat → α) → Nat → α) (r_and_N : Nat → α) : Option α :=
  let avg_est_var :=
    objective_avg_est_var optSubProblemForm numFunctions numApprox varH numH compute_Rsq r_and_N
  let obj_fn := if avg_est_var > 0 then some (log avg_est_var) else none
  obj_fn

/-- Lines 333-405 of `NonDNonHierarchSampling::nonhierarch_numerical_solution`:
the formulation of the optimization sub-problem.  The constants `DBL_MAX`,
`RATIO_NUDGE` and `OFFLINE_PILOT` are defined outside the sources at hand and
are parameters, as is `avg_N_H`, the value of `average(numH)`;
`budget = (Real)maxFunctionEvals`.  `avg_eval_ratios` has `numApprox` entries,
which `copy_data_partial` copies to the front of `x0`. -/
def formulate_subproblem (DBL_MAX RATIO_NUDGE : α) (OFFLINE_PILOT : Int)
    (optSubProblemForm : SubProblemForm) (solutionMode : Int)
    (mlmfIter maxFunctionEvals numApprox : Nat) (pilotSamples : Nat → Nat)
    (avg_N_H : α) (cost : Nat → α) (avg_eval_ratios : Nat → α) (avg_hf_target : α) :
    SubProblem α :=
  let cost_H := cost numApprox
  let budget : α := (maxFunctionEvals : α)
  let unset : Nat → α := fun _ => 0
  let x_ub : Nat → α := fun _ => DBL_MAX
  match optSubProblemForm with
  | .R_ONLY_LINEAR_CONSTRAINT =>
      { num_cdv := numApprox
        num_lin_con := 1
        num_nln_con := 0
        x0 := avg_eval_ratios
        x_lb := fun _ => 1
        x_ub := x_ub
        lin_ineq_lb := setAt unset 0 (-DBL_MAX)
        lin_ineq_ub := setAt unset 0 (if avg_N_H > 1 then budget / avg_N_H - 1 else budget - 1)
        nln_ineq_lb := unset
        nln_ineq_ub := unset
        lin_ineq_coeffs :=
          (List.range numApprox).foldl
            (fun lin_ineq_coeffs approx =>
              setEntry lin_ineq_coeffs 0 approx (cost approx / cost_H))
            (fun _ _ => 0) }
  | .N_VECTOR_LINEAR_CONSTRAINT =>
      let x0 : Nat → α := fun i => if i < numApprox then avg_eval_ratios i else 0
      let x0 := setAt x0 numApprox 1
      let x0 : Nat → α :=
        if mlmfIter ≠ 0 then fun i => x0 i * avg_N_H else fun i => x0 i * avg_hf_target
      let lin_ineq_coeffs : Nat → Nat → α :=
        (List.range numApprox).foldl
          (fun lin_ineq_coeffs approx =>
            setEntry lin_ineq_coeffs 0 approx (cost approx / cost_H))
          (fun _ _ => 0)
      let lin_ineq_coeffs := setEntry lin_ineq_coeffs 0 numApprox 1
      let lin_ineq_coeffs :=
        (List.range' 1 numApprox).foldl
          (fun lin_ineq_coeffs approx =>
            setEntry (setEntry lin_ineq_coeffs approx (approx - 1) (-1))
              approx numApprox (1 + RATIO_NUDGE))
          lin_ineq_coeffs
      { num_cdv := numApprox + 1
        num_lin_con := numApprox + 1
        num_nln_con := 0
        x0 := x0
        x_lb := fun _ =>
          if solutionMode = OFFLINE_PILOT then 1 else ((pilotSamples numApprox : Nat) : α)
        x_ub := x_ub
        lin_ineq_lb := fun _ => -DBL_MAX
        lin_ineq_ub := setAt unset 0 budget
        nln_ineq_lb := unset
        nln_ineq_ub := unset
        lin_ineq_coeffs := lin_ineq_coeffs }
  | .R_AND_N_NONLINEAR_CONSTRAINT =>
      let x0 : Nat → α := fun i => if i < numApprox then avg_eval_ratios i else 0
      let x0 := setAt x0 numApprox (if mlmfIter ≠ 0 then avg_N_H else avg_hf_target)
      let x_lb : Nat → α := fun _ => 1
      let x_lb := if solutionMode ≠ OFFLINE_PILOT then setAt x_lb numApprox avg_N_H else x_lb
      { num_cdv := numApprox + 1
        num_lin_con := 0
        num_nln_con := 1
        x0 := x0
        x_lb := x_lb
        x_ub := x_ub
        lin_ineq_lb := unset
        lin_ineq_ub := unset
        nln_ineq_lb := setAt unset 0 (-DBL_MAX)
        nln_ineq_ub := setAt unset 0 budget
        lin_ineq_coeffs := fun _ _ => 0 }

/-- The value `(A x)_i` that the optimizer compares with the bounds of linear
inequality `i`: row `i` of `lin_ineq_coeffs` applied to the design vector. -/
def SubProblem.linearValue (sp : SubProblem α) (x : Nat → α) (i : Nat) : α :=
  ((List.range sp.num_cdv).map (fun j => sp.lin_ineq_coeffs i j * x j)).sum

end Optimizer
/-- The type `Real` (a C++ `double`) as seen by the accumulators: a finite value, carried
exactly as a rational (rounding and overflow are not modelled), or one of the
three non-finite values. -/
inductive Dbl where
  | fin (x : ℚ)
  | nan
  | pinf
  | ninf
deriving DecidableEq

namespace Dbl

/-- The test `std::isfinite`: neither NaN nor an infinity. -/
def isfinite : Dbl → Bool
  | fin _ => true
  | _ => false

/-- Unary minus. -/
def neg : Dbl → Dbl
  | fin x => fin (-x)
  | nan => nan
  | pinf => ninf
  | ninf => pinf

/-- Addition of doubles (IEEE rules for the non-finite values). -/
def add : Dbl → Dbl → Dbl
  | fin x, fin y => fin (x + y)
  | fin _, pinf => pinf
  | fin _, ninf => ninf
  | pinf, fin _ => pinf
  | ninf, fin _ => ninf
  | pinf, pinf => pinf
  | ninf, ninf => ninf
  | pinf, ninf => nan
  | ninf, pinf => nan
  | nan, _ => nan
  | _, nan => nan

/-- The infinity with the sign of a non-zero rational; NaN for zero. -/
def signedInf (x : ℚ) : Dbl :=
  if x = 0 then nan else if 0 < x then pinf else ninf

/-- Multiplication of doubles (IEEE rules for the non-finite values). -/
def mul : Dbl → Dbl → Dbl
  | fin x, fin y => fin (x * y)
  | fin x, pinf => signedInf x
  | fin x, ninf => signedInf (-x)
  | pinf, fin y => signedInf y
  | ninf, fin y => signedInf (-y)
  | pinf, pinf => pinf
  | ninf, ninf => pinf
  | pinf, ninf => ninf
  | ninf, pinf => ninf
  | nan, _ => nan
  | _, nan => nan

instance : Add Dbl := ⟨add⟩
instance : Mul Dbl := ⟨mul⟩
instance : Sub Dbl := ⟨fun a b => add a (neg b)⟩
instance : OfNat Dbl 0 := ⟨fin 0⟩

end Dbl

/-- The type `RealVector`: a vector of doubles. -/
abbrev RealVector := List Dbl

/-- The read `v[i]`.  An out-of-range read is undefined in the source; the
model poisons it with NaN. -/
def RealVector.elem (v : RealVector) (i : Nat) : Dbl := v.getD i Dbl.nan

/-- The type `RealMatrix`: shape and entries `m(i, j)`. -/
structure RealMatrix where
  numRows : Nat
  numCols : Nat
  entry : Nat → Nat → Dbl

/-- The update `m(i, j) += x`. -/
def RealMatrix.addAt (m : RealMatrix) (i j : Nat) (x : Dbl) : RealMatrix :=
  { m with entry := fun i' j' => if i' = i ∧ j' = j then m.entry i' j' + x else m.entry i' j' }

/-- The type `IntRealMatrixMap` (`std::map<int, RealMatrix>`): the entries in key order. -/
abbrev IntRealMatrixMap := List (Int × RealMatrix)

/-- The type `SizetArray`: per-QoI sample counts. -/
abbrev SizetArray := Nat → Nat

/-- The increment `++num[qoi]`. -/
def SizetArray.incr (num : SizetArray) (qoi : Nat) : SizetArray :=
  fun i => if i = qoi then num i + 1 else num i

/-- The largest value of the type `int` (32 bits), `2^31 - 1`. -/
def INT_MAX : Int := 2147483647

/-- The increment `++active_ord` of an `int`: `a + 1` while `a < INT_MAX`.  At
`INT_MAX` the increment overflows, which is undefined in C++; the model takes
the two's-complement result, the wrap to `-2^31`. -/
def int_incr (a : Int) : Int := (a + 1 + 2147483648) % 4294967296 - 2147483648

/-- An iterator (`IntRMMIter`) into an `IntRealMatrixMap`: the entries already
passed, with the updates made through the iterator, and the entries from the
current position on.  The iterator is at `end()` when `rest` is empty. -/
structure MapIter where
  done : IntRealMatrixMap
  rest : IntRealMatrixMap

namespace MapIter

/-- The iterator `m.begin()`. -/
def start (m : IntRealMatrixMap) : MapIter := ⟨[], m⟩

/-- The test `it == m.end()`. -/
def atEnd (it : MapIter) : Bool := it.rest.isEmpty

/-- The cached order `(it == m.end()) ? 0 : it->first`. -/
def ord (it : MapIter) : Int :=
  match it.rest with
  | [] => 0
  | e :: _ => e.1

/-- The block `if (ord == active_ord) { it->second(qoi,lev) += inc; ++it; ord = ...; }`.
At `end()` the cached `ord` is `0`, which no active order counted up from `1`
equals before `++active_ord` has overflowed; the iterator is then left alone.
(An iterator at `end()` met by `active_ord == 0`, which takes an overflow,
would be dereferenced by the source; no statement is made about such a pass.) -/
def visit (it : MapIter) (active_ord : Int) (qoi lev : Nat) (inc : Dbl) : MapIter :=
  match it.rest with
  | [] => it
  | e :: r =>
    if e.1 = active_ord then ⟨it.done ++ [(e.1, e.2.addAt qoi lev inc)], r⟩ else it

/-- The map as it stands, read back through the iterator. -/
def toMap (it : MapIter) : IntRealMatrixMap := it.done ++ it.rest

end MapIter

/-- A `while (cond) body` loop run for at most `fuel` passes; `none` when the
passes run out before the condition turns false. -/
def whileLoop {σ : Type} (cond : σ → Bool) (body : σ → σ) : Nat → σ → Option σ
  | 0, s => if cond s then none else some s
  | fuel + 1, s => if cond s then whileLoop cond body fuel (body s) else some s

/-- The shifted read `(os) ? fn_vals[i] - offset[i] : fn_vals[i]` with
`os = !offset.empty()`. -/
def shifted (fn_vals offset : RealVector) (i : Nat) : Dbl :=
  if !offset.isEmpty then fn_vals.elem i - offset.elem i else fn_vals.elem i

/-- The map in which the matrix stored under every key `k` has had
`f k` added to its entry `(qoi, lev)`. -/
def grow (f : Int → Dbl) (qoi lev : Nat) (m : IntRealMatrixMap) : IntRealMatrixMap :=
  m.map (fun e => (e.1, e.2.addAt qoi lev (f e.1)))

/-- An iterator whose remaining keys are strictly ascending and lie between
the active order `a` and `K`. -/
def MapIter.Ready (a K : Int) (it : MapIter) : Prop :=
  it.rest.Pairwise (fun e e' => e.1 < e'.1) ∧ ∀ e ∈ it.rest, a ≤ e.1 ∧ e.1 ≤ K

/-- Well-formed order map: keys strictly ascending (as in any `std::map`), all
between `1` and `K` and, being `int`s that the counter `active_ord` has to
reach without overflow, below `INT_MAX`. -/
def MapWF (K : Nat) (m : IntRealMatrixMap) : Prop :=
  (MapIter.start m).Ready 1 (min (K : Int) (INT_MAX - 1))

/-- What the map read back through the iterator becomes once every remaining
key `k` has received `f k` at `(qoi, lev)`. -/
def MapIter.target (f : Int → Dbl) (qoi lev : Nat) (it : MapIter) : IntRealMatrixMap :=
  it.done ++ grow f qoi lev it.rest

/-- The six sum maps and the two count arrays updated by the paired
accumulators `accumulate_mlcv_Qsums` / `accumulate_mlcv_Ysums`. -/
structure PairedSums where
  sum_L_shared : IntRealMatrixMap
  sum_L_refined : IntRealMatrixMap
  sum_H : IntRealMatrixMap
  sum_LL : IntRealMatrixMap
  sum_LH : IntRealMatrixMap
  sum_HH : IntRealMatrixMap
  num_L : SizetArray
  num_H : SizetArray

/-- The sixteen sum maps and the two count arrays updated by the sixteen-map
`accumulate_mlcv_Qsums`. -/
structure LevelSums where
  sum_Ll : IntRealMatrixMap
  sum_Llm1 : IntRealMatrixMap
  sum_Ll_refined : IntRealMatrixMap
  sum_Llm1_refined : IntRealMatrixMap
  sum_Hl : IntRealMatrixMap
  sum_Hlm1 : IntRealMatrixMap
  sum_Ll_Ll : IntRealMatrixMap
  sum_Ll_Llm1 : IntRealMatrixMap
  sum_Llm1_Llm1 : IntRealMatrixMap
  sum_Hl_Ll : IntRealMatrixMap
  sum_Hl_Llm1 : IntRealMatrixMap
  sum_Hlm1_Ll : IntRealMatrixMap
  sum_Hlm1_Llm1 : IntRealMatrixMap
  sum_Hl_Hl : IntRealMatrixMap
  sum_Hl_Hlm1 : IntRealMatrixMap
  sum_Hlm1_Hlm1 : IntRealMatrixMap
  num_L : SizetArray
  num_H : SizetArray

/-- The two sum maps and the count array updated by the two-map
`accumulate_mlcv_Qsums`. -/
structure RefinedSums where
  sum_Ql : IntRealMatrixMap
  sum_Qlm1 : IntRealMatrixMap
  num_Q : SizetArray

/-- The sum map and the count array updated by the one-map
`accumulate_mlcv_Ysums`. -/
structure YSums where
  sum_Y : IntRealMatrixMap
  num_Y : SizetArray

/-- The sum map and the count array updated by `accumulate_ml_Qsums`. -/
structure QSums where
  sum_Q : IntRealMatrixMap
  num_Q : SizetArray

/-- Modelled from the spec: local state of the inner loop of
`accumulate_ml_Qsums` (defined outside the sources at hand), on the pattern of
its sibling accumulators: the iterator, the running product, the active order. -/
structure MlQLoop where
  q_it : MapIter
  q_l_prod : Dbl
  active_ord : Int

/-- Modelled from the spec: loop condition of `MlQLoop`. -/
def MlQLoop.cond (s : MlQLoop) : Bool :=
  !s.q_it.atEnd

/-- Modelled from the spec: loop body of `MlQLoop`, adding the running power of
the value under the active order. -/
def MlQLoop.body (qoi lev : Nat) (q_l : Dbl) (s : MlQLoop) : MlQLoop :=
  let q_it := s.q_it.visit s.active_ord qoi lev s.q_l_prod
  { q_it := q_it,
    q_l_prod := s.q_l_prod * q_l,
    active_ord := int_incr s.active_ord }

/-- Modelled from the spec: iterator at `begin()`, product at the value,
`active_ord = 1`. -/
def MlQLoop.init (st : QSums) (q_l : Dbl) : MlQLoop :=
  { q_it := MapIter.start st.sum_Q, q_l_prod := q_l, active_ord := 1 }

/-- Modelled from the spec: the map after the loop, with `++num_Q[qoi];`. -/
def MlQLoop.finish (st : QSums) (qoi : Nat) (s : MlQLoop) : QSums :=
  { st with
    sum_Q := s.q_it.toMap, num_Q := st.num_Q.incr qoi }

/-- Local state of the inner `while` loop of the two-map `accumulate_mlcv_Qsums`
for `lev > 0` (lines 786-805): two iterators, two running products, the
active order. -/
structure QLoop2 where
  l1_it : MapIter
  l2_it : MapIter
  q_l_prod : Dbl
  q_lm1_prod : Dbl
  active_ord : Int

/-- Loop condition of `QLoop2`, line 792. -/
def QLoop2.cond (s : QLoop2) : Bool :=
  !s.l1_it.atEnd || !s.l2_it.atEnd

/-- Loop body of `QLoop2`, lines 794-804; the closing `++active_ord` on the `int`
counter is `int_incr`. -/
def QLoop2.body (qoi lev : Nat) (q_l q_lm1 : Dbl) (s : QLoop2) : QLoop2 :=
  let l1_it := s.l1_it.visit s.active_ord qoi lev s.q_l_prod
  let l2_it := s.l2_it.visit s.active_ord qoi lev s.q_lm1_prod
  { l1_it := l1_it, l2_it := l2_it,
    q_l_prod := s.q_l_prod * q_l,
    q_lm1_prod := s.q_lm1_prod * q_lm1,
    active_ord := int_incr s.active_ord }

/-- Iterators at `begin()`, products at the values, `active_ord = 1` (lines 779-791). -/
def QLoop2.init (st : RefinedSums) (q_l q_lm1 : Dbl) : QLoop2 :=
  { l1_it := MapIter.start st.sum_Ql, l2_it := MapIter.start st.sum_Qlm1, q_l_prod := q_l,
    q_lm1_prod := q_lm1, active_ord := 1 }

/-- The maps after the loop, with `++num_Q[qoi];` (line 806). -/
def QLoop2.finish (st : RefinedSums) (qoi : Nat) (s : QLoop2) : RefinedSums :=
  { st with
    sum_Ql := s.l1_it.toMap, sum_Qlm1 := s.l2_it.toMap, num_Q := st.num_Q.incr qoi }

/-- Local state of the inner `while` loop of the one-map `accumulate_mlcv_Ysums`
for `lev > 0` (lines 844-854): the iterator, two running products, the active
order.  (`ord = y_it->first` is read at `begin()` without an `end()` test; on
an empty map the model reads `0`.) -/
structure YLoop1 where
  y_it : MapIter
  prod_l : Dbl
  prod_lm1 : Dbl
  active_ord : Int

/-- Loop condition of `YLoop1`, line 845. -/
def YLoop1.cond (s : YLoop1) : Bool :=
  !s.y_it.atEnd

/-- Loop body of `YLoop1`, lines 847-853; the closing `++active_ord` on the `int`
counter is `int_incr`. -/
def YLoop1.body (qoi lev : Nat) (fn_l fn_lm1 : Dbl) (s : YLoop1) : YLoop1 :=
  let y_it := s.y_it.visit s.active_ord qoi lev (s.prod_l - s.prod_lm1)
  { y_it := y_it,
    prod_l := s.prod_l * fn_l,
    prod_lm1 := s.prod_lm1 * fn_lm1,
    active_ord := int_incr s.active_ord }

/-- Iterator at `begin()`, products at the values, `active_ord = 1` (lines 838-844). -/
def YLoop1.init (st : YSums) (fn_l fn_lm1 : Dbl) : YLoop1 :=
  { y_it := MapIter.start st.sum_Y, prod_l := fn_l, prod_lm1 := fn_lm1, active_ord := 1 }

/-- The map after the loop, with `++num_Y[qoi];` (line 855). -/
def YLoop1.finish (st : YSums) (qoi : Nat) (s : YLoop1) : YSums :=
  { st with
    sum_Y := s.y_it.toMap, num_Y := st.num_Y.incr qoi }

/-- Local state of the inner `while` loop of the six-map `accumulate_mlcv_Qsums`
(lines 897-946): six iterators, two running products, the active order. -/
structure QLoop6 where
  ls_it : MapIter
  lr_it : MapIter
  h_it : MapIter
  ll_it : MapIter
  lh_it : MapIter
  hh_it : MapIter
  lf_l_prod : Dbl
  hf_l_prod : Dbl
  active_ord : Int

/-- Loop condition of `QLoop6`, lines 908-910. -/
def QLoop6.cond (s : QLoop6) : Bool :=
  !s.ls_it.atEnd || !s.lr_it.atEnd || !s.h_it.atEnd || !s.ll_it.atEnd
    || !s.lh_it.atEnd || !s.hh_it.atEnd

/-- Loop body of `QLoop6`, lines 912-945; the closing `++active_ord` on the `int`
counter is `int_incr`. -/
def QLoop6.body (qoi lev : Nat) (lf_l hf_l : Dbl) (s : QLoop6) : QLoop6 :=
  let ls_it := s.ls_it.visit s.active_ord qoi lev s.lf_l_prod
  let lr_it := s.lr_it.visit s.active_ord qoi lev s.lf_l_prod
  let h_it := s.h_it.visit s.active_ord qoi lev s.hf_l_prod
  let ll_it := s.ll_it.visit s.active_ord qoi lev (s.lf_l_prod * s.lf_l_prod)
  let lh_it := s.lh_it.visit s.active_ord qoi lev (s.lf_l_prod * s.hf_l_prod)
  let hh_it := s.hh_it.visit s.active_ord qoi lev (s.hf_l_prod * s.hf_l_prod)
  { ls_it := ls_it, lr_it := lr_it, h_it := h_it, ll_it := ll_it, lh_it := lh_it, hh_it := hh_it,
    lf_l_prod :=
      if ls_it.ord ≠ 0 ∨ lr_it.ord ≠ 0 ∨ ll_it.ord ≠ 0 ∨ lh_it.ord ≠ 0
      then s.lf_l_prod * lf_l else s.lf_l_prod,
    hf_l_prod :=
      if h_it.ord ≠ 0 ∨ lh_it.ord ≠ 0 ∨ hh_it.ord ≠ 0
      then s.hf_l_prod * hf_l else s.hf_l_prod,
    active_ord := int_incr s.active_ord }

/-- Iterators at `begin()`, products at the values, `active_ord = 1` (lines 890-906). -/
def QLoop6.init (st : PairedSums) (lf_l hf_l : Dbl) : QLoop6 :=
  { ls_it := MapIter.start st.sum_L_shared, lr_it := MapIter.start st.sum_L_refined,
    h_it := MapIter.start st.sum_H, ll_it := MapIter.start st.sum_LL,
    lh_it := MapIter.start st.sum_LH, hh_it := MapIter.start st.sum_HH, lf_l_prod := lf_l,
    hf_l_prod := hf_l, active_ord := 1 }

/-- The maps after the loop, with `++num_L[qoi]; ++num_H[qoi];` (line 947). -/
def QLoop6.finish (st : PairedSums) (qoi : Nat) (s : QLoop6) : PairedSums :=
  { st with
    sum_L_shared := s.ls_it.toMap, sum_L_refined := s.lr_it.toMap, sum_H := s.h_it.toMap,
    sum_LL := s.ll_it.toMap, sum_LH := s.lh_it.toMap, sum_HH := s.hh_it.toMap,
    num_L := st.num_L.incr qoi, num_H := st.num_H.incr qoi }

/-- Local state of the inner `while` loop of the six-map `accumulate_mlcv_Ysums`
for `lev > 0` (lines 1006-1060): six iterators, four running products, the
active order. -/
structure YLoop6 where
  ls_it : MapIter
  lr_it : MapIter
  h_it : MapIter
  ll_it : MapIter
  lh_it : MapIter
  hh_it : MapIter
  lf_l_prod : Dbl
  lf_lm1_prod : Dbl
  hf_l_prod : Dbl
  hf_lm1_prod : Dbl
  active_ord : Int

/-- Loop condition of `YLoop6`, lines 1017-1019. -/
def YLoop6.cond (s : YLoop6) : Bool :=
  !s.ls_it.atEnd || !s.lr_it.atEnd || !s.h_it.atEnd || !s.ll_it.atEnd
    || !s.lh_it.atEnd || !s.hh_it.atEnd

/-- Loop body of `YLoop6`, lines 1021-1059; the closing `++active_ord` on the `int`
counter is `int_incr`. -/
def YLoop6.body (qoi lev : Nat) (lf_l lf_lm1 hf_l hf_lm1 : Dbl) (s : YLoop6) : YLoop6 :=
  let ls_it := s.ls_it.visit s.active_ord qoi lev (s.lf_l_prod - s.lf_lm1_prod)
  let lr_it := s.lr_it.visit s.active_ord qoi lev (s.lf_l_prod - s.lf_lm1_prod)
  let h_it := s.h_it.visit s.active_ord qoi lev (s.hf_l_prod - s.hf_lm1_prod)
  let ll_it := s.ll_it.visit s.active_ord qoi lev ((s.lf_l_prod - s.lf_lm1_prod) * (s.lf_l_prod - s.lf_lm1_prod))
  let lh_it := s.lh_it.visit s.active_ord qoi lev ((s.lf_l_prod - s.lf_lm1_prod) * (s.hf_l_prod - s.hf_lm1_prod))
  let hh_it := s.hh_it.visit s.active_ord qoi lev ((s.hf_l_prod - s.hf_lm1_prod) * (s.hf_l_prod - s.hf_lm1_prod))
  { ls_it := ls_it, lr_it := lr_it, h_it := h_it, ll_it := ll_it, lh_it := lh_it, hh_it := hh_it,
    lf_l_prod :=
      if ls_it.ord ≠ 0 ∨ lr_it.ord ≠ 0 ∨ ll_it.ord ≠ 0 ∨ lh_it.ord ≠ 0
      then s.lf_l_prod * lf_l else s.lf_l_prod,
    lf_lm1_prod :=
      if ls_it.ord ≠ 0 ∨ lr_it.ord ≠ 0 ∨ ll_it.ord ≠ 0 ∨ lh_it.ord ≠ 0
      then s.lf_lm1_prod * lf_lm1 else s.lf_lm1_prod,
    hf_l_prod :=
      if h_it.ord ≠ 0 ∨ lh_it.ord ≠ 0 ∨ hh_it.ord ≠ 0
      then s.hf_l_prod * hf_l else s.hf_l_prod,
    hf_lm1_prod :=
      if h_it.ord ≠ 0 ∨ lh_it.ord ≠ 0 ∨ hh_it.ord ≠ 0
      then s.hf_lm1_prod * hf_lm1 else s.hf_lm1_prod,
    active_ord := int_incr s.active_ord }

/-- Iterators at `begin()`, products at the values, `active_ord = 1` (lines 992-1015). -/
def YLoop6.init (st : PairedSums) (lf_l lf_lm1 hf_l hf_lm1 : Dbl) : YLoop6 :=
  { ls_it := MapIter.start st.sum_L_shared, lr_it := MapIter.start st.sum_L_refined,
    h_it := MapIter.start st.sum_H, ll_it := MapIter.start st.sum_LL,
    lh_it := MapIter.start st.sum_LH, hh_it := MapIter.start st.sum_HH, lf_l_prod := lf_l,
    lf_lm1_prod := lf_lm1, hf_l_prod := hf_l, hf_lm1_prod := hf_lm1, active_ord := 1 }

/-- The maps after the loop, with `++num_L[qoi]; ++num_H[qoi];` (line 1061). -/
def YLoop6.finish (st : PairedSums) (qoi : Nat) (s : YLoop6) : PairedSums :=
  { st with
    sum_L_shared := s.ls_it.toMap, sum_L_refined := s.lr_it.toMap, sum_H := s.h_it.toMap,
    sum_LL := s.ll_it.toMap, sum_LH := s.lh_it.toMap, sum_HH := s.hh_it.toMap,
    num_L := st.num_L.incr qoi, num_H := st.num_H.incr qoi }

/-- Local state of the inner `while` loop of the sixteen-map
`accumulate_mlcv_Qsums` for `lev > 0` (lines 1134-1257): sixteen iterators,
four running products, the active order. -/
structure QLoop16 where
  l1_it : MapIter
  l2_it : MapIter
  lr1_it : MapIter
  lr2_it : MapIter
  h1_it : MapIter
  h2_it : MapIter
  ll1_it : MapIter
  ll2_it : MapIter
  ll3_it : MapIter
  lh1_it : MapIter
  lh2_it : MapIter
  lh3_it : MapIter
  lh4_it : MapIter
  hh1_it : MapIter
  hh2_it : MapIter
  hh3_it : MapIter
  lf_l_prod : Dbl
  lf_lm1_prod : Dbl
  hf_l_prod : Dbl
  hf_lm1_prod : Dbl
  active_ord : Int

/-- Loop condition of `QLoop16`, lines 1168-1176. -/
def QLoop16.cond (s : QLoop16) : Bool :=
  !s.l1_it.atEnd || !s.l2_it.atEnd || !s.lr1_it.atEnd || !s.lr2_it.atEnd
    || !s.h1_it.atEnd || !s.h2_it.atEnd || !s.ll1_it.atEnd || !s.ll2_it.atEnd
    || !s.ll3_it.atEnd || !s.lh1_it.atEnd || !s.lh2_it.atEnd || !s.lh3_it.atEnd
    || !s.lh4_it.atEnd || !s.hh1_it.atEnd || !s.hh2_it.atEnd || !s.hh3_it.atEnd

/-- Loop body of `QLoop16`, lines 1178-1256; the closing `++active_ord` on the `int`
counter is `int_incr`. -/
def QLoop16.body (qoi lev : Nat) (lf_l lf_lm1 hf_l hf_lm1 : Dbl) (s : QLoop16) : QLoop16 :=
  let l1_it := s.l1_it.visit s.active_ord qoi lev s.lf_l_prod
  let l2_it := s.l2_it.visit s.active_ord qoi lev s.lf_lm1_prod
  let lr1_it := s.lr1_it.visit s.active_ord qoi lev s.lf_l_prod
  let lr2_it := s.lr2_it.visit s.active_ord qoi lev s.lf_lm1_prod
  let h1_it := s.h1_it.visit s.active_ord qoi lev s.hf_l_prod
  let h2_it := s.h2_it.visit s.active_ord qoi lev s.hf_lm1_prod
  let ll1_it := s.ll1_it.visit s.active_ord qoi lev (s.lf_l_prod * s.lf_l_prod)
  let ll2_it := s.ll2_it.visit s.active_ord qoi lev (s.lf_l_prod * s.lf_lm1_prod)
  let ll3_it := s.ll3_it.visit s.active_ord qoi lev (s.lf_lm1_prod * s.lf_lm1_prod)
  let lh1_it := s.lh1_it.visit s.active_ord qoi lev (s.hf_l_prod * s.lf_l_prod)
  let lh2_it := s.lh2_it.visit s.active_ord qoi lev (s.hf_l_prod * s.lf_lm1_prod)
  let lh3_it := s.lh3_it.visit s.active_ord qoi lev (s.hf_lm1_prod * s.lf_l_prod)
  let lh4_it := s.lh4_it.visit s.active_ord qoi lev (s.hf_lm1_prod * s.lf_lm1_prod)
  let hh1_it := s.hh1_it.visit s.active_ord qoi lev (s.hf_l_prod * s.hf_l_prod)
  let hh2_it := s.hh2_it.visit s.active_ord qoi lev (s.hf_l_prod * s.hf_lm1_prod)
  let hh3_it := s.hh3_it.visit s.active_ord qoi lev (s.hf_lm1_prod * s.hf_lm1_prod)
  { l1_it := l1_it, l2_it := l2_it, lr1_it := lr1_it, lr2_it := lr2_it, h1_it := h1_it,
    h2_it := h2_it, ll1_it := ll1_it, ll2_it := ll2_it, ll3_it := ll3_it, lh1_it := lh1_it,
    lh2_it := lh2_it, lh3_it := lh3_it, lh4_it := lh4_it, hh1_it := hh1_it, hh2_it := hh2_it,
    hh3_it := hh3_it,
    lf_l_prod :=
      if l1_it.ord ≠ 0 ∨ lr1_it.ord ≠ 0 ∨ ll1_it.ord ≠ 0 ∨ ll2_it.ord ≠ 0 ∨ lh1_it.ord ≠ 0 ∨ lh3_it.ord ≠ 0
      then s.lf_l_prod * lf_l else s.lf_l_prod,
    lf_lm1_prod :=
      if l2_it.ord ≠ 0 ∨ lr2_it.ord ≠ 0 ∨ ll2_it.ord ≠ 0 ∨ ll3_it.ord ≠ 0 ∨ lh2_it.ord ≠ 0 ∨ lh4_it.ord ≠ 0
      then s.lf_lm1_prod * lf_lm1 else s.lf_lm1_prod,
    hf_l_prod :=
      if h1_it.ord ≠ 0 ∨ lh1_it.ord ≠ 0 ∨ lh2_it.ord ≠ 0 ∨ hh1_it.ord ≠ 0 ∨ hh2_it.ord ≠ 0
      then s.hf_l_prod * hf_l else s.hf_l_prod,
    hf_lm1_prod :=
      if h2_it.ord ≠ 0 ∨ lh3_it.ord ≠ 0 ∨ lh4_it.ord ≠ 0 ∨ hh2_it.ord ≠ 0 ∨ hh3_it.ord ≠ 0
      then s.hf_lm1_prod * hf_lm1 else s.hf_lm1_prod,
    active_ord := int_incr s.active_ord }

/-- Iterators at `begin()`, products at the values, `active_ord = 1`
(lines 1120-1166). -/
def QLoop16.init (st : LevelSums) (lf_l lf_lm1 hf_l hf_lm1 : Dbl) : QLoop16 :=
  { l1_it := MapIter.start st.sum_Ll, l2_it := MapIter.start st.sum_Llm1,
    lr1_it := MapIter.start st.sum_Ll_refined, lr2_it := MapIter.start st.sum_Llm1_refined,
    h1_it := MapIter.start st.sum_Hl, h2_it := MapIter.start st.sum_Hlm1,
    ll1_it := MapIter.start st.sum_Ll_Ll, ll2_it := MapIter.start st.sum_Ll_Llm1,
    ll3_it := MapIter.start st.sum_Llm1_Llm1, lh1_it := MapIter.start st.sum_Hl_Ll,
    lh2_it := MapIter.start st.sum_Hl_Llm1, lh3_it := MapIter.start st.sum_Hlm1_Ll,
    lh4_it := MapIter.start st.sum_Hlm1_Llm1, hh1_it := MapIter.start st.sum_Hl_Hl,
    hh2_it := MapIter.start st.sum_Hl_Hlm1, hh3_it := MapIter.start st.sum_Hlm1_Hlm1,
    lf_l_prod := lf_l, lf_lm1_prod := lf_lm1, hf_l_prod := hf_l, hf_lm1_prod := hf_lm1,
    active_ord := 1 }

/-- The maps after the loop, with `++num_L[qoi]; ++num_H[qoi];` (line 1258). -/
def QLoop16.finish (st : LevelSums) (qoi : Nat) (s : QLoop16) : LevelSums :=
  { st with
    sum_Ll := s.l1_it.toMap, sum_Llm1 := s.l2_it.toMap, sum_Ll_refined := s.lr1_it.toMap,
    sum_Llm1_refined := s.lr2_it.toMap, sum_Hl := s.h1_it.toMap, sum_Hlm1 := s.h2_it.toMap,
    sum_Ll_Ll := s.ll1_it.toMap, sum_Ll_Llm1 := s.ll2_it.toMap, sum_Llm1_Llm1 := s.ll3_it.toMap,
    sum_Hl_Ll := s.lh1_it.toMap, sum_Hl_Llm1 := s.lh2_it.toMap, sum_Hlm1_Ll := s.lh3_it.toMap,
    sum_Hlm1_Llm1 := s.lh4_it.toMap, sum_Hl_Hl := s.hh1_it.toMap, sum_Hl_Hlm1 := s.hh2_it.toMap,
    sum_Hlm1_Hlm1 := s.hh3_it.toMap, num_L := st.num_L.incr qoi, num_H := st.num_H.incr qoi }

/-- Modelled from the spec: body of the QoI loop of `accumulate_ml_Qsums`, a
member defined outside the sources at hand.  Per the spec (4.1) the level-0
accumulator adds the powers of the raw (offset-shifted) QoI value under every
order present, for every sample whose value is finite, and counts the
included samples per QoI. -/
def accumulate_ml_Qsums_qoi (fuel lev : Nat) (offset : RealVector) (fn_vals : RealVector)
    (st : QSums) (qoi : Nat) : Option QSums :=
  let q_l := shifted fn_vals offset qoi
  if q_l.isfinite then
    (whileLoop MlQLoop.cond (MlQLoop.body qoi lev q_l) fuel (MlQLoop.init st q_l)).map
      (MlQLoop.finish st qoi)
  else some st

/-- Modelled from the spec: `accumulate_ml_Qsums(sum_Q, lev, offset, num_Q)`,
called by the level-0 branches of the one- and two-map accumulators and defined
outside the sources at hand; it walks `allResponses` and every QoI with
`accumulate_ml_Qsums_qoi`. -/
def accumulate_ml_Qsums (fuel numFunctions : Nat) (allResponses : List RealVector)
    (st : QSums) (lev : Nat) (offset : RealVector) : Option QSums :=
  allResponses.foldlM
    (fun st fn_vals =>
      (List.range numFunctions).foldlM (accumulate_ml_Qsums_qoi fuel lev offset fn_vals) st)
    st

/-- Body of the `for (qoi ...)` loop of the two-map `accumulate_mlcv_Qsums`
(lines 776-808) for one response vector, `lev > 0`. -/
def accumulate_mlcv_Qsums2_qoi (fuel numFunctions lev : Nat) (offset : RealVector)
    (fn_vals : RealVector) (st : RefinedSums) (qoi : Nat) : Option RefinedSums :=
  let q_l := shifted fn_vals offset qoi
  let q_lm1 := shifted fn_vals offset (qoi + numFunctions)
  if q_l.isfinite && q_lm1.isfinite then
    (whileLoop QLoop2.cond (QLoop2.body qoi lev q_l q_lm1) fuel (QLoop2.init st q_l q_lm1)).map
      (QLoop2.finish st qoi)
  else some st

/-- Source function `NonDMultilevControlVarSampling::accumulate_mlcv_Qsums`, two-map overload
(lines 760-812): at level 0 it hands `sum_Ql` and `num_Q` to
`accumulate_ml_Qsums`, above it walks `allResponses`.  `fuel` bounds the passes
of each inner `while` loop. -/
def accumulate_mlcv_Qsums2 (fuel numFunctions : Nat) (allResponses : List RealVector)
    (st : RefinedSums) (lev : Nat) (offset : RealVector) : Option RefinedSums :=
  if lev = 0 then
    (accumulate_ml_Qsums fuel numFunctions allResponses
        { sum_Q := st.sum_Ql, num_Q := st.num_Q } lev offset).map
      (fun r => { st with sum_Ql := r.sum_Q, num_Q := r.num_Q })
  else
    allResponses.foldlM
      (fun st fn_vals =>
        (List.range numFunctions).foldlM
          (accumulate_mlcv_Qsums2_qoi fuel numFunctions lev offset fn_vals) st)
      st

/-- Body of the `for (qoi ...)` loop of the one-map `accumulate_mlcv_Ysums`
(lines 835-857) for one response vector, `lev > 0`. -/
def accumulate_mlcv_Ysums1_qoi (fuel numFunctions lev : Nat) (offset : RealVector)
    (fn_vals : RealVector) (st : YSums) (qoi : Nat) : Option YSums :=
  let fn_l := shifted fn_vals offset qoi
  let fn_lm1 := shifted fn_vals offset (qoi + numFunctions)
  if fn_l.isfinite && fn_lm1.isfinite then
    (whileLoop YLoop1.cond (YLoop1.body qoi lev fn_l fn_lm1) fuel
      (YLoop1.init st fn_l fn_lm1)).map (YLoop1.finish st qoi)
  else some st

/-- Source function `NonDMultilevControlVarSampling::accumulate_mlcv_Ysums`, one-map overload
(lines 815-861): at level 0 it calls `accumulate_ml_Qsums`, above it walks
`allResponses`, each response holding the level-`lev` values followed by the
level-`lev-1` values. -/
def accumulate_mlcv_Ysums1 (fuel numFunctions : Nat) (allResponses : List RealVector)
    (st : YSums) (lev : Nat) (offset : RealVector) : Option YSums :=
  if lev = 0 then
    (accumulate_ml_Qsums fuel numFunctions allResponses
        { sum_Q := st.sum_Y, num_Q := st.num_Y } lev offset).map
      (fun r => { sum_Y := r.sum_Q, num_Y := r.num_Q })
  else
    allResponses.foldlM
      (fun st fn_vals =>
        (List.range numFunctions).foldlM
          (accumulate_mlcv_Ysums1_qoi fuel numFunctions lev offset fn_vals) st)
      st

/-- Body of the `for (qoi ...)` loop of the six-map `accumulate_mlcv_Qsums`
(lines 888-949) for one pair of response vectors. -/
def accumulate_mlcv_Qsums6_qoi (fuel lev : Nat) (lf_offset hf_offset : RealVector)
    (lf_fn_vals hf_fn_vals : RealVector) (st : PairedSums) (qoi : Nat) : Option PairedSums :=
  let lf_l := shifted lf_fn_vals lf_offset qoi
  let hf_l := shifted hf_fn_vals hf_offset qoi
  if lf_l.isfinite && hf_l.isfinite then
    (whileLoop QLoop6.cond (QLoop6.body qoi lev lf_l hf_l) fuel (QLoop6.init st lf_l hf_l)).map
      (QLoop6.finish st qoi)
  else some st

/-- Source function `NonDMultilevControlVarSampling::accumulate_mlcv_Qsums`, six-map overload
(lines 864-951).  The two response maps are walked in step until either ends;
`fuel` bounds the passes of each inner `while` loop. -/
def accumulate_mlcv_Qsums6 (fuel numFunctions : Nat) (lf_resp_map hf_resp_map : List RealVector)
    (st : PairedSums) (lev : Nat) (lf_offset hf_offset : RealVector) : Option PairedSums :=
  (List.zip lf_resp_map hf_resp_map).foldlM
    (fun st r =>
      (List.range numFunctions).foldlM
        (accumulate_mlcv_Qsums6_qoi fuel lev lf_offset hf_offset r.1 r.2) st)
    st

/-- Body of the `for (qoi ...)` loop of the six-map `accumulate_mlcv_Ysums`
(lines 988-1063) for one pair of response vectors, `lev > 0`. -/
def accumulate_mlcv_Ysums6_qoi (fuel numFunctions lev : Nat) (lf_offset hf_offset : RealVector)
    (lf_fn_vals hf_fn_vals : RealVector) (st : PairedSums) (qoi : Nat) : Option PairedSums :=
  let lf_l := shifted lf_fn_vals lf_offset qoi
  let lf_lm1 := shifted lf_fn_vals lf_offset (qoi + numFunctions)
  let hf_l := shifted hf_fn_vals hf_offset qoi
  let hf_lm1 := shifted hf_fn_vals hf_offset (qoi + numFunctions)
  if lf_l.isfinite && lf_lm1.isfinite && hf_l.isfinite && hf_lm1.isfinite then
    (whileLoop YLoop6.cond (YLoop6.body qoi lev lf_l lf_lm1 hf_l hf_lm1) fuel
      (YLoop6.init st lf_l lf_lm1 hf_l hf_lm1)).map (YLoop6.finish st qoi)
  else some st

/-- Source function `NonDMultilevControlVarSampling::accumulate_mlcv_Ysums`, six-map overload
(lines 954-1066): at level 0 it calls the six-map `accumulate_mlcv_Qsums`,
above it walks the two response maps in step. -/
def accumulate_mlcv_Ysums6 (fuel numFunctions : Nat) (lf_resp_map hf_resp_map : List RealVector)
    (st : PairedSums) (lev : Nat) (lf_offset hf_offset : RealVector) : Option PairedSums :=
  if lev = 0 then
    accumulate_mlcv_Qsums6 fuel numFunctions lf_resp_map hf_resp_map st lev lf_offset hf_offset
  else
    (List.zip lf_resp_map hf_resp_map).foldlM
      (fun st r =>
        (List.range numFunctions).foldlM
          (accumulate_mlcv_Ysums6_qoi fuel numFunctions lev lf_offset hf_offset r.1 r.2) st)
      st

/-- Body of the `for (qoi ...)` loop of the sixteen-map `accumulate_mlcv_Qsums`
(lines 1116-1260) for one pair of response vectors, `lev > 0`. -/
def accumulate_mlcv_Qsums16_qoi (fuel numFunctions lev : Nat)
    (lf_offset hf_offset : RealVector) (lf_fn_vals hf_fn_vals : RealVector)
    (st : LevelSums) (qoi : Nat) : Option LevelSums :=
  let lf_l := shifted lf_fn_vals lf_offset qoi
  let lf_lm1 := shifted lf_fn_vals lf_offset (qoi + numFunctions)
  let hf_l := shifted hf_fn_vals hf_offset qoi
  let hf_lm1 := shifted hf_fn_vals hf_offset (qoi + numFunctions)
  if lf_l.isfinite && lf_lm1.isfinite && hf_l.isfinite && hf_lm1.isfinite then
    (whileLoop QLoop16.cond (QLoop16.body qoi lev lf_l lf_lm1 hf_l hf_lm1) fuel
      (QLoop16.init st lf_l lf_lm1 hf_l hf_lm1)).map (QLoop16.finish st qoi)
  else some st

/-- Source function `NonDMultilevControlVarSampling::accumulate_mlcv_Qsums`, sixteen-map
overload (lines 1069-1263): at level 0 it calls the six-map overload on
`sum_Ll, sum_Ll_refined, sum_Hl, sum_Ll_Ll, sum_Hl_Ll, sum_Hl_Hl`, above it
walks the two response maps in step. -/
def accumulate_mlcv_Qsums16 (fuel numFunctions : Nat)
    (lf_resp_map hf_resp_map : List RealVector) (st : LevelSums) (lev : Nat)
    (lf_offset hf_offset : RealVector) : Option LevelSums :=
  if lev = 0 then
    (accumulate_mlcv_Qsums6 fuel numFunctions lf_resp_map hf_resp_map
        { sum_L_shared := st.sum_Ll, sum_L_refined := st.sum_Ll_refined, sum_H := st.sum_Hl,
          sum_LL := st.sum_Ll_Ll, sum_LH := st.sum_Hl_Ll, sum_HH := st.sum_Hl_Hl,
          num_L := st.num_L, num_H := st.num_H } lev lf_offset hf_offset).map
      (fun r => { st with
        sum_Ll := r.sum_L_shared, sum_Ll_refined := r.sum_L_refined, sum_Hl := r.sum_H,
        sum_Ll_Ll := r.sum_LL, sum_Hl_Ll := r.sum_LH, sum_Hl_Hl := r.sum_HH,
        num_L := r.num_L, num_H := r.num_H })
  else
    (List.zip lf_resp_map hf_resp_map).foldlM
      (fun st r =>
        (List.range numFunctions).foldlM
          (accumulate_mlcv_Qsums16_qoi fuel numFunctions lev lf_offset hf_offset r.1 r.2) st)
      st

/-! ### Specification-side definitions for the accumulators -/

/-- The increment `x^k` received under key `k` by a sum of powers. -/
def powInc (x : ℚ) : Int → Dbl := fun k => Dbl.fin (x ^ k.toNat)

/-- The increment `x^k * y^k` received under key `k` by a sum of products. -/
def prodInc (x y : ℚ) : Int → Dbl := fun k => Dbl.fin (x ^ k.toNat * y ^ k.toNat)

/-- The increment `x^k - y^k` received under key `k` by a discrepancy sum. -/
def diffInc (x y : ℚ) : Int → Dbl := fun k => Dbl.fin (x ^ k.toNat - y ^ k.toNat)

/-- The increment `(x^k - y^k) * (u^k - v^k)` received under key `k` by a
cross sum of discrepancies. -/
def diffProdInc (x y u v : ℚ) : Int → Dbl :=
  fun k => Dbl.fin ((x ^ k.toNat - y ^ k.toNat) * (u ^ k.toNat - v ^ k.toNat))

/-- All six sum maps are well formed (`MapWF`) with bound `K`. -/
def PairedSums.WF (K : Nat) (st : PairedSums) : Prop :=
  MapWF K st.sum_L_shared ∧ MapWF K st.sum_L_refined ∧ MapWF K st.sum_H ∧
  MapWF K st.sum_LL ∧ MapWF K st.sum_LH ∧ MapWF K st.sum_HH

/-- All sixteen sum maps are well formed (`MapWF`) with bound `K`. -/
def LevelSums.WF (K : Nat) (st : LevelSums) : Prop :=
  MapWF K st.sum_Ll ∧ MapWF K st.sum_Llm1 ∧ MapWF K st.sum_Ll_refined ∧
  MapWF K st.sum_Llm1_refined ∧ MapWF K st.sum_Hl ∧ MapWF K st.sum_Hlm1 ∧
  MapWF K st.sum_Ll_Ll ∧ MapWF K st.sum_Ll_Llm1 ∧ MapWF K st.sum_Llm1_Llm1 ∧
  MapWF K st.sum_Hl_Ll ∧ MapWF K st.sum_Hl_Llm1 ∧ MapWF K st.sum_Hlm1_Ll ∧
  MapWF K st.sum_Hlm1_Llm1 ∧ MapWF K st.sum_Hl_Hl ∧ MapWF K st.sum_Hl_Hlm1 ∧
  MapWF K st.sum_Hlm1_Hlm1

/-- Both sum maps are well formed (`MapWF`) with bound `K`. -/
def RefinedSums.WF (K : Nat) (st : RefinedSums) : Prop :=
  MapWF K st.sum_Ql ∧ MapWF K st.sum_Qlm1

/-- The sum map is well formed (`MapWF`) with bound `K`. -/
def YSums.WF (K : Nat) (st : YSums) : Prop := MapWF K st.sum_Y

/-- The sum map is well formed (`MapWF`) with bound `K`. -/
def QSums.WF (K : Nat) (st : QSums) : Prop := MapWF K st.sum_Q

/-- The sum and count once one included sample of QoI `qoi` with value `q`
has been accumulated at level `lev` by `accumulate_ml_Qsums`: `q^k` is added to
`sum_Q[k]` and the count of `qoi` goes up by one. -/
def QSums.addQ (st : QSums) (qoi lev : Nat) (q : ℚ) : QSums :=
  { st with
    sum_Q := grow (powInc q) qoi lev st.sum_Q,
    num_Q := st.num_Q.incr qoi }

/-- Loop invariant of `MlQLoop` for an included sample with finite values. -/
def MlQLoop.Inv (q : ℚ) (qoi lev : Nat) (K : Int) (st : QSums) (s : MlQLoop) : Prop :=
  1 ≤ s.active_ord ∧
  (s.q_it.Ready s.active_ord K) ∧
  (s.q_it.target (powInc q) qoi lev = grow (powInc q) qoi lev st.sum_Q) ∧
  s.q_l_prod = Dbl.fin (q ^ s.active_ord.toNat)

/-- The sums and count once one included sample of QoI `qoi`, with value `q`
at level `lev` and `qm1` at level `lev-1`, has been accumulated by the two-map
accumulator: `q^k` is added to `sum_Ql[k]`, `qm1^k` to `sum_Qlm1[k]`, and the
count of `qoi` goes up by one. -/
def RefinedSums.addQ (st : RefinedSums) (qoi lev : Nat) (q qm1 : ℚ) : RefinedSums :=
  { st with
    sum_Ql := grow (powInc q) qoi lev st.sum_Ql,
    sum_Qlm1 := grow (powInc qm1) qoi lev st.sum_Qlm1,
    num_Q := st.num_Q.incr qoi }

/-- Loop invariant of `QLoop2` for an included sample with finite values. -/
def QLoop2.Inv (q qm1 : ℚ) (qoi lev : Nat) (K : Int) (st : RefinedSums) (s : QLoop2) : Prop :=
  1 ≤ s.active_ord ∧
  (s.l1_it.Ready s.active_ord K ∧
    s.l2_it.Ready s.active_ord K) ∧
  (s.l1_it.target (powInc q) qoi lev = grow (powInc q) qoi lev st.sum_Ql ∧
    s.l2_it.target (powInc qm1) qoi lev = grow (powInc qm1) qoi lev st.sum_Qlm1) ∧
  s.q_l_prod = Dbl.fin (q ^ s.active_ord.toNat) ∧
  s.q_lm1_prod = Dbl.fin (qm1 ^ s.active_ord.toNat)

/-- The sum and count once one included sample of QoI `qoi`, with value `q`
at level `lev` and `qm1` at level `lev-1`, has been accumulated by the one-map
discrepancy accumulator: `q^k - qm1^k` is added to `sum_Y[k]` and the count of
`qoi` goes up by one. -/
def YSums.addY (st : YSums) (qoi lev : Nat) (q qm1 : ℚ) : YSums :=
  { st with
    sum_Y := grow (diffInc q qm1) qoi lev st.sum_Y,
    num_Y := st.num_Y.incr qoi }

/-- Loop invariant of `YLoop1` for an included sample with finite values. -/
def YLoop1.Inv (q qm1 : ℚ) (qoi lev : Nat) (K : Int) (st : YSums) (s : YLoop1) : Prop :=
  1 ≤ s.active_ord ∧
  (s.y_it.Ready s.active_ord K) ∧
  (s.y_it.target (diffInc q qm1) qoi lev = grow (diffInc q qm1) qoi lev st.sum_Y) ∧
  s.prod_l = Dbl.fin (q ^ s.active_ord.toNat) ∧
  s.prod_lm1 = Dbl.fin (qm1 ^ s.active_ord.toNat)

/-- The sums and counts once one included sample of QoI `qoi`, with low value
`l` and high value `h`, has been accumulated at level `lev` by the raw-value
accumulator: under every order `k` present, `l^k` is added to the low sums,
`h^k` to the high sum, `l^k*l^k`, `l^k*h^k`, `h^k*h^k` to the cross sums, and
both counts of `qoi` go up by one. -/
def PairedSums.addQ (st : PairedSums) (qoi lev : Nat) (l h : ℚ) : PairedSums :=
  { st with
    sum_L_shared := grow (powInc l) qoi lev st.sum_L_shared,
    sum_L_refined := grow (powInc l) qoi lev st.sum_L_refined,
    sum_H := grow (powInc h) qoi lev st.sum_H,
    sum_LL := grow (prodInc l l) qoi lev st.sum_LL,
    sum_LH := grow (prodInc l h) qoi lev st.sum_LH,
    sum_HH := grow (prodInc h h) qoi lev st.sum_HH,
    num_L := st.num_L.incr qoi,
    num_H := st.num_H.incr qoi }

/-- Loop invariant of `QLoop6` for an included sample with finite values. -/
def QLoop6.Inv (l h : ℚ) (qoi lev : Nat) (K : Int) (st : PairedSums) (s : QLoop6) : Prop :=
  1 ≤ s.active_ord ∧
  (s.ls_it.Ready s.active_ord K ∧
    s.lr_it.Ready s.active_ord K ∧
    s.h_it.Ready s.active_ord K ∧
    s.ll_it.Ready s.active_ord K ∧
    s.lh_it.Ready s.active_ord K ∧
    s.hh_it.Ready s.active_ord K) ∧
  (s.ls_it.target (powInc l) qoi lev = grow (powInc l) qoi lev st.sum_L_shared ∧
    s.lr_it.target (powInc l) qoi lev = grow (powInc l) qoi lev st.sum_L_refined ∧
    s.h_it.target (powInc h) qoi lev = grow (powInc h) qoi lev st.sum_H ∧
    s.ll_it.target (prodInc l l) qoi lev = grow (prodInc l l) qoi lev st.sum_LL ∧
    s.lh_it.target (prodInc l h) qoi lev = grow (prodInc l h) qoi lev st.sum_LH ∧
    s.hh_it.target (prodInc h h) qoi lev = grow (prodInc h h) qoi lev st.sum_HH) ∧
  ((s.ls_it.atEnd = false ∨
      s.lr_it.atEnd = false ∨
      s.ll_it.atEnd = false ∨
      s.lh_it.atEnd = false) →
    s.lf_l_prod = Dbl.fin (l ^ s.active_ord.toNat)) ∧
  ((s.h_it.atEnd = false ∨
      s.lh_it.atEnd = false ∨
      s.hh_it.atEnd = false) →
    s.hf_l_prod = Dbl.fin (h ^ s.active_ord.toNat))

/-- The sums and counts once one included sample of QoI `qoi` has been
accumulated at level `lev > 0` by the discrepancy accumulator, `l`, `lm1`
being the low values at levels `lev`, `lev-1` and `h`, `hm1` the high ones:
under every order `k` present, `l^k - lm1^k` is added to the low sums,
`h^k - hm1^k` to the high sum, the squares and the product of these two
differences to the cross sums, and both counts of `qoi` go up by one. -/
def PairedSums.addY (st : PairedSums) (qoi lev : Nat) (l lm1 h hm1 : ℚ) : PairedSums :=
  { st with
    sum_L_shared := grow (diffInc l lm1) qoi lev st.sum_L_shared,
    sum_L_refined := grow (diffInc l lm1) qoi lev st.sum_L_refined,
    sum_H := grow (diffInc h hm1) qoi lev st.sum_H,
    sum_LL := grow (diffProdInc l lm1 l lm1) qoi lev st.sum_LL,
    sum_LH := grow (diffProdInc l lm1 h hm1) qoi lev st.sum_LH,
    sum_HH := grow (diffProdInc h hm1 h hm1) qoi lev st.sum_HH,
    num_L := st.num_L.incr qoi,
    num_H := st.num_H.incr qoi }

/-- Loop invariant of `YLoop6` for an included sample with finite values. -/
def YLoop6.Inv (l lm1 h hm1 : ℚ) (qoi lev : Nat) (K : Int) (st : PairedSums) (s : YLoop6) : Prop :=
  1 ≤ s.active_ord ∧
  (s.ls_it.Ready s.active_ord K ∧
    s.lr_it.Ready s.active_ord K ∧
    s.h_it.Ready s.active_ord K ∧
    s.ll_it.Ready s.active_ord K ∧
    s.lh_it.Ready s.active_ord K ∧
    s.hh_it.Ready s.active_ord K) ∧
  (s.ls_it.target (diffInc l lm1) qoi lev = grow (diffInc l lm1) qoi lev st.sum_L_shared ∧
    s.lr_it.target (diffInc l lm1) qoi lev = grow (diffInc l lm1) qoi lev st.sum_L_refined ∧
    s.h_it.target (diffInc h hm1) qoi lev = grow (diffInc h hm1) qoi lev st.sum_H ∧
    s.ll_it.target (diffProdInc l lm1 l lm1) qoi lev = grow (diffProdInc l lm1 l lm1) qoi lev st.sum_LL ∧
    s.lh_it.target (diffProdInc l lm1 h hm1) qoi lev = grow (diffProdInc l lm1 h hm1) qoi lev st.sum_LH ∧
    s.hh_it.target (diffProdInc h hm1 h hm1) qoi lev = grow (diffProdInc h hm1 h hm1) qoi lev st.sum_HH) ∧
  ((s.ls_it.atEnd = false ∨
      s.lr_it.atEnd = false ∨
      s.ll_it.atEnd = false ∨
      s.lh_it.atEnd = false) →
    s.lf_l_prod = Dbl.fin (l ^ s.active_ord.toNat)) ∧
  ((s.ls_it.atEnd = false ∨
      s.lr_it.atEnd = false ∨
      s.ll_it.atEnd = false ∨
      s.lh_it.atEnd = false) →
    s.lf_lm1_prod = Dbl.fin (lm1 ^ s.active_ord.toNat)) ∧
  ((s.h_it.atEnd = false ∨
      s.lh_it.atEnd = false ∨
      s.hh_it.atEnd = false) →
    s.hf_l_prod = Dbl.fin (h ^ s.active_ord.toNat)) ∧
  ((s.h_it.atEnd = false ∨
      s.lh_it.atEnd = false ∨
      s.hh_it.atEnd = false) →
    s.hf_lm1_prod = Dbl.fin (hm1 ^ s.active_ord.toNat))

/-- The sums and counts once one included sample of QoI `qoi` has been
accumulated at level `lev > 0` by the sixteen-map accumulator, `l`, `lm1`
being the low values at levels `lev`, `lev-1` and `h`, `hm1` the high ones:
under every order `k` present each single sum receives the `k`-th power of
its quantity, each cross sum the product of the `k`-th powers of its two
quantities, and both counts of `qoi` go up by one. -/
def LevelSums.addQ (st : LevelSums) (qoi lev : Nat) (l lm1 h hm1 : ℚ) : LevelSums :=
  { st with
    sum_Ll := grow (powInc l) qoi lev st.sum_Ll,
    sum_Llm1 := grow (powInc lm1) qoi lev st.sum_Llm1,
    sum_Ll_refined := grow (powInc l) qoi lev st.sum_Ll_refined,
    sum_Llm1_refined := grow (powInc lm1) qoi lev st.sum_Llm1_refined,
    sum_Hl := grow (powInc h) qoi lev st.sum_Hl,
    sum_Hlm1 := grow (powInc hm1) qoi lev st.sum_Hlm1,
    sum_Ll_Ll := grow (prodInc l l) qoi lev st.sum_Ll_Ll,
    sum_Ll_Llm1 := grow (prodInc l lm1) qoi lev st.sum_Ll_Llm1,
    sum_Llm1_Llm1 := grow (prodInc lm1 lm1) qoi lev st.sum_Llm1_Llm1,
    sum_Hl_Ll := grow (prodInc h l) qoi lev st.sum_Hl_Ll,
    sum_Hl_Llm1 := grow (prodInc h lm1) qoi lev st.sum_Hl_Llm1,
    sum_Hlm1_Ll := grow (prodInc hm1 l) qoi lev st.sum_Hlm1_Ll,
    sum_Hlm1_Llm1 := grow (prodInc hm1 lm1) qoi lev st.sum_Hlm1_Llm1,
    sum_Hl_Hl := grow (prodInc h h) qoi lev st.sum_Hl_Hl,
    sum_Hl_Hlm1 := grow (prodInc h hm1) qoi lev st.sum_Hl_Hlm1,
    sum_Hlm1_Hlm1 := grow (prodInc hm1 hm1) qoi lev st.sum_Hlm1_Hlm1,
    num_L := st.num_L.incr qoi,
    num_H := st.num_H.incr qoi }

/-- Loop invariant of `QLoop16` for an included sample with finite values. -/
def QLoop16.Inv (l lm1 h hm1 : ℚ) (qoi lev : Nat) (K : Int) (st : LevelSums) (s : QLoop16) : Prop :=
  1 ≤ s.active_ord ∧
  (s.l1_it.Ready s.active_ord K ∧
    s.l2_it.Ready s.active_ord K ∧
    s.lr1_it.Ready s.active_ord K ∧
    s.lr2_it.Ready s.active_ord K ∧
    s.h1_it.Ready s.active_ord K ∧
    s.h2_it.Ready s.active_ord K ∧
    s.ll1_it.Ready s.active_ord K ∧
    s.ll2_it.Ready s.active_ord K ∧
    s.ll3_it.Ready s.active_ord K ∧
    s.lh1_it.Ready s.active_ord K ∧
    s.lh2_it.Ready s.active_ord K ∧
    s.lh3_it.Ready s.active_ord K ∧
    s.lh4_it.Ready s.active_ord K ∧
    s.hh1_it.Ready s.active_ord K ∧
    s.hh2_it.Ready s.active_ord K ∧
    s.hh3_it.Ready s.active_ord K) ∧
  (s.l1_it.target (powInc l) qoi lev = grow (powInc l) qoi lev st.sum_Ll ∧
    s.l2_it.target (powInc lm1) qoi lev = grow (powInc lm1) qoi lev st.sum_Llm1 ∧
    s.lr1_it.target (powInc l) qoi lev = grow (powInc l) qoi lev st.sum_Ll_refined ∧
    s.lr2_it.target (powInc lm1) qoi lev = grow (powInc lm1) qoi lev st.sum_Llm1_refined ∧
    s.h1_it.target (powInc h) qoi lev = grow (powInc h) qoi lev st.sum_Hl ∧
    s.h2_it.target (powInc hm1) qoi lev = grow (powInc hm1) qoi lev st.sum_Hlm1 ∧
    s.ll1_it.target (prodInc l l) qoi lev = grow (prodInc l l) qoi lev st.sum_Ll_Ll ∧
    s.ll2_it.target (prodInc l lm1) qoi lev = grow (prodInc l lm1) qoi lev st.sum_Ll_Llm1 ∧
    s.ll3_it.target (prodInc lm1 lm1) qoi lev = grow (prodInc lm1 lm1) qoi lev st.sum_Llm1_Llm1 ∧
    s.lh1_it.target (prodInc h l) qoi lev = grow (prodInc h l) qoi lev st.sum_Hl_Ll ∧
    s.lh2_it.target (prodInc h lm1) qoi lev = grow (prodInc h lm1) qoi lev st.sum_Hl_Llm1 ∧
    s.lh3_it.target (prodInc hm1 l) qoi lev = grow (prodInc hm1 l) qoi lev st.sum_Hlm1_Ll ∧
    s.lh4_it.target (prodInc hm1 lm1) qoi lev = grow (prodInc hm1 lm1) qoi lev st.sum_Hlm1_Llm1 ∧
    s.hh1_it.target (prodInc h h) qoi lev = grow (prodInc h h) qoi lev st.sum_Hl_Hl ∧
    s.hh2_it.target (prodInc h hm1) qoi lev = grow (prodInc h hm1) qoi lev st.sum_Hl_Hlm1 ∧
    s.hh3_it.target (prodInc hm1 hm1) qoi lev = grow (prodInc hm1 hm1) qoi lev st.sum_Hlm1_Hlm1) ∧
  ((s.l1_it.atEnd = false ∨
      s.lr1_it.atEnd = false ∨
      s.ll1_it.atEnd = false ∨
      s.ll2_it.atEnd = false ∨
      s.lh1_it.atEnd = false ∨
      s.lh3_it.atEnd = false) →
    s.lf_l_prod = Dbl.fin (l ^ s.active_ord.toNat)) ∧
  ((s.l2_it.atEnd = false ∨
      s.lr2_it.atEnd = false ∨
      s.ll2_it.atEnd = false ∨
      s.ll3_it.atEnd = false ∨
      s.lh2_it.atEnd = false ∨
      s.lh4_it.atEnd = false) →
    s.lf_lm1_prod = Dbl.fin (lm1 ^ s.active_ord.toNat)) ∧
  ((s.h1_it.atEnd = false ∨
      s.lh1_it.atEnd = false ∨
      s.lh2_it.atEnd = false ∨
      s.hh1_it.atEnd = false ∨
      s.hh2_it.atEnd = false) →
    s.hf_l_prod = Dbl.fin (h ^ s.active_ord.toNat)) ∧
  ((s.h2_it.atEnd = false ∨
      s.lh3_it.atEnd = false ∨
      s.lh4_it.atEnd = false ∨
      s.hh2_it.atEnd = false ∨
      s.hh3_it.atEnd = false) →
    s.hf_lm1_prod = Dbl.fin (hm1 ^ s.active_ord.toNat))

/-- The inclusion test of the paired accumulators on the shifted values of one
pair of response vectors: low and high value at level 0; low and high values
at levels `lev` and `lev-1` (the second block of the response vector) above. -/
def pairedIncluded (numFunctions lev : Nat) (lf_offset hf_offset : RealVector)
    (r : RealVector × RealVector) (qoi : Nat) : Bool :=
  if lev = 0 then
    (shifted r.1 lf_offset qoi).isfinite && (shifted r.2 hf_offset qoi).isfinite
  else
    (shifted r.1 lf_offset qoi).isfinite && (shifted r.1 lf_offset (qoi + numFunctions)).isfinite
      && (shifted r.2 hf_offset qoi).isfinite
      && (shifted r.2 hf_offset (qoi + numFunctions)).isfinite

/-- All constituent raw values of QoI `qoi` in one pair of response vectors are
finite: low and high value at level 0; low and high values at levels `lev` and
`lev-1` above. -/
def rawFinite (numFunctions lev : Nat) (lf_fn_vals hf_fn_vals : RealVector) (qoi : Nat) : Bool :=
  if lev = 0 then
    (lf_fn_vals.elem qoi).isfinite && (hf_fn_vals.elem qoi).isfinite
  else
    (lf_fn_vals.elem qoi).isfinite && (lf_fn_vals.elem (qoi + numFunctions)).isfinite
      && (hf_fn_vals.elem qoi).isfinite && (hf_fn_vals.elem (qoi + numFunctions)).isfinite

/-- An offset vector that is absent (empty) or finite on its first `n` entries. -/
def OffsetFinite (offset : RealVector) (n : Nat) : Prop :=
  offset = [] ∨ ∀ i, i < n → (offset.elem i).isfinite = true

/-- The inclusion test of the single-model accumulators above level 0 on the
shifted values of one response vector: the values at levels `lev` and `lev-1`. -/
def levelIncluded (numFunctions : Nat) (offset fn_vals : RealVector) (qoi : Nat) : Bool :=
  (shifted fn_vals offset qoi).isfinite && (shifted fn_vals offset (qoi + numFunctions)).isfinite

/-- The inclusion test of the paired accumulators above level 0 on the shifted
values of one pair of response vectors. -/
def levelPairIncluded (numFunctions : Nat) (lf_offset hf_offset lf_fn_vals hf_fn_vals : RealVector)
    (qoi : Nat) : Bool :=
  (shifted lf_fn_vals lf_offset qoi).isfinite
    && (shifted lf_fn_vals lf_offset (qoi + numFunctions)).isfinite
    && (shifted hf_fn_vals hf_offset qoi).isfinite
    && (shifted hf_fn_vals hf_offset (qoi + numFunctions)).isfinite

/-- A `numRows x numCols` matrix of zeros (`RealMatrix::shape`). -/
def zeroMatrix (numRows numCols : Nat) : RealMatrix :=
  { numRows := numRows, numCols := numCols, entry := fun _ _ => 0 }

/-- An order map holding zero matrices under the orders `1, 2, 3, 4`. -/
def zeroOrders (numRows numCols : Nat) : IntRealMatrixMap :=
  [(1, zeroMatrix numRows numCols), (2, zeroMatrix numRows numCols),
   (3, zeroMatrix numRows numCols), (4, zeroMatrix numRows numCols)]

/-- The six sums as `initialize_mlcv_sums` (lines 685-712) leaves them when
called on empty maps: orders `1..4` for the low, cross and high sums, order `1`
only for `sum_HH`, all entries zero; with zero counts. -/
def freshPairedSums (numFunctions num_ml_lev num_cv_lev : Nat) : PairedSums :=
  { sum_L_shared := zeroOrders numFunctions num_cv_lev,
    sum_L_refined := zeroOrders numFunctions num_cv_lev,
    sum_H := zeroOrders numFunctions num_ml_lev,
    sum_LL := zeroOrders numFunctions num_cv_lev,
    sum_LH := zeroOrders numFunctions num_cv_lev,
    sum_HH := [(1, zeroMatrix numFunctions num_ml_lev)],
    num_L := fun _ => 0,
    num_H := fun _ => 0 }

/-- Two zero sum maps of orders `1..4` with zero counts, as the two-map
accumulator receives them at the start of a run. -/
def freshRefinedSums (numFunctions num_cv_lev : Nat) : RefinedSums :=
  { sum_Ql := zeroOrders numFunctions num_cv_lev,
    sum_Qlm1 := zeroOrders numFunctions num_cv_lev,
    num_Q := fun _ => 0 }

/-- A zero sum map of orders `1..4` with zero counts, as the one-map
accumulator receives it at the start of a run. -/
def freshYSums (numFunctions num_lev : Nat) : YSums :=
  { sum_Y := zeroOrders numFunctions num_lev,
    num_Y := fun _ => 0 }

/-- Entry `(i, j)` of the matrix stored under order `k` (zero when the order is
absent). -/
def entryAt (m : IntRealMatrixMap) (k : Int) (i j : Nat) : Dbl :=
  match m.lookup k with
  | some M => M.entry i j
  | none => 0

/-- What the one-map `accumulate_mlcv_Ysums` adds to the order-`k` sum at a
level `l >= 1` for one sample of a single QoI whose value at level `i` is
`q i`: the entry `(0, l)` under order `k` after accumulating the response
`[q l, q (l-1)]` into zero sums of orders `1..4`. -/
def levelContribution (k : Nat) (q : Nat → ℚ) (l : Nat) : Dbl :=
  match accumulate_mlcv_Ysums1 4 1 [[Dbl.fin (q l), Dbl.fin (q (l - 1))]]
      (freshYSums 1 (l + 1)) l [] with
  | some st' => entryAt st'.sum_Y k 0 l
  | none => Dbl.nan

/-- The order-`k` contributions of the levels `0..L` added up: `q_0^k` at level
0, then what `accumulate_mlcv_Ysums` adds at each level `1..L`. -/
def telescopedMoment (k : Nat) (q : Nat → ℚ) : Nat → Dbl
  | 0 => Dbl.fin (q 0 ^ k)
  | L + 1 => telescopedMoment k q L + levelContribution k q (L + 1)

/-- The sixteen sums as the sixteen-map `initialize_mlcv_sums` (lines 715-757)
leaves them on empty maps: orders `1..4` everywhere, all entries zero; with
zero counts. -/
def freshLevelSums (numFunctions num_ml_lev num_cv_lev : Nat) : LevelSums :=
  { sum_Ll := zeroOrders numFunctions num_cv_lev,
    sum_Llm1 := zeroOrders numFunctions num_cv_lev,
    sum_Ll_refined := zeroOrders numFunctions num_cv_lev,
    sum_Llm1_refined := zeroOrders numFunctions num_cv_lev,
    sum_Hl := zeroOrders numFunctions num_ml_lev,
    sum_Hlm1 := zeroOrders numFunctions num_cv_lev,
    sum_Ll_Ll := zeroOrders numFunctions num_cv_lev,
    sum_Ll_Llm1 := zeroOrders numFunctions num_cv_lev,
    sum_Llm1_Llm1 := zeroOrders numFunctions num_cv_lev,
    sum_Hl_Ll := zeroOrders numFunctions num_cv_lev,
    sum_Hl_Llm1 := zeroOrders numFunctions num_cv_lev,
    sum_Hlm1_Ll := zeroOrders numFunctions num_cv_lev,
    sum_Hlm1_Llm1 := zeroOrders numFunctions num_cv_lev,
    sum_Hl_Hl := zeroOrders numFunctions num_ml_lev,
    sum_Hl_Hlm1 := zeroOrders numFunctions num_ml_lev,
    sum_Hlm1_Hlm1 := zeroOrders numFunctions num_ml_lev,
    num_L := fun _ => 0,
    num_H := fun _ => 0 }


/-! ### Further specification-side definitions for the accumulators -/

/-- A response vector with an offset taken off beforehand: the vector itself
when the offset is empty, `fn_vals[i] - offset[i]` at every index otherwise. -/
def applyOffset (fn_vals offset : RealVector) : RealVector :=
  if offset.isEmpty then fn_vals else List.zipWith (fun v o => v - o) fn_vals offset

/-- An offset vector of `n` zeros. -/
def zeroOffset (n : Nat) : RealVector := List.replicate n (Dbl.fin 0)

/-- The inclusion test of the six-map `accumulate_mlcv_Qsums` on one pair of
response vectors: the shifted low and high values of the QoI are finite. -/
def rawPairIncluded (lf_offset hf_offset : RealVector) (r : RealVector × RealVector)
    (qoi : Nat) : Bool :=
  (shifted r.1 lf_offset qoi).isfinite && (shifted r.2 hf_offset qoi).isfinite

/-- The inclusion test of the one- and two-map accumulators on one response
vector: the shifted value at level 0, the shifted values at levels `lev` and
`lev-1` above. -/
def singleIncluded (numFunctions lev : Nat) (offset fn_vals : RealVector) (qoi : Nat) : Bool :=
  if lev = 0 then (shifted fn_vals offset qoi).isfinite
  else levelIncluded numFunctions offset fn_vals qoi

/-- The order `k` is among the keys of the map. -/
def hasOrder (m : IntRealMatrixMap) (k : Int) : Bool := (m.lookup k).isSome

/-- The constant `SZ_MAX`, the largest `size_t` (64 bits). -/
def SZ_MAX : Nat := 2 ^ 64 - 1

/-- What the mode switch of a constructor leaves behind: the value of the
member `maxIterations`, and the code handed to `abort_handler` if it was
called. -/
structure ModeSwitchOutcome where
  maxIterations : Nat
  abort : Option Int

/-- The `switch (pilotMgmtMode)` of the constructor
`NonDEnsembleSampling::NonDEnsembleSampling` (lines 61-80).  The enumerators
`PILOT_PROJECTION`, `OFFLINE_PILOT` and the code `METHOD_ERROR` are defined
outside the sources at hand and are parameters; every other mode takes the
`default` branch (`ONLINE_PILOT`).  In the `OFFLINE_PILOT` branch the
assignment `maxIterations = 1` precedes the budget test. -/
def NonDEnsembleSampling_mode_switch (PILOT_PROJECTION OFFLINE_PILOT METHOD_ERROR : Int)
    (pilotMgmtMode : Int) (maxIterations maxFunctionEvals : Nat) : ModeSwitchOutcome :=
  if pilotMgmtMode = PILOT_PROJECTION then
    { maxIterations := 0, abort := none }
  else if pilotMgmtMode = OFFLINE_PILOT then
    { maxIterations := 1
      abort := if maxFunctionEvals = SZ_MAX then some METHOD_ERROR else none }
  else
    { maxIterations := if maxIterations = SZ_MAX then 25 else maxIterations
      abort := none }

/-- The validation of the constructor
`NonDNonHierarchSampling::NonDNonHierarchSampling` (lines 56-95): the test of
the surrogate type, the loop over `model_ensemble` (given by the value of
`solution_levels(false)` of each model) and the final `if (err_flag)`.  The
result is `err_flag` and the code handed to `abort_handler`, if any. -/
def NonDNonHierarchSampling_validate (METHOD_ERROR : Int) (surrogate_type : String)
    (model_ensemble : List Nat) : Bool × Option Int :=
  let err_flag := false
  let err_flag := if surrogate_type = "non_hierarchical" then err_flag else true
  let err_flag :=
    model_ensemble.foldl
      (fun err_flag solution_levels_false =>
        if solution_levels_false = 0 then true else err_flag)
      err_flag
  (err_flag, if err_flag then some METHOD_ERROR else none)

/-- Modelled from the spec: `Pecos::l1_norm` on a `SizetArray`, a helper
defined outside the sources at hand; per the spec the L1 norm of the increment
vector, the sum of its entries. -/
def l1_norm (v : List Nat) : Nat := v.sum

/-- The local `max_iter` of both drivers (lines 218 and 448):
`(maxIterations < 0) ? 25 : maxIterations`. -/
def driver_max_iter (maxIterations : Int) : Nat :=
  if maxIterations < 0 then 25 else maxIterations.toNat

/-- The part of the state of a driver that its refinement loop tests: the
increment vector `delta_N_hf` and the counter `mlmfIter` (a `size_t`); `rest`
stands for everything else a pass reads and writes. -/
structure RefineState (ρ : Type) where
  delta_N_hf : List Nat
  mlmfIter : Nat
  rest : ρ

/-- The loop test `Pecos::l1_norm(delta_N_hf) && mlmfIter <= max_iter`. -/
def RefineState.cond {ρ : Type} (max_iter : Nat) (s : RefineState ρ) : Bool :=
  decide (l1_norm s.delta_N_hf ≠ 0) && decide (s.mlmfIter ≤ max_iter)

/-- One pass of the refinement loop: the body computes the new increments and
the rest of the state from the old ones (`pass`, which stands for lines 252-387
of `multilevel_control_variate_mc_Ycorr` and 493-642 of
`multilevel_control_variate_mc_Qcorr`), then `++mlmfIter` on 64 bits. -/
def RefineState.body {ρ : Type} (pass : Nat → List Nat → ρ → List Nat × ρ)
    (s : RefineState ρ) : RefineState ρ :=
  let r := pass s.mlmfIter s.delta_N_hf s.rest
  { delta_N_hf := r.1, mlmfIter := (s.mlmfIter + 1) % 2 ^ 64, rest := r.2 }

/-- The state on entry to the refinement loop: the pilot increments and
`mlmfIter = 0`. -/
def RefineState.start {ρ : Type} (delta_N_hf : List Nat) (rest : ρ) : RefineState ρ :=
  { delta_N_hf := delta_N_hf, mlmfIter := 0, rest := rest }

/-- The refinement loop of `multilevel_control_variate_mc_Ycorr` (lines 249-391)
and of `multilevel_control_variate_mc_Qcorr` (lines 490-646):
`mlmfIter = 0; while (l1_norm(delta_N_hf) && mlmfIter <= max_iter) { ... }`,
started from the pilot increments.  `fuel` bounds the number of passes. -/
def multilevel_control_variate_mc_loop {ρ : Type} (fuel : Nat) (maxIterations : Int)
    (pass : Nat → List Nat → ρ → List Nat × ρ) (delta_N_hf : List Nat) (rest : ρ) :
    Option (RefineState ρ) :=
  let max_iter := driver_max_iter maxIterations
  whileLoop (RefineState.cond max_iter) (RefineState.body pass) fuel
    (RefineState.start delta_N_hf rest)

section Drivers

variable {α : Type} [LinearOrderedField α]

/-- Body of the inner loop of the roll-up (lines 407-411 and 666-670) for one
QoI and one level: `Nlq = N_hf[lev][qoi]`, then the four updates
`Y_mlmc_mom(qoi,k-1) += sum_Hk(qoi,lev) / Nlq`, where `sum_Hk` is the
reference to `sum_H[k]`. -/
def rollup_level (sum_H : Int → Nat → Nat → α) (N_hf : Nat → Nat → Nat) (qoi : Nat)
    (Y_mlmc_mom : Nat → Nat → α) (lev : Nat) : Nat → Nat → α :=
  let Nlq : α := (N_hf lev qoi : α)
  let Y_mlmc_mom := setEntry Y_mlmc_mom qoi 0 (Y_mlmc_mom qoi 0 + sum_H 1 qoi lev / Nlq)
  let Y_mlmc_mom := setEntry Y_mlmc_mom qoi 1 (Y_mlmc_mom qoi 1 + sum_H 2 qoi lev / Nlq)
  let Y_mlmc_mom := setEntry Y_mlmc_mom qoi 2 (Y_mlmc_mom qoi 2 + sum_H 3 qoi lev / Nlq)
  setEntry Y_mlmc_mom qoi 3 (Y_mlmc_mom qoi 3 + sum_H 4 qoi lev / Nlq)

/-- The roll-up of the levels beyond the control-variate depth in
`multilevel_control_variate_mc_Ycorr` (lines 399-413) and
`multilevel_control_variate_mc_Qcorr` (lines 654-672).  `sum_H k` is the
matrix `sum_H[k]` (`sum_Hl[k]` in the second driver), `N_hf lev qoi` the
count `N_hf[lev][qoi]`. -/
def multilevel_control_variate_mc_rollup (numFunctions num_hf_lev num_cv_lev : Nat)
    (sum_H : Int → Nat → Nat → α) (N_hf : Nat → Nat → Nat) (Y_mlmc_mom : Nat → Nat → α) :
    Nat → Nat → α :=
  if num_hf_lev > num_cv_lev then
    (List.range numFunctions).foldl
      (fun Y_mlmc_mom qoi =>
        (List.range' num_cv_lev (num_hf_lev - num_cv_lev)).foldl
          (rollup_level sum_H N_hf qoi) Y_mlmc_mom)
      Y_mlmc_mom
  else Y_mlmc_mom

/-- The computation of `equivHFEvals` that ends both drivers (lines 416-422 and
675-681).  The counts `raw_N_hf`, `raw_N_lf` are `size_t`, converted to `Real`
in the products.  `num_hf_lev >= 1`: with no level the unsigned
`num_hf_lev-1` of the source wraps, which is outside the model. -/
def equivHFEvals (num_hf_lev num_cv_lev : Nat) (raw_N_hf raw_N_lf : Nat → Nat)
    (hf_cost lf_cost : Nat → α) : α :=
  let equivHFEvals : α := (raw_N_hf 0 : α) * hf_cost 0 + (raw_N_lf 0 : α) * lf_cost 0
  let equivHFEvals :=
    (List.range' 1 (num_hf_lev - 1)).foldl
      (fun equivHFEvals lev =>
        equivHFEvals + (raw_N_hf lev : α) * (hf_cost lev + hf_cost (lev - 1)))
      equivHFEvals
  let equivHFEvals :=
    (List.range' 1 (num_cv_lev - 1)).foldl
      (fun equivHFEvals lev =>
        equivHFEvals + (raw_N_lf lev : α) * (lf_cost lev + lf_cost (lev - 1)))
      equivHFEvals
  equivHFEvals / hf_cost (num_hf_lev - 1)

end Drivers

/-- The statement `sum.insert(empty_pr).first->second.shape(numRows, numCols)`
with `empty_pr.first = k`: the entry under key `k` is created at its place in
key order if it is absent, and its matrix is (re)shaped to `numRows x numCols`
zeros. -/
def insertShape (k : Int) (numRows numCols : Nat) : IntRealMatrixMap → IntRealMatrixMap
  | [] => [(k, zeroMatrix numRows numCols)]
  | e :: m =>
    if k < e.1 then (k, zeroMatrix numRows numCols) :: e :: m
    else if k = e.1 then (k, zeroMatrix numRows numCols) :: m
    else e :: insertShape k numRows numCols m

/-- Source function `NonDMultilevControlVarSampling::initialize_mlcv_sums`, six-map overload
(lines 685-712): the loop `for (int i=1; i<=4; ++i)` over the five maps, then
order 1 of `sum_HH`.  The counts are not among its arguments and stay as they
are. -/
def initialize_mlcv_sums (numFunctions : Nat) (st : PairedSums) (num_ml_lev num_cv_lev : Nat) :
    PairedSums :=
  let st :=
    ([1, 2, 3, 4] : List Int).foldl
      (fun st i =>
        { st with
          sum_L_shared := insertShape i numFunctions num_cv_lev st.sum_L_shared
          sum_L_refined := insertShape i numFunctions num_cv_lev st.sum_L_refined
          sum_LL := insertShape i numFunctions num_cv_lev st.sum_LL
          sum_LH := insertShape i numFunctions num_cv_lev st.sum_LH
          sum_H := insertShape i numFunctions num_ml_lev st.sum_H })
      st
  { st with sum_HH := insertShape 1 numFunctions num_ml_lev st.sum_HH }

/-! ### Recovery of the optimizer results and sample targets -/

/-- What `nonhierarch_numerical_solution` recovers from the optimizer (lines
460-509): the averaged evaluation ratios, the target for the truth count and
the averaged estimator variance. -/
structure Recovery (α : Type) where
  avg_eval_ratios : Nat → α
  avg_hf_target : α
  avg_estvar : α

section Recovery

variable {α : Type} [LinearOrderedField α]

/-- Lines 460-509 of `NonDNonHierarchSampling::nonhierarch_numerical_solution`:
the post-processing of the optimizer results `cv_star` and `fn_star(0)`.
The library exponential `std::exp` is the parameter `exp`; `allocate_budget`
is a helper declared outside the sources at hand and is a parameter;
`estVarIter0` is averaged with `average` as in `objective_function`.
`copy_data_partial` takes the leading `numApprox` entries of `cv_star`.  The
reference parameter `avg_hf_target` is only written here. -/
def recover_results (exp : α → α) (allocate_budget : (Nat → α) → (Nat → α) → α)
    (optSubProblemForm : SubProblemForm) (numFunctions numApprox maxFunctionEvals : Nat)
    (convergenceTol avg_N_H : α) (estVarIter0 : Nat → α) (cost : Nat → α)
    (cv_star : Nat → α) (fn_star_0 : α) : Recovery α :=
  let avg_estvar := exp fn_star_0
  let r : (Nat → α) × α :=
    match optSubProblemForm with
    | .R_ONLY_LINEAR_CONSTRAINT =>
        let avg_eval_ratios := cv_star
        let avg_hf_target :=
          if maxFunctionEvals ≠ SZ_MAX then allocate_budget avg_eval_ratios cost
          else avg_estvar * avg_N_H / (convergenceTol * averageVector numFunctions estVarIter0)
        (avg_eval_ratios, avg_hf_target)
    | .N_VECTOR_LINEAR_CONSTRAINT =>
        (fun i => if i < numApprox then cv_star i else 0, cv_star numApprox)
    | .R_AND_N_NONLINEAR_CONSTRAINT =>
        (fun i => if i < numApprox then cv_star i else 0, cv_star numApprox)
  let avg_eval_ratios := r.1
  let avg_hf_target := r.2
  let avg_eval_ratios :=
    if optSubProblemForm = .N_VECTOR_LINEAR_CONSTRAINT then
      fun i => avg_eval_ratios i * (1 / avg_hf_target)
    else avg_eval_ratios
  { avg_eval_ratios := avg_eval_ratios, avg_hf_target := avg_hf_target,
    avg_estvar := avg_estvar }

/-- Modelled from the spec: the helper `level_cost(cost, lev)` is declared
outside the sources at hand; it is the cost of a level discrepancy,
`cost[lev] + cost[lev-1]` for `lev > 0` and `cost[0]` for level 0, the value the
drivers also spell out at lines 382 and 637. -/
def level_cost (cost : Nat → α) (lev : Nat) : α :=
  if lev ≠ 0 then cost lev + cost (lev - 1) else cost lev

/-- The control-variate factor of a level, lines 565-566 of
`multilevel_control_variate_mc_Qcorr` (and 319-320 of the `Ycorr` driver):
`Lambda[lev] = 1. - avg_rho_dot2_LH[lev] * (avg_eval_ratio - 1.) / avg_eval_ratio`. -/
def Lambda_factor (avg_rho_dot2_LH_lev avg_eval_ratio : α) : α :=
  1 - avg_rho_dot2_LH_lev * (avg_eval_ratio - 1) / avg_eval_ratio

/-- The accumulation of `sum_sqrt_var_cost` over the levels in one pass of
`multilevel_control_variate_mc_Qcorr` (lines 493-497 and 586-589).  The arrays
`agg_var_hf`, `avg_rho_dot2_LH` and `Lambda` are read at level `lev` when the
term of that level is added; the pass writes the entries of a level only
before that, so they are the arrays as the pass leaves them. -/
def sum_sqrt_var_cost (sqrt : α → α) (num_hf_lev num_cv_lev : Nat)
    (agg_var_hf hf_cost avg_rho_dot2_LH Lambda : Nat → α) : α :=
  (List.range num_hf_lev).foldl
    (fun sum_sqrt_var_cost lev =>
      let hf_lev_cost := level_cost hf_cost lev
      let agg_var_hf_l := agg_var_hf lev
      sum_sqrt_var_cost +
        (if lev < num_cv_lev then
          sqrt (agg_var_hf_l * hf_lev_cost / (1 - avg_rho_dot2_LH lev)) * Lambda lev
        else sqrt (agg_var_hf_l * hf_lev_cost)))
    0

/-- The sample target of level `lev` at the end of a pass of
`multilevel_control_variate_mc_Qcorr` (lines 635-640), with
`fact = sum_sqrt_var_cost / eps_sq_div_2`. -/
def N_target (sqrt : α → α) (num_cv_lev : Nat) (agg_var_hf hf_cost avg_rho_dot2_LH : Nat → α)
    (sum_sqrt_var_cost eps_sq_div_2 : α) (lev : Nat) : α :=
  let fact := sum_sqrt_var_cost / eps_sq_div_2
  let hf_lev_cost := if lev ≠ 0 then hf_cost lev + hf_cost (lev - 1) else hf_cost lev
  if lev < num_cv_lev then
    fact * sqrt (agg_var_hf lev / hf_lev_cost * (1 - avg_rho_dot2_LH lev))
  else fact * sqrt (agg_var_hf lev / hf_lev_cost)

/-- The estimator variance projected for the targets of a pass: the sum over
the levels of `agg_var_hf[lev] * Lambda[lev] / N_target(lev)`, with the factor
`1` in place of `Lambda[lev]` on the levels without a control variate. -/
def projected_estimator_variance (sqrt : α → α) (num_hf_lev num_cv_lev : Nat)
    (agg_var_hf hf_cost avg_rho_dot2_LH Lambda : Nat → α) (eps_sq_div_2 : α) : α :=
  ((List.range num_hf_lev).map
    (fun lev =>
      agg_var_hf lev * (if lev < num_cv_lev then Lambda lev else 1)
        / N_target sqrt num_cv_lev agg_var_hf hf_cost avg_rho_dot2_LH
            (sum_sqrt_var_cost sqrt num_hf_lev num_cv_lev agg_var_hf hf_cost avg_rho_dot2_LH
              Lambda)
            eps_sq_div_2 lev)).sum

end Recovery

/-! ### Orders and entries of the sum maps -/

/-- The orders (keys) of a sum map, in key order. -/
def ordersOf (m : IntRealMatrixMap) : List Int := m.map Prod.fst

/-- Two sum maps hold the same orders and, under each order, matrices with
equal entries. -/
def sameOrdersAndEntries (m m' : IntRealMatrixMap) : Prop :=
  m.map (fun e => (e.1, e.2.entry)) = m'.map (fun e => (e.1, e.2.entry))

/-- What the block `if (ord == active_ord) { ...; ++it; ord = ...; }` does to
the orders still ahead of an iterator: the first one is passed when it is the
active order. -/
def advanceOrders (active_ord : Int) : List Int → List Int
  | [] => []
  | k :: ks => if k = active_ord then ks else k :: ks

/-- The largest order of a collection of order lists, `0` when there is none. -/
def largestOrder (ms : List (List Int)) : Int :=
  (ms.map (fun ks => ks.foldr max 0)).foldr max 0

/-- Every list of orders is strictly ascending (as the keys of any `std::map`)
and holds orders `>= 1` only, all below `INT_MAX`: the orders that the `int`
counter `active_ord` reaches from `1` without overflow. -/
def OrdersFromOne (ms : List (List Int)) : Prop :=
  ∀ ks, ks ∈ ms → ks.Pairwise (fun a b => a < b) ∧ ∀ k, k ∈ ks → 1 ≤ k ∧ k < INT_MAX

/-- The orders of the two maps of the two-map `accumulate_mlcv_Qsums`. -/
def RefinedSums.orders (st : RefinedSums) : List (List Int) :=
  [ordersOf st.sum_Ql, ordersOf st.sum_Qlm1]

/-- The orders of the six maps of the paired accumulators. -/
def PairedSums.orders (st : PairedSums) : List (List Int) :=
  [ordersOf st.sum_L_shared, ordersOf st.sum_L_refined, ordersOf st.sum_H,
    ordersOf st.sum_LL, ordersOf st.sum_LH, ordersOf st.sum_HH]

/-- The orders of the sixteen maps of the sixteen-map `accumulate_mlcv_Qsums`. -/
def LevelSums.orders (st : LevelSums) : List (List Int) :=
  [ordersOf st.sum_Ll, ordersOf st.sum_Llm1, ordersOf st.sum_Ll_refined,
    ordersOf st.sum_Llm1_refined, ordersOf st.sum_Hl, ordersOf st.sum_Hlm1,
    ordersOf st.sum_Ll_Ll, ordersOf st.sum_Ll_Llm1, ordersOf st.sum_Llm1_Llm1,
    ordersOf st.sum_Hl_Ll, ordersOf st.sum_Hl_Llm1, ordersOf st.sum_Hlm1_Ll,
    ordersOf st.sum_Hlm1_Llm1, ordersOf st.sum_Hl_Hl, ordersOf st.sum_Hl_Hlm1,
    ordersOf st.sum_Hlm1_Hlm1]

/-- The orders still ahead of the two iterators of `QLoop2`. -/
def QLoop2.pending (s : QLoop2) : List (List Int) :=
  [ordersOf s.l1_it.rest, ordersOf s.l2_it.rest]

/-- The orders still ahead of the six iterators of `QLoop6`. -/
def QLoop6.pending (s : QLoop6) : List (List Int) :=
  [ordersOf s.ls_it.rest, ordersOf s.lr_it.rest, ordersOf s.h_it.rest,
    ordersOf s.ll_it.rest, ordersOf s.lh_it.rest, ordersOf s.hh_it.rest]

/-- The orders still ahead of the sixteen iterators of `QLoop16`. -/
def QLoop16.pending (s : QLoop16) : List (List Int) :=
  [ordersOf s.l1_it.rest, ordersOf s.l2_it.rest, ordersOf s.lr1_it.rest,
    ordersOf s.lr2_it.rest, ordersOf s.h1_it.rest, ordersOf s.h2_it.rest,
    ordersOf s.ll1_it.rest, ordersOf s.ll2_it.rest, ordersOf s.ll3_it.rest,
    ordersOf s.lh1_it.rest, ordersOf s.lh2_it.rest, ordersOf s.lh3_it.rest,
    ordersOf s.lh4_it.rest, ordersOf s.hh1_it.rest, ordersOf s.hh2_it.rest,
    ordersOf s.hh3_it.rest]

/-- Two sum maps that each hold a zero matrix under the single order `0`, with
zero counts: maps with an order outside `1..4`, the orders that
`initialize_mlcv_sums` creates. -/
def zeroKeySums : RefinedSums :=
  { sum_Ql := [(0, zeroMatrix 1 2)],
    sum_Qlm1 := [(0, zeroMatrix 1 2)],
    num_Q := fun _ => 0 }

/-! ## Accumulators: arithmetic and iterator lemmas -/

namespace Dbl

@[simp]
theorem fin_add_fin (x y : ℚ) : fin x + fin y = fin (x + y) := rfl
@[simp]
theorem fin_mul_fin (x y : ℚ) : fin x * fin y = fin (x * y) := rfl
@[simp]
theorem fin_sub_fin (x y : ℚ) : fin x - fin y = fin (x - y) := by
  show add (fin x) (neg (fin y)) = fin (x - y)
  simp [add, neg, sub_eq_add_neg]
@[simp]
theorem isfinite_fin (x : ℚ) : (fin x).isfinite = true := rfl
@[simp]
theorem isfinite_nan : nan.isfinite = false := rfl
@[simp]
theorem isfinite_pinf : pinf.isfinite = false := rfl
@[simp]
theorem isfinite_ninf : ninf.isfinite = false := rfl

theorem isfinite_iff (x : Dbl) : x.isfinite = true ↔ ∃ q, x = fin q := by
  cases x <;> simp [isfinite]

theorem not_isfinite_iff (x : Dbl) : x.isfinite = false ↔ x = nan ∨ x = pinf ∨ x = ninf := by
  cases x <;> simp [isfinite]

end Dbl

/-- Below `INT_MAX` the increment of the `int` counter is `+ 1`. -/
theorem int_incr_eq (a K : Int) (ha : 1 ≤ a) (hle : a ≤ K) (hK : K < INT_MAX) :
    int_incr a = a + 1 := by
  unfold int_incr
  unfold INT_MAX at hK
  omega

/-- The bound on the orders of a well-formed map is below `INT_MAX`. -/
theorem min_lt_INT_MAX (K : Int) : min K (INT_MAX - 1) < INT_MAX := by
  unfold INT_MAX
  omega

theorem whileLoop_of_inv {σ : Type} (cond : σ → Bool) (body : σ → σ) (Inv : σ → Prop)
    (μ : σ → Nat)
    (hstep : ∀ s, Inv s → cond s = true → Inv (body s) ∧ μ (body s) < μ s) :
    ∀ (fuel : Nat) (s : σ), Inv s → μ s ≤ fuel →
      ∃ s', whileLoop cond body fuel s = some s' ∧ Inv s' ∧ cond s' = false := by
  intro fuel
  induction fuel with
  | zero =>
    intro s hs hμ
    by_cases hc : cond s = true
    · have := (hstep s hs hc).2
      omega
    · simp only [Bool.not_eq_true] at hc
      exact ⟨s, by simp [whileLoop, hc], hs, hc⟩
  | succ fuel ih =>
    intro s hs hμ
    by_cases hc : cond s = true
    · obtain ⟨hi, hlt⟩ := hstep s hs hc
      obtain ⟨s', h1, h2, h3⟩ := ih (body s) hi (by omega)
      exact ⟨s', by simp [whileLoop, hc, h1], h2, h3⟩
    · simp only [Bool.not_eq_true] at hc
      exact ⟨s, by simp [whileLoop, hc], hs, hc⟩

namespace MapIter

theorem atEnd_iff (it : MapIter) : it.atEnd = true ↔ it.rest = [] := by
  simp [atEnd]

theorem toMap_of_atEnd (f : Int → Dbl) (qoi lev : Nat) (it : MapIter) (h : it.atEnd = true) :
    it.toMap = it.target f qoi lev := by
  have := (atEnd_iff it).mp h
  simp [toMap, target, grow, this]

theorem target_start (f : Int → Dbl) (qoi lev : Nat) (m : IntRealMatrixMap) :
    (start m).target f qoi lev = grow f qoi lev m := by
  simp [target, start]

/-- Everything a loop pass needs to know about one `visit`. -/
theorem visit_facts (a K : Int) (qoi lev : Nat) (inc : Dbl) (it : MapIter)
    (hr : it.Ready a K) (ha : 1 ≤ a) (hK : K < INT_MAX) :
    (it.visit a qoi lev inc).Ready (int_incr a) K ∧
    ((it.visit a qoi lev inc).ord ≠ 0 ↔ (it.visit a qoi lev inc).atEnd = false) ∧
    ((it.visit a qoi lev inc).atEnd = false → it.atEnd = false) ∧
    (it.atEnd = false → a ≤ K) ∧
    (∀ f : Int → Dbl, (it.atEnd = false → inc = f a) →
      (it.visit a qoi lev inc).target f qoi lev = it.target f qoi lev) := by
  obtain ⟨done, rest⟩ := it
  cases rest with
  | nil =>
    refine ⟨?_, ?_, ?_, ?_, ?_⟩
    · simp [visit, Ready]
    · simp [visit, ord, atEnd]
    · simp [visit, atEnd]
    · simp [atEnd]
    · intro f _; simp [visit]
  | cons e r =>
    obtain ⟨hp, hb⟩ := hr
    simp only [List.pairwise_cons] at hp
    have he := hb e (List.mem_cons_self _ _)
    rw [int_incr_eq a K ha (by omega) hK]
    by_cases hk : e.1 = a
    · have hv : visit ⟨done, e :: r⟩ a qoi lev inc
          = ⟨done ++ [(e.1, e.2.addAt qoi lev inc)], r⟩ := by
        simp [visit, hk]
      rw [hv]
      have hr' : ∀ e' ∈ r, a + 1 ≤ e'.1 ∧ e'.1 ≤ K := by
        intro e' he'
        have h1 := hp.1 e' he'
        have h2 := hb e' (List.mem_cons_of_mem _ he')
        exact ⟨by omega, h2.2⟩
      refine ⟨⟨hp.2, hr'⟩, ?_, ?_, ?_, ?_⟩
      · cases r with
        | nil => simp [ord, atEnd]
        | cons e' r' =>
          have := (hr' e' (List.mem_cons_self _ _)).1
          simp only [ord, atEnd, List.isEmpty_cons, ne_eq, iff_true]
          omega
      · intro _; simp [atEnd]
      · intro _; omega
      · intro f hf
        have := hf (by simp [atEnd])
        simp [target, grow, this, hk]
    · have hv : visit ⟨done, e :: r⟩ a qoi lev inc = ⟨done, e :: r⟩ := by
        simp [visit, hk]
      rw [hv]
      refine ⟨⟨List.pairwise_cons.mpr hp, ?_⟩, ?_, ?_, ?_, ?_⟩
      · intro e' he'
        have h2 := hb e' he'
        rcases List.mem_cons.mp he' with h | h
        · subst h
          exact ⟨by omega, h2.2⟩
        · have h1 := hp.1 e' h
          exact ⟨by omega, h2.2⟩
      · simp only [ord, atEnd, List.isEmpty_cons, ne_eq, iff_true]
        omega
      · intro h; exact h
      · intro _; omega
      · intro f _; rfl

theorem Ready_grow_start (K : Nat) (f : Int → Dbl) (qoi lev : Nat) (m : IntRealMatrixMap)
    (h : MapWF K m) : MapWF K (grow f qoi lev m) := by
  unfold MapWF Ready start grow at *
  simp only at h ⊢
  obtain ⟨hp, hb⟩ := h
  refine ⟨?_, ?_⟩
  · rw [List.pairwise_map]
    exact hp
  · intro e he
    obtain ⟨e0, he0, rfl⟩ := List.mem_map.mp he
    exact hb e0 he0

end MapIter

theorem pow_toNat_succ (x : ℚ) (a : Int) (ha : 1 ≤ a) :
    x ^ (a + 1).toNat = x ^ a.toNat * x := by
  have : (a + 1).toNat = a.toNat + 1 := by omega
  rw [this, pow_succ]

/-! ## The synchronised inner loops -/

theorem MlQLoop_step_inv (q : ℚ) (qoi lev : Nat) (K : Int) (st : QSums) (s : MlQLoop)
    (hinv : MlQLoop.Inv q qoi lev K st s) (hc : s.cond = true)
    (hK : K < INT_MAX) :
    MlQLoop.Inv q qoi lev K st (MlQLoop.body qoi lev (Dbl.fin q) s) ∧
    (K + 1 - (MlQLoop.body qoi lev (Dbl.fin q) s).active_ord).toNat
      < (K + 1 - s.active_ord).toNat := by
  obtain ⟨ha, r1, t1, p1⟩ := hinv
  obtain ⟨a1, b1, c1, d1, e1⟩ :=
    MapIter.visit_facts s.active_ord K qoi lev s.q_l_prod _ r1 ha hK
  have hle : s.active_ord ≤ K := by
    simp only [MlQLoop.cond, Bool.or_eq_true, Bool.not_eq_true'] at hc
    exact d1 hc
  have hinc : int_incr s.active_ord = s.active_ord + 1 :=
    int_incr_eq _ K ha hle hK
  refine ⟨⟨by simp only [MlQLoop.body, hinc]; omega, a1,
    ?_, ?_⟩, ?_⟩
  · refine (e1 _ (fun hne => ?_)).trans t1
    rw [p1]
    simp [powInc, prodInc, diffInc, diffProdInc]
  · simp only [MlQLoop.body, hinc]
    rw [p1, pow_toNat_succ q _ ha]
    rfl
  · simp only [MlQLoop.body, hinc]
    omega

theorem MlQLoop_init_inv (q : ℚ) (qoi lev K : Nat) (st : QSums) (hwf : st.WF K) :
    MlQLoop.Inv q qoi lev (min (K : Int) (INT_MAX - 1)) st (MlQLoop.init st (Dbl.fin q)) := by
  have w1 := hwf
  refine ⟨le_rfl, w1, ?_, ?_⟩
  · simp only [MlQLoop.init, MapIter.target_start, and_self]
  · simp [MlQLoop.init]

/-- The inner loop of `accumulate_ml_Qsums` on an included sample: it ends
within `K` passes and leaves every map grown by its increment. -/
theorem MlQLoop_run (q : ℚ) (qoi lev K fuel : Nat) (st : QSums) (hwf : st.WF K)
    (hfuel : K ≤ fuel) :
    (whileLoop MlQLoop.cond (MlQLoop.body qoi lev (Dbl.fin q)) fuel
        (MlQLoop.init st (Dbl.fin q))).map (MlQLoop.finish st qoi)
      = some (st.addQ qoi lev q) := by
  obtain ⟨s', hrun, hinv, hc⟩ :=
    whileLoop_of_inv MlQLoop.cond (MlQLoop.body qoi lev (Dbl.fin q))
      (MlQLoop.Inv q qoi lev (min (K : Int) (INT_MAX - 1)) st)
      (fun s => (min (K : Int) (INT_MAX - 1) + 1 - s.active_ord).toNat)
      (fun s hs hcs => MlQLoop_step_inv q qoi lev (min (K : Int) (INT_MAX - 1)) st s hs hcs
        (min_lt_INT_MAX _)) fuel
      (MlQLoop.init st (Dbl.fin q)) (MlQLoop_init_inv q qoi lev K st hwf)
      (by simp only [MlQLoop.init, INT_MAX]; omega)
  obtain ⟨_, _, t1, _⟩ := hinv
  simp only [MlQLoop.cond, Bool.not_eq_false'] at hc
  have c1 := hc
  rw [hrun]
  simp only [Option.map_some', MlQLoop.finish, QSums.addQ,
    MapIter.toMap_of_atEnd (powInc q) qoi lev _ c1,
    t1]

theorem QLoop2_step_inv (q qm1 : ℚ) (qoi lev : Nat) (K : Int) (st : RefinedSums) (s : QLoop2)
    (hinv : QLoop2.Inv q qm1 qoi lev K st s) (hc : s.cond = true)
    (hK : K < INT_MAX) :
    QLoop2.Inv q qm1 qoi lev K st (QLoop2.body qoi lev (Dbl.fin q) (Dbl.fin qm1) s) ∧
    (K + 1 - (QLoop2.body qoi lev (Dbl.fin q) (Dbl.fin qm1) s).active_ord).toNat
      < (K + 1 - s.active_ord).toNat := by
  obtain ⟨ha, ⟨r1, r2⟩, ⟨t1, t2⟩, p1, p2⟩ := hinv
  obtain ⟨a1, b1, c1, d1, e1⟩ :=
    MapIter.visit_facts s.active_ord K qoi lev s.q_l_prod _ r1 ha hK
  obtain ⟨a2, b2, c2, d2, e2⟩ :=
    MapIter.visit_facts s.active_ord K qoi lev s.q_lm1_prod _ r2 ha hK
  have hle : s.active_ord ≤ K := by
    simp only [QLoop2.cond, Bool.or_eq_true, Bool.not_eq_true'] at hc
    rcases hc with hc | hc
    · exact d1 hc
    · exact d2 hc
  have hinc : int_incr s.active_ord = s.active_ord + 1 :=
    int_incr_eq _ K ha hle hK
  refine ⟨⟨by simp only [QLoop2.body, hinc]; omega, ⟨a1, a2⟩,
    ⟨?_, ?_⟩, ?_, ?_⟩, ?_⟩
  · refine (e1 _ (fun hne => ?_)).trans t1
    rw [p1]
    simp [powInc, prodInc, diffInc, diffProdInc]
  · refine (e2 _ (fun hne => ?_)).trans t2
    rw [p2]
    simp [powInc, prodInc, diffInc, diffProdInc]
  · simp only [QLoop2.body, hinc]
    rw [p1, pow_toNat_succ q _ ha]
    rfl
  · simp only [QLoop2.body, hinc]
    rw [p2, pow_toNat_succ qm1 _ ha]
    rfl
  · simp only [QLoop2.body, hinc]
    omega

theorem QLoop2_init_inv (q qm1 : ℚ) (qoi lev K : Nat) (st : RefinedSums) (hwf : st.WF K) :
    QLoop2.Inv q qm1 qoi lev (min (K : Int) (INT_MAX - 1)) st (QLoop2.init st (Dbl.fin q) (Dbl.fin qm1)) := by
  obtain ⟨w1, w2⟩ := hwf
  refine ⟨le_rfl, ⟨w1, w2⟩, ?_, ?_, ?_⟩
  · simp only [QLoop2.init, MapIter.target_start, and_self]
  · simp [QLoop2.init]
  · simp [QLoop2.init]

/-- The inner loop of the two-map `accumulate_mlcv_Qsums` on an included sample: it ends
within `K` passes and leaves every map grown by its increment. -/
theorem QLoop2_run (q qm1 : ℚ) (qoi lev K fuel : Nat) (st : RefinedSums) (hwf : st.WF K)
    (hfuel : K ≤ fuel) :
    (whileLoop QLoop2.cond (QLoop2.body qoi lev (Dbl.fin q) (Dbl.fin qm1)) fuel
        (QLoop2.init st (Dbl.fin q) (Dbl.fin qm1))).map (QLoop2.finish st qoi)
      = some (st.addQ qoi lev q qm1) := by
  obtain ⟨s', hrun, hinv, hc⟩ :=
    whileLoop_of_inv QLoop2.cond (QLoop2.body qoi lev (Dbl.fin q) (Dbl.fin qm1))
      (QLoop2.Inv q qm1 qoi lev (min (K : Int) (INT_MAX - 1)) st)
      (fun s => (min (K : Int) (INT_MAX - 1) + 1 - s.active_ord).toNat)
      (fun s hs hcs => QLoop2_step_inv q qm1 qoi lev (min (K : Int) (INT_MAX - 1)) st s hs hcs
        (min_lt_INT_MAX _)) fuel
      (QLoop2.init st (Dbl.fin q) (Dbl.fin qm1)) (QLoop2_init_inv q qm1 qoi lev K st hwf)
      (by simp only [QLoop2.init, INT_MAX]; omega)
  obtain ⟨_, _, ⟨t1, t2⟩, _, _⟩ := hinv
  simp only [QLoop2.cond, Bool.or_eq_false_iff, Bool.not_eq_false'] at hc
  obtain ⟨c1, c2⟩ := hc
  rw [hrun]
  simp only [Option.map_some', QLoop2.finish, RefinedSums.addQ,
    MapIter.toMap_of_atEnd (powInc q) qoi lev _ c1,
    MapIter.toMap_of_atEnd (powInc qm1) qoi lev _ c2,
    t1, t2]

theorem YLoop1_step_inv (q qm1 : ℚ) (qoi lev : Nat) (K : Int) (st : YSums) (s : YLoop1)
    (hinv : YLoop1.Inv q qm1 qoi lev K st s) (hc : s.cond = true)
    (hK : K < INT_MAX) :
    YLoop1.Inv q qm1 qoi lev K st (YLoop1.body qoi lev (Dbl.fin q) (Dbl.fin qm1) s) ∧
    (K + 1 - (YLoop1.body qoi lev (Dbl.fin q) (Dbl.fin qm1) s).active_ord).toNat
      < (K + 1 - s.active_ord).toNat := by
  obtain ⟨ha, r1, t1, p1, p2⟩ := hinv
  obtain ⟨a1, b1, c1, d1, e1⟩ :=
    MapIter.visit_facts s.active_ord K qoi lev (s.prod_l - s.prod_lm1) _ r1 ha hK
  have hle : s.active_ord ≤ K := by
    simp only [YLoop1.cond, Bool.or_eq_true, Bool.not_eq_true'] at hc
    exact d1 hc
  have hinc : int_incr s.active_ord = s.active_ord + 1 :=
    int_incr_eq _ K ha hle hK
  refine ⟨⟨by simp only [YLoop1.body, hinc]; omega, a1,
    ?_, ?_, ?_⟩, ?_⟩
  · refine (e1 _ (fun hne => ?_)).trans t1
    rw [p1, p2]
    simp [powInc, prodInc, diffInc, diffProdInc]
  · simp only [YLoop1.body, hinc]
    rw [p1, pow_toNat_succ q _ ha]
    rfl
  · simp only [YLoop1.body, hinc]
    rw [p2, pow_toNat_succ qm1 _ ha]
    rfl
  · simp only [YLoop1.body, hinc]
    omega

theorem YLoop1_init_inv (q qm1 : ℚ) (qoi lev K : Nat) (st : YSums) (hwf : st.WF K) :
    YLoop1.Inv q qm1 qoi lev (min (K : Int) (INT_MAX - 1)) st (YLoop1.init st (Dbl.fin q) (Dbl.fin qm1)) := by
  have w1 := hwf
  refine ⟨le_rfl, w1, ?_, ?_, ?_⟩
  · simp only [YLoop1.init, MapIter.target_start, and_self]
  · simp [YLoop1.init]
  · simp [YLoop1.init]

/-- The inner loop of the one-map `accumulate_mlcv_Ysums` on an included sample: it ends
within `K` passes and leaves every map grown by its increment. -/
theorem YLoop1_run (q qm1 : ℚ) (qoi lev K fuel : Nat) (st : YSums) (hwf : st.WF K)
    (hfuel : K ≤ fuel) :
    (whileLoop YLoop1.cond (YLoop1.body qoi lev (Dbl.fin q) (Dbl.fin qm1)) fuel
        (YLoop1.init st (Dbl.fin q) (Dbl.fin qm1))).map (YLoop1.finish st qoi)
      = some (st.addY qoi lev q qm1) := by
  obtain ⟨s', hrun, hinv, hc⟩ :=
    whileLoop_of_inv YLoop1.cond (YLoop1.body qoi lev (Dbl.fin q) (Dbl.fin qm1))
      (YLoop1.Inv q qm1 qoi lev (min (K : Int) (INT_MAX - 1)) st)
      (fun s => (min (K : Int) (INT_MAX - 1) + 1 - s.active_ord).toNat)
      (fun s hs hcs => YLoop1_step_inv q qm1 qoi lev (min (K : Int) (INT_MAX - 1)) st s hs hcs
        (min_lt_INT_MAX _)) fuel
      (YLoop1.init st (Dbl.fin q) (Dbl.fin qm1)) (YLoop1_init_inv q qm1 qoi lev K st hwf)
      (by simp only [YLoop1.init, INT_MAX]; omega)
  obtain ⟨_, _, t1, _, _⟩ := hinv
  simp only [YLoop1.cond, Bool.not_eq_false'] at hc
  have c1 := hc
  rw [hrun]
  simp only [Option.map_some', YLoop1.finish, YSums.addY,
    MapIter.toMap_of_atEnd (diffInc q qm1) qoi lev _ c1,
    t1]

theorem QLoop6_step_inv (l h : ℚ) (qoi lev : Nat) (K : Int) (st : PairedSums) (s : QLoop6)
    (hinv : QLoop6.Inv l h qoi lev K st s) (hc : s.cond = true)
    (hK : K < INT_MAX) :
    QLoop6.Inv l h qoi lev K st (QLoop6.body qoi lev (Dbl.fin l) (Dbl.fin h) s) ∧
    (K + 1 - (QLoop6.body qoi lev (Dbl.fin l) (Dbl.fin h) s).active_ord).toNat
      < (K + 1 - s.active_ord).toNat := by
  obtain ⟨ha, ⟨r1, r2, r3, r4, r5, r6⟩, ⟨t1, t2, t3, t4, t5, t6⟩, p1, p2⟩ := hinv
  obtain ⟨a1, b1, c1, d1, e1⟩ :=
    MapIter.visit_facts s.active_ord K qoi lev s.lf_l_prod _ r1 ha hK
  obtain ⟨a2, b2, c2, d2, e2⟩ :=
    MapIter.visit_facts s.active_ord K qoi lev s.lf_l_prod _ r2 ha hK
  obtain ⟨a3, b3, c3, d3, e3⟩ :=
    MapIter.visit_facts s.active_ord K qoi lev s.hf_l_prod _ r3 ha hK
  obtain ⟨a4, b4, c4, d4, e4⟩ :=
    MapIter.visit_facts s.active_ord K qoi lev (s.lf_l_prod * s.lf_l_prod) _ r4 ha hK
  obtain ⟨a5, b5, c5, d5, e5⟩ :=
    MapIter.visit_facts s.active_ord K qoi lev (s.lf_l_prod * s.hf_l_prod) _ r5 ha hK
  obtain ⟨a6, b6, c6, d6, e6⟩ :=
    MapIter.visit_facts s.active_ord K qoi lev (s.hf_l_prod * s.hf_l_prod) _ r6 ha hK
  have hle : s.active_ord ≤ K := by
    simp only [QLoop6.cond, Bool.or_eq_true, Bool.not_eq_true'] at hc
    rcases hc with ((((hc | hc) | hc) | hc) | hc) | hc
    · exact d1 hc
    · exact d2 hc
    · exact d3 hc
    · exact d4 hc
    · exact d5 hc
    · exact d6 hc
  have hinc : int_incr s.active_ord = s.active_ord + 1 :=
    int_incr_eq _ K ha hle hK
  refine ⟨⟨by simp only [QLoop6.body, hinc]; omega, ⟨a1, a2, a3, a4, a5, a6⟩,
    ⟨?_, ?_, ?_, ?_, ?_, ?_⟩, ?_, ?_⟩, ?_⟩
  · refine (e1 _ (fun hne => ?_)).trans t1
    rw [p1 (Or.inl hne)]
    simp [powInc, prodInc, diffInc, diffProdInc]
  · refine (e2 _ (fun hne => ?_)).trans t2
    rw [p1 (Or.inr (Or.inl hne))]
    simp [powInc, prodInc, diffInc, diffProdInc]
  · refine (e3 _ (fun hne => ?_)).trans t3
    rw [p2 (Or.inl hne)]
    simp [powInc, prodInc, diffInc, diffProdInc]
  · refine (e4 _ (fun hne => ?_)).trans t4
    rw [p1 (Or.inr (Or.inr (Or.inl hne)))]
    simp [powInc, prodInc, diffInc, diffProdInc]
  · refine (e5 _ (fun hne => ?_)).trans t5
    rw [p1 (Or.inr (Or.inr (Or.inr hne))), p2 (Or.inr (Or.inl hne))]
    simp [powInc, prodInc, diffInc, diffProdInc]
  · refine (e6 _ (fun hne => ?_)).trans t6
    rw [p2 (Or.inr (Or.inr hne))]
    simp [powInc, prodInc, diffInc, diffProdInc]
  · intro hor
    have hold : s.lf_l_prod = Dbl.fin (l ^ s.active_ord.toNat) := by
      apply p1
      rcases hor with hh | hh | hh | hh
      · exact Or.inl (c1 hh)
      · exact Or.inr (Or.inl (c2 hh))
      · exact Or.inr (Or.inr (Or.inl (c4 hh)))
      · exact Or.inr (Or.inr (Or.inr ((c5 hh))))
    have hcond :
        (s.ls_it.visit s.active_ord qoi lev s.lf_l_prod).ord ≠ 0 ∨
        (s.lr_it.visit s.active_ord qoi lev s.lf_l_prod).ord ≠ 0 ∨
        (s.ll_it.visit s.active_ord qoi lev (s.lf_l_prod * s.lf_l_prod)).ord ≠ 0 ∨
        (s.lh_it.visit s.active_ord qoi lev (s.lf_l_prod * s.hf_l_prod)).ord ≠ 0 := by
      rw [b1, b2, b4, b5]
      exact hor
    simp only [QLoop6.body, hinc, if_pos hcond]
    rw [hold, pow_toNat_succ l _ ha]
    rfl
  · intro hor
    have hold : s.hf_l_prod = Dbl.fin (h ^ s.active_ord.toNat) := by
      apply p2
      rcases hor with hh | hh | hh
      · exact Or.inl (c3 hh)
      · exact Or.inr (Or.inl (c5 hh))
      · exact Or.inr (Or.inr ((c6 hh)))
    have hcond :
        (s.h_it.visit s.active_ord qoi lev s.hf_l_prod).ord ≠ 0 ∨
        (s.lh_it.visit s.active_ord qoi lev (s.lf_l_prod * s.hf_l_prod)).ord ≠ 0 ∨
        (s.hh_it.visit s.active_ord qoi lev (s.hf_l_prod * s.hf_l_prod)).ord ≠ 0 := by
      rw [b3, b5, b6]
      exact hor
    simp only [QLoop6.body, hinc, if_pos hcond]
    rw [hold, pow_toNat_succ h _ ha]
    rfl
  · simp only [QLoop6.body, hinc]
    omega

theorem QLoop6_init_inv (l h : ℚ) (qoi lev K : Nat) (st : PairedSums) (hwf : st.WF K) :
    QLoop6.Inv l h qoi lev (min (K : Int) (INT_MAX - 1)) st (QLoop6.init st (Dbl.fin l) (Dbl.fin h)) := by
  obtain ⟨w1, w2, w3, w4, w5, w6⟩ := hwf
  refine ⟨le_rfl, ⟨w1, w2, w3, w4, w5, w6⟩, ?_, ?_, ?_⟩
  · simp only [QLoop6.init, MapIter.target_start, and_self]
  · intro _; simp [QLoop6.init]
  · intro _; simp [QLoop6.init]

/-- The inner loop of the six-map `accumulate_mlcv_Qsums` on an included sample: it ends
within `K` passes and leaves every map grown by its increment. -/
theorem QLoop6_run (l h : ℚ) (qoi lev K fuel : Nat) (st : PairedSums) (hwf : st.WF K)
    (hfuel : K ≤ fuel) :
    (whileLoop QLoop6.cond (QLoop6.body qoi lev (Dbl.fin l) (Dbl.fin h)) fuel
        (QLoop6.init st (Dbl.fin l) (Dbl.fin h))).map (QLoop6.finish st qoi)
      = some (st.addQ qoi lev l h) := by
  obtain ⟨s', hrun, hinv, hc⟩ :=
    whileLoop_of_inv QLoop6.cond (QLoop6.body qoi lev (Dbl.fin l) (Dbl.fin h))
      (QLoop6.Inv l h qoi lev (min (K : Int) (INT_MAX - 1)) st)
      (fun s => (min (K : Int) (INT_MAX - 1) + 1 - s.active_ord).toNat)
      (fun s hs hcs => QLoop6_step_inv l h qoi lev (min (K : Int) (INT_MAX - 1)) st s hs hcs
        (min_lt_INT_MAX _)) fuel
      (QLoop6.init st (Dbl.fin l) (Dbl.fin h)) (QLoop6_init_inv l h qoi lev K st hwf)
      (by simp only [QLoop6.init, INT_MAX]; omega)
  obtain ⟨_, _, ⟨t1, t2, t3, t4, t5, t6⟩, _, _⟩ := hinv
  simp only [QLoop6.cond, Bool.or_eq_false_iff, Bool.not_eq_false'] at hc
  obtain ⟨⟨⟨⟨⟨c1, c2⟩, c3⟩, c4⟩, c5⟩, c6⟩ := hc
  rw [hrun]
  simp only [Option.map_some', QLoop6.finish, PairedSums.addQ,
    MapIter.toMap_of_atEnd (powInc l) qoi lev _ c1,
    MapIter.toMap_of_atEnd (powInc l) qoi lev _ c2,
    MapIter.toMap_of_atEnd (powInc h) qoi lev _ c3,
    MapIter.toMap_of_atEnd (prodInc l l) qoi lev _ c4,
    MapIter.toMap_of_atEnd (prodInc l h) qoi lev _ c5,
    MapIter.toMap_of_atEnd (prodInc h h) qoi lev _ c6,
    t1, t2, t3, t4, t5, t6]

theorem YLoop6_step_inv (l lm1 h hm1 : ℚ) (qoi lev : Nat) (K : Int) (st : PairedSums) (s : YLoop6)
    (hinv : YLoop6.Inv l lm1 h hm1 qoi lev K st s) (hc : s.cond = true)
    (hK : K < INT_MAX) :
    YLoop6.Inv l lm1 h hm1 qoi lev K st (YLoop6.body qoi lev (Dbl.fin l) (Dbl.fin lm1) (Dbl.fin h) (Dbl.fin hm1) s) ∧
    (K + 1 - (YLoop6.body qoi lev (Dbl.fin l) (Dbl.fin lm1) (Dbl.fin h) (Dbl.fin hm1) s).active_ord).toNat
      < (K + 1 - s.active_ord).toNat := by
  obtain ⟨ha, ⟨r1, r2, r3, r4, r5, r6⟩, ⟨t1, t2, t3, t4, t5, t6⟩, p1, p2, p3, p4⟩ := hinv
  obtain ⟨a1, b1, c1, d1, e1⟩ :=
    MapIter.visit_facts s.active_ord K qoi lev (s.lf_l_prod - s.lf_lm1_prod) _ r1 ha hK
  obtain ⟨a2, b2, c2, d2, e2⟩ :=
    MapIter.visit_facts s.active_ord K qoi lev (s.lf_l_prod - s.lf_lm1_prod) _ r2 ha hK
  obtain ⟨a3, b3, c3, d3, e3⟩ :=
    MapIter.visit_facts s.active_ord K qoi lev (s.hf_l_prod - s.hf_lm1_prod) _ r3 ha hK
  obtain ⟨a4, b4, c4, d4, e4⟩ :=
    MapIter.visit_facts s.active_ord K qoi lev ((s.lf_l_prod - s.lf_lm1_prod) * (s.lf_l_prod - s.lf_lm1_prod)) _ r4 ha hK
  obtain ⟨a5, b5, c5, d5, e5⟩ :=
    MapIter.visit_facts s.active_ord K qoi lev ((s.lf_l_prod - s.lf_lm1_prod) * (s.hf_l_prod - s.hf_lm1_prod)) _ r5 ha hK
  obtain ⟨a6, b6, c6, d6, e6⟩ :=
    MapIter.visit_facts s.active_ord K qoi lev ((s.hf_l_prod - s.hf_lm1_prod) * (s.hf_l_prod - s.hf_lm1_prod)) _ r6 ha hK
  have hle : s.active_ord ≤ K := by
    simp only [YLoop6.cond, Bool.or_eq_true, Bool.not_eq_true'] at hc
    rcases hc with ((((hc | hc) | hc) | hc) | hc) | hc
    · exact d1 hc
    · exact d2 hc
    · exact d3 hc
    · exact d4 hc
    · exact d5 hc
    · exact d6 hc
  have hinc : int_incr s.active_ord = s.active_ord + 1 :=
    int_incr_eq _ K ha hle hK
  refine ⟨⟨by simp only [YLoop6.body, hinc]; omega, ⟨a1, a2, a3, a4, a5, a6⟩,
    ⟨?_, ?_, ?_, ?_, ?_, ?_⟩, ?_, ?_, ?_, ?_⟩, ?_⟩
  · refine (e1 _ (fun hne => ?_)).trans t1
    rw [p1 (Or.inl hne), p2 (Or.inl hne)]
    simp [powInc, prodInc, diffInc, diffProdInc]
  · refine (e2 _ (fun hne => ?_)).trans t2
    rw [p1 (Or.inr (Or.inl hne)), p2 (Or.inr (Or.inl hne))]
    simp [powInc, prodInc, diffInc, diffProdInc]
  · refine (e3 _ (fun hne => ?_)).trans t3
    rw [p3 (Or.inl hne), p4 (Or.inl hne)]
    simp [powInc, prodInc, diffInc, diffProdInc]
  · refine (e4 _ (fun hne => ?_)).trans t4
    rw [p1 (Or.inr (Or.inr (Or.inl hne))), p2 (Or.inr (Or.inr (Or.inl hne)))]
    simp [powInc, prodInc, diffInc, diffProdInc]
  · refine (e5 _ (fun hne => ?_)).trans t5
    rw [p1 (Or.inr (Or.inr (Or.inr hne))), p2 (Or.inr (Or.inr (Or.inr hne))), p3 (Or.inr (Or.inl hne)), p4 (Or.inr (Or.inl hne))]
    simp [powInc, prodInc, diffInc, diffProdInc]
  · refine (e6 _ (fun hne => ?_)).trans t6
    rw [p3 (Or.inr (Or.inr hne)), p4 (Or.inr (Or.inr hne))]
    simp [powInc, prodInc, diffInc, diffProdInc]
  · intro hor
    have hold : s.lf_l_prod = Dbl.fin (l ^ s.active_ord.toNat) := by
      apply p1
      rcases hor with hh | hh | hh | hh
      · exact Or.inl (c1 hh)
      · exact Or.inr (Or.inl (c2 hh))
      · exact Or.inr (Or.inr (Or.inl (c4 hh)))
      · exact Or.inr (Or.inr (Or.inr ((c5 hh))))
    have hcond :
        (s.ls_it.visit s.active_ord qoi lev (s.lf_l_prod - s.lf_lm1_prod)).ord ≠ 0 ∨
        (s.lr_it.visit s.active_ord qoi lev (s.lf_l_prod - s.lf_lm1_prod)).ord ≠ 0 ∨
        (s.ll_it.visit s.active_ord qoi lev ((s.lf_l_prod - s.lf_lm1_prod) * (s.lf_l_prod - s.lf_lm1_prod))).ord ≠ 0 ∨
        (s.lh_it.visit s.active_ord qoi lev ((s.lf_l_prod - s.lf_lm1_prod) * (s.hf_l_prod - s.hf_lm1_prod))).ord ≠ 0 := by
      rw [b1, b2, b4, b5]
      exact hor
    simp only [YLoop6.body, hinc, if_pos hcond]
    rw [hold, pow_toNat_succ l _ ha]
    rfl
  · intro hor
    have hold : s.lf_lm1_prod = Dbl.fin (lm1 ^ s.active_ord.toNat) := by
      apply p2
      rcases hor with hh | hh | hh | hh
      · exact Or.inl (c1 hh)
      · exact Or.inr (Or.inl (c2 hh))
      · exact Or.inr (Or.inr (Or.inl (c4 hh)))
      · exact Or.inr (Or.inr (Or.inr ((c5 hh))))
    have hcond :
        (s.ls_it.visit s.active_ord qoi lev (s.lf_l_prod - s.lf_lm1_prod)).ord ≠ 0 ∨
        (s.lr_it.visit s.active_ord qoi lev (s.lf_l_prod - s.lf_lm1_prod)).ord ≠ 0 ∨
        (s.ll_it.visit s.active_ord qoi lev ((s.lf_l_prod - s.lf_lm1_prod) * (s.lf_l_prod - s.lf_lm1_prod))).ord ≠ 0 ∨
        (s.lh_it.visit s.active_ord qoi lev ((s.lf_l_prod - s.lf_lm1_prod) * (s.hf_l_prod - s.hf_lm1_prod))).ord ≠ 0 := by
      rw [b1, b2, b4, b5]
      exact hor
    simp only [YLoop6.body, hinc, if_pos hcond]
    rw [hold, pow_toNat_succ lm1 _ ha]
    rfl
  · intro hor
    have hold : s.hf_l_prod = Dbl.fin (h ^ s.active_ord.toNat) := by
      apply p3
      rcases hor with hh | hh | hh
      · exact Or.inl (c3 hh)
      · exact Or.inr (Or.inl (c5 hh))
      · exact Or.inr (Or.inr ((c6 hh)))
    have hcond :
        (s.h_it.visit s.active_ord qoi lev (s.hf_l_prod - s.hf_lm1_prod)).ord ≠ 0 ∨
        (s.lh_it.visit s.active_ord qoi lev ((s.lf_l_prod - s.lf_lm1_prod) * (s.hf_l_prod - s.hf_lm1_prod))).ord ≠ 0 ∨
        (s.hh_it.visit s.active_ord qoi lev ((s.hf_l_prod - s.hf_lm1_prod) * (s.hf_l_prod - s.hf_lm1_prod))).ord ≠ 0 := by
      rw [b3, b5, b6]
      exact hor
    simp only [YLoop6.body, hinc, if_pos hcond]
    rw [hold, pow_toNat_succ h _ ha]
    rfl
  · intro hor
    have hold : s.hf_lm1_prod = Dbl.fin (hm1 ^ s.active_ord.toNat) := by
      apply p4
      rcases hor with hh | hh | hh
      · exact Or.inl (c3 hh)
      · exact Or.inr (Or.inl (c5 hh))
      · exact Or.inr (Or.inr ((c6 hh)))
    have hcond :
        (s.h_it.visit s.active_ord qoi lev (s.hf_l_prod - s.hf_lm1_prod)).ord ≠ 0 ∨
        (s.lh_it.visit s.active_ord qoi lev ((s.lf_l_prod - s.lf_lm1_prod) * (s.hf_l_prod - s.hf_lm1_prod))).ord ≠ 0 ∨
        (s.hh_it.visit s.active_ord qoi lev ((s.hf_l_prod - s.hf_lm1_prod) * (s.hf_l_prod - s.hf_lm1_prod))).ord ≠ 0 := by
      rw [b3, b5, b6]
      exact hor
    simp only [YLoop6.body, hinc, if_pos hcond]
    rw [hold, pow_toNat_succ hm1 _ ha]
    rfl
  · simp only [YLoop6.body, hinc]
    omega

theorem YLoop6_init_inv (l lm1 h hm1 : ℚ) (qoi lev K : Nat) (st : PairedSums) (hwf : st.WF K) :
    YLoop6.Inv l lm1 h hm1 qoi lev (min (K : Int) (INT_MAX - 1)) st (YLoop6.init st (Dbl.fin l) (Dbl.fin lm1) (Dbl.fin h) (Dbl.fin hm1)) := by
  obtain ⟨w1, w2, w3, w4, w5, w6⟩ := hwf
  refine ⟨le_rfl, ⟨w1, w2, w3, w4, w5, w6⟩, ?_, ?_, ?_, ?_, ?_⟩
  · simp only [YLoop6.init, MapIter.target_start, and_self]
  · intro _; simp [YLoop6.init]
  · intro _; simp [YLoop6.init]
  · intro _; simp [YLoop6.init]
  · intro _; simp [YLoop6.init]

/-- The inner loop of the six-map `accumulate_mlcv_Ysums` on an included sample: it ends
within `K` passes and leaves every map grown by its increment. -/
theorem YLoop6_run (l lm1 h hm1 : ℚ) (qoi lev K fuel : Nat) (st : PairedSums) (hwf : st.WF K)
    (hfuel : K ≤ fuel) :
    (whileLoop YLoop6.cond (YLoop6.body qoi lev (Dbl.fin l) (Dbl.fin lm1) (Dbl.fin h) (Dbl.fin hm1)) fuel
        (YLoop6.init st (Dbl.fin l) (Dbl.fin lm1) (Dbl.fin h) (Dbl.fin hm1))).map (YLoop6.finish st qoi)
      = some (st.addY qoi lev l lm1 h hm1) := by
  obtain ⟨s', hrun, hinv, hc⟩ :=
    whileLoop_of_inv YLoop6.cond (YLoop6.body qoi lev (Dbl.fin l) (Dbl.fin lm1) (Dbl.fin h) (Dbl.fin hm1))
      (YLoop6.Inv l lm1 h hm1 qoi lev (min (K : Int) (INT_MAX - 1)) st)
      (fun s => (min (K : Int) (INT_MAX - 1) + 1 - s.active_ord).toNat)
      (fun s hs hcs => YLoop6_step_inv l lm1 h hm1 qoi lev (min (K : Int) (INT_MAX - 1)) st s hs hcs
        (min_lt_INT_MAX _)) fuel
      (YLoop6.init st (Dbl.fin l) (Dbl.fin lm1) (Dbl.fin h) (Dbl.fin hm1)) (YLoop6_init_inv l lm1 h hm1 qoi lev K st hwf)
      (by simp only [YLoop6.init, INT_MAX]; omega)
  obtain ⟨_, _, ⟨t1, t2, t3, t4, t5, t6⟩, _, _, _, _⟩ := hinv
  simp only [YLoop6.cond, Bool.or_eq_false_iff, Bool.not_eq_false'] at hc
  obtain ⟨⟨⟨⟨⟨c1, c2⟩, c3⟩, c4⟩, c5⟩, c6⟩ := hc
  rw [hrun]
  simp only [Option.map_some', YLoop6.finish, PairedSums.addY,
    MapIter.toMap_of_atEnd (diffInc l lm1) qoi lev _ c1,
    MapIter.toMap_of_atEnd (diffInc l lm1) qoi lev _ c2,
    MapIter.toMap_of_atEnd (diffInc h hm1) qoi lev _ c3,
    MapIter.toMap_of_atEnd (diffProdInc l lm1 l lm1) qoi lev _ c4,
    MapIter.toMap_of_atEnd (diffProdInc l lm1 h hm1) qoi lev _ c5,
    MapIter.toMap_of_atEnd (diffProdInc h hm1 h hm1) qoi lev _ c6,
    t1, t2, t3, t4, t5, t6]

theorem QLoop16_step_inv (l lm1 h hm1 : ℚ) (qoi lev : Nat) (K : Int) (st : LevelSums) (s : QLoop16)
    (hinv : QLoop16.Inv l lm1 h hm1 qoi lev K st s) (hc : s.cond = true)
    (hK : K < INT_MAX) :
    QLoop16.Inv l lm1 h hm1 qoi lev K st (QLoop16.body qoi lev (Dbl.fin l) (Dbl.fin lm1) (Dbl.fin h) (Dbl.fin hm1) s) ∧
    (K + 1 - (QLoop16.body qoi lev (Dbl.fin l) (Dbl.fin lm1) (Dbl.fin h) (Dbl.fin hm1) s).active_ord).toNat
      < (K + 1 - s.active_ord).toNat := by
  obtain ⟨ha, ⟨r1, r2, r3, r4, r5, r6, r7, r8, r9, r10, r11, r12, r13, r14, r15, r16⟩, ⟨t1, t2, t3, t4, t5, t6, t7, t8, t9, t10, t11, t12, t13, t14, t15, t16⟩, p1, p2, p3, p4⟩ := hinv
  obtain ⟨a1, b1, c1, d1, e1⟩ :=
    MapIter.visit_facts s.active_ord K qoi lev s.lf_l_prod _ r1 ha hK
  obtain ⟨a2, b2, c2, d2, e2⟩ :=
    MapIter.visit_facts s.active_ord K qoi lev s.lf_lm1_prod _ r2 ha hK
  obtain ⟨a3, b3, c3, d3, e3⟩ :=
    MapIter.visit_facts s.active_ord K qoi lev s.lf_l_prod _ r3 ha hK
  obtain ⟨a4, b4, c4, d4, e4⟩ :=
    MapIter.visit_facts s.active_ord K qoi lev s.lf_lm1_prod _ r4 ha hK
  obtain ⟨a5, b5, c5, d5, e5⟩ :=
    MapIter.visit_facts s.active_ord K qoi lev s.hf_l_prod _ r5 ha hK
  obtain ⟨a6, b6, c6, d6, e6⟩ :=
    MapIter.visit_facts s.active_ord K qoi lev s.hf_lm1_prod _ r6 ha hK
  obtain ⟨a7, b7, c7, d7, e7⟩ :=
    MapIter.visit_facts s.active_ord K qoi lev (s.lf_l_prod * s.lf_l_prod) _ r7 ha hK
  obtain ⟨a8, b8, c8, d8, e8⟩ :=
    MapIter.visit_facts s.active_ord K qoi lev (s.lf_l_prod * s.lf_lm1_prod) _ r8 ha hK
  obtain ⟨a9, b9, c9, d9, e9⟩ :=
    MapIter.visit_facts s.active_ord K qoi lev (s.lf_lm1_prod * s.lf_lm1_prod) _ r9 ha hK
  obtain ⟨a10, b10, c10, d10, e10⟩ :=
    MapIter.visit_facts s.active_ord K qoi lev (s.hf_l_prod * s.lf_l_prod) _ r10 ha hK
  obtain ⟨a11, b11, c11, d11, e11⟩ :=
    MapIter.visit_facts s.active_ord K qoi lev (s.hf_l_prod * s.lf_lm1_prod) _ r11 ha hK
  obtain ⟨a12, b12, c12, d12, e12⟩ :=
    MapIter.visit_facts s.active_ord K qoi lev (s.hf_lm1_prod * s.lf_l_prod) _ r12 ha hK
  obtain ⟨a13, b13, c13, d13, e13⟩ :=
    MapIter.visit_facts s.active_ord K qoi lev (s.hf_lm1_prod * s.lf_lm1_prod) _ r13 ha hK
  obtain ⟨a14, b14, c14, d14, e14⟩ :=
    MapIter.visit_facts s.active_ord K qoi lev (s.hf_l_prod * s.hf_l_prod) _ r14 ha hK
  obtain ⟨a15, b15, c15, d15, e15⟩ :=
    MapIter.visit_facts s.active_ord K qoi lev (s.hf_l_prod * s.hf_lm1_prod) _ r15 ha hK
  obtain ⟨a16, b16, c16, d16, e16⟩ :=
    MapIter.visit_facts s.active_ord K qoi lev (s.hf_lm1_prod * s.hf_lm1_prod) _ r16 ha hK
  have hle : s.active_ord ≤ K := by
    simp only [QLoop16.cond, Bool.or_eq_true, Bool.not_eq_true'] at hc
    rcases hc with ((((((((((((((hc | hc) | hc) | hc) | hc) | hc) | hc) | hc) | hc) | hc) | hc) | hc) | hc) | hc) | hc) | hc
    · exact d1 hc
    · exact d2 hc
    · exact d3 hc
    · exact d4 hc
    · exact d5 hc
    · exact d6 hc
    · exact d7 hc
    · exact d8 hc
    · exact d9 hc
    · exact d10 hc
    · exact d11 hc
    · exact d12 hc
    · exact d13 hc
    · exact d14 hc
    · exact d15 hc
    · exact d16 hc
  have hinc : int_incr s.active_ord = s.active_ord + 1 :=
    int_incr_eq _ K ha hle hK
  refine ⟨⟨by simp only [QLoop16.body, hinc]; omega, ⟨a1, a2, a3, a4, a5, a6, a7, a8, a9, a10, a11, a12, a13, a14, a15, a16⟩,
    ⟨?_, ?_, ?_, ?_, ?_, ?_, ?_, ?_, ?_, ?_, ?_, ?_, ?_, ?_, ?_, ?_⟩, ?_, ?_, ?_, ?_⟩, ?_⟩
  · refine (e1 _ (fun hne => ?_)).trans t1
    rw [p1 (Or.inl hne)]
    simp [powInc, prodInc, diffInc, diffProdInc]
  · refine (e2 _ (fun hne => ?_)).trans t2
    rw [p2 (Or.inl hne)]
    simp [powInc, prodInc, diffInc, diffProdInc]
  · refine (e3 _ (fun hne => ?_)).trans t3
    rw [p1 (Or.inr (Or.inl hne))]
    simp [powInc, prodInc, diffInc, diffProdInc]
  · refine (e4 _ (fun hne => ?_)).trans t4
    rw [p2 (Or.inr (Or.inl hne))]
    simp [powInc, prodInc, diffInc, diffProdInc]
  · refine (e5 _ (fun hne => ?_)).trans t5
    rw [p3 (Or.inl hne)]
    simp [powInc, prodInc, diffInc, diffProdInc]
  · refine (e6 _ (fun hne => ?_)).trans t6
    rw [p4 (Or.inl hne)]
    simp [powInc, prodInc, diffInc, diffProdInc]
  · refine (e7 _ (fun hne => ?_)).trans t7
    rw [p1 (Or.inr (Or.inr (Or.inl hne)))]
    simp [powInc, prodInc, diffInc, diffProdInc]
  · refine (e8 _ (fun hne => ?_)).trans t8
    rw [p1 (Or.inr (Or.inr (Or.inr (Or.inl hne)))), p2 (Or.inr (Or.inr (Or.inl hne)))]
    simp [powInc, prodInc, diffInc, diffProdInc]
  · refine (e9 _ (fun hne => ?_)).trans t9
    rw [p2 (Or.inr (Or.inr (Or.inr (Or.inl hne))))]
    simp [powInc, prodInc, diffInc, diffProdInc]
  · refine (e10 _ (fun hne => ?_)).trans t10
    rw [p3 (Or.inr (Or.inl hne)), p1 (Or.inr (Or.inr (Or.inr (Or.inr (Or.inl hne)))))]
    simp [powInc, prodInc, diffInc, diffProdInc]
  · refine (e11 _ (fun hne => ?_)).trans t11
    rw [p3 (Or.inr (Or.inr (Or.inl hne))), p2 (Or.inr (Or.inr (Or.inr (Or.inr (Or.inl hne)))))]
    simp [powInc, prodInc, diffInc, diffProdInc]
  · refine (e12 _ (fun hne => ?_)).trans t12
    rw [p4 (Or.inr (Or.inl hne)), p1 (Or.inr (Or.inr (Or.inr (Or.inr (Or.inr hne)))))]
    simp [powInc, prodInc, diffInc, diffProdInc]
  · refine (e13 _ (fun hne => ?_)).trans t13
    rw [p4 (Or.inr (Or.inr (Or.inl hne))), p2 (Or.inr (Or.inr (Or.inr (Or.inr (Or.inr hne)))))]
    simp [powInc, prodInc, diffInc, diffProdInc]
  · refine (e14 _ (fun hne => ?_)).trans t14
    rw [p3 (Or.inr (Or.inr (Or.inr (Or.inl hne))))]
    simp [powInc, prodInc, diffInc, diffProdInc]
  · refine (e15 _ (fun hne => ?_)).trans t15
    rw [p3 (Or.inr (Or.inr (Or.inr (Or.inr hne)))), p4 (Or.inr (Or.inr (Or.inr (Or.inl hne))))]
    simp [powInc, prodInc, diffInc, diffProdInc]
  · refine (e16 _ (fun hne => ?_)).trans t16
    rw [p4 (Or.inr (Or.inr (Or.inr (Or.inr hne))))]
    simp [powInc, prodInc, diffInc, diffProdInc]
  · intro hor
    have hold : s.lf_l_prod = Dbl.fin (l ^ s.active_ord.toNat) := by
      apply p1
      rcases hor with hh | hh | hh | hh | hh | hh
      · exact Or.inl (c1 hh)
      · exact Or.inr (Or.inl (c3 hh))
      · exact Or.inr (Or.inr (Or.inl (c7 hh)))
      · exact Or.inr (Or.inr (Or.inr (Or.inl (c8 hh))))
      · exact Or.inr (Or.inr (Or.inr (Or.inr (Or.inl (c10 hh)))))
      · exact Or.inr (Or.inr (Or.inr (Or.inr (Or.inr ((c12 hh))))))
    have hcond :
        (s.l1_it.visit s.active_ord qoi lev s.lf_l_prod).ord ≠ 0 ∨
        (s.lr1_it.visit s.active_ord qoi lev s.lf_l_prod).ord ≠ 0 ∨
        (s.ll1_it.visit s.active_ord qoi lev (s.lf_l_prod * s.lf_l_prod)).ord ≠ 0 ∨
        (s.ll2_it.visit s.active_ord qoi lev (s.lf_l_prod * s.lf_lm1_prod)).ord ≠ 0 ∨
        (s.lh1_it.visit s.active_ord qoi lev (s.hf_l_prod * s.lf_l_prod)).ord ≠ 0 ∨
        (s.lh3_it.visit s.active_ord qoi lev (s.hf_lm1_prod * s.lf_l_prod)).ord ≠ 0 := by
      rw [b1, b3, b7, b8, b10, b12]
      exact hor
    simp only [QLoop16.body, hinc, if_pos hcond]
    rw [hold, pow_toNat_succ l _ ha]
    rfl
  · intro hor
    have hold : s.lf_lm1_prod = Dbl.fin (lm1 ^ s.active_ord.toNat) := by
      apply p2
      rcases hor with hh | hh | hh | hh | hh | hh
      · exact Or.inl (c2 hh)
      · exact Or.inr (Or.inl (c4 hh))
      · exact Or.inr (Or.inr (Or.inl (c8 hh)))
      · exact Or.inr (Or.inr (Or.inr (Or.inl (c9 hh))))
      · exact Or.inr (Or.inr (Or.inr (Or.inr (Or.inl (c11 hh)))))
      · exact Or.inr (Or.inr (Or.inr (Or.inr (Or.inr ((c13 hh))))))
    have hcond :
        (s.l2_it.visit s.active_ord qoi lev s.lf_lm1_prod).ord ≠ 0 ∨
        (s.lr2_it.visit s.active_ord qoi lev s.lf_lm1_prod).ord ≠ 0 ∨
        (s.ll2_it.visit s.active_ord qoi lev (s.lf_l_prod * s.lf_lm1_prod)).ord ≠ 0 ∨
        (s.ll3_it.visit s.active_ord qoi lev (s.lf_lm1_prod * s.lf_lm1_prod)).ord ≠ 0 ∨
        (s.lh2_it.visit s.active_ord qoi lev (s.hf_l_prod * s.lf_lm1_prod)).ord ≠ 0 ∨
        (s.lh4_it.visit s.active_ord qoi lev (s.hf_lm1_prod * s.lf_lm1_prod)).ord ≠ 0 := by
      rw [b2, b4, b8, b9, b11, b13]
      exact hor
    simp only [QLoop16.body, hinc, if_pos hcond]
    rw [hold, pow_toNat_succ lm1 _ ha]
    rfl
  · intro hor
    have hold : s.hf_l_prod = Dbl.fin (h ^ s.active_ord.toNat) := by
      apply p3
      rcases hor with hh | hh | hh | hh | hh
      · exact Or.inl (c5 hh)
      · exact Or.inr (Or.inl (c10 hh))
      · exact Or.inr (Or.inr (Or.inl (c11 hh)))
      · exact Or.inr (Or.inr (Or.inr (Or.inl (c14 hh))))
      · exact Or.inr (Or.inr (Or.inr (Or.inr ((c15 hh)))))
    have hcond :
        (s.h1_it.visit s.active_ord qoi lev s.hf_l_prod).ord ≠ 0 ∨
        (s.lh1_it.visit s.active_ord qoi lev (s.hf_l_prod * s.lf_l_prod)).ord ≠ 0 ∨
        (s.lh2_it.visit s.active_ord qoi lev (s.hf_l_prod * s.lf_lm1_prod)).ord ≠ 0 ∨
        (s.hh1_it.visit s.active_ord qoi lev (s.hf_l_prod * s.hf_l_prod)).ord ≠ 0 ∨
        (s.hh2_it.visit s.active_ord qoi lev (s.hf_l_prod * s.hf_lm1_prod)).ord ≠ 0 := by
      rw [b5, b10, b11, b14, b15]
      exact hor
    simp only [QLoop16.body, hinc, if_pos hcond]
    rw [hold, pow_toNat_succ h _ ha]
    rfl
  · intro hor
    have hold : s.hf_lm1_prod = Dbl.fin (hm1 ^ s.active_ord.toNat) := by
      apply p4
      rcases hor with hh | hh | hh | hh | hh
      · exact Or.inl (c6 hh)
      · exact Or.inr (Or.inl (c12 hh))
      · exact Or.inr (Or.inr (Or.inl (c13 hh)))
      · exact Or.inr (Or.inr (Or.inr (Or.inl (c15 hh))))
      · exact Or.inr (Or.inr (Or.inr (Or.inr ((c16 hh)))))
    have hcond :
        (s.h2_it.visit s.active_ord qoi lev s.hf_lm1_prod).ord ≠ 0 ∨
        (s.lh3_it.visit s.active_ord qoi lev (s.hf_lm1_prod * s.lf_l_prod)).ord ≠ 0 ∨
        (s.lh4_it.visit s.active_ord qoi lev (s.hf_lm1_prod * s.lf_lm1_prod)).ord ≠ 0 ∨
        (s.hh2_it.visit s.active_ord qoi lev (s.hf_l_prod * s.hf_lm1_prod)).ord ≠ 0 ∨
        (s.hh3_it.visit s.active_ord qoi lev (s.hf_lm1_prod * s.hf_lm1_prod)).ord ≠ 0 := by
      rw [b6, b12, b13, b15, b16]
      exact hor
    simp only [QLoop16.body, hinc, if_pos hcond]
    rw [hold, pow_toNat_succ hm1 _ ha]
    rfl
  · simp only [QLoop16.body, hinc]
    omega

theorem QLoop16_init_inv (l lm1 h hm1 : ℚ) (qoi lev K : Nat) (st : LevelSums) (hwf : st.WF K) :
    QLoop16.Inv l lm1 h hm1 qoi lev (min (K : Int) (INT_MAX - 1)) st (QLoop16.init st (Dbl.fin l) (Dbl.fin lm1) (Dbl.fin h) (Dbl.fin hm1)) := by
  obtain ⟨w1, w2, w3, w4, w5, w6, w7, w8, w9, w10, w11, w12, w13, w14, w15, w16⟩ := hwf
  refine ⟨le_rfl, ⟨w1, w2, w3, w4, w5, w6, w7, w8, w9, w10, w11, w12, w13, w14, w15, w16⟩, ?_, ?_, ?_, ?_, ?_⟩
  · simp only [QLoop16.init, MapIter.target_start, and_self]
  · intro _; simp [QLoop16.init]
  · intro _; simp [QLoop16.init]
  · intro _; simp [QLoop16.init]
  · intro _; simp [QLoop16.init]

/-- The inner loop of the sixteen-map `accumulate_mlcv_Qsums` on an included sample: it ends
within `K` passes and leaves every map grown by its increment. -/
theorem QLoop16_run (l lm1 h hm1 : ℚ) (qoi lev K fuel : Nat) (st : LevelSums) (hwf : st.WF K)
    (hfuel : K ≤ fuel) :
    (whileLoop QLoop16.cond (QLoop16.body qoi lev (Dbl.fin l) (Dbl.fin lm1) (Dbl.fin h) (Dbl.fin hm1)) fuel
        (QLoop16.init st (Dbl.fin l) (Dbl.fin lm1) (Dbl.fin h) (Dbl.fin hm1))).map (QLoop16.finish st qoi)
      = some (st.addQ qoi lev l lm1 h hm1) := by
  obtain ⟨s', hrun, hinv, hc⟩ :=
    whileLoop_of_inv QLoop16.cond (QLoop16.body qoi lev (Dbl.fin l) (Dbl.fin lm1) (Dbl.fin h) (Dbl.fin hm1))
      (QLoop16.Inv l lm1 h hm1 qoi lev (min (K : Int) (INT_MAX - 1)) st)
      (fun s => (min (K : Int) (INT_MAX - 1) + 1 - s.active_ord).toNat)
      (fun s hs hcs => QLoop16_step_inv l lm1 h hm1 qoi lev (min (K : Int) (INT_MAX - 1)) st s hs hcs
        (min_lt_INT_MAX _)) fuel
      (QLoop16.init st (Dbl.fin l) (Dbl.fin lm1) (Dbl.fin h) (Dbl.fin hm1)) (QLoop16_init_inv l lm1 h hm1 qoi lev K st hwf)
      (by simp only [QLoop16.init, INT_MAX]; omega)
  obtain ⟨_, _, ⟨t1, t2, t3, t4, t5, t6, t7, t8, t9, t10, t11, t12, t13, t14, t15, t16⟩, _, _, _, _⟩ := hinv
  simp only [QLoop16.cond, Bool.or_eq_false_iff, Bool.not_eq_false'] at hc
  obtain ⟨⟨⟨⟨⟨⟨⟨⟨⟨⟨⟨⟨⟨⟨⟨c1, c2⟩, c3⟩, c4⟩, c5⟩, c6⟩, c7⟩, c8⟩, c9⟩, c10⟩, c11⟩, c12⟩, c13⟩, c14⟩, c15⟩, c16⟩ := hc
  rw [hrun]
  simp only [Option.map_some', QLoop16.finish, LevelSums.addQ,
    MapIter.toMap_of_atEnd (powInc l) qoi lev _ c1,
    MapIter.toMap_of_atEnd (powInc lm1) qoi lev _ c2,
    MapIter.toMap_of_atEnd (powInc l) qoi lev _ c3,
    MapIter.toMap_of_atEnd (powInc lm1) qoi lev _ c4,
    MapIter.toMap_of_atEnd (powInc h) qoi lev _ c5,
    MapIter.toMap_of_atEnd (powInc hm1) qoi lev _ c6,
    MapIter.toMap_of_atEnd (prodInc l l) qoi lev _ c7,
    MapIter.toMap_of_atEnd (prodInc l lm1) qoi lev _ c8,
    MapIter.toMap_of_atEnd (prodInc lm1 lm1) qoi lev _ c9,
    MapIter.toMap_of_atEnd (prodInc h l) qoi lev _ c10,
    MapIter.toMap_of_atEnd (prodInc h lm1) qoi lev _ c11,
    MapIter.toMap_of_atEnd (prodInc hm1 l) qoi lev _ c12,
    MapIter.toMap_of_atEnd (prodInc hm1 lm1) qoi lev _ c13,
    MapIter.toMap_of_atEnd (prodInc h h) qoi lev _ c14,
    MapIter.toMap_of_atEnd (prodInc h hm1) qoi lev _ c15,
    MapIter.toMap_of_atEnd (prodInc hm1 hm1) qoi lev _ c16,
    t1, t2, t3, t4, t5, t6, t7, t8, t9, t10, t11, t12, t13, t14, t15, t16]

/-! ## One sample of one QoI in each accumulator -/

theorem PairedSums_addQ_WF (K : Nat) (st : PairedSums) (qoi lev : Nat) (l h : ℚ)
    (hwf : st.WF K) : (st.addQ qoi lev l h).WF K := by
  obtain ⟨w1, w2, w3, w4, w5, w6⟩ := hwf
  exact ⟨MapIter.Ready_grow_start K _ qoi lev _ w1, MapIter.Ready_grow_start K _ qoi lev _ w2,
    MapIter.Ready_grow_start K _ qoi lev _ w3, MapIter.Ready_grow_start K _ qoi lev _ w4,
    MapIter.Ready_grow_start K _ qoi lev _ w5, MapIter.Ready_grow_start K _ qoi lev _ w6⟩

theorem PairedSums_addY_WF (K : Nat) (st : PairedSums) (qoi lev : Nat) (l lm1 h hm1 : ℚ)
    (hwf : st.WF K) : (st.addY qoi lev l lm1 h hm1).WF K := by
  obtain ⟨w1, w2, w3, w4, w5, w6⟩ := hwf
  exact ⟨MapIter.Ready_grow_start K _ qoi lev _ w1, MapIter.Ready_grow_start K _ qoi lev _ w2,
    MapIter.Ready_grow_start K _ qoi lev _ w3, MapIter.Ready_grow_start K _ qoi lev _ w4,
    MapIter.Ready_grow_start K _ qoi lev _ w5, MapIter.Ready_grow_start K _ qoi lev _ w6⟩

theorem LevelSums_addQ_WF (K : Nat) (st : LevelSums) (qoi lev : Nat) (l lm1 h hm1 : ℚ)
    (hwf : st.WF K) : (st.addQ qoi lev l lm1 h hm1).WF K := by
  obtain ⟨w1, w2, w3, w4, w5, w6, w7, w8, w9, w10, w11, w12, w13, w14, w15, w16⟩ := hwf
  exact ⟨MapIter.Ready_grow_start K _ qoi lev _ w1, MapIter.Ready_grow_start K _ qoi lev _ w2,
    MapIter.Ready_grow_start K _ qoi lev _ w3, MapIter.Ready_grow_start K _ qoi lev _ w4,
    MapIter.Ready_grow_start K _ qoi lev _ w5, MapIter.Ready_grow_start K _ qoi lev _ w6,
    MapIter.Ready_grow_start K _ qoi lev _ w7, MapIter.Ready_grow_start K _ qoi lev _ w8,
    MapIter.Ready_grow_start K _ qoi lev _ w9, MapIter.Ready_grow_start K _ qoi lev _ w10,
    MapIter.Ready_grow_start K _ qoi lev _ w11, MapIter.Ready_grow_start K _ qoi lev _ w12,
    MapIter.Ready_grow_start K _ qoi lev _ w13, MapIter.Ready_grow_start K _ qoi lev _ w14,
    MapIter.Ready_grow_start K _ qoi lev _ w15, MapIter.Ready_grow_start K _ qoi lev _ w16⟩

theorem RefinedSums_addQ_WF (K : Nat) (st : RefinedSums) (qoi lev : Nat) (q qm1 : ℚ)
    (hwf : st.WF K) : (st.addQ qoi lev q qm1).WF K := by
  obtain ⟨w1, w2⟩ := hwf
  exact ⟨MapIter.Ready_grow_start K _ qoi lev _ w1, MapIter.Ready_grow_start K _ qoi lev _ w2⟩

theorem YSums_addY_WF (K : Nat) (st : YSums) (qoi lev : Nat) (q qm1 : ℚ)
    (hwf : st.WF K) : (st.addY qoi lev q qm1).WF K :=
  MapIter.Ready_grow_start K _ qoi lev _ hwf

theorem QSums_addQ_WF (K : Nat) (st : QSums) (qoi lev : Nat) (q : ℚ)
    (hwf : st.WF K) : (st.addQ qoi lev q).WF K :=
  MapIter.Ready_grow_start K _ qoi lev _ hwf

/-- An included sample (both shifted values finite) in the six-map
`accumulate_mlcv_Qsums`. -/
theorem accumulate_mlcv_Qsums6_qoi_included (K fuel lev : Nat) (lf_offset hf_offset : RealVector)
    (lf_fn_vals hf_fn_vals : RealVector) (st : PairedSums) (qoi : Nat) (l h : ℚ)
    (hwf : st.WF K) (hfuel : K ≤ fuel)
    (hl : shifted lf_fn_vals lf_offset qoi = Dbl.fin l)
    (hh : shifted hf_fn_vals hf_offset qoi = Dbl.fin h) :
    accumulate_mlcv_Qsums6_qoi fuel lev lf_offset hf_offset lf_fn_vals hf_fn_vals st qoi
      = some (st.addQ qoi lev l h) := by
  unfold accumulate_mlcv_Qsums6_qoi
  simp only [hl, hh, Dbl.isfinite_fin, Bool.and_self, if_true]
  exact QLoop6_run l h qoi lev K fuel st hwf hfuel

/-- An excluded sample (a shifted value not finite) in the six-map
`accumulate_mlcv_Qsums`: nothing changes. -/
theorem accumulate_mlcv_Qsums6_qoi_excluded (fuel lev : Nat) (lf_offset hf_offset : RealVector)
    (lf_fn_vals hf_fn_vals : RealVector) (st : PairedSums) (qoi : Nat)
    (hbad : ((shifted lf_fn_vals lf_offset qoi).isfinite
      && (shifted hf_fn_vals hf_offset qoi).isfinite) = false) :
    accumulate_mlcv_Qsums6_qoi fuel lev lf_offset hf_offset lf_fn_vals hf_fn_vals st qoi
      = some st := by
  unfold accumulate_mlcv_Qsums6_qoi
  simp [hbad]

/-- An included sample (all four shifted values finite) in the six-map
`accumulate_mlcv_Ysums`, `lev > 0` branch. -/
theorem accumulate_mlcv_Ysums6_qoi_included (K fuel numFunctions lev : Nat)
    (lf_offset hf_offset : RealVector) (lf_fn_vals hf_fn_vals : RealVector)
    (st : PairedSums) (qoi : Nat) (l lm1 h hm1 : ℚ) (hwf : st.WF K) (hfuel : K ≤ fuel)
    (hl : shifted lf_fn_vals lf_offset qoi = Dbl.fin l)
    (hlm1 : shifted lf_fn_vals lf_offset (qoi + numFunctions) = Dbl.fin lm1)
    (hh : shifted hf_fn_vals hf_offset qoi = Dbl.fin h)
    (hhm1 : shifted hf_fn_vals hf_offset (qoi + numFunctions) = Dbl.fin hm1) :
    accumulate_mlcv_Ysums6_qoi fuel numFunctions lev lf_offset hf_offset lf_fn_vals hf_fn_vals
        st qoi
      = some (st.addY qoi lev l lm1 h hm1) := by
  unfold accumulate_mlcv_Ysums6_qoi
  simp only [hl, hlm1, hh, hhm1, Dbl.isfinite_fin, Bool.and_self, if_true]
  exact YLoop6_run l lm1 h hm1 qoi lev K fuel st hwf hfuel

/-- An excluded sample in the six-map `accumulate_mlcv_Ysums`, `lev > 0`
branch: nothing changes. -/
theorem accumulate_mlcv_Ysums6_qoi_excluded (fuel numFunctions lev : Nat)
    (lf_offset hf_offset : RealVector) (lf_fn_vals hf_fn_vals : RealVector)
    (st : PairedSums) (qoi : Nat)
    (hbad : ((shifted lf_fn_vals lf_offset qoi).isfinite
      && (shifted lf_fn_vals lf_offset (qoi + numFunctions)).isfinite
      && (shifted hf_fn_vals hf_offset qoi).isfinite
      && (shifted hf_fn_vals hf_offset (qoi + numFunctions)).isfinite) = false) :
    accumulate_mlcv_Ysums6_qoi fuel numFunctions lev lf_offset hf_offset lf_fn_vals hf_fn_vals
        st qoi
      = some st := by
  unfold accumulate_mlcv_Ysums6_qoi
  simp [hbad]

/-- An included sample (all four shifted values finite) in the sixteen-map
`accumulate_mlcv_Qsums`, `lev > 0` branch. -/
theorem accumulate_mlcv_Qsums16_qoi_included (K fuel numFunctions lev : Nat)
    (lf_offset hf_offset : RealVector) (lf_fn_vals hf_fn_vals : RealVector)
    (st : LevelSums) (qoi : Nat) (l lm1 h hm1 : ℚ) (hwf : st.WF K) (hfuel : K ≤ fuel)
    (hl : shifted lf_fn_vals lf_offset qoi = Dbl.fin l)
    (hlm1 : shifted lf_fn_vals lf_offset (qoi + numFunctions) = Dbl.fin lm1)
    (hh : shifted hf_fn_vals hf_offset qoi = Dbl.fin h)
    (hhm1 : shifted hf_fn_vals hf_offset (qoi + numFunctions) = Dbl.fin hm1) :
    accumulate_mlcv_Qsums16_qoi fuel numFunctions lev lf_offset hf_offset lf_fn_vals hf_fn_vals
        st qoi
      = some (st.addQ qoi lev l lm1 h hm1) := by
  unfold accumulate_mlcv_Qsums16_qoi
  simp only [hl, hlm1, hh, hhm1, Dbl.isfinite_fin, Bool.and_self, if_true]
  exact QLoop16_run l lm1 h hm1 qoi lev K fuel st hwf hfuel

/-- An excluded sample in the sixteen-map `accumulate_mlcv_Qsums`, `lev > 0`
branch: nothing changes. -/
theorem accumulate_mlcv_Qsums16_qoi_excluded (fuel numFunctions lev : Nat)
    (lf_offset hf_offset : RealVector) (lf_fn_vals hf_fn_vals : RealVector)
    (st : LevelSums) (qoi : Nat)
    (hbad : ((shifted lf_fn_vals lf_offset qoi).isfinite
      && (shifted lf_fn_vals lf_offset (qoi + numFunctions)).isfinite
      && (shifted hf_fn_vals hf_offset qoi).isfinite
      && (shifted hf_fn_vals hf_offset (qoi + numFunctions)).isfinite) = false) :
    accumulate_mlcv_Qsums16_qoi fuel numFunctions lev lf_offset hf_offset lf_fn_vals hf_fn_vals
        st qoi
      = some st := by
  unfold accumulate_mlcv_Qsums16_qoi
  simp [hbad]

/-- An included sample in the two-map `accumulate_mlcv_Qsums`, `lev > 0` branch. -/
theorem accumulate_mlcv_Qsums2_qoi_included (K fuel numFunctions lev : Nat)
    (offset fn_vals : RealVector) (st : RefinedSums) (qoi : Nat) (q qm1 : ℚ)
    (hwf : st.WF K) (hfuel : K ≤ fuel)
    (hq : shifted fn_vals offset qoi = Dbl.fin q)
    (hqm1 : shifted fn_vals offset (qoi + numFunctions) = Dbl.fin qm1) :
    accumulate_mlcv_Qsums2_qoi fuel numFunctions lev offset fn_vals st qoi
      = some (st.addQ qoi lev q qm1) := by
  unfold accumulate_mlcv_Qsums2_qoi
  simp only [hq, hqm1, Dbl.isfinite_fin, Bool.and_self, if_true]
  exact QLoop2_run q qm1 qoi lev K fuel st hwf hfuel

/-- An excluded sample in the two-map `accumulate_mlcv_Qsums`, `lev > 0` branch. -/
theorem accumulate_mlcv_Qsums2_qoi_excluded (fuel numFunctions lev : Nat)
    (offset fn_vals : RealVector) (st : RefinedSums) (qoi : Nat)
    (hbad : ((shifted fn_vals offset qoi).isfinite
      && (shifted fn_vals offset (qoi + numFunctions)).isfinite) = false) :
    accumulate_mlcv_Qsums2_qoi fuel numFunctions lev offset fn_vals st qoi = some st := by
  unfold accumulate_mlcv_Qsums2_qoi
  simp [hbad]

/-- An included sample in the one-map `accumulate_mlcv_Ysums`, `lev > 0` branch. -/
theorem accumulate_mlcv_Ysums1_qoi_included (K fuel numFunctions lev : Nat)
    (offset fn_vals : RealVector) (st : YSums) (qoi : Nat) (q qm1 : ℚ)
    (hwf : st.WF K) (hfuel : K ≤ fuel)
    (hq : shifted fn_vals offset qoi = Dbl.fin q)
    (hqm1 : shifted fn_vals offset (qoi + numFunctions) = Dbl.fin qm1) :
    accumulate_mlcv_Ysums1_qoi fuel numFunctions lev offset fn_vals st qoi
      = some (st.addY qoi lev q qm1) := by
  unfold accumulate_mlcv_Ysums1_qoi
  simp only [hq, hqm1, Dbl.isfinite_fin, Bool.and_self, if_true]
  exact YLoop1_run q qm1 qoi lev K fuel st hwf hfuel

/-- An excluded sample in the one-map `accumulate_mlcv_Ysums`, `lev > 0` branch. -/
theorem accumulate_mlcv_Ysums1_qoi_excluded (fuel numFunctions lev : Nat)
    (offset fn_vals : RealVector) (st : YSums) (qoi : Nat)
    (hbad : ((shifted fn_vals offset qoi).isfinite
      && (shifted fn_vals offset (qoi + numFunctions)).isfinite) = false) :
    accumulate_mlcv_Ysums1_qoi fuel numFunctions lev offset fn_vals st qoi = some st := by
  unfold accumulate_mlcv_Ysums1_qoi
  simp [hbad]

/-- An included sample in `accumulate_ml_Qsums`. -/
theorem accumulate_ml_Qsums_qoi_included (K fuel lev : Nat)
    (offset fn_vals : RealVector) (st : QSums) (qoi : Nat) (q : ℚ)
    (hwf : st.WF K) (hfuel : K ≤ fuel)
    (hq : shifted fn_vals offset qoi = Dbl.fin q) :
    accumulate_ml_Qsums_qoi fuel lev offset fn_vals st qoi = some (st.addQ qoi lev q) := by
  unfold accumulate_ml_Qsums_qoi
  simp only [hq, Dbl.isfinite_fin, if_true]
  exact MlQLoop_run q qoi lev K fuel st hwf hfuel

/-- An excluded sample in `accumulate_ml_Qsums`. -/
theorem accumulate_ml_Qsums_qoi_excluded (fuel lev : Nat)
    (offset fn_vals : RealVector) (st : QSums) (qoi : Nat)
    (hbad : (shifted fn_vals offset qoi).isfinite = false) :
    accumulate_ml_Qsums_qoi fuel lev offset fn_vals st qoi = some st := by
  unfold accumulate_ml_Qsums_qoi
  simp [hbad]

/-! ## Batches: counting the included samples -/

theorem foldlM_range_counts {σ : Type} (step : σ → Nat → Option σ) (WF : σ → Prop)
    (c1 c2 : σ → Nat → Nat) (incl : Nat → Bool)
    (hstep : ∀ st q, WF st → ∃ st', step st q = some st' ∧ WF st' ∧
      (∀ j, c1 st' j = c1 st j + if j = q ∧ incl q = true then 1 else 0) ∧
      (∀ j, c2 st' j = c2 st j + if j = q ∧ incl q = true then 1 else 0)) :
    ∀ (n : Nat) (st : σ), WF st → ∃ st', (List.range n).foldlM step st = some st' ∧ WF st' ∧
      (∀ j, c1 st' j = c1 st j + if j < n ∧ incl j = true then 1 else 0) ∧
      (∀ j, c2 st' j = c2 st j + if j < n ∧ incl j = true then 1 else 0) := by
  intro n
  induction n with
  | zero =>
    intro st hwf
    exact ⟨st, by simp, hwf, by simp, by simp⟩
  | succ n ih =>
    intro st hwf
    obtain ⟨st1, h1, w1, a1, b1⟩ := ih st hwf
    obtain ⟨st2, h2, w2, a2, b2⟩ := hstep st1 n w1
    refine ⟨st2, ?_, w2, ?_, ?_⟩
    · rw [List.range_succ, List.foldlM_append, h1]
      simp [h2]
    · intro j
      rw [a2 j, a1 j]
      by_cases hj : j = n
      · subst hj; simp
      · have : (j < n + 1) = (j < n) := by
          apply propext; constructor <;> intro h' <;> omega
        simp [hj, this]
    · intro j
      rw [b2 j, b1 j]
      by_cases hj : j = n
      · subst hj; simp
      · have : (j < n + 1) = (j < n) := by
          apply propext; constructor <;> intro h' <;> omega
        simp [hj, this]

theorem foldlM_batch_counts {ρ σ : Type} (step : ρ → σ → Nat → Option σ) (WF : σ → Prop)
    (c1 c2 : σ → Nat → Nat) (incl : ρ → Nat → Bool) (n : Nat)
    (hstep : ∀ r st q, WF st → ∃ st', step r st q = some st' ∧ WF st' ∧
      (∀ j, c1 st' j = c1 st j + if j = q ∧ incl r q = true then 1 else 0) ∧
      (∀ j, c2 st' j = c2 st j + if j = q ∧ incl r q = true then 1 else 0)) :
    ∀ (rs : List ρ) (st : σ), WF st →
      ∃ st', rs.foldlM (fun st r => (List.range n).foldlM (step r) st) st = some st' ∧ WF st' ∧
        (∀ j, c1 st' j = c1 st j + if j < n then rs.countP (fun r => incl r j) else 0) ∧
        (∀ j, c2 st' j = c2 st j + if j < n then rs.countP (fun r => incl r j) else 0) := by
  intro rs
  induction rs with
  | nil =>
    intro st hwf
    exact ⟨st, by simp, hwf, by simp, by simp⟩
  | cons r rs ih =>
    intro st hwf
    obtain ⟨st1, h1, w1, a1, b1⟩ :=
      foldlM_range_counts (step r) WF c1 c2 (incl r) (hstep r) n st hwf
    obtain ⟨st2, h2, w2, a2, b2⟩ := ih st1 w1
    refine ⟨st2, ?_, w2, ?_, ?_⟩
    · rw [List.foldlM_cons, h1]
      simpa using h2
    · intro j
      rw [a2 j, a1 j, List.countP_cons]
      by_cases hj : j < n <;> by_cases hi : incl r j = true <;> simp [hj, hi]
      all_goals omega
    · intro j
      rw [b2 j, b1 j, List.countP_cons]
      by_cases hj : j < n <;> by_cases hi : incl r j = true <;> simp [hj, hi]
      all_goals omega

theorem countP_all_but_one {ρ : Type} (p : ρ → Bool) :
    ∀ (l : List ρ) (s0 : Nat) (h0 : s0 < l.length), p (l.get ⟨s0, h0⟩) = false →
      (∀ s (hs : s < l.length), s ≠ s0 → p (l.get ⟨s, hs⟩) = true) →
      l.countP p = l.length - 1 := by
  intro l
  induction l with
  | nil => intro s0 h0; simp at h0
  | cons x xs ih =>
    intro s0 h0 hbad hgood
    cases s0 with
    | zero =>
      simp only [List.get_eq_getElem, List.getElem_cons_zero] at hbad
      have hall : ∀ a ∈ xs, p a = true := by
        intro a ha
        obtain ⟨i, hi, rfl⟩ := List.getElem_of_mem ha
        have := hgood (i + 1) (by simp; omega) (by omega)
        simpa using this
      rw [List.countP_cons_of_neg _ _ (by simp [hbad]), List.countP_eq_length.mpr hall]
      simp
    | succ s =>
      have hx : p x = true := by
        have := hgood 0 (by simp) (by omega)
        simpa using this
      have hs : s < xs.length := by simpa using h0
      have hb : p (xs.get ⟨s, hs⟩) = false := by simpa using hbad
      have hg : ∀ t (ht : t < xs.length), t ≠ s → p (xs.get ⟨t, ht⟩) = true := by
        intro t ht hts
        have := hgood (t + 1) (by simp; omega) (by omega)
        simpa using this
      rw [List.countP_cons_of_pos _ _ hx, ih s hs hb hg]
      simp only [List.length_cons]
      omega

theorem countP_all {ρ : Type} (p : ρ → Bool) (l : List ρ)
    (hgood : ∀ s (hs : s < l.length), p (l.get ⟨s, hs⟩) = true) :
    l.countP p = l.length := by
  apply List.countP_eq_length.mpr
  intro a ha
  obtain ⟨i, hi, rfl⟩ := List.getElem_of_mem ha
  exact hgood i hi

theorem Dbl.isfinite_sub (a b : Dbl) : (a - b).isfinite = (a.isfinite && b.isfinite) := by
  show (Dbl.add a (Dbl.neg b)).isfinite = _
  cases a <;> cases b <;> rfl

theorem shifted_isfinite (fn_vals offset : RealVector) (n i : Nat)
    (hoff : OffsetFinite offset n) (hi : i < n) :
    (shifted fn_vals offset i).isfinite = (fn_vals.elem i).isfinite := by
  unfold shifted
  rcases hoff with h | h
  · simp [h]
  · by_cases he : offset.isEmpty = true
    · simp [he]
    · simp only [he, Bool.not_false, if_true, Bool.false_eq_true]
      simp [Dbl.isfinite_sub, h i hi]

theorem pairedIncluded_eq_rawFinite (numFunctions lev : Nat) (lf_offset hf_offset : RealVector)
    (r : RealVector × RealVector) (q : Nat)
    (hoffL : OffsetFinite lf_offset (2 * numFunctions))
    (hoffH : OffsetFinite hf_offset (2 * numFunctions)) (hq : q < numFunctions) :
    pairedIncluded numFunctions lev lf_offset hf_offset r q
      = rawFinite numFunctions lev r.1 r.2 q := by
  unfold pairedIncluded rawFinite
  rw [shifted_isfinite r.1 lf_offset _ q hoffL (by omega),
    shifted_isfinite r.2 hf_offset _ q hoffH (by omega),
    shifted_isfinite r.1 lf_offset _ (q + numFunctions) hoffL (by omega),
    shifted_isfinite r.2 hf_offset _ (q + numFunctions) hoffH (by omega)]

theorem accumulate_mlcv_Qsums6_qoi_step (K fuel lev : Nat) (lf_offset hf_offset : RealVector)
    (hfuel : K ≤ fuel) (r : RealVector × RealVector) (st : PairedSums) (q : Nat)
    (hwf : st.WF K) :
    ∃ st', accumulate_mlcv_Qsums6_qoi fuel lev lf_offset hf_offset r.1 r.2 st q = some st' ∧
      st'.WF K ∧
      (∀ j, st'.num_L j = st.num_L j
        + if j = q ∧ ((shifted r.1 lf_offset q).isfinite
            && (shifted r.2 hf_offset q).isfinite) = true then 1 else 0) ∧
      (∀ j, st'.num_H j = st.num_H j
        + if j = q ∧ ((shifted r.1 lf_offset q).isfinite
            && (shifted r.2 hf_offset q).isfinite) = true then 1 else 0) := by
  by_cases hi : ((shifted r.1 lf_offset q).isfinite && (shifted r.2 hf_offset q).isfinite) = true
  · have hi' := hi
    simp only [Bool.and_eq_true] at hi'
    obtain ⟨l, hl⟩ := (Dbl.isfinite_iff _).mp hi'.1
    obtain ⟨h, hh⟩ := (Dbl.isfinite_iff _).mp hi'.2
    refine ⟨st.addQ q lev l h,
      accumulate_mlcv_Qsums6_qoi_included K fuel lev lf_offset hf_offset r.1 r.2 st q l h hwf
        hfuel hl hh, PairedSums_addQ_WF K st q lev l h hwf, ?_, ?_⟩
    · intro j
      by_cases hj : j = q <;> simp [PairedSums.addQ, SizetArray.incr, hj, hi]
    · intro j
      by_cases hj : j = q <;> simp [PairedSums.addQ, SizetArray.incr, hj, hi]
  · simp only [Bool.not_eq_true] at hi
    refine ⟨st,
      accumulate_mlcv_Qsums6_qoi_excluded fuel lev lf_offset hf_offset r.1 r.2 st q hi, hwf,
      ?_, ?_⟩
    · intro j; simp [hi]
    · intro j; simp [hi]

theorem accumulate_mlcv_Ysums6_qoi_step (K fuel numFunctions lev : Nat)
    (lf_offset hf_offset : RealVector) (hfuel : K ≤ fuel) (r : RealVector × RealVector)
    (st : PairedSums) (q : Nat) (hwf : st.WF K) :
    ∃ st', accumulate_mlcv_Ysums6_qoi fuel numFunctions lev lf_offset hf_offset r.1 r.2 st q
        = some st' ∧
      st'.WF K ∧
      (∀ j, st'.num_L j = st.num_L j
        + if j = q ∧ ((shifted r.1 lf_offset q).isfinite
            && (shifted r.1 lf_offset (q + numFunctions)).isfinite
            && (shifted r.2 hf_offset q).isfinite
            && (shifted r.2 hf_offset (q + numFunctions)).isfinite) = true then 1 else 0) ∧
      (∀ j, st'.num_H j = st.num_H j
        + if j = q ∧ ((shifted r.1 lf_offset q).isfinite
            && (shifted r.1 lf_offset (q + numFunctions)).isfinite
            && (shifted r.2 hf_offset q).isfinite
            && (shifted r.2 hf_offset (q + numFunctions)).isfinite) = true then 1 else 0) := by
  by_cases hi : ((shifted r.1 lf_offset q).isfinite
      && (shifted r.1 lf_offset (q + numFunctions)).isfinite
      && (shifted r.2 hf_offset q).isfinite
      && (shifted r.2 hf_offset (q + numFunctions)).isfinite) = true
  · have hi' := hi
    simp only [Bool.and_eq_true] at hi'
    obtain ⟨l, hl⟩ := (Dbl.isfinite_iff _).mp hi'.1.1.1
    obtain ⟨lm1, hlm1⟩ := (Dbl.isfinite_iff _).mp hi'.1.1.2
    obtain ⟨h, hh⟩ := (Dbl.isfinite_iff _).mp hi'.1.2
    obtain ⟨hm1, hhm1⟩ := (Dbl.isfinite_iff _).mp hi'.2
    refine ⟨st.addY q lev l lm1 h hm1,
      accumulate_mlcv_Ysums6_qoi_included K fuel numFunctions lev lf_offset hf_offset r.1 r.2 st
        q l lm1 h hm1 hwf hfuel hl hlm1 hh hhm1,
      PairedSums_addY_WF K st q lev l lm1 h hm1 hwf, ?_, ?_⟩
    · intro j
      by_cases hj : j = q <;> simp [PairedSums.addY, SizetArray.incr, hj, hi]
    · intro j
      by_cases hj : j = q <;> simp [PairedSums.addY, SizetArray.incr, hj, hi]
  · simp only [Bool.not_eq_true] at hi
    refine ⟨st,
      accumulate_mlcv_Ysums6_qoi_excluded fuel numFunctions lev lf_offset hf_offset r.1 r.2 st q
        hi, hwf, ?_, ?_⟩
    · intro j; simp [hi]
    · intro j; simp [hi]

/-- Counts after a batch in the six-map `accumulate_mlcv_Ysums` (either branch):
each count of a QoI grows by the number of pairs that pass the inclusion test. -/
theorem accumulate_mlcv_Ysums6_counts (K fuel numFunctions lev : Nat)
    (lf_resp_map hf_resp_map : List RealVector) (st : PairedSums)
    (lf_offset hf_offset : RealVector) (hwf : st.WF K) (hfuel : K ≤ fuel) :
    ∃ st', accumulate_mlcv_Ysums6 fuel numFunctions lf_resp_map hf_resp_map st lev
        lf_offset hf_offset = some st' ∧
      (lev = 0 → accumulate_mlcv_Qsums6 fuel numFunctions lf_resp_map hf_resp_map st lev
        lf_offset hf_offset = some st') ∧
      st'.WF K ∧
      (∀ j, st'.num_L j = st.num_L j + if j < numFunctions then
        (List.zip lf_resp_map hf_resp_map).countP
          (fun r => pairedIncluded numFunctions lev lf_offset hf_offset r j) else 0) ∧
      (∀ j, st'.num_H j = st.num_H j + if j < numFunctions then
        (List.zip lf_resp_map hf_resp_map).countP
          (fun r => pairedIncluded numFunctions lev lf_offset hf_offset r j) else 0) := by
  by_cases hlev : lev = 0
  · obtain ⟨st', h1, w, a, b⟩ := foldlM_batch_counts
      (fun r st q => accumulate_mlcv_Qsums6_qoi fuel lev lf_offset hf_offset r.1 r.2 st q)
      (PairedSums.WF K) PairedSums.num_L PairedSums.num_H
      (fun r q => (shifted r.1 lf_offset q).isfinite && (shifted r.2 hf_offset q).isfinite)
      numFunctions
      (fun r st q hw => accumulate_mlcv_Qsums6_qoi_step K fuel lev lf_offset hf_offset hfuel r
        st q hw)
      (List.zip lf_resp_map hf_resp_map) st hwf
    refine ⟨st', ?_, fun _ => h1, w, ?_, ?_⟩
    · unfold accumulate_mlcv_Ysums6
      rw [if_pos hlev]
      exact h1
    · intro j; rw [a j]; simp [pairedIncluded, hlev]
    · intro j; rw [b j]; simp [pairedIncluded, hlev]
  · obtain ⟨st', h1, w, a, b⟩ := foldlM_batch_counts
      (fun r st q =>
        accumulate_mlcv_Ysums6_qoi fuel numFunctions lev lf_offset hf_offset r.1 r.2 st q)
      (PairedSums.WF K) PairedSums.num_L PairedSums.num_H
      (fun r q => (shifted r.1 lf_offset q).isfinite
        && (shifted r.1 lf_offset (q + numFunctions)).isfinite
        && (shifted r.2 hf_offset q).isfinite
        && (shifted r.2 hf_offset (q + numFunctions)).isfinite)
      numFunctions
      (fun r st q hw => accumulate_mlcv_Ysums6_qoi_step K fuel numFunctions lev lf_offset
        hf_offset hfuel r st q hw)
      (List.zip lf_resp_map hf_resp_map) st hwf
    refine ⟨st', ?_, fun h0 => absurd h0 hlev, w, ?_, ?_⟩
    · unfold accumulate_mlcv_Ysums6
      rw [if_neg hlev]
      exact h1
    · intro j; rw [a j]; simp [pairedIncluded, hlev]
    · intro j; rw [b j]; simp [pairedIncluded, hlev]

theorem accumulate_mlcv_Qsums16_qoi_step (K fuel numFunctions lev : Nat)
    (lf_offset hf_offset : RealVector) (hfuel : K ≤ fuel) (r : RealVector × RealVector)
    (st : LevelSums) (q : Nat) (hwf : st.WF K) :
    ∃ st', accumulate_mlcv_Qsums16_qoi fuel numFunctions lev lf_offset hf_offset r.1 r.2 st q
        = some st' ∧
      st'.WF K ∧
      (∀ j, st'.num_L j = st.num_L j
        + if j = q ∧ levelPairIncluded numFunctions lf_offset hf_offset r.1 r.2 q = true
          then 1 else 0) ∧
      (∀ j, st'.num_H j = st.num_H j
        + if j = q ∧ levelPairIncluded numFunctions lf_offset hf_offset r.1 r.2 q = true
          then 1 else 0) := by
  by_cases hi : levelPairIncluded numFunctions lf_offset hf_offset r.1 r.2 q = true
  · have hi' := hi
    simp only [levelPairIncluded, Bool.and_eq_true] at hi'
    obtain ⟨l, hl⟩ := (Dbl.isfinite_iff _).mp hi'.1.1.1
    obtain ⟨lm1, hlm1⟩ := (Dbl.isfinite_iff _).mp hi'.1.1.2
    obtain ⟨h, hh⟩ := (Dbl.isfinite_iff _).mp hi'.1.2
    obtain ⟨hm1, hhm1⟩ := (Dbl.isfinite_iff _).mp hi'.2
    refine ⟨st.addQ q lev l lm1 h hm1,
      accumulate_mlcv_Qsums16_qoi_included K fuel numFunctions lev lf_offset hf_offset r.1 r.2
        st q l lm1 h hm1 hwf hfuel hl hlm1 hh hhm1,
      LevelSums_addQ_WF K st q lev l lm1 h hm1 hwf, ?_, ?_⟩
    · intro j
      by_cases hj : j = q <;> simp [LevelSums.addQ, SizetArray.incr, hj, hi]
    · intro j
      by_cases hj : j = q <;> simp [LevelSums.addQ, SizetArray.incr, hj, hi]
  · simp only [Bool.not_eq_true] at hi
    refine ⟨st,
      accumulate_mlcv_Qsums16_qoi_excluded fuel numFunctions lev lf_offset hf_offset r.1 r.2 st q
        (by simpa [levelPairIncluded] using hi), hwf, ?_, ?_⟩
    · intro j; simp [hi]
    · intro j; simp [hi]

theorem accumulate_mlcv_Qsums2_qoi_step (K fuel numFunctions lev : Nat)
    (offset : RealVector) (hfuel : K ≤ fuel) (fn_vals : RealVector)
    (st : RefinedSums) (q : Nat) (hwf : st.WF K) :
    ∃ st', accumulate_mlcv_Qsums2_qoi fuel numFunctions lev offset fn_vals st q = some st' ∧
      st'.WF K ∧
      (∀ j, st'.num_Q j = st.num_Q j
        + if j = q ∧ levelIncluded numFunctions offset fn_vals q = true then 1 else 0) := by
  by_cases hi : levelIncluded numFunctions offset fn_vals q = true
  · have hi' := hi
    simp only [levelIncluded, Bool.and_eq_true] at hi'
    obtain ⟨x, hx⟩ := (Dbl.isfinite_iff _).mp hi'.1
    obtain ⟨y, hy⟩ := (Dbl.isfinite_iff _).mp hi'.2
    refine ⟨st.addQ q lev x y,
      accumulate_mlcv_Qsums2_qoi_included K fuel numFunctions lev offset fn_vals st q x y hwf
        hfuel hx hy, RefinedSums_addQ_WF K st q lev x y hwf, ?_⟩
    intro j
    by_cases hj : j = q <;> simp [RefinedSums.addQ, SizetArray.incr, hj, hi]
  · simp only [Bool.not_eq_true] at hi
    refine ⟨st,
      accumulate_mlcv_Qsums2_qoi_excluded fuel numFunctions lev offset fn_vals st q
        (by simpa [levelIncluded] using hi), hwf, ?_⟩
    intro j; simp [hi]

theorem accumulate_mlcv_Ysums1_qoi_step (K fuel numFunctions lev : Nat)
    (offset : RealVector) (hfuel : K ≤ fuel) (fn_vals : RealVector)
    (st : YSums) (q : Nat) (hwf : st.WF K) :
    ∃ st', accumulate_mlcv_Ysums1_qoi fuel numFunctions lev offset fn_vals st q = some st' ∧
      st'.WF K ∧
      (∀ j, st'.num_Y j = st.num_Y j
        + if j = q ∧ levelIncluded numFunctions offset fn_vals q = true then 1 else 0) := by
  by_cases hi : levelIncluded numFunctions offset fn_vals q = true
  · have hi' := hi
    simp only [levelIncluded, Bool.and_eq_true] at hi'
    obtain ⟨x, hx⟩ := (Dbl.isfinite_iff _).mp hi'.1
    obtain ⟨y, hy⟩ := (Dbl.isfinite_iff _).mp hi'.2
    refine ⟨st.addY q lev x y,
      accumulate_mlcv_Ysums1_qoi_included K fuel numFunctions lev offset fn_vals st q x y hwf
        hfuel hx hy, YSums_addY_WF K st q lev x y hwf, ?_⟩
    intro j
    by_cases hj : j = q <;> simp [YSums.addY, SizetArray.incr, hj, hi]
  · simp only [Bool.not_eq_true] at hi
    refine ⟨st,
      accumulate_mlcv_Ysums1_qoi_excluded fuel numFunctions lev offset fn_vals st q
        (by simpa [levelIncluded] using hi), hwf, ?_⟩
    intro j; simp [hi]

theorem zeroOrders_WF (r c : Nat) : MapWF 4 (zeroOrders r c) := by
  unfold MapWF MapIter.Ready MapIter.start zeroOrders
  simp [INT_MAX]

theorem freshPairedSums_WF (nF nml ncv : Nat) : (freshPairedSums nF nml ncv).WF 4 := by
  refine ⟨zeroOrders_WF _ _, zeroOrders_WF _ _, zeroOrders_WF _ _, zeroOrders_WF _ _,
    zeroOrders_WF _ _, ?_⟩
  unfold MapWF MapIter.Ready MapIter.start freshPairedSums
  simp [INT_MAX]

theorem freshLevelSums_WF (nF nml ncv : Nat) : (freshLevelSums nF nml ncv).WF 4 :=
  ⟨zeroOrders_WF _ _, zeroOrders_WF _ _, zeroOrders_WF _ _, zeroOrders_WF _ _,
    zeroOrders_WF _ _, zeroOrders_WF _ _, zeroOrders_WF _ _, zeroOrders_WF _ _,
    zeroOrders_WF _ _, zeroOrders_WF _ _, zeroOrders_WF _ _, zeroOrders_WF _ _,
    zeroOrders_WF _ _, zeroOrders_WF _ _, zeroOrders_WF _ _, zeroOrders_WF _ _⟩

theorem shifted_nil (fn_vals : RealVector) (i : Nat) : shifted fn_vals [] i = fn_vals.elem i := by
  simp [shifted]

/-- The one-map `accumulate_mlcv_Ysums` on a batch of one response of a single
QoI above level 0. -/
theorem accumulate_mlcv_Ysums1_single (K fuel lev : Nat) (q qm1 : ℚ) (st : YSums)
    (hwf : st.WF K) (hfuel : K ≤ fuel) (hlev : lev ≠ 0) :
    accumulate_mlcv_Ysums1 fuel 1 [[Dbl.fin q, Dbl.fin qm1]] st lev []
      = some (st.addY 0 lev q qm1) := by
  unfold accumulate_mlcv_Ysums1
  rw [if_neg hlev]
  have h := accumulate_mlcv_Ysums1_qoi_included K fuel 1 lev [] [Dbl.fin q, Dbl.fin qm1] st 0
    q qm1 hwf hfuel (by simp [shifted, RealVector.elem]) (by simp [shifted, RealVector.elem])
  simp [List.range_succ, h]

theorem entryAt_grow_zeroOrders (f : Int → Dbl) (qoi lev r c : Nat) (k : Nat)
    (hk1 : 1 ≤ k) (hk4 : k ≤ 4) :
    entryAt (grow f qoi lev (zeroOrders r c)) (k : Int) qoi lev = 0 + f (k : Int) := by
  interval_cases k <;>
    simp [entryAt, grow, zeroOrders, List.lookup, RealMatrix.addAt, zeroMatrix]

theorem levelContribution_succ (k : Nat) (q : Nat → ℚ) (l : Nat) (hk1 : 1 ≤ k) (hk4 : k ≤ 4) :
    levelContribution k q (l + 1) = Dbl.fin (q (l + 1) ^ k - q l ^ k) := by
  unfold levelContribution
  rw [accumulate_mlcv_Ysums1_single 4 4 (l + 1) (q (l + 1)) (q (l + 1 - 1))
    (freshYSums 1 (l + 1 + 1)) (zeroOrders_WF _ _) le_rfl (by omega)]
  simp only [YSums.addY, freshYSums]
  rw [entryAt_grow_zeroOrders _ 0 (l + 1) 1 (l + 1 + 1) k hk1 hk4]
  simp only [diffInc, Int.toNat_ofNat, Nat.add_sub_cancel]
  show Dbl.fin 0 + _ = _
  simp
/-! ## Loop lemmas -/

theorem foldl_setAt_range {α : Type} (g : Nat → α) (v0 : Nat → α) (n : Nat) :
    (List.range n).foldl (fun v i => setAt v i (g i)) v0
      = fun i => if i < n then g i else v0 i := by
  induction n with
  | zero => simp
  | succ n ih =>
    rw [List.range_succ, List.foldl_append, ih]
    funext i
    simp only [List.foldl_cons, List.foldl_nil, setAt]
    by_cases h : i = n
    · subst h; simp
    · have : (i < n + 1) = (i < n) := by
        apply propext; constructor <;> intro h' <;> omega
      simp [h, this]

theorem foldl_setEntry_col {α : Type} (g : Nat → α) (m0 : Nat → Nat → α) (a n : Nat) :
    (List.range n).foldl (fun m i => setEntry m i a (g i)) m0
      = fun i j => if i < n ∧ j = a then g i else m0 i j := by
  induction n with
  | zero => simp
  | succ n ih =>
    rw [List.range_succ, List.foldl_append, ih]
    funext i j
    simp only [List.foldl_cons, List.foldl_nil, setEntry]
    by_cases h : i = n
    · subst h; by_cases hj : j = a <;> simp [hj]
    · have : (i < n + 1) = (i < n) := by
        apply propext; constructor <;> intro h' <;> omega
      simp [h, this]

theorem foldl_cols_range {α : Type} (G : Nat → Nat → α) (m0 : Nat → Nat → α) (nF n : Nat) :
    (List.range n).foldl
        (fun m a => fun i j => if i < nF ∧ j = a then G i a else m i j) m0
      = fun i j => if i < nF ∧ j < n then G i j else m0 i j := by
  induction n with
  | zero => simp
  | succ n ih =>
    rw [List.range_succ, List.foldl_append, ih]
    funext i j
    simp only [List.foldl_cons, List.foldl_nil]
    by_cases hi : i < nF
    · by_cases hj : j = n
      · subst hj; simp [hi]
      · have : (j < n + 1) = (j < n) := by
          apply propext; constructor <;> intro h' <;> omega
        simp [hi, hj, this]
    · simp [hi]

section LoopLemmas

variable {α : Type} [LinearOrderedField α]

/-- Closed form of the matrix written by `mfmc_analytic_solution`. -/
theorem mfmc_analytic_solution_eq (sqrt : α → α) (nF nA : Nat)
    (rho2_LH : Nat → Nat → α) (cost : Nat → α) (er : Nat → Nat → α) :
    mfmc_analytic_solution sqrt nF nA rho2_LH cost er
      = fun q a =>
          if q < nF ∧ a < nA then
            sqrt (cost nA / (1 - rho2_LH q (nA - 1)) / cost a
              * (if a ≠ 0 then rho2_LH q a - rho2_LH q (a - 1) else rho2_LH q a))
          else er q a := by
  unfold mfmc_analytic_solution
  simp only [foldl_setAt_range, foldl_setEntry_col]
  have key : ∀ (m : Nat → Nat → α) (a : Nat),
      (if a ≠ 0 then
          (fun i j => if i < nF ∧ j = a then
            sqrt ((if i < nF then cost nA / (1 - rho2_LH i (nA - 1)) else 0) / cost a
              * (rho2_LH i a - rho2_LH i (a - 1))) else m i j)
        else
          (fun i j => if i < nF ∧ j = a then
            sqrt ((if i < nF then cost nA / (1 - rho2_LH i (nA - 1)) else 0) / cost a
              * rho2_LH i a) else m i j))
      = (fun i j => if i < nF ∧ j = a then
            (fun q a => sqrt (cost nA / (1 - rho2_LH q (nA - 1)) / cost a
              * (if a ≠ 0 then rho2_LH q a - rho2_LH q (a - 1) else rho2_LH q a))) i a
          else m i j) := by
    intro m a
    by_cases ha : a = 0
    · subst ha
      funext i j
      by_cases hi : i < nF <;> simp [hi]
    · funext i j
      by_cases hi : i < nF <;> simp [hi, ha]
  simp only [key]
  rw [foldl_cols_range]

end LoopLemmas

/-- Entry `(q, a)` of the matrix written by `mfmc_analytic_solution` over the
reals, in the arrangement `sqrt((cost_H / cost[a]) * Δrho2 / (1 - rho2_last))`. -/
theorem mfmc_analytic_entry (numFunctions numApprox : Nat)
    (rho2_LH : Nat → Nat → ℝ) (cost : Nat → ℝ) (eval_ratios : Nat → Nat → ℝ)
    (q a : Nat) (hq : q < numFunctions) (ha : a < numApprox) :
    mfmc_analytic_solution Real.sqrt numFunctions numApprox rho2_LH cost eval_ratios q a
      = Real.sqrt ((cost numApprox / cost a)
          * (rho2_LH q a - (if a = 0 then 0 else rho2_LH q (a - 1)))
          / (1 - rho2_LH q (numApprox - 1))) := by
  rw [mfmc_analytic_solution_eq]
  simp only [hq, ha, and_self, if_true]
  congr 1
  by_cases h0 : a = 0
  · simp [h0]; ring
  · simp [h0]; ring

section SweepLemmas

variable {α : Type} [LinearOrderedField α]

theorem le_stdMax_right (a b : α) : b ≤ stdMax a b := by
  unfold stdMax
  split_ifs with h
  · exact le_rfl
  · exact not_lt.mp h

theorem le_stdMax_left (a b : α) : a ≤ stdMax a b := by
  unfold stdMax
  split_ifs with h
  · exact le_of_lt h
  · exact le_rfl

theorem clampFrom_ge (u : Nat → α) (prev : α) (k i : Nat) (h : k ≤ i) :
    clampFrom u prev k i = prev := by
  unfold clampFrom
  have : k - i = 0 := by omega
  simp [this]

theorem clampFrom_lt (u : Nat → α) (prev : α) (k i : Nat) (h : i < k) :
    clampFrom u prev k i = stdMax (u i) (clampFrom u prev k (i + 1)) := by
  unfold clampFrom
  have : k - i = (k - (i + 1)) + 1 := by omega
  rw [this, List.range'_succ, List.foldr_cons]

theorem clampFrom_succ (u : Nat → α) (prev : α) (k : Nat) :
    ∀ (d i : Nat), i + d = k →
      clampFrom u prev (k + 1) i = clampFrom u (stdMax (u k) prev) k i := by
  intro d
  induction d with
  | zero =>
    intro i hi
    have hik : i = k := by omega
    subst hik
    rw [clampFrom_lt u prev (i + 1) i (by omega), clampFrom_ge u prev (i + 1) (i + 1) le_rfl,
      clampFrom_ge u _ i i le_rfl]
  | succ d ih =>
    intro i hi
    rw [clampFrom_lt u prev (k + 1) i (by omega), clampFrom_lt u _ k i (by omega),
      ih (i + 1) (by omega)]

theorem prev_le_clampFrom (u : Nat → α) (prev : α) (k : Nat) :
    ∀ (d i : Nat), i + d = k → prev ≤ clampFrom u prev k i := by
  intro d
  induction d with
  | zero =>
    intro i hi
    rw [clampFrom_ge u prev k i (by omega)]
  | succ d ih =>
    intro i hi
    rw [clampFrom_lt u prev k i (by omega)]
    exact le_trans (ih (i + 1) (by omega)) (le_stdMax_right _ _)

theorem unconstrained_le_clampFrom (u : Nat → α) (prev : α) (k i : Nat) (h : i < k) :
    u i ≤ clampFrom u prev k i := by
  rw [clampFrom_lt u prev k i h]
  exact le_stdMax_left _ _

theorem clampFrom_antitone (u : Nat → α) (prev : α) (k : Nat) :
    ∀ (d j : Nat), j + d < k → clampFrom u prev k (j + d) ≤ clampFrom u prev k j := by
  intro d
  induction d with
  | zero => intro j _; exact le_rfl
  | succ d ih =>
    intro j hj
    rw [clampFrom_lt u prev k j (by omega)]
    have := ih (j + 1) (by omega)
    have e : j + 1 + d = j + (d + 1) := by omega
    rw [e] at this
    exact le_trans this (le_stdMax_right _ _)

theorem sweep_step_eq (nF : Nat) (u : Nat → α) (ordered : Bool) (ms : List Nat)
    (st : (Nat → Nat → α) × α) (i : Nat) :
    sweep_step nF u ordered ms st i
      = ((fun q a => if q < nF ∧ a = seqApprox ordered ms i then stdMax (u i) st.2
            else st.1 q a), stdMax (u i) st.2) := by
  unfold sweep_step
  simp only [foldl_setEntry_col]

/-- The reverse sweep over the positions `k-1, ..., 0`, from any starting
state: every row `q < nF` of the approximation at position `i < k` receives
`clampFrom u prev k i`, and no other entry changes. -/
theorem sweep_foldl_spec (nF n : Nat) (u : Nat → α) (ordered : Bool) (ms : List Nat)
    (hinj : ∀ i j, i < n → j < n → seqApprox ordered ms i = seqApprox ordered ms j → i = j) :
    ∀ (k : Nat), k ≤ n → ∀ (er0 : Nat → Nat → α) (prev0 : α),
      (∀ i, i < k → ∀ q, q < nF →
        ((List.range k).reverse.foldl (sweep_step nF u ordered ms) (er0, prev0)).1 q
            (seqApprox ordered ms i) = clampFrom u prev0 k i) ∧
      (∀ q a, (nF ≤ q ∨ ∀ i, i < k → seqApprox ordered ms i ≠ a) →
        ((List.range k).reverse.foldl (sweep_step nF u ordered ms) (er0, prev0)).1 q a
          = er0 q a) := by
  intro k
  induction k with
  | zero =>
    intro _ er0 prev0
    refine ⟨fun i hi => absurd hi (Nat.not_lt_zero _), fun q a _ => ?_⟩
    simp
  | succ k ih =>
    intro hk er0 prev0
    rw [List.range_succ, List.reverse_append, List.reverse_singleton, List.singleton_append,
      List.foldl_cons, sweep_step_eq]
    obtain ⟨ih1, ih2⟩ := ih (by omega)
      (fun q a => if q < nF ∧ a = seqApprox ordered ms k then stdMax (u k) prev0 else er0 q a)
      (stdMax (u k) prev0)
    refine ⟨fun i hi q hq => ?_, fun q a hqa => ?_⟩
    · by_cases hik : i = k
      · subst hik
        rw [ih2 q _ (Or.inr (fun j hj hpj => by
          have := hinj j i (by omega) (by omega) hpj
          omega))]
        simp only [hq, and_self, if_true]
        rw [clampFrom_lt u prev0 (i + 1) i (by omega), clampFrom_ge u prev0 (i + 1) (i + 1) le_rfl]
      · rw [ih1 i (by omega) q hq]
        exact (clampFrom_succ u prev0 k (k - i) i (by omega)).symm
    · rw [ih2 q a (by
        rcases hqa with h | h
        · exact Or.inl h
        · exact Or.inr (fun i hi => h i (by omega)))]
      rcases hqa with h | h
      · have : ¬ q < nF := by omega
        simp [this]
      · have : a ≠ seqApprox ordered ms k := fun e => h k (by omega) e.symm
        simp [this]

theorem seqApprox_injective (ordered : Bool) (ms : List Nat) (n : Nat)
    (hperm : ordered = false → List.Perm ms (List.range n)) :
    ∀ i j, i < n → j < n → seqApprox ordered ms i = seqApprox ordered ms j → i = j := by
  intro i j hi hj h
  cases ordered with
  | true => simpa [seqApprox] using h
  | false =>
    have hp := hperm rfl
    have hlen : ms.length = n := by simpa using hp.length_eq
    have hnd : ms.Nodup := hp.nodup_iff.mpr (List.nodup_range n)
    simp only [seqApprox, Bool.false_eq_true, if_false] at h
    have hi' : i < ms.length := by omega
    have hj' : j < ms.length := by omega
    rw [List.getD_eq_getElem ms 0 hi', List.getD_eq_getElem ms 0 hj'] at h
    exact (List.Nodup.getElem_inj_iff hnd).mp h

theorem seqApprox_surjective (ordered : Bool) (ms : List Nat) (n : Nat)
    (hperm : ordered = false → List.Perm ms (List.range n)) :
    ∀ a, a < n → ∃ i, i < n ∧ seqApprox ordered ms i = a := by
  intro a ha
  cases ordered with
  | true => exact ⟨a, ha, by simp [seqApprox]⟩
  | false =>
    have hp := hperm rfl
    have hlen : ms.length = n := by simpa using hp.length_eq
    have hmem : a ∈ ms := hp.mem_iff.mpr (List.mem_range.mpr ha)
    obtain ⟨i, hi, hia⟩ := List.getElem_of_mem hmem
    refine ⟨i, by omega, ?_⟩
    simp only [seqApprox, Bool.false_eq_true, if_false]
    rw [List.getD_eq_getElem ms 0 hi, hia]

theorem reverse_sweep_at (nF n : Nat) (u : Nat → ℝ) (ordered : Bool) (ms : List Nat)
    (er0 : Nat → Nat → ℝ)
    (hperm : ordered = false → List.Perm ms (List.range n))
    (i q : Nat) (hi : i < n) (hq : q < nF) :
    (reverse_sweep nF n u ordered ms er0).1 q (seqApprox ordered ms i)
      = clampFrom u 1 n i :=
  (sweep_foldl_spec nF n u ordered ms (seqApprox_injective ordered ms n hperm) n le_rfl
    er0 1).1 i hi q hq

end SweepLemmas

/-! ## Evaluation-ratio estimators: main results -/

/-- C1: for every QoI `q < numFunctions` and approximation `a < numApprox`,
`mfmc_analytic_solution` writes
`eval_ratios(q,a) = sqrt((cost_H / cost[a]) * (rho2(q,a) - rho2(q,a-1)) / (1 - rho2(q,numApprox-1)))`
with `cost_H = cost[numApprox]` and `rho2(q,-1)` read as `0`. -/
theorem mfmc_analytic_solution_formula (numFunctions numApprox : Nat)
    (rho2_LH : Nat → Nat → ℝ) (cost : Nat → ℝ) (eval_ratios : Nat → Nat → ℝ)
    (q a : Nat) (hq : q < numFunctions) (ha : a < numApprox) :
    mfmc_analytic_solution Real.sqrt numFunctions numApprox rho2_LH cost eval_ratios q a
      = Real.sqrt ((cost numApprox / cost a)
          * (rho2_LH q a - (if a = 0 then 0 else rho2_LH q (a - 1)))
          / (1 - rho2_LH q (numApprox - 1))) := by
  rw [mfmc_analytic_solution_eq]
  simp only [hq, ha, and_self, if_true]
  congr 1
  by_cases h0 : a = 0
  · simp [h0]; ring
  · simp [h0]; ring

/-- Witness for `mfmc_analytic_solution_formula`: two QoI, two approximations. -/
theorem mfmc_analytic_solution_formula_witness :
    (1 : Nat) < 2 ∧ (1 : Nat) < 2 ∧
    mfmc_analytic_solution Real.sqrt 2 2 (fun _ a => if a = 0 then 1 / 4 else 3 / 4)
        (fun a => if a = 2 then 16 else 1) (fun _ _ => 0) 1 1
      = Real.sqrt ((((fun a => if a = 2 then (16 : ℝ) else 1) 2)
            / ((fun a => if a = 2 then (16 : ℝ) else 1) 1))
          * ((fun (_ : Nat) (a : Nat) => if a = 0 then (1 / 4 : ℝ) else 3 / 4) 1 1
              - (if (1 : Nat) = 0 then 0
                  else (fun (_ : Nat) (a : Nat) => if a = 0 then (1 / 4 : ℝ) else 3 / 4) 1 (1 - 1)))
          / (1 - (fun (_ : Nat) (a : Nat) => if a = 0 then (1 / 4 : ℝ) else 3 / 4) 1 (2 - 1))) :=
  ⟨by decide, by decide,
    mfmc_analytic_solution_formula 2 2 (fun _ a => if a = 0 then 1 / 4 else 3 / 4)
      (fun a => if a = 2 then 16 else 1) (fun _ _ => 0) 1 1 (by decide) (by decide)⟩

/-- C2 (as amended): with one approximation of cost `1.0` and a truth model of
cost `25.0` (the cost array `[1.0, 25.0]`, approximation first and truth last)
and `rho^2 = 0.81`, `mfmc_analytic_solution` returns
`sqrt(25 * 0.81 / (1 - 0.81))`, which lies strictly between `10.32` and
`10.33`. -/
theorem mfmc_two_model_scenario :
    mfmc_analytic_solution Real.sqrt 1 1 (fun _ _ => (0.81 : ℝ))
        (fun i => if i = 0 then 1 else 25) (fun _ _ => 0) 0 0
      = Real.sqrt (25 * 0.81 / (1 - 0.81)) ∧
    10.32 < mfmc_analytic_solution Real.sqrt 1 1 (fun _ _ => (0.81 : ℝ))
        (fun i => if i = 0 then 1 else 25) (fun _ _ => 0) 0 0 ∧
    mfmc_analytic_solution Real.sqrt 1 1 (fun _ _ => (0.81 : ℝ))
        (fun i => if i = 0 then 1 else 25) (fun _ _ => 0) 0 0 < 10.33 := by
  have h : mfmc_analytic_solution Real.sqrt 1 1 (fun _ _ => (0.81 : ℝ))
        (fun i => if i = 0 then 1 else 25) (fun _ _ => 0) 0 0
      = Real.sqrt (25 * 0.81 / (1 - 0.81)) := by
    rw [mfmc_analytic_entry 1 1 _ _ _ 0 0 (by decide) (by decide)]
    congr 1
    norm_num
  rw [h]
  refine ⟨rfl, ?_, ?_⟩
  · rw [Real.lt_sqrt (by norm_num)]
    norm_num
  · rw [Real.sqrt_lt' (by norm_num)]
    norm_num

/-- C2 (counterexample to the claim as worded): read literally, with truth cost
`1.0` and approximation cost `25.0`, the ratio is below `1`, hence not
`sqrt(25 * 0.81 / (1 - 0.81))`; and with the costs the other way round the
ratio is below `10.33`, hence not `10.35` to the two decimals quoted. -/
theorem mfmc_two_model_scenario_counterexample :
    mfmc_analytic_solution Real.sqrt 1 1 (fun _ _ => (0.81 : ℝ))
        (fun i => if i = 0 then 25 else 1) (fun _ _ => 0) 0 0
      ≠ Real.sqrt (25 * 0.81 / (1 - 0.81)) ∧
    ¬ (|mfmc_analytic_solution Real.sqrt 1 1 (fun _ _ => (0.81 : ℝ))
        (fun i => if i = 0 then 1 else 25) (fun _ _ => 0) 0 0 - 10.35| ≤ 0.005) := by
  constructor
  · rw [mfmc_analytic_entry 1 1 _ _ _ 0 0 (by decide) (by decide)]
    have h1 : Real.sqrt (((fun i : Nat => if i = 0 then (25 : ℝ) else 1) 1
          / (fun i : Nat => if i = 0 then (25 : ℝ) else 1) 0)
        * ((fun (_ : Nat) (_ : Nat) => (0.81 : ℝ)) 0 0
            - (if (0 : Nat) = 0 then 0 else (fun (_ : Nat) (_ : Nat) => (0.81 : ℝ)) 0 (0 - 1)))
        / (1 - (fun (_ : Nat) (_ : Nat) => (0.81 : ℝ)) 0 (1 - 1))) < 1 := by
      rw [Real.sqrt_lt' (by norm_num)]
      norm_num
    have h2 : (1 : ℝ) < Real.sqrt (25 * 0.81 / (1 - 0.81)) := by
      rw [Real.lt_sqrt (by norm_num)]
      norm_num
    exact ne_of_lt (lt_trans h1 h2)
  · have h : mfmc_analytic_solution Real.sqrt 1 1 (fun _ _ => (0.81 : ℝ))
          (fun i => if i = 0 then 1 else 25) (fun _ _ => 0) 0 0 < 10.33 := by
      rw [mfmc_analytic_entry 1 1 _ _ _ 0 0 (by decide) (by decide),
        Real.sqrt_lt' (by norm_num)]
      norm_num
    intro habs
    have := (abs_le.mp habs).1
    norm_num at this h
    linarith

/-- The two-approximation example used below: the sequence `[1, 0]` lists the
averaged correlations `1/4, 3/4` from low to high. -/
theorem swapped_sequence_sorted :
    ∀ i j, i < j → j < 2 →
      average 1 (fun (_ : Nat) (a : Nat) => if a = 0 then (3 / 4 : ℝ) else 1 / 4)
          (seqApprox false [1, 0] i)
        ≤ average 1 (fun (_ : Nat) (a : Nat) => if a = 0 then (3 / 4 : ℝ) else 1 / 4)
          (seqApprox false [1, 0] j) := by
  intro i j hij hj
  have hj1 : j = 1 := by omega
  have hi0 : i = 0 := by omega
  subst hj1 hi0
  simp [average, seqApprox]
  norm_num

/-- C3: after `mfmc_reordered_analytic_solution`, if the approximation at
position `pi` of the shared ordering comes later (is more correlated) than the
one at position `pj`, its ratio is no larger, in every QoI row
(`seqApprox` is `model_sequence[·]`, or the index itself when `ordered`).
The shared ordering is a permutation of the approximations that lists the
QoI-averaged correlations from low to high. -/
theorem mfmc_reordered_ratio_monotone (numFunctions numApprox : Nat)
    (rho2_LH : Nat → Nat → ℝ) (cost : Nat → ℝ) (ordered : Bool)
    (model_sequence : List Nat) (eval_ratios : Nat → Nat → ℝ)
    (hperm : ordered = false → List.Perm model_sequence (List.range numApprox))
    (_hsorted : ∀ i j, i < j → j < numApprox →
      average numFunctions rho2_LH (seqApprox ordered model_sequence i)
        ≤ average numFunctions rho2_LH (seqApprox ordered model_sequence j))
    (q : Nat) (hq : q < numFunctions) (pi pj : Nat) (hji : pj < pi) (hi : pi < numApprox) :
    mfmc_reordered_analytic_solution Real.sqrt numFunctions numApprox rho2_LH cost ordered
        model_sequence eval_ratios q (seqApprox ordered model_sequence pi)
      ≤ mfmc_reordered_analytic_solution Real.sqrt numFunctions numApprox rho2_LH cost ordered
        model_sequence eval_ratios q (seqApprox ordered model_sequence pj) := by
  unfold mfmc_reordered_analytic_solution
  rw [reverse_sweep_at numFunctions numApprox _ ordered model_sequence eval_ratios hperm pi q hi hq,
    reverse_sweep_at numFunctions numApprox _ ordered model_sequence eval_ratios hperm pj q
      (by omega) hq]
  have := clampFrom_antitone
    (r_unconstrained_loop Real.sqrt numApprox (average numFunctions rho2_LH) cost
      (cost numApprox / (1 - average numFunctions rho2_LH
        (if ordered = true then numApprox - 1 else model_sequence.getD (numApprox - 1) 0)))
      ordered model_sequence).1 1 numApprox (pi - pj) pj (by omega)
  have e : pj + (pi - pj) = pi := by omega
  rw [e] at this
  exact this

/-- Witness for `mfmc_reordered_ratio_monotone`: one QoI, two approximations
in swapped order. -/
theorem mfmc_reordered_ratio_monotone_witness :
    ((false = false → List.Perm [1, 0] (List.range 2)) ∧
      (∀ i j, i < j → j < 2 →
        average 1 (fun (_ : Nat) (a : Nat) => if a = 0 then (3 / 4 : ℝ) else 1 / 4)
            (seqApprox false [1, 0] i)
          ≤ average 1 (fun (_ : Nat) (a : Nat) => if a = 0 then (3 / 4 : ℝ) else 1 / 4)
            (seqApprox false [1, 0] j)) ∧
      (0 : Nat) < 1 ∧ (0 : Nat) < 1 ∧ (1 : Nat) < 2) ∧
    mfmc_reordered_analytic_solution Real.sqrt 1 2 (fun _ a => if a = 0 then 3 / 4 else 1 / 4)
        (fun a => if a = 2 then 16 else 1) false [1, 0] (fun _ _ => 0) 0
        (seqApprox false [1, 0] 1)
      ≤ mfmc_reordered_analytic_solution Real.sqrt 1 2
        (fun _ a => if a = 0 then 3 / 4 else 1 / 4)
        (fun a => if a = 2 then 16 else 1) false [1, 0] (fun _ _ => 0) 0
        (seqApprox false [1, 0] 0) :=
  ⟨⟨fun _ => by decide, swapped_sequence_sorted, by decide, by decide, by decide⟩,
    mfmc_reordered_ratio_monotone 1 2 (fun _ a => if a = 0 then 3 / 4 else 1 / 4)
      (fun a => if a = 2 then 16 else 1) false [1, 0] (fun _ _ => 0) (fun _ => by decide)
      swapped_sequence_sorted 0 (by decide) 1 0 (by decide) (by decide)⟩

/-- C4: for positive costs and QoI-averaged `rho^2` in `[0,1)`, every ratio
written by `mfmc_reordered_analytic_solution` (every QoI `q`, every
approximation `a`) is at least `1`.  The shared ordering is a permutation of
the approximations that lists the averaged correlations from low to high. -/
theorem mfmc_reordered_ratio_ge_one (numFunctions numApprox : Nat)
    (rho2_LH : Nat → Nat → ℝ) (cost : Nat → ℝ) (ordered : Bool)
    (model_sequence : List Nat) (eval_ratios : Nat → Nat → ℝ)
    (_hcost : ∀ a, a ≤ numApprox → 0 < cost a)
    (_hrho : ∀ a, a < numApprox →
      0 ≤ average numFunctions rho2_LH a ∧ average numFunctions rho2_LH a < 1)
    (hperm : ordered = false → List.Perm model_sequence (List.range numApprox))
    (_hsorted : ∀ i j, i < j → j < numApprox →
      average numFunctions rho2_LH (seqApprox ordered model_sequence i)
        ≤ average numFunctions rho2_LH (seqApprox ordered model_sequence j))
    (q a : Nat) (hq : q < numFunctions) (ha : a < numApprox) :
    1 ≤ mfmc_reordered_analytic_solution Real.sqrt numFunctions numApprox rho2_LH cost ordered
        model_sequence eval_ratios q a := by
  obtain ⟨i, hi, hia⟩ := seqApprox_surjective ordered model_sequence numApprox hperm a ha
  subst hia
  unfold mfmc_reordered_analytic_solution
  rw [reverse_sweep_at numFunctions numApprox _ ordered model_sequence eval_ratios hperm i q hi hq]
  exact prev_le_clampFrom _ 1 numApprox (numApprox - i) i (by omega)

/-- Witness for `mfmc_reordered_ratio_ge_one`: one QoI, two approximations in
swapped order, costs `1, 1, 16`, averaged correlations `3/4, 1/4`. -/
theorem mfmc_reordered_ratio_ge_one_witness :
    ((∀ a, a ≤ 2 → 0 < (fun a : Nat => if a = 2 then (16 : ℝ) else 1) a) ∧
      (∀ a, a < 2 →
        0 ≤ average 1 (fun (_ : Nat) (a : Nat) => if a = 0 then (3 / 4 : ℝ) else 1 / 4) a ∧
        average 1 (fun (_ : Nat) (a : Nat) => if a = 0 then (3 / 4 : ℝ) else 1 / 4) a < 1) ∧
      (false = false → List.Perm [1, 0] (List.range 2)) ∧
      (∀ i j, i < j → j < 2 →
        average 1 (fun (_ : Nat) (a : Nat) => if a = 0 then (3 / 4 : ℝ) else 1 / 4)
            (seqApprox false [1, 0] i)
          ≤ average 1 (fun (_ : Nat) (a : Nat) => if a = 0 then (3 / 4 : ℝ) else 1 / 4)
            (seqApprox false [1, 0] j)) ∧
      (0 : Nat) < 1 ∧ (1 : Nat) < 2) ∧
    1 ≤ mfmc_reordered_analytic_solution Real.sqrt 1 2
        (fun _ a => if a = 0 then 3 / 4 else 1 / 4)
        (fun a => if a = 2 then 16 else 1) false [1, 0] (fun _ _ => 0) 0 1 :=
  have hc : ∀ a, a ≤ 2 → 0 < (fun a : Nat => if a = 2 then (16 : ℝ) else 1) a := by
    intro a _
    by_cases h : a = 2 <;> simp [h]
  have hr : ∀ a, a < 2 →
      0 ≤ average 1 (fun (_ : Nat) (a : Nat) => if a = 0 then (3 / 4 : ℝ) else 1 / 4) a ∧
      average 1 (fun (_ : Nat) (a : Nat) => if a = 0 then (3 / 4 : ℝ) else 1 / 4) a < 1 := by
    intro a _
    by_cases h : a = 0 <;> simp [average, h] <;> norm_num
  ⟨⟨hc, hr, fun _ => by decide, swapped_sequence_sorted, by decide, by decide⟩,
    mfmc_reordered_ratio_ge_one 1 2 (fun _ a => if a = 0 then 3 / 4 else 1 / 4)
      (fun a => if a = 2 then 16 else 1) false [1, 0] (fun _ _ => 0) hc hr
      (fun _ => by decide) swapped_sequence_sorted 0 1 (by decide) (by decide)⟩

/-- C5 (the code at the failing input): one QoI, one approximation of cost `1`
with `rho^2 = 0.05`, truth cost `10`.  Costs are positive and the correlation
lies in `[0,1)`, yet `mfmc_analytic_solution` returns `sqrt(10/19) < 1`. -/
theorem mfmc_analytic_ratio_below_one :
    (∀ a, a ≤ 1 → 0 < (fun i : Nat => if i = 0 then (1 : ℝ) else 10) a) ∧
    (0 ≤ (0.05 : ℝ) ∧ (0.05 : ℝ) < 1) ∧
    mfmc_analytic_solution Real.sqrt 1 1 (fun _ _ => (0.05 : ℝ))
        (fun i => if i = 0 then 1 else 10) (fun _ _ => 0) 0 0
      = Real.sqrt (10 / 19) ∧
    mfmc_analytic_solution Real.sqrt 1 1 (fun _ _ => (0.05 : ℝ))
        (fun i => if i = 0 then 1 else 10) (fun _ _ => 0) 0 0 < 1 := by
  have h : mfmc_analytic_solution Real.sqrt 1 1 (fun _ _ => (0.05 : ℝ))
        (fun i => if i = 0 then 1 else 10) (fun _ _ => 0) 0 0
      = Real.sqrt (10 / 19) := by
    rw [mfmc_analytic_entry 1 1 _ _ _ 0 0 (by decide) (by decide)]
    congr 1
    norm_num
  refine ⟨?_, ⟨by norm_num, by norm_num⟩, h, ?_⟩
  · intro a _
    by_cases h0 : a = 0 <;> simp [h0]
  · rw [h, Real.sqrt_lt' (by norm_num)]
    norm_num


/-! ## Accumulators: main results -/

/-- C6: a batch of `N` paired responses in which QoI `k` has a non-finite
constituent value in exactly one sample `s0` while every other constituent
value is finite, accumulated from zero counts by the paired
`accumulate_mlcv_Ysums` (which at level 0 is the paired
`accumulate_mlcv_Qsums`), ends with `num_L[k] = num_H[k] = N-1` and
`num_L[j] = num_H[j] = N` for every other QoI `j`. -/
theorem paired_counts_one_fault (K fuel numFunctions N lev : Nat)
    (lf_resp_map hf_resp_map : List RealVector) (st : PairedSums)
    (lf_offset hf_offset : RealVector) (s0 k : Nat)
    (hwf : st.WF K) (hfuel : K ≤ fuel)
    (hlf : lf_resp_map.length = N) (hhf : hf_resp_map.length = N)
    (hoffL : OffsetFinite lf_offset (2 * numFunctions))
    (hoffH : OffsetFinite hf_offset (2 * numFunctions))
    (hzL : ∀ q, st.num_L q = 0) (hzH : ∀ q, st.num_H q = 0)
    (hs0 : s0 < N) (hk : k < numFunctions)
    (hbad : rawFinite numFunctions lev (lf_resp_map.getD s0 []) (hf_resp_map.getD s0 []) k
      = false)
    (hgood : ∀ s q, s < N → q < numFunctions → (s ≠ s0 ∨ q ≠ k) →
      rawFinite numFunctions lev (lf_resp_map.getD s []) (hf_resp_map.getD s []) q = true) :
    ∃ st', accumulate_mlcv_Ysums6 fuel numFunctions lf_resp_map hf_resp_map st lev
        lf_offset hf_offset = some st' ∧
      (lev = 0 → accumulate_mlcv_Qsums6 fuel numFunctions lf_resp_map hf_resp_map st lev
        lf_offset hf_offset = some st') ∧
      st'.num_L k = N - 1 ∧ st'.num_H k = N - 1 ∧
      ∀ j, j < numFunctions → j ≠ k → st'.num_L j = N ∧ st'.num_H j = N := by
  obtain ⟨st', h1, h2, _, a, b⟩ := accumulate_mlcv_Ysums6_counts K fuel numFunctions lev
    lf_resp_map hf_resp_map st lf_offset hf_offset hwf hfuel
  have hzlen : (List.zip lf_resp_map hf_resp_map).length = N := by
    simp [hlf, hhf]
  have hget : ∀ s (hs : s < (List.zip lf_resp_map hf_resp_map).length),
      (List.zip lf_resp_map hf_resp_map).get ⟨s, hs⟩
        = (lf_resp_map.getD s [], hf_resp_map.getD s []) := by
    intro s hs
    have hs1 : s < lf_resp_map.length := by omega
    have hs2 : s < hf_resp_map.length := by omega
    rw [List.getD_eq_getElem _ _ hs1, List.getD_eq_getElem _ _ hs2]
    simp
  have hcongr : ∀ j, j < numFunctions →
      (List.zip lf_resp_map hf_resp_map).countP
          (fun r => pairedIncluded numFunctions lev lf_offset hf_offset r j)
        = (List.zip lf_resp_map hf_resp_map).countP
          (fun r => rawFinite numFunctions lev r.1 r.2 j) := by
    intro j hj
    apply List.countP_congr
    intro r _
    rw [pairedIncluded_eq_rawFinite numFunctions lev lf_offset hf_offset r j hoffL hoffH hj]
  have hcountk : (List.zip lf_resp_map hf_resp_map).countP
      (fun r => rawFinite numFunctions lev r.1 r.2 k) = N - 1 := by
    have := countP_all_but_one (fun r : RealVector × RealVector =>
        rawFinite numFunctions lev r.1 r.2 k) (List.zip lf_resp_map hf_resp_map) s0 (by omega)
      (by rw [hget]; exact hbad)
      (fun s hs hne => by rw [hget]; exact hgood s k (by omega) hk (Or.inl hne))
    rw [this, hzlen]
  have hcountj : ∀ j, j < numFunctions → j ≠ k →
      (List.zip lf_resp_map hf_resp_map).countP
        (fun r => rawFinite numFunctions lev r.1 r.2 j) = N := by
    intro j hj hjk
    have := countP_all (fun r : RealVector × RealVector =>
        rawFinite numFunctions lev r.1 r.2 j) (List.zip lf_resp_map hf_resp_map)
      (fun s hs => by rw [hget]; exact hgood s j (by omega) hj (Or.inr hjk))
    rw [this, hzlen]
  refine ⟨st', h1, h2, ?_, ?_, ?_⟩
  · rw [a k, hzL k, if_pos hk, hcongr k hk, hcountk]; simp
  · rw [b k, hzH k, if_pos hk, hcongr k hk, hcountk]; simp
  · intro j hj hjk
    constructor
    · rw [a j, hzL j, if_pos hj, hcongr j hj, hcountj j hj hjk]; simp
    · rw [b j, hzH j, if_pos hj, hcongr j hj, hcountj j hj hjk]; simp

/-- Witness for `paired_counts_one_fault`: two samples of two QoI at level 0,
the low value of QoI 1 in the second sample being NaN. -/
theorem paired_counts_one_fault_witness :
    ((freshPairedSums 2 1 1).WF 4 ∧ (4 : Nat) ≤ 4 ∧
      rawFinite 2 0 (List.getD [[Dbl.fin 1, Dbl.fin 2], [Dbl.fin 3, Dbl.nan]] 1 [])
        (List.getD [[Dbl.fin 5, Dbl.fin 6], [Dbl.fin 7, Dbl.fin 8]] 1 []) 1 = false) ∧
    ∃ st', accumulate_mlcv_Ysums6 4 2 [[Dbl.fin 1, Dbl.fin 2], [Dbl.fin 3, Dbl.nan]]
        [[Dbl.fin 5, Dbl.fin 6], [Dbl.fin 7, Dbl.fin 8]] (freshPairedSums 2 1 1) 0 [] []
        = some st' ∧
      ((0 : Nat) = 0 → accumulate_mlcv_Qsums6 4 2 [[Dbl.fin 1, Dbl.fin 2], [Dbl.fin 3, Dbl.nan]]
        [[Dbl.fin 5, Dbl.fin 6], [Dbl.fin 7, Dbl.fin 8]] (freshPairedSums 2 1 1) 0 [] []
        = some st') ∧
      st'.num_L 1 = 2 - 1 ∧ st'.num_H 1 = 2 - 1 ∧
      ∀ j, j < 2 → j ≠ 1 → st'.num_L j = 2 ∧ st'.num_H j = 2 :=
  ⟨⟨freshPairedSums_WF 2 1 1, le_rfl, by decide⟩,
    paired_counts_one_fault 4 4 2 2 0 [[Dbl.fin 1, Dbl.fin 2], [Dbl.fin 3, Dbl.nan]]
      [[Dbl.fin 5, Dbl.fin 6], [Dbl.fin 7, Dbl.fin 8]] (freshPairedSums 2 1 1) [] [] 1 1
      (freshPairedSums_WF 2 1 1) le_rfl rfl rfl (Or.inl rfl) (Or.inl rfl)
      (fun _ => rfl) (fun _ => rfl) (by decide) (by decide) (by decide)
      (by
        intro s q hs hq hne
        interval_cases s <;> interval_cases q <;> first | rfl | (exfalso; omega))⟩

/-- C7: in every accumulator a sample contributes to QoI `qoi` iff all of its
constituent (shifted) values for `qoi` are finite: when they are, the pass over
the order maps ends and the counts of `qoi` go up by one; when one of them is
NaN or an infinity, the sums and counts are returned exactly as they were.
The five parts are the six-map `accumulate_mlcv_Qsums` (low, high), the
six-map `accumulate_mlcv_Ysums` and the sixteen-map `accumulate_mlcv_Qsums`
(low and high at levels `lev`, `lev-1`), and the two single-model accumulators
(the value at levels `lev`, `lev-1`). -/
theorem sample_contributes_iff_finite (K fuel numFunctions lev : Nat)
    (lf_offset hf_offset offset : RealVector) (lf_fn_vals hf_fn_vals fn_vals : RealVector)
    (st6 : PairedSums) (st16 : LevelSums) (st2 : RefinedSums) (st1 : YSums) (qoi : Nat)
    (h6 : st6.WF K) (h16 : st16.WF K) (h2 : st2.WF K) (h1 : st1.WF K) (hfuel : K ≤ fuel) :
    ((((shifted lf_fn_vals lf_offset qoi).isfinite
          && (shifted hf_fn_vals hf_offset qoi).isfinite) = true →
        ∃ st', accumulate_mlcv_Qsums6_qoi fuel lev lf_offset hf_offset lf_fn_vals hf_fn_vals
            st6 qoi = some st' ∧
          st'.num_L qoi = st6.num_L qoi + 1 ∧ st'.num_H qoi = st6.num_H qoi + 1) ∧
      (((shifted lf_fn_vals lf_offset qoi).isfinite
          && (shifted hf_fn_vals hf_offset qoi).isfinite) = false →
        accumulate_mlcv_Qsums6_qoi fuel lev lf_offset hf_offset lf_fn_vals hf_fn_vals
            st6 qoi = some st6)) ∧
    ((levelPairIncluded numFunctions lf_offset hf_offset lf_fn_vals hf_fn_vals qoi = true →
        ∃ st', accumulate_mlcv_Ysums6_qoi fuel numFunctions lev lf_offset hf_offset lf_fn_vals
            hf_fn_vals st6 qoi = some st' ∧
          st'.num_L qoi = st6.num_L qoi + 1 ∧ st'.num_H qoi = st6.num_H qoi + 1) ∧
      (levelPairIncluded numFunctions lf_offset hf_offset lf_fn_vals hf_fn_vals qoi = false →
        accumulate_mlcv_Ysums6_qoi fuel numFunctions lev lf_offset hf_offset lf_fn_vals
            hf_fn_vals st6 qoi = some st6)) ∧
    ((levelPairIncluded numFunctions lf_offset hf_offset lf_fn_vals hf_fn_vals qoi = true →
        ∃ st', accumulate_mlcv_Qsums16_qoi fuel numFunctions lev lf_offset hf_offset lf_fn_vals
            hf_fn_vals st16 qoi = some st' ∧
          st'.num_L qoi = st16.num_L qoi + 1 ∧ st'.num_H qoi = st16.num_H qoi + 1) ∧
      (levelPairIncluded numFunctions lf_offset hf_offset lf_fn_vals hf_fn_vals qoi = false →
        accumulate_mlcv_Qsums16_qoi fuel numFunctions lev lf_offset hf_offset lf_fn_vals
            hf_fn_vals st16 qoi = some st16)) ∧
    ((levelIncluded numFunctions offset fn_vals qoi = true →
        ∃ st', accumulate_mlcv_Qsums2_qoi fuel numFunctions lev offset fn_vals st2 qoi
            = some st' ∧
          st'.num_Q qoi = st2.num_Q qoi + 1) ∧
      (levelIncluded numFunctions offset fn_vals qoi = false →
        accumulate_mlcv_Qsums2_qoi fuel numFunctions lev offset fn_vals st2 qoi = some st2)) ∧
    ((levelIncluded numFunctions offset fn_vals qoi = true →
        ∃ st', accumulate_mlcv_Ysums1_qoi fuel numFunctions lev offset fn_vals st1 qoi
            = some st' ∧
          st'.num_Y qoi = st1.num_Y qoi + 1) ∧
      (levelIncluded numFunctions offset fn_vals qoi = false →
        accumulate_mlcv_Ysums1_qoi fuel numFunctions lev offset fn_vals st1 qoi = some st1)) := by
  refine ⟨⟨?_, ?_⟩, ⟨?_, ?_⟩, ⟨?_, ?_⟩, ⟨?_, ?_⟩, ⟨?_, ?_⟩⟩
  · intro hi
    obtain ⟨st', e, _, a, b⟩ := accumulate_mlcv_Qsums6_qoi_step K fuel lev lf_offset hf_offset
      hfuel (lf_fn_vals, hf_fn_vals) st6 qoi h6
    refine ⟨st', e, ?_, ?_⟩
    · rw [a qoi]; simp only [] at hi ⊢; simp [hi]
    · rw [b qoi]; simp only [] at hi ⊢; simp [hi]
  · intro hi
    exact accumulate_mlcv_Qsums6_qoi_excluded fuel lev lf_offset hf_offset lf_fn_vals hf_fn_vals
      st6 qoi hi
  · intro hi
    obtain ⟨st', e, _, a, b⟩ := accumulate_mlcv_Ysums6_qoi_step K fuel numFunctions lev
      lf_offset hf_offset hfuel (lf_fn_vals, hf_fn_vals) st6 qoi h6
    have hi' : ((shifted lf_fn_vals lf_offset qoi).isfinite
        && (shifted lf_fn_vals lf_offset (qoi + numFunctions)).isfinite
        && (shifted hf_fn_vals hf_offset qoi).isfinite
        && (shifted hf_fn_vals hf_offset (qoi + numFunctions)).isfinite) = true := hi
    refine ⟨st', e, ?_, ?_⟩
    · rw [a qoi]; simp only [] at hi' ⊢; simp [hi']
    · rw [b qoi]; simp only [] at hi' ⊢; simp [hi']
  · intro hi
    exact accumulate_mlcv_Ysums6_qoi_excluded fuel numFunctions lev lf_offset hf_offset
      lf_fn_vals hf_fn_vals st6 qoi hi
  · intro hi
    obtain ⟨st', e, _, a, b⟩ := accumulate_mlcv_Qsums16_qoi_step K fuel numFunctions lev
      lf_offset hf_offset hfuel (lf_fn_vals, hf_fn_vals) st16 qoi h16
    refine ⟨st', e, ?_, ?_⟩
    · rw [a qoi]; simp only [] at hi ⊢; simp [hi]
    · rw [b qoi]; simp only [] at hi ⊢; simp [hi]
  · intro hi
    exact accumulate_mlcv_Qsums16_qoi_excluded fuel numFunctions lev lf_offset hf_offset
      lf_fn_vals hf_fn_vals st16 qoi hi
  · intro hi
    obtain ⟨st', e, _, a⟩ := accumulate_mlcv_Qsums2_qoi_step K fuel numFunctions lev offset
      hfuel fn_vals st2 qoi h2
    exact ⟨st', e, by rw [a qoi]; simp [hi]⟩
  · intro hi
    exact accumulate_mlcv_Qsums2_qoi_excluded fuel numFunctions lev offset fn_vals st2 qoi hi
  · intro hi
    obtain ⟨st', e, _, a⟩ := accumulate_mlcv_Ysums1_qoi_step K fuel numFunctions lev offset
      hfuel fn_vals st1 qoi h1
    exact ⟨st', e, by rw [a qoi]; simp [hi]⟩
  · intro hi
    exact accumulate_mlcv_Ysums1_qoi_excluded fuel numFunctions lev offset fn_vals st1 qoi hi

/-- Witness for `sample_contributes_iff_finite`: fresh sums of orders `1..4`;
the pair (NaN, 1) of QoI 0 leaves the six sums and both counts as they were. -/
theorem sample_contributes_iff_finite_witness :
    ((freshPairedSums 1 2 2).WF 4 ∧ (freshLevelSums 1 2 2).WF 4 ∧
      (freshRefinedSums 1 2).WF 4 ∧ (freshYSums 1 2).WF 4 ∧ (4 : Nat) ≤ 4) ∧
    accumulate_mlcv_Qsums6_qoi 4 1 [] [] [Dbl.nan, Dbl.fin 2] [Dbl.fin 1, Dbl.fin 3]
      (freshPairedSums 1 2 2) 0 = some (freshPairedSums 1 2 2) :=
  ⟨⟨freshPairedSums_WF 1 2 2, freshLevelSums_WF 1 2 2, ⟨zeroOrders_WF 1 2, zeroOrders_WF 1 2⟩,
      zeroOrders_WF 1 2, le_rfl⟩,
    (sample_contributes_iff_finite 4 4 1 1 [] [] [] [Dbl.nan, Dbl.fin 2] [Dbl.fin 1, Dbl.fin 3]
      [Dbl.fin 1, Dbl.fin 3] (freshPairedSums 1 2 2) (freshLevelSums 1 2 2)
      (freshRefinedSums 1 2) (freshYSums 1 2) 0
      (freshPairedSums_WF 1 2 2) (freshLevelSums_WF 1 2 2)
      ⟨zeroOrders_WF 1 2, zeroOrders_WF 1 2⟩ (zeroOrders_WF 1 2) le_rfl).1.2 (by decide)⟩

/-- C8: in the six-map `accumulate_mlcv_Qsums`, an included sample with low
value `l` and high value `h` adds, under every order `k` present (keys `>= 1`),
`l^k` to `sum_L_shared[k]` and `sum_L_refined[k]`, `h^k` to `sum_H[k]`,
`l^k*l^k` to `sum_LL[k]`, `l^k*h^k` to `sum_LH[k]` and `h^k*h^k` to `sum_HH[k]`
at entry `(qoi, lev)`; under order 1 the Low-Low and High-High increments are
the squares `l^2` and `h^2` of the raw values. -/
theorem accumulate_mlcv_Qsums_increments (K fuel lev : Nat) (lf_offset hf_offset : RealVector)
    (lf_fn_vals hf_fn_vals : RealVector) (st : PairedSums) (qoi : Nat) (l h : ℚ)
    (hwf : st.WF K) (hfuel : K ≤ fuel)
    (hl : shifted lf_fn_vals lf_offset qoi = Dbl.fin l)
    (hh : shifted hf_fn_vals hf_offset qoi = Dbl.fin h) :
    ∃ st', accumulate_mlcv_Qsums6_qoi fuel lev lf_offset hf_offset lf_fn_vals hf_fn_vals st qoi
        = some st' ∧
      st'.sum_L_shared = grow (fun k => Dbl.fin (l ^ k.toNat)) qoi lev st.sum_L_shared ∧
      st'.sum_L_refined = grow (fun k => Dbl.fin (l ^ k.toNat)) qoi lev st.sum_L_refined ∧
      st'.sum_H = grow (fun k => Dbl.fin (h ^ k.toNat)) qoi lev st.sum_H ∧
      st'.sum_LL = grow (fun k => Dbl.fin (l ^ k.toNat * l ^ k.toNat)) qoi lev st.sum_LL ∧
      st'.sum_LH = grow (fun k => Dbl.fin (l ^ k.toNat * h ^ k.toNat)) qoi lev st.sum_LH ∧
      st'.sum_HH = grow (fun k => Dbl.fin (h ^ k.toNat * h ^ k.toNat)) qoi lev st.sum_HH ∧
      (∀ M, (1, M) ∈ st.sum_LL → (1, M.addAt qoi lev (Dbl.fin (l ^ 2))) ∈ st'.sum_LL) ∧
      (∀ M, (1, M) ∈ st.sum_HH → (1, M.addAt qoi lev (Dbl.fin (h ^ 2))) ∈ st'.sum_HH) := by
  refine ⟨st.addQ qoi lev l h,
    accumulate_mlcv_Qsums6_qoi_included K fuel lev lf_offset hf_offset lf_fn_vals hf_fn_vals st
      qoi l h hwf hfuel hl hh, rfl, rfl, rfl, rfl, rfl, rfl, ?_, ?_⟩
  · intro M hM
    simp only [PairedSums.addQ, grow, List.mem_map]
    refine ⟨(1, M), hM, ?_⟩
    simp [prodInc, pow_two]
  · intro M hM
    simp only [PairedSums.addQ, grow, List.mem_map]
    refine ⟨(1, M), hM, ?_⟩
    simp [prodInc, pow_two]

/-- Witness for `accumulate_mlcv_Qsums_increments`: the pair (2, 3) into fresh
sums at level 0. -/
theorem accumulate_mlcv_Qsums_increments_witness :
    ((freshPairedSums 1 1 1).WF 4 ∧ (4 : Nat) ≤ 4 ∧
      shifted [Dbl.fin 2] [] 0 = Dbl.fin 2 ∧ shifted [Dbl.fin 3] [] 0 = Dbl.fin 3) ∧
    ∃ st', accumulate_mlcv_Qsums6_qoi 4 0 [] [] [Dbl.fin 2] [Dbl.fin 3] (freshPairedSums 1 1 1) 0
        = some st' ∧
      st'.sum_L_shared
        = grow (fun k => Dbl.fin (2 ^ k.toNat)) 0 0 (freshPairedSums 1 1 1).sum_L_shared ∧
      st'.sum_L_refined
        = grow (fun k => Dbl.fin (2 ^ k.toNat)) 0 0 (freshPairedSums 1 1 1).sum_L_refined ∧
      st'.sum_H = grow (fun k => Dbl.fin (3 ^ k.toNat)) 0 0 (freshPairedSums 1 1 1).sum_H ∧
      st'.sum_LL
        = grow (fun k => Dbl.fin (2 ^ k.toNat * 2 ^ k.toNat)) 0 0
          (freshPairedSums 1 1 1).sum_LL ∧
      st'.sum_LH
        = grow (fun k => Dbl.fin (2 ^ k.toNat * 3 ^ k.toNat)) 0 0
          (freshPairedSums 1 1 1).sum_LH ∧
      st'.sum_HH
        = grow (fun k => Dbl.fin (3 ^ k.toNat * 3 ^ k.toNat)) 0 0
          (freshPairedSums 1 1 1).sum_HH ∧
      (∀ M, (1, M) ∈ (freshPairedSums 1 1 1).sum_LL →
        (1, M.addAt 0 0 (Dbl.fin (2 ^ 2))) ∈ st'.sum_LL) ∧
      (∀ M, (1, M) ∈ (freshPairedSums 1 1 1).sum_HH →
        (1, M.addAt 0 0 (Dbl.fin (3 ^ 2))) ∈ st'.sum_HH) :=
  ⟨⟨freshPairedSums_WF 1 1 1, le_rfl, rfl, rfl⟩,
    accumulate_mlcv_Qsums_increments 4 4 0 [] [] [Dbl.fin 2] [Dbl.fin 3] (freshPairedSums 1 1 1)
      0 2 3 (freshPairedSums_WF 1 1 1) le_rfl rfl rfl⟩

/-- C9 (counterexample to the claim as worded): one sample with `Q_lev = 3` and
`Q_{lev-1} = 1` at level 1, accumulated into zero sums.  The order-2 entry
becomes `3^2 - 1^2 = 8`, not the square of the discrepancy `(3 - 1)^2 = 4`. -/
theorem Ysums_power_of_discrepancy_counterexample :
    ∃ st', accumulate_mlcv_Ysums1 4 1 [[Dbl.fin 3, Dbl.fin 1]]
        (freshYSums 1 2) 1 [] = some st' ∧
      entryAt st'.sum_Y 2 0 1 = Dbl.fin 8 ∧
      entryAt st'.sum_Y 2 0 1 ≠ Dbl.fin ((3 - 1) ^ 2) := by
  have he : entryAt (YSums.addY (freshYSums 1 2) 0 1 3 1).sum_Y
      2 0 1 = Dbl.fin 8 := by
    have := entryAt_grow_zeroOrders (diffInc 3 1) 0 1 1 2 2 (by decide) (by decide)
    simp only [YSums.addY, freshYSums]
    rw [show ((2 : Nat) : Int) = 2 from rfl] at this
    rw [this]
    show Dbl.fin 0 + Dbl.fin ((3 : ℚ) ^ 2 - (1 : ℚ) ^ 2) = _
    simp only [Dbl.fin_add_fin]
    norm_num
  refine ⟨_, accumulate_mlcv_Ysums1_single 4 4 1 3 1 _ (zeroOrders_WF 1 2) le_rfl (by decide),
    he, ?_⟩
  rw [he]
  intro h
  injection h with h
  norm_num at h

/-- C9 (as amended): above level 0 the accumulators add, for every included
sample and every order `k` present, the difference of the `k`-th powers
`Q_lev^k - Q_{lev-1}^k` to the order-`k` sum at `(qoi, lev)`: to `sum_Y[k]` in
the one-map `accumulate_mlcv_Ysums`, and to `sum_L_shared[k]`,
`sum_L_refined[k]` (low values) and `sum_H[k]` (high values) in the six-map
one.  Under order 1 this is the discrepancy `Q_lev - Q_{lev-1}` itself. -/
theorem Ysums_difference_of_powers (K fuel numFunctions lev : Nat)
    (offset fn_vals lf_offset hf_offset lf_fn_vals hf_fn_vals : RealVector)
    (st1 : YSums) (st6 : PairedSums) (qoi : Nat) (q qm1 l lm1 h hm1 : ℚ)
    (h1 : st1.WF K) (h6 : st6.WF K) (hfuel : K ≤ fuel)
    (hq : shifted fn_vals offset qoi = Dbl.fin q)
    (hqm1 : shifted fn_vals offset (qoi + numFunctions) = Dbl.fin qm1)
    (hl : shifted lf_fn_vals lf_offset qoi = Dbl.fin l)
    (hlm1 : shifted lf_fn_vals lf_offset (qoi + numFunctions) = Dbl.fin lm1)
    (hh : shifted hf_fn_vals hf_offset qoi = Dbl.fin h)
    (hhm1 : shifted hf_fn_vals hf_offset (qoi + numFunctions) = Dbl.fin hm1) :
    (∃ st', accumulate_mlcv_Ysums1_qoi fuel numFunctions lev offset fn_vals st1 qoi = some st' ∧
      st'.sum_Y = grow (fun k => Dbl.fin (q ^ k.toNat - qm1 ^ k.toNat)) qoi lev st1.sum_Y) ∧
    (∃ st', accumulate_mlcv_Ysums6_qoi fuel numFunctions lev lf_offset hf_offset lf_fn_vals
        hf_fn_vals st6 qoi = some st' ∧
      st'.sum_L_shared
        = grow (fun k => Dbl.fin (l ^ k.toNat - lm1 ^ k.toNat)) qoi lev st6.sum_L_shared ∧
      st'.sum_L_refined
        = grow (fun k => Dbl.fin (l ^ k.toNat - lm1 ^ k.toNat)) qoi lev st6.sum_L_refined ∧
      st'.sum_H = grow (fun k => Dbl.fin (h ^ k.toNat - hm1 ^ k.toNat)) qoi lev st6.sum_H) ∧
    (fun k : Int => Dbl.fin (q ^ k.toNat - qm1 ^ k.toNat)) 1 = Dbl.fin (q - qm1) := by
  refine ⟨⟨st1.addY qoi lev q qm1,
      accumulate_mlcv_Ysums1_qoi_included K fuel numFunctions lev offset fn_vals st1 qoi q qm1 h1
        hfuel hq hqm1, rfl⟩,
    ⟨st6.addY qoi lev l lm1 h hm1,
      accumulate_mlcv_Ysums6_qoi_included K fuel numFunctions lev lf_offset hf_offset lf_fn_vals
        hf_fn_vals st6 qoi l lm1 h hm1 h6 hfuel hl hlm1 hh hhm1, rfl, rfl, rfl⟩, ?_⟩
  simp

/-- Witness for `Ysums_difference_of_powers`: values `3` (level 1) and `1`
(level 0) of a single QoI, low and high alike, into fresh sums. -/
theorem Ysums_difference_of_powers_witness :
    (YSums.WF 4 (freshYSums 1 2) ∧
      (freshPairedSums 1 2 2).WF 4 ∧ (4 : Nat) ≤ 4 ∧
      shifted [Dbl.fin 3, Dbl.fin 1] [] 0 = Dbl.fin 3 ∧
      shifted [Dbl.fin 3, Dbl.fin 1] [] (0 + 1) = Dbl.fin 1) ∧
    ∃ st', accumulate_mlcv_Ysums1_qoi 4 1 1 [] [Dbl.fin 3, Dbl.fin 1]
        (freshYSums 1 2) 0 = some st' ∧
      st'.sum_Y
        = grow (fun k => Dbl.fin (3 ^ k.toNat - 1 ^ k.toNat)) 0 1 (freshYSums 1 2).sum_Y :=
  ⟨⟨zeroOrders_WF 1 2, freshPairedSums_WF 1 2 2, le_rfl, rfl, rfl⟩,
    (Ysums_difference_of_powers 4 4 1 1 [] [Dbl.fin 3, Dbl.fin 1] [] []
      [Dbl.fin 3, Dbl.fin 1] [Dbl.fin 3, Dbl.fin 1]
      (freshYSums 1 2) (freshPairedSums 1 2 2) 0 3 1 3 1 3 1
      (zeroOrders_WF 1 2) (freshPairedSums_WF 1 2 2) le_rfl rfl rfl rfl rfl rfl rfl).1⟩

/-- C10: for per-sample values `q 0, ..., q L` of one QoI at successive levels
and any order `k` in `1..4`, the level-0 contribution `q_0^k` plus the
contributions that `accumulate_mlcv_Ysums` adds at the levels `1..L` sum to
`q_L^k`. -/
theorem level_contributions_telescope (k : Nat) (q : Nat → ℚ) (L : Nat)
    (hk1 : 1 ≤ k) (hk4 : k ≤ 4) :
    telescopedMoment k q L = Dbl.fin (q L ^ k) := by
  induction L with
  | zero => rfl
  | succ L ih =>
    rw [telescopedMoment, ih, levelContribution_succ k q L hk1 hk4, Dbl.fin_add_fin]
    congr 1
    ring

/-- Witness for `level_contributions_telescope`: order 3, values `1, 2, 5`
at levels `0, 1, 2`. -/
theorem level_contributions_telescope_witness :
    ((1 : Nat) ≤ 3 ∧ (3 : Nat) ≤ 4) ∧
    telescopedMoment 3 (fun i => if i = 0 then 1 else if i = 1 then 2 else 5) 2
      = Dbl.fin ((fun i : Nat => if i = 0 then (1 : ℚ) else if i = 1 then 2 else 5) 2 ^ 3) :=
  ⟨⟨by decide, by decide⟩,
    level_contributions_telescope 3 (fun i => if i = 0 then 1 else if i = 1 then 2 else 5) 2
      (by decide) (by decide)⟩

/-! ## The optimization sub-problem: loop lemmas -/

section OptimizerLemmas

variable {α : Type} [LinearOrderedField α]

/-- A running sum over `0 .. n-1` is the finite sum. -/
theorem foldl_add_range (f : Nat → α) (n : Nat) :
    (List.range n).foldl (fun acc i => acc + f i) 0 = Finset.sum (Finset.range n) f := by
  induction n with
  | zero => simp
  | succ n ih =>
    rw [List.range_succ, List.foldl_append, ih, Finset.sum_range_succ]
    simp

/-- The sum of a mapped range is the finite sum. -/
theorem sum_map_range (f : Nat → α) (n : Nat) :
    ((List.range n).map f).sum = Finset.sum (Finset.range n) f := by
  induction n with
  | zero => simp
  | succ n ih =>
    rw [List.range_succ, List.map_append, List.sum_append, ih, Finset.sum_range_succ]
    simp

/-- Closed form of `nonlinear_constraint`. -/
theorem nonlinear_constraint_eq (numApprox : Nat) (sequenceCost r_and_N : Nat → α) :
    nonlinear_constraint numApprox sequenceCost r_and_N
      = r_and_N numApprox
          * (1 + Finset.sum (Finset.range numApprox) (fun i => sequenceCost i * r_and_N i)
                / sequenceCost numApprox) := by
  unfold nonlinear_constraint
  simp only [foldl_add_range]

/-- Closed form of the vector written by `nonlinear_constraint_gradient`. -/
theorem nonlinear_constraint_gradient_eq (numApprox len : Nat)
    (sequenceCost r_and_N grad_c : Nat → α) :
    nonlinear_constraint_gradient numApprox sequenceCost len r_and_N grad_c
      = fun i =>
          if i = len - 1 then
            1 + Finset.sum (Finset.range numApprox) (fun i => sequenceCost i * r_and_N i)
                  / sequenceCost (len - 1)
          else if i < len - 1 then
            r_and_N (len - 1) / sequenceCost (len - 1) * sequenceCost i
          else grad_c i := by
  unfold nonlinear_constraint_gradient
  simp only [foldl_add_range, foldl_setAt_range]
  funext i
  simp only [setAt]

/-- Replacing entry `i` of the design vector changes the weighted sum by
`sequenceCost[i] * (t - r_and_N[i])`. -/
theorem sum_setAt (n i : Nat) (hi : i < n) (w r : Nat → α) (t : α) :
    Finset.sum (Finset.range n) (fun j => w j * setAt r i t j)
      = Finset.sum (Finset.range n) (fun j => w j * r j) + w i * (t - r i) := by
  have h : ∀ j, w j * setAt r i t j = w j * r j + (if j = i then w i * (t - r i) else 0) := by
    intro j
    unfold setAt
    by_cases hj : j = i
    · subst hj; simp; ring
    · simp [hj]
  simp only [h]
  rw [Finset.sum_add_distrib, Finset.sum_ite_eq']
  simp [hi]

/-- Replacing an entry at or beyond `n` leaves the weighted sum over `0 .. n-1`
unchanged. -/
theorem sum_setAt_ge (n i : Nat) (hi : n ≤ i) (w r : Nat → α) (t : α) :
    Finset.sum (Finset.range n) (fun j => w j * setAt r i t j)
      = Finset.sum (Finset.range n) (fun j => w j * r j) := by
  apply Finset.sum_congr rfl
  intro j hj
  have : j ≠ i := by
    have := Finset.mem_range.mp hj
    omega
  simp [setAt, this]

end OptimizerLemmas

/-- The derivative of an affine function of one real variable. -/
theorem hasDerivAt_affine (c g x0 : ℝ) :
    HasDerivAt (fun t : ℝ => c + g * (t - x0)) g x0 := by
  have h := (((hasDerivAt_id x0).sub_const x0).const_mul g).const_add c
  simpa using h

/-! ## Claims on the nonlinear budget constraint -/

/-- C14: `nonlinear_constraint` returns
`N * (1 + (sum of sequenceCost[i] * r_i) / w_H)` with `N = r_and_N[numApprox]`
and `w_H = sequenceCost[numApprox]`; with one approximation of cost `0.1`, a
truth cost `1`, `N = 50` and `r = 10` it returns `100`. -/
theorem nonlinear_constraint_value (numApprox : Nat) (sequenceCost r_and_N : Nat → ℝ) :
    nonlinear_constraint numApprox sequenceCost r_and_N
        = r_and_N numApprox
            * (1 + Finset.sum (Finset.range numApprox) (fun i => sequenceCost i * r_and_N i)
                  / sequenceCost numApprox)
    ∧ nonlinear_constraint 1 (fun i => if i = 0 then (1 / 10 : ℝ) else 1)
        (fun i => if i = 0 then (10 : ℝ) else 50) = 100 := by
  refine ⟨nonlinear_constraint_eq _ _ _, ?_⟩
  rw [nonlinear_constraint_eq]
  norm_num

/-- C15: for a design vector of length `numApprox + 1`,
`nonlinear_constraint_gradient` writes `N * sequenceCost[i] / sequenceCost[numApprox]`
to `grad_c[i]` for `i < numApprox` and `1 + (sum of sequenceCost[i] * r_i) /
sequenceCost[numApprox]` to `grad_c[numApprox]`; these are the partial derivatives of
`nonlinear_constraint` (which is affine in each variable with that slope),
each component is an affine function of the design vector, and each component
is an affine function of the approximation costs `sequenceCost[k]`,
`k < numApprox`, while the truth cost `sequenceCost[numApprox]` is held fixed. -/
theorem nonlinear_constraint_gradient_exact (numApprox : Nat)
    (sequenceCost r_and_N grad_c : Nat → ℝ) :
    (∀ i, i < numApprox →
      nonlinear_constraint_gradient numApprox sequenceCost (numApprox + 1) r_and_N grad_c i
        = r_and_N numApprox * sequenceCost i / sequenceCost numApprox)
    ∧ nonlinear_constraint_gradient numApprox sequenceCost (numApprox + 1) r_and_N grad_c
          numApprox
        = 1 + Finset.sum (Finset.range numApprox) (fun i => sequenceCost i * r_and_N i)
                / sequenceCost numApprox
    ∧ (∀ i, i ≤ numApprox → ∀ t : ℝ,
        nonlinear_constraint numApprox sequenceCost (setAt r_and_N i t)
          = nonlinear_constraint numApprox sequenceCost r_and_N
            + nonlinear_constraint_gradient numApprox sequenceCost (numApprox + 1)
                r_and_N grad_c i * (t - r_and_N i))
    ∧ (∀ i, i ≤ numApprox →
        HasDerivAt
          (fun t : ℝ => nonlinear_constraint numApprox sequenceCost (setAt r_and_N i t))
          (nonlinear_constraint_gradient numApprox sequenceCost (numApprox + 1)
            r_and_N grad_c i)
          (r_and_N i))
    ∧ (∀ i, i ≤ numApprox → ∀ (x y : Nat → ℝ) (a : ℝ),
        nonlinear_constraint_gradient numApprox sequenceCost (numApprox + 1)
            (fun k => a * x k + (1 - a) * y k) grad_c i
          = a * nonlinear_constraint_gradient numApprox sequenceCost (numApprox + 1)
                  x grad_c i
            + (1 - a) * nonlinear_constraint_gradient numApprox sequenceCost
                  (numApprox + 1) y grad_c i)
    ∧ (∀ i, i ≤ numApprox → ∀ (c c' : Nat → ℝ) (a : ℝ), c numApprox = c' numApprox →
        nonlinear_constraint_gradient numApprox (fun k => a * c k + (1 - a) * c' k)
            (numApprox + 1) r_and_N grad_c i
          = a * nonlinear_constraint_gradient numApprox c (numApprox + 1) r_and_N grad_c i
            + (1 - a) * nonlinear_constraint_gradient numApprox c' (numApprox + 1)
                  r_and_N grad_c i) := by
  have hlow : ∀ (r : Nat → ℝ) i, i < numApprox →
      nonlinear_constraint_gradient numApprox sequenceCost (numApprox + 1) r grad_c i
        = r numApprox * sequenceCost i / sequenceCost numApprox := by
    intro r i hi
    rw [nonlinear_constraint_gradient_eq]
    have h1 : i ≠ numApprox := by omega
    simp only [Nat.add_sub_cancel, h1, if_false, hi, if_true]
    ring
  have hN : ∀ (r : Nat → ℝ),
      nonlinear_constraint_gradient numApprox sequenceCost (numApprox + 1) r grad_c numApprox
        = 1 + Finset.sum (Finset.range numApprox) (fun i => sequenceCost i * r i)
                / sequenceCost numApprox := by
    intro r
    rw [nonlinear_constraint_gradient_eq]
    simp
  have haff : ∀ i, i ≤ numApprox → ∀ t : ℝ,
      nonlinear_constraint numApprox sequenceCost (setAt r_and_N i t)
        = nonlinear_constraint numApprox sequenceCost r_and_N
          + nonlinear_constraint_gradient numApprox sequenceCost (numApprox + 1)
              r_and_N grad_c i * (t - r_and_N i) := by
    intro i hi t
    rcases Nat.lt_or_ge i numApprox with h | h
    · rw [hlow r_and_N i h, nonlinear_constraint_eq, nonlinear_constraint_eq,
        sum_setAt numApprox i h]
      have h1 : numApprox ≠ i := by omega
      simp only [setAt, h1, if_false]
      ring
    · have hi' : i = numApprox := by omega
      subst hi'
      rw [hN r_and_N, nonlinear_constraint_eq, nonlinear_constraint_eq,
        sum_setAt_ge i i (le_refl i)]
      simp only [setAt, if_true]
      ring
  refine ⟨hlow r_and_N, hN r_and_N, haff, ?_, ?_, ?_⟩
  · intro i hi
    have hfun : (fun t : ℝ => nonlinear_constraint numApprox sequenceCost (setAt r_and_N i t))
        = fun t : ℝ => nonlinear_constraint numApprox sequenceCost r_and_N
            + nonlinear_constraint_gradient numApprox sequenceCost (numApprox + 1)
                r_and_N grad_c i * (t - r_and_N i) := by
      funext t
      exact haff i hi t
    rw [hfun]
    exact hasDerivAt_affine _ _ _
  · intro i hi x y a
    rcases Nat.lt_or_ge i numApprox with h | h
    · rw [hlow _ i h, hlow x i h, hlow y i h]
      ring
    · have hi' : i = numApprox := by omega
      subst hi'
      rw [hN, hN x, hN y]
      have hs : Finset.sum (Finset.range i)
            (fun k => sequenceCost k * (a * x k + (1 - a) * y k))
          = a * Finset.sum (Finset.range i) (fun k => sequenceCost k * x k)
            + (1 - a) * Finset.sum (Finset.range i) (fun k => sequenceCost k * y k) := by
        rw [Finset.mul_sum, Finset.mul_sum, ← Finset.sum_add_distrib]
        apply Finset.sum_congr rfl
        intro k _
        ring
      rw [hs]
      ring
  · intro i hi c c' a hc
    have hH : a * c numApprox + (1 - a) * c' numApprox = c' numApprox := by
      rw [hc]; ring
    rcases Nat.lt_or_ge i numApprox with h | h
    · have h1 : i ≠ numApprox := by omega
      simp only [nonlinear_constraint_gradient_eq, Nat.add_sub_cancel, h1, if_false, h,
        if_true, hH, hc]
      ring
    · have hi' : i = numApprox := by omega
      subst hi'
      simp only [nonlinear_constraint_gradient_eq, Nat.add_sub_cancel, if_true, hH, hc]
      have hs : Finset.sum (Finset.range i)
            (fun k => (a * c k + (1 - a) * c' k) * r_and_N k)
          = a * Finset.sum (Finset.range i) (fun k => c k * r_and_N k)
            + (1 - a) * Finset.sum (Finset.range i) (fun k => c' k * r_and_N k) := by
        rw [Finset.mul_sum, Finset.mul_sum, ← Finset.sum_add_distrib]
        apply Finset.sum_congr rfl
        intro k _
        ring
      rw [hs]
      ring

/-- Counterexample to the unrestricted reading of C15 (affine in every cost
weight): with one approximation, `r = 1`, `N = 1` and approximation cost `1`,
the component `grad_c[0]` is `1` at truth cost `1`, `1/3` at truth cost `3`
and `1/2` at the midpoint truth cost `2`, which is not the midpoint `2/3` of
the two values: the component is not affine in `sequenceCost[numApprox]`. -/
theorem gradient_not_affine_in_truth_cost :
    nonlinear_constraint_gradient 1 (fun k => if k = 0 then (1 : ℝ) else 1) 2
        (fun _ => (1 : ℝ)) (fun _ => 0) 0 = 1
    ∧ nonlinear_constraint_gradient 1 (fun k => if k = 0 then (1 : ℝ) else 3) 2
        (fun _ => (1 : ℝ)) (fun _ => 0) 0 = 1 / 3
    ∧ nonlinear_constraint_gradient 1
        (fun k => (1 / 2 : ℝ) * (if k = 0 then (1 : ℝ) else 1)
          + (1 - 1 / 2) * (if k = 0 then (1 : ℝ) else 3)) 2
        (fun _ => (1 : ℝ)) (fun _ => 0) 0 = 1 / 2
    ∧ nonlinear_constraint_gradient 1
        (fun k => (1 / 2 : ℝ) * (if k = 0 then (1 : ℝ) else 1)
          + (1 - 1 / 2) * (if k = 0 then (1 : ℝ) else 3)) 2
        (fun _ => (1 : ℝ)) (fun _ => 0) 0
      ≠ (1 / 2 : ℝ) * nonlinear_constraint_gradient 1 (fun k => if k = 0 then (1 : ℝ) else 1) 2
            (fun _ => (1 : ℝ)) (fun _ => 0) 0
        + (1 - 1 / 2) * nonlinear_constraint_gradient 1
            (fun k => if k = 0 then (1 : ℝ) else 3) 2 (fun _ => (1 : ℝ)) (fun _ => 0) 0 := by
  simp only [nonlinear_constraint_gradient_eq]
  norm_num

/-- Witness for C15 at one approximation of cost `0.1`, truth cost `1`, `r = 10`
and `N = 50`: the gradient is `(5, 2)`. -/
theorem nonlinear_constraint_gradient_exact_witness :
    nonlinear_constraint_gradient 1 (fun i => if i = 0 then (1 / 10 : ℝ) else 1) 2
        (fun i => if i = 0 then (10 : ℝ) else 50) (fun _ => 0) 0 = 5
    ∧ nonlinear_constraint_gradient 1 (fun i => if i = 0 then (1 / 10 : ℝ) else 1) 2
        (fun i => if i = 0 then (10 : ℝ) else 50) (fun _ => 0) 1 = 2 := by
  have h := nonlinear_constraint_gradient_exact 1 (fun i => if i = 0 then (1 / 10 : ℝ) else 1)
    (fun i => if i = 0 then (10 : ℝ) else 50) (fun _ => 0)
  refine ⟨?_, ?_⟩
  · rw [h.1 0 (by decide)]
    norm_num
  · rw [h.2.1]
    norm_num

/-! ## Claims on the objective -/

section ObjectiveLemmas

variable {α : Type} [LinearOrderedField α]

/-- Closed form of the `R_sq` vector. -/
theorem objective_R_sq_eq (numFunctions : Nat) (compute_Rsq : (Nat → α) → Nat → α)
    (r : Nat → α) :
    objective_R_sq numFunctions compute_Rsq r
      = fun qoi => if qoi < numFunctions then compute_Rsq r qoi else 0 := by
  unfold objective_R_sq
  rw [foldl_setAt_range]

/-- Closed form of the `est_var` vector. -/
theorem objective_est_var_eq (form : SubProblemForm) (numFunctions numApprox : Nat)
    (varH : Nat → α) (numH : Nat → Nat) (R_sq r_and_N : Nat → α) :
    objective_est_var form numFunctions numApprox varH numH R_sq r_and_N
      = fun qoi =>
          if qoi < numFunctions then
            varH qoi / objective_N form numApprox numH r_and_N qoi * (1 - R_sq qoi)
          else 0 := by
  cases form <;> simp only [objective_est_var, objective_N, foldl_setAt_range]

/-- The average of `est_var` as a finite sum. -/
theorem objective_avg_est_var_eq (form : SubProblemForm) (numFunctions numApprox : Nat)
    (varH : Nat → α) (numH : Nat → Nat) (compute_Rsq : (Nat → α) → Nat → α)
    (r_and_N : Nat → α) :
    objective_avg_est_var form numFunctions numApprox varH numH compute_Rsq r_and_N
      = Finset.sum (Finset.range numFunctions)
          (fun qoi => varH qoi / objective_N form numApprox numH r_and_N qoi
            * (1 - compute_Rsq (objective_ratios form numApprox r_and_N) qoi))
        / (numFunctions : α) := by
  unfold objective_avg_est_var averageVector
  simp only [sum_map_range, objective_est_var_eq, objective_R_sq_eq]
  congr 1
  apply Finset.sum_congr rfl
  intro q hq
  have := Finset.mem_range.mp hq
  simp [this]

end ObjectiveLemmas

/-- C16: `objective_function` returns the NaN marker exactly when the
QoI-averaged estimator variance is `≤ 0`; when the average is positive it
returns its natural logarithm, and the exponential of the result is the average
again. -/
theorem objective_function_nan_iff (form : SubProblemForm) (numFunctions numApprox : Nat)
    (varH : Nat → ℝ) (numH : Nat → Nat) (compute_Rsq : (Nat → ℝ) → Nat → ℝ)
    (r_and_N : Nat → ℝ) :
    (objective_function Real.log form numFunctions numApprox varH numH compute_Rsq r_and_N
        = none
      ↔ objective_avg_est_var form numFunctions numApprox varH numH compute_Rsq r_and_N ≤ 0)
    ∧ (0 < objective_avg_est_var form numFunctions numApprox varH numH compute_Rsq r_and_N →
        objective_function Real.log form numFunctions numApprox varH numH compute_Rsq r_and_N
          = some (Real.log
              (objective_avg_est_var form numFunctions numApprox varH numH compute_Rsq r_and_N))
        ∧ ∀ v, objective_function Real.log form numFunctions numApprox varH numH compute_Rsq
                r_and_N = some v →
            Real.exp v
              = objective_avg_est_var form numFunctions numApprox varH numH compute_Rsq
                  r_and_N) := by
  unfold objective_function
  refine ⟨?_, ?_⟩
  · by_cases h : objective_avg_est_var form numFunctions numApprox varH numH compute_Rsq
        r_and_N > 0
    · simp only [h, if_true]
      constructor
      · intro h'; cases h'
      · intro h'; exact absurd h (not_lt.mpr h')
    · simp only [h, if_false, true_iff]
      exact not_lt.mp h
  · intro h
    have h' : objective_avg_est_var form numFunctions numApprox varH numH compute_Rsq
        r_and_N > 0 := h
    simp only [h', if_true, Option.some.injEq, true_and]
    intro v hv
    rw [← hv]
    exact Real.exp_log h

/-- Witness for C16: one QoI of variance `2`, `N = 4` and `R_sq = 1/2` has the
average estimator variance `1/4`, and the objective is `log (1/4)`. -/
theorem objective_function_nan_iff_witness :
    0 < objective_avg_est_var .R_AND_N_NONLINEAR_CONSTRAINT 1 1 (fun _ => (2 : ℝ))
          (fun _ => 4) (fun _ _ => 1 / 2) (fun _ => 4)
    ∧ objective_function Real.log .R_AND_N_NONLINEAR_CONSTRAINT 1 1 (fun _ => (2 : ℝ))
          (fun _ => 4) (fun _ _ => 1 / 2) (fun _ => 4)
        = some (Real.log
            (objective_avg_est_var .R_AND_N_NONLINEAR_CONSTRAINT 1 1 (fun _ => (2 : ℝ))
              (fun _ => 4) (fun _ _ => 1 / 2) (fun _ => 4))) := by
  have hpos : 0 < objective_avg_est_var .R_AND_N_NONLINEAR_CONSTRAINT 1 1 (fun _ => (2 : ℝ))
      (fun _ => 4) (fun _ _ => 1 / 2) (fun _ => 4) := by
    rw [objective_avg_est_var_eq]
    norm_num [objective_N]
  exact ⟨hpos, ((objective_function_nan_iff .R_AND_N_NONLINEAR_CONSTRAINT 1 1 (fun _ => (2 : ℝ))
    (fun _ => 4) (fun _ _ => 1 / 2) (fun _ => 4)).2 hpos).1⟩

/-- C17 (counterexample to the claim as worded): with two QoI of zero variance, a finite
`R_sq = 1/2` and `N = 10 > 0`, the average estimator variance is `0`, the
strict guard `avg_est_var > 0.` fails and the objective is the NaN marker. -/
theorem zero_variance_objective_counterexample :
    (∀ qoi, qoi < 2 →
        objective_est_var .R_AND_N_NONLINEAR_CONSTRAINT 2 1 (fun _ => (0 : ℝ)) (fun _ => 10)
          (objective_R_sq 2 (fun _ _ => 1 / 2)
            (objective_ratios .R_AND_N_NONLINEAR_CONSTRAINT 1 (fun _ => 10)))
          (fun _ => 10) qoi = 0)
    ∧ objective_function Real.log .R_AND_N_NONLINEAR_CONSTRAINT 2 1 (fun _ => (0 : ℝ))
        (fun _ => 10) (fun _ _ => 1 / 2) (fun _ => 10) = none := by
  refine ⟨?_, ?_⟩
  · intro qoi hq
    rw [objective_est_var_eq]
    simp [hq]
  · unfold objective_function
    rw [objective_avg_est_var_eq]
    simp

/-- C17 (as amended): a QoI with `varH = 0` (finite `R_sq`, divisor `N > 0`)
has estimator variance exactly `0`; and when every QoI has zero variance the
average is `0`, which the strict guard `avg_est_var > 0.` rejects, so the
objective is the NaN marker. -/
theorem zero_variance_estvar_zero (form : SubProblemForm) (numFunctions numApprox : Nat)
    (varH : Nat → ℝ) (numH : Nat → Nat) (compute_Rsq : (Nat → ℝ) → Nat → ℝ)
    (r_and_N : Nat → ℝ) :
    (∀ qoi, qoi < numFunctions → varH qoi = 0 →
        0 < objective_N form numApprox numH r_and_N qoi →
        objective_est_var form numFunctions numApprox varH numH
          (objective_R_sq numFunctions compute_Rsq (objective_ratios form numApprox r_and_N))
          r_and_N qoi = 0)
    ∧ ((∀ qoi, qoi < numFunctions → varH qoi = 0) →
        objective_avg_est_var form numFunctions numApprox varH numH compute_Rsq r_and_N = 0
        ∧ objective_function Real.log form numFunctions numApprox varH numH compute_Rsq
            r_and_N = none) := by
  refine ⟨?_, ?_⟩
  · intro qoi hq hv _
    rw [objective_est_var_eq]
    simp [hq, hv]
  · intro hall
    have h0 : objective_avg_est_var form numFunctions numApprox varH numH compute_Rsq
        r_and_N = 0 := by
      rw [objective_avg_est_var_eq]
      have : Finset.sum (Finset.range numFunctions)
          (fun qoi => varH qoi / objective_N form numApprox numH r_and_N qoi
            * (1 - compute_Rsq (objective_ratios form numApprox r_and_N) qoi)) = 0 := by
        apply Finset.sum_eq_zero
        intro q hq
        rw [hall q (Finset.mem_range.mp hq)]
        simp
      rw [this]
      simp
    refine ⟨h0, ?_⟩
    unfold objective_function
    simp [h0]

/-- Witness for C17 (amended): three QoI of zero variance with counts `5`. -/
theorem zero_variance_estvar_zero_witness :
    objective_avg_est_var .R_ONLY_LINEAR_CONSTRAINT 3 2 (fun _ => (0 : ℝ)) (fun _ => 5)
        (fun _ _ => 1 / 4) (fun _ => 2) = 0
    ∧ objective_function Real.log .R_ONLY_LINEAR_CONSTRAINT 3 2 (fun _ => (0 : ℝ))
        (fun _ => 5) (fun _ _ => 1 / 4) (fun _ => 2) = none :=
  (zero_variance_estvar_zero .R_ONLY_LINEAR_CONSTRAINT 3 2 (fun _ => (0 : ℝ)) (fun _ => 5)
    (fun _ _ => 1 / 4) (fun _ => 2)).2 (fun _ _ => rfl)

/-- C18: the estimator variance of QoI `q` is `varH[q] / N * (1 - R_sq[q])`,
with `N = numH[q]` in the `R_ONLY_LINEAR_CONSTRAINT` form and
`N = r_and_N[numApprox]` in the other two forms, and the objective is the
logarithm of the arithmetic mean of these values over the QoI (the mean being
positive). -/
theorem objective_function_log_mean (form : SubProblemForm) (numFunctions numApprox : Nat)
    (varH : Nat → ℝ) (numH : Nat → Nat) (compute_Rsq : (Nat → ℝ) → Nat → ℝ)
    (r_and_N : Nat → ℝ) :
    (∀ qoi, qoi < numFunctions →
        objective_est_var form numFunctions numApprox varH numH
            (objective_R_sq numFunctions compute_Rsq (objective_ratios form numApprox r_and_N))
            r_and_N qoi
          = varH qoi
              / (match form with
                  | .R_ONLY_LINEAR_CONSTRAINT => (numH qoi : ℝ)
                  | .N_VECTOR_LINEAR_CONSTRAINT => r_and_N numApprox
                  | .R_AND_N_NONLINEAR_CONSTRAINT => r_and_N numApprox)
              * (1 - objective_R_sq numFunctions compute_Rsq
                      (objective_ratios form numApprox r_and_N) qoi))
    ∧ (0 < Finset.sum (Finset.range numFunctions)
              (fun qoi => objective_est_var form numFunctions numApprox varH numH
                (objective_R_sq numFunctions compute_Rsq
                  (objective_ratios form numApprox r_and_N)) r_and_N qoi)
            / (numFunctions : ℝ) →
        objective_function Real.log form numFunctions numApprox varH numH compute_Rsq r_and_N
          = some (Real.log
              (Finset.sum (Finset.range numFunctions)
                  (fun qoi => objective_est_var form numFunctions numApprox varH numH
                    (objective_R_sq numFunctions compute_Rsq
                      (objective_ratios form numApprox r_and_N)) r_and_N qoi)
                / (numFunctions : ℝ)))) := by
  refine ⟨?_, ?_⟩
  · intro qoi hq
    rw [objective_est_var_eq]
    cases form <;> simp [hq, objective_N]
  · intro hpos
    have havg : objective_avg_est_var form numFunctions numApprox varH numH compute_Rsq
          r_and_N
        = Finset.sum (Finset.range numFunctions)
              (fun qoi => objective_est_var form numFunctions numApprox varH numH
                (objective_R_sq numFunctions compute_Rsq
                  (objective_ratios form numApprox r_and_N)) r_and_N qoi)
            / (numFunctions : ℝ) := by
      unfold objective_avg_est_var averageVector
      simp only [sum_map_range]
    unfold objective_function
    simp only [havg]
    rw [if_pos hpos]

/-- Witness for C18: two QoI with variances `2` and `6`, `N = 4`, `R_sq = 1/2`;
the estimator variances are `1/4` and `3/4`, their mean is `1/2`. -/
theorem objective_function_log_mean_witness :
    objective_function Real.log .N_VECTOR_LINEAR_CONSTRAINT 2 1
        (fun q => if q = 0 then (2 : ℝ) else 6) (fun _ => 7) (fun _ _ => 1 / 2)
        (fun _ => 4)
      = some (Real.log (1 / 2)) := by
  have h := (objective_function_log_mean .N_VECTOR_LINEAR_CONSTRAINT 2 1
    (fun q => if q = 0 then (2 : ℝ) else 6) (fun _ => 7) (fun _ _ => 1 / 2) (fun _ => 4)).2
  have hsum : Finset.sum (Finset.range 2)
        (fun qoi => objective_est_var .N_VECTOR_LINEAR_CONSTRAINT 2 1
          (fun q => if q = 0 then (2 : ℝ) else 6) (fun _ => 7)
          (objective_R_sq 2 (fun _ _ => 1 / 2)
            (objective_ratios .N_VECTOR_LINEAR_CONSTRAINT 1 (fun _ => 4))) (fun _ => 4) qoi)
        / ((2 : Nat) : ℝ) = 1 / 2 := by
    rw [objective_est_var_eq, objective_R_sq_eq]
    norm_num [Finset.sum_range_succ, objective_N]
  rw [hsum] at h
  exact h (by norm_num)

/-! ## Claims on the formulation of the sub-problem -/

section SubProblemLemmas

variable {α : Type} [LinearOrderedField α]

theorem foldl_setEntry_row {β : Type} (g : Nat → β) (m0 : Nat → Nat → β) (r n : Nat) :
    (List.range n).foldl (fun m j => setEntry m r j (g j)) m0
      = fun i j => if i = r ∧ j < n then g j else m0 i j := by
  induction n with
  | zero => simp
  | succ n ih =>
    rw [List.range_succ, List.foldl_append, ih]
    funext i j
    simp only [List.foldl_cons, List.foldl_nil, setEntry]
    by_cases hi : i = r
    · by_cases hj : j = n
      · subst hj; simp [hi]
      · have : (j < n + 1) = (j < n) := by
          apply propext; constructor <;> intro h' <;> omega
        simp [hi, hj, this]
    · simp [hi]

theorem foldl_nudge_rows {β : Type} (v1 v2 : β) (m0 : Nat → Nat → β) (c n : Nat) :
    (List.range' 1 n).foldl
        (fun m a => setEntry (setEntry m a (a - 1) v1) a c v2) m0
      = fun i j =>
          if 1 ≤ i ∧ i ≤ n then (if j = c then v2 else if j = i - 1 then v1 else m0 i j)
          else m0 i j := by
  induction n with
  | zero =>
    funext i j
    have : ¬ (1 ≤ i ∧ i ≤ 0) := by omega
    simp only [List.range'_zero, List.foldl_nil, this, if_false]
  | succ n ih =>
    rw [List.range'_concat, List.foldl_append, ih]
    funext i j
    simp only [List.foldl_cons, List.foldl_nil, setEntry, Nat.one_mul]
    by_cases hi : i = 1 + n
    · subst hi
      have h1 : 1 ≤ 1 + n ∧ 1 + n ≤ n + 1 := by omega
      have h2 : ¬ (1 ≤ 1 + n ∧ 1 + n ≤ n) := by omega
      by_cases hj : j = c
      · simp [hj, h1]
      · by_cases hj' : j = 1 + n - 1
        · simp [hj, hj', h1]
        · simp [hj, hj', h1, h2]
    · have : (1 ≤ i ∧ i ≤ n + 1) = (1 ≤ i ∧ i ≤ n) := by
        apply propext; constructor <;> intro h' <;> omega
      simp [hi, this]

/-- The coefficient matrix of the `R_ONLY_LINEAR_CONSTRAINT` form. -/
theorem formulate_R_ONLY_coeffs (DBL_MAX RATIO_NUDGE : α) (OFFLINE_PILOT solutionMode : Int)
    (mlmfIter maxFunctionEvals numApprox : Nat) (pilotSamples : Nat → Nat)
    (avg_N_H : α) (cost avg_eval_ratios : Nat → α) (avg_hf_target : α) :
    (formulate_subproblem DBL_MAX RATIO_NUDGE OFFLINE_PILOT .R_ONLY_LINEAR_CONSTRAINT
        solutionMode mlmfIter maxFunctionEvals numApprox pilotSamples avg_N_H cost
        avg_eval_ratios avg_hf_target).lin_ineq_coeffs
      = fun i j => if i = 0 ∧ j < numApprox then cost j / cost numApprox else 0 := by
  simp only [formulate_subproblem, foldl_setEntry_row]

/-- The coefficient matrix of the `N_VECTOR_LINEAR_CONSTRAINT` form. -/
theorem formulate_N_VECTOR_coeffs (DBL_MAX RATIO_NUDGE : α) (OFFLINE_PILOT solutionMode : Int)
    (mlmfIter maxFunctionEvals numApprox : Nat) (pilotSamples : Nat → Nat)
    (avg_N_H : α) (cost avg_eval_ratios : Nat → α) (avg_hf_target : α) :
    (formulate_subproblem DBL_MAX RATIO_NUDGE OFFLINE_PILOT .N_VECTOR_LINEAR_CONSTRAINT
        solutionMode mlmfIter maxFunctionEvals numApprox pilotSamples avg_N_H cost
        avg_eval_ratios avg_hf_target).lin_ineq_coeffs
      = fun i j =>
          if i = 0 then
            (if j < numApprox then cost j / cost numApprox
             else if j = numApprox then 1 else 0)
          else if i ≤ numApprox then
            (if j = i - 1 then -1 else if j = numApprox then 1 + RATIO_NUDGE else 0)
          else 0 := by
  simp only [formulate_subproblem, foldl_setEntry_row, foldl_nudge_rows]
  funext i j
  simp only [setEntry]
  by_cases hi : i = 0
  · subst hi
    by_cases hj : j < numApprox
    · have : j ≠ numApprox := by omega
      simp [hj, this]
    · by_cases hj' : j = numApprox
      · simp [hj']
      · simp [hj, hj']
  · have h1 : 1 ≤ i := by omega
    by_cases hle : i ≤ numApprox
    · by_cases hj : j = numApprox
      · have : ¬ (numApprox = i - 1) := by omega
        simp [hi, h1, hle, hj, this]
      · by_cases hj' : j = i - 1
        · have h3 : ¬ (i - 1 = numApprox) := by omega
          simp [hi, h1, hle, hj', h3]
        · simp [hi, h1, hle, hj, hj']
    · simp [hi, hle]

/-- Row `0` of the `R_ONLY_LINEAR_CONSTRAINT` form applied to a ratio vector. -/
theorem formulate_R_ONLY_linearValue (DBL_MAX RATIO_NUDGE : α)
    (OFFLINE_PILOT solutionMode : Int)
    (mlmfIter maxFunctionEvals numApprox : Nat) (pilotSamples : Nat → Nat)
    (avg_N_H : α) (cost avg_eval_ratios : Nat → α) (avg_hf_target : α) (r : Nat → α) :
    (formulate_subproblem DBL_MAX RATIO_NUDGE OFFLINE_PILOT .R_ONLY_LINEAR_CONSTRAINT
        solutionMode mlmfIter maxFunctionEvals numApprox pilotSamples avg_N_H cost
        avg_eval_ratios avg_hf_target).linearValue r 0
      = Finset.sum (Finset.range numApprox) (fun j => cost j / cost numApprox * r j) := by
  unfold SubProblem.linearValue
  rw [formulate_R_ONLY_coeffs, sum_map_range]
  have hn : (formulate_subproblem DBL_MAX RATIO_NUDGE OFFLINE_PILOT .R_ONLY_LINEAR_CONSTRAINT
        solutionMode mlmfIter maxFunctionEvals numApprox pilotSamples avg_N_H cost
        avg_eval_ratios avg_hf_target).num_cdv = numApprox := rfl
  rw [hn]
  apply Finset.sum_congr rfl
  intro j hj
  have := Finset.mem_range.mp hj
  simp [this]

/-- Row `0` of the `N_VECTOR_LINEAR_CONSTRAINT` form applied to a count vector. -/
theorem formulate_N_VECTOR_linearValue_zero (DBL_MAX RATIO_NUDGE : α)
    (OFFLINE_PILOT solutionMode : Int)
    (mlmfIter maxFunctionEvals numApprox : Nat) (pilotSamples : Nat → Nat)
    (avg_N_H : α) (cost avg_eval_ratios : Nat → α) (avg_hf_target : α) (x : Nat → α) :
    (formulate_subproblem DBL_MAX RATIO_NUDGE OFFLINE_PILOT .N_VECTOR_LINEAR_CONSTRAINT
        solutionMode mlmfIter maxFunctionEvals numApprox pilotSamples avg_N_H cost
        avg_eval_ratios avg_hf_target).linearValue x 0
      = Finset.sum (Finset.range numApprox) (fun j => cost j / cost numApprox * x j)
        + x numApprox := by
  unfold SubProblem.linearValue
  rw [formulate_N_VECTOR_coeffs, sum_map_range]
  have hn : (formulate_subproblem DBL_MAX RATIO_NUDGE OFFLINE_PILOT
        .N_VECTOR_LINEAR_CONSTRAINT
        solutionMode mlmfIter maxFunctionEvals numApprox pilotSamples avg_N_H cost
        avg_eval_ratios avg_hf_target).num_cdv = numApprox + 1 := rfl
  rw [hn, Finset.sum_range_succ]
  congr 1
  · apply Finset.sum_congr rfl
    intro j hj
    have := Finset.mem_range.mp hj
    simp [this]
  · simp

/-- Row `i + 1` of the `N_VECTOR_LINEAR_CONSTRAINT` form applied to a count
vector. -/
theorem formulate_N_VECTOR_linearValue_succ (DBL_MAX RATIO_NUDGE : α)
    (OFFLINE_PILOT solutionMode : Int)
    (mlmfIter maxFunctionEvals numApprox : Nat) (pilotSamples : Nat → Nat)
    (avg_N_H : α) (cost avg_eval_ratios : Nat → α) (avg_hf_target : α) (x : Nat → α)
    (i : Nat) (hi : i < numApprox) :
    (formulate_subproblem DBL_MAX RATIO_NUDGE OFFLINE_PILOT .N_VECTOR_LINEAR_CONSTRAINT
        solutionMode mlmfIter maxFunctionEvals numApprox pilotSamples avg_N_H cost
        avg_eval_ratios avg_hf_target).linearValue x (i + 1)
      = -(x i) + (1 + RATIO_NUDGE) * x numApprox := by
  unfold SubProblem.linearValue
  rw [formulate_N_VECTOR_coeffs, sum_map_range]
  have hn : (formulate_subproblem DBL_MAX RATIO_NUDGE OFFLINE_PILOT
        .N_VECTOR_LINEAR_CONSTRAINT
        solutionMode mlmfIter maxFunctionEvals numApprox pilotSamples avg_N_H cost
        avg_eval_ratios avg_hf_target).num_cdv = numApprox + 1 := rfl
  rw [hn, Finset.sum_range_succ]
  have hle : i + 1 ≤ numApprox := hi
  have hne : ¬ (numApprox = i) := by omega
  congr 1
  · have h : ∀ j ∈ Finset.range numApprox,
        (if i + 1 = 0 then
            (if j < numApprox then cost j / cost numApprox
             else if j = numApprox then 1 else 0)
          else if i + 1 ≤ numApprox then
            (if j = i + 1 - 1 then -1 else if j = numApprox then 1 + RATIO_NUDGE else 0)
          else 0) * x j
        = if j = i then -(x i) else 0 := by
      intro j hj
      have hjlt := Finset.mem_range.mp hj
      have hjn : j ≠ numApprox := by omega
      by_cases hji : j = i
      · subst hji; simp [hle]
      · simp [hle, hji, hjn]
    rw [Finset.sum_congr rfl h, Finset.sum_ite_eq']
    simp [hi]
  · simp [hle, hne]

end SubProblemLemmas

/-- C19: for `cost_H > 0` and `avg_N_H > 1`, a ratio vector satisfies the
linear inequality of the `R_ONLY_LINEAR_CONSTRAINT` form, `sum (cost[i]/cost_H) r_i
≤ budget/avg_N_H - 1`, exactly when `nonlinear_constraint([r, avg_N_H]) ≤ budget`;
and for `N > 0` a count vector satisfies the cost row of the
`N_VECTOR_LINEAR_CONSTRAINT` form, `sum (cost[i]/cost_H) N_i + N ≤ budget`, exactly
when `nonlinear_constraint([N_i/N, N]) ≤ budget`. -/
theorem linear_budget_iff_nonlinear (DBL_MAX RATIO_NUDGE : ℝ)
    (OFFLINE_PILOT solutionMode : Int)
    (mlmfIter maxFunctionEvals numApprox : Nat) (pilotSamples : Nat → Nat)
    (avg_N_H : ℝ) (cost avg_eval_ratios : Nat → ℝ) (avg_hf_target : ℝ) :
    (0 < cost numApprox → 1 < avg_N_H → ∀ r : Nat → ℝ,
      (formulate_subproblem DBL_MAX RATIO_NUDGE OFFLINE_PILOT .R_ONLY_LINEAR_CONSTRAINT
          solutionMode mlmfIter maxFunctionEvals numApprox pilotSamples avg_N_H cost
          avg_eval_ratios avg_hf_target).linearValue r 0
        = Finset.sum (Finset.range numApprox) (fun i => cost i / cost numApprox * r i)
      ∧ (formulate_subproblem DBL_MAX RATIO_NUDGE OFFLINE_PILOT .R_ONLY_LINEAR_CONSTRAINT
          solutionMode mlmfIter maxFunctionEvals numApprox pilotSamples avg_N_H cost
          avg_eval_ratios avg_hf_target).lin_ineq_ub 0
        = (maxFunctionEvals : ℝ) / avg_N_H - 1
      ∧ ((formulate_subproblem DBL_MAX RATIO_NUDGE OFFLINE_PILOT .R_ONLY_LINEAR_CONSTRAINT
            solutionMode mlmfIter maxFunctionEvals numApprox pilotSamples avg_N_H cost
            avg_eval_ratios avg_hf_target).linearValue r 0
          ≤ (formulate_subproblem DBL_MAX RATIO_NUDGE OFFLINE_PILOT .R_ONLY_LINEAR_CONSTRAINT
            solutionMode mlmfIter maxFunctionEvals numApprox pilotSamples avg_N_H cost
            avg_eval_ratios avg_hf_target).lin_ineq_ub 0
        ↔ nonlinear_constraint numApprox cost (setAt r numApprox avg_N_H)
            ≤ (maxFunctionEvals : ℝ)))
    ∧ (∀ N_vec : Nat → ℝ, 0 < N_vec numApprox →
      (formulate_subproblem DBL_MAX RATIO_NUDGE OFFLINE_PILOT .N_VECTOR_LINEAR_CONSTRAINT
          solutionMode mlmfIter maxFunctionEvals numApprox pilotSamples avg_N_H cost
          avg_eval_ratios avg_hf_target).linearValue N_vec 0
        = Finset.sum (Finset.range numApprox) (fun i => cost i / cost numApprox * N_vec i)
          + N_vec numApprox
      ∧ (formulate_subproblem DBL_MAX RATIO_NUDGE OFFLINE_PILOT .N_VECTOR_LINEAR_CONSTRAINT
          solutionMode mlmfIter maxFunctionEvals numApprox pilotSamples avg_N_H cost
          avg_eval_ratios avg_hf_target).lin_ineq_ub 0
        = (maxFunctionEvals : ℝ)
      ∧ ((formulate_subproblem DBL_MAX RATIO_NUDGE OFFLINE_PILOT .N_VECTOR_LINEAR_CONSTRAINT
            solutionMode mlmfIter maxFunctionEvals numApprox pilotSamples avg_N_H cost
            avg_eval_ratios avg_hf_target).linearValue N_vec 0
          ≤ (formulate_subproblem DBL_MAX RATIO_NUDGE OFFLINE_PILOT
            .N_VECTOR_LINEAR_CONSTRAINT
            solutionMode mlmfIter maxFunctionEvals numApprox pilotSamples avg_N_H cost
            avg_eval_ratios avg_hf_target).lin_ineq_ub 0
        ↔ nonlinear_constraint numApprox cost
              (fun i => if i < numApprox then N_vec i / N_vec numApprox else N_vec numApprox)
            ≤ (maxFunctionEvals : ℝ))) := by
  refine ⟨?_, ?_⟩
  · intro _ hN r
    have hpos : 0 < avg_N_H := by linarith
    have hub : (formulate_subproblem DBL_MAX RATIO_NUDGE OFFLINE_PILOT
          .R_ONLY_LINEAR_CONSTRAINT
          solutionMode mlmfIter maxFunctionEvals numApprox pilotSamples avg_N_H cost
          avg_eval_ratios avg_hf_target).lin_ineq_ub 0
        = (maxFunctionEvals : ℝ) / avg_N_H - 1 := by
      simp [formulate_subproblem, setAt, hN]
    refine ⟨formulate_R_ONLY_linearValue _ _ _ _ _ _ _ _ _ _ _ _ _, hub, ?_⟩
    rw [hub, formulate_R_ONLY_linearValue, nonlinear_constraint_eq,
      sum_setAt_ge numApprox numApprox (le_refl _)]
    have hs : Finset.sum (Finset.range numApprox) (fun j => cost j / cost numApprox * r j)
        = Finset.sum (Finset.range numApprox) (fun j => cost j * r j) / cost numApprox := by
      rw [Finset.sum_div]
      apply Finset.sum_congr rfl
      intro j _
      ring
    rw [hs]
    simp only [setAt, if_true]
    rw [le_sub_iff_add_le, le_div_iff₀ hpos]
    constructor <;> intro h <;> linarith
  · intro N_vec hN
    have hub : (formulate_subproblem DBL_MAX RATIO_NUDGE OFFLINE_PILOT
          .N_VECTOR_LINEAR_CONSTRAINT
          solutionMode mlmfIter maxFunctionEvals numApprox pilotSamples avg_N_H cost
          avg_eval_ratios avg_hf_target).lin_ineq_ub 0
        = (maxFunctionEvals : ℝ) := by
      simp [formulate_subproblem, setAt]
    refine ⟨formulate_N_VECTOR_linearValue_zero _ _ _ _ _ _ _ _ _ _ _ _ _, hub, ?_⟩
    rw [hub, formulate_N_VECTOR_linearValue_zero, nonlinear_constraint_eq]
    have hne : N_vec numApprox ≠ 0 := ne_of_gt hN
    have hs : Finset.sum (Finset.range numApprox)
          (fun i => cost i * (if i < numApprox then N_vec i / N_vec numApprox
            else N_vec numApprox)) / cost numApprox
        = Finset.sum (Finset.range numApprox) (fun j => cost j / cost numApprox * N_vec j)
            / N_vec numApprox := by
      rw [Finset.sum_div, Finset.sum_div]
      apply Finset.sum_congr rfl
      intro j hj
      have := Finset.mem_range.mp hj
      simp only [this, if_true]
      ring
    have hlast : ¬ (numApprox < numApprox) := lt_irrefl _
    simp only [hlast, if_false]
    rw [hs, mul_add, mul_one, mul_div_cancel₀ _ hne]
    constructor <;> intro h <;> linarith

/-- Witness for C19: one approximation of cost `0.1`, truth cost `1`, budget
`100` and `avg_N_H = 50`; the ratio `r = 10` meets the linear inequality with
equality, and `nonlinear_constraint([10, 50]) = 100 ≤ 100`. -/
theorem linear_budget_iff_nonlinear_witness :
    nonlinear_constraint 1 (fun i => if i = 0 then (1 / 10 : ℝ) else 1)
        (setAt (fun _ => (10 : ℝ)) 1 50) ≤ ((100 : Nat) : ℝ) := by
  have h := (linear_budget_iff_nonlinear (1000 : ℝ) (1 / 1000) 1 0 0 100 1 (fun _ => 0) 50
    (fun i => if i = 0 then (1 / 10 : ℝ) else 1) (fun _ => 1) 1).1
    (by norm_num) (by norm_num) (fun _ => (10 : ℝ))
  apply h.2.2.1
  rw [h.1, h.2.1]
  norm_num

/-- C20: in the `N_VECTOR_LINEAR_CONSTRAINT` form there are `numApprox + 1`
linear inequality rows.  Row `0` is the cost row, with coefficients
`cost[i]/cost_H` on `N_i` and `1` on `N`, and upper bound `budget`.  Row `i + 1`
has `-1` on `N_i`, `1 + RATIO_NUDGE` on `N` and zero elsewhere, with upper bound
`0`; so for `RATIO_NUDGE > 0` and `N > 0` a vector that meets row `i + 1` has
`N_i > N` strictly. -/
theorem n_vector_linear_rows (DBL_MAX RATIO_NUDGE : ℝ)
    (OFFLINE_PILOT solutionMode : Int)
    (mlmfIter maxFunctionEvals numApprox : Nat) (pilotSamples : Nat → Nat)
    (avg_N_H : ℝ) (cost avg_eval_ratios : Nat → ℝ) (avg_hf_target : ℝ)
    (sp : SubProblem ℝ)
    (hsp : sp = formulate_subproblem DBL_MAX RATIO_NUDGE OFFLINE_PILOT
      .N_VECTOR_LINEAR_CONSTRAINT solutionMode mlmfIter maxFunctionEvals numApprox
      pilotSamples avg_N_H cost avg_eval_ratios avg_hf_target) :
    sp.num_lin_con = numApprox + 1
    ∧ sp.num_cdv = numApprox + 1
    ∧ sp.lin_ineq_ub 0 = (maxFunctionEvals : ℝ)
    ∧ (∀ j, sp.lin_ineq_coeffs 0 j
        = if j < numApprox then cost j / cost numApprox
          else if j = numApprox then 1 else 0)
    ∧ (∀ i, i < numApprox →
        sp.lin_ineq_ub (i + 1) = 0
        ∧ (∀ j, sp.lin_ineq_coeffs (i + 1) j
            = if j = i then -1 else if j = numApprox then 1 + RATIO_NUDGE else 0)
        ∧ (∀ x : Nat → ℝ, sp.linearValue x (i + 1) = -(x i) + (1 + RATIO_NUDGE) * x numApprox))
    ∧ (0 < RATIO_NUDGE → ∀ x : Nat → ℝ, 0 < x numApprox → ∀ i, i < numApprox →
        sp.linearValue x (i + 1) ≤ sp.lin_ineq_ub (i + 1) → x numApprox < x i) := by
  subst hsp
  have hub : ∀ i, (formulate_subproblem DBL_MAX RATIO_NUDGE OFFLINE_PILOT
      .N_VECTOR_LINEAR_CONSTRAINT solutionMode mlmfIter maxFunctionEvals numApprox
      pilotSamples avg_N_H cost avg_eval_ratios avg_hf_target).lin_ineq_ub (i + 1) = 0 := by
    intro i
    simp [formulate_subproblem, setAt]
  refine ⟨rfl, rfl, ?_, ?_, ?_, ?_⟩
  · simp [formulate_subproblem, setAt]
  · intro j
    rw [formulate_N_VECTOR_coeffs]
    simp
  · intro i hi
    refine ⟨hub i, ?_, ?_⟩
    · intro j
      rw [formulate_N_VECTOR_coeffs]
      have hle : i + 1 ≤ numApprox := hi
      simp [hle]
    · intro x
      exact formulate_N_VECTOR_linearValue_succ _ _ _ _ _ _ _ _ _ _ _ _ x i hi
  · intro hnudge x hN i hi hrow
    rw [hub i] at hrow
    rw [formulate_N_VECTOR_linearValue_succ _ _ _ _ _ _ _ _ _ _ _ _ x i hi] at hrow
    nlinarith [mul_pos hnudge hN]

/-- Witness for C20: two approximations, `RATIO_NUDGE = 1/1000`; the count
vector `(200, 150, 100)` meets row `1`, and indeed `N = 100 < N_0 = 200`. -/
theorem n_vector_linear_rows_witness :
    (formulate_subproblem (1000 : ℝ) (1 / 1000) 1 .N_VECTOR_LINEAR_CONSTRAINT 0 0 100 2
        (fun _ => 0) 50 (fun i => if i = 2 then (1 : ℝ) else 1 / 10) (fun _ => 1)
        1).linearValue
        (fun i => if i = 0 then (200 : ℝ) else if i = 1 then 150 else 100) 1
      ≤ (formulate_subproblem (1000 : ℝ) (1 / 1000) 1 .N_VECTOR_LINEAR_CONSTRAINT 0 0 100 2
        (fun _ => 0) 50 (fun i => if i = 2 then (1 : ℝ) else 1 / 10) (fun _ => 1)
        1).lin_ineq_ub 1
    ∧ (fun i => if i = 0 then (200 : ℝ) else if i = 1 then 150 else 100) 2
      < (fun i => if i = 0 then (200 : ℝ) else if i = 1 then 150 else 100) 0 := by
  have h5 := (n_vector_linear_rows (1000 : ℝ) (1 / 1000) 1 0 0 100 2 (fun _ => 0) 50
    (fun i => if i = 2 then (1 : ℝ) else 1 / 10) (fun _ => 1) 1 _ rfl).2.2.2.2.1 0 (by decide)
  have hrow : (formulate_subproblem (1000 : ℝ) (1 / 1000) 1 .N_VECTOR_LINEAR_CONSTRAINT
        0 0 100 2
        (fun _ => 0) 50 (fun i => if i = 2 then (1 : ℝ) else 1 / 10) (fun _ => 1)
        1).linearValue
        (fun i => if i = 0 then (200 : ℝ) else if i = 1 then 150 else 100) 1
      ≤ (formulate_subproblem (1000 : ℝ) (1 / 1000) 1 .N_VECTOR_LINEAR_CONSTRAINT 0 0 100 2
        (fun _ => 0) 50 (fun i => if i = 2 then (1 : ℝ) else 1 / 10) (fun _ => 1)
        1).lin_ineq_ub 1 := by
    rw [h5.1, h5.2.2]
    norm_num
  exact ⟨hrow, (n_vector_linear_rows (1000 : ℝ) (1 / 1000) 1 0 0 100 2 (fun _ => 0) 50
    (fun i => if i = 2 then (1 : ℝ) else 1 / 10) (fun _ => 1) 1 _ rfl).2.2.2.2.2
    (by norm_num)
    (fun i => if i = 0 then (200 : ℝ) else if i = 1 then 150 else 100)
    (by norm_num) 0 (by decide) hrow⟩

/-! ## Offsets -/

/-- Reading `fn_vals` through a non-empty or empty offset is reading the
pre-shifted vector with no offset. -/
theorem shifted_applyOffset (fn_vals offset : RealVector) (i : Nat) :
    shifted fn_vals offset i = shifted (applyOffset fn_vals offset) [] i := by
  rw [shifted_nil]
  unfold shifted applyOffset
  cases offset with
  | nil => simp
  | cons o os =>
    simp only [List.isEmpty_cons, Bool.not_false, if_true, Bool.false_eq_true, if_false]
    generalize (o :: os) = off
    unfold RealVector.elem
    induction fn_vals generalizing off i with
    | nil =>
      simp only [List.zipWith_nil_left, List.getD_nil]
      cases off.getD i Dbl.nan <;> rfl
    | cons v vs ih =>
      cases off with
      | nil =>
        simp only [List.zipWith_nil_right, List.getD_nil]
        cases (v :: vs).getD i Dbl.nan <;> rfl
      | cons o' os' =>
        cases i with
        | zero => simp
        | succ i =>
          simp only [List.zipWith_cons_cons, List.getD_cons_succ]
          exact ih i os'

/-- An offset of zeros changes no value it covers. -/
theorem shifted_zeroOffset (fn_vals : RealVector) (n i : Nat) (hi : i < n) :
    shifted fn_vals (zeroOffset n) i = shifted fn_vals [] i := by
  rw [shifted_nil]
  unfold shifted zeroOffset
  have hne : (List.replicate n (Dbl.fin 0)).isEmpty = false := by
    cases n with
    | zero => omega
    | succ n => simp [List.replicate_succ]
  have hz : RealVector.elem (List.replicate n (Dbl.fin 0)) i = Dbl.fin 0 := by
    unfold RealVector.elem
    rw [List.getD_eq_getElem _ _ (by simpa using hi)]
    simp
  simp only [hne, Bool.not_false, if_true, hz]
  cases fn_vals.elem i with
  | fin x => rw [Dbl.fin_sub_fin]; simp
  | nan => rfl
  | pinf => rfl
  | ninf => rfl

/-- Two folds whose steps agree on the members of the list agree. -/
theorem foldlM_congr_mem {σ ι : Type} (l : List ι) (f g : σ → ι → Option σ)
    (h : ∀ x, x ∈ l → ∀ s, f s x = g s x) (s : σ) : l.foldlM f s = l.foldlM g s := by
  induction l generalizing s with
  | nil => rfl
  | cons a l ih =>
    rw [List.foldlM_cons, List.foldlM_cons, h a (List.mem_cons_self a l) s]
    congr 1
    funext s'
    exact ih (fun x hx => h x (List.mem_cons_of_mem a hx)) s'

/-- A batch walked with per-QoI steps `F` equals the mapped batch walked with
steps `G` when the steps agree on every QoI below `n`. -/
theorem foldlM_batch_congr {ρ ρ' σ : Type} (F : ρ → σ → Nat → Option σ)
    (G : ρ' → σ → Nat → Option σ) (φ : ρ → ρ') (n : Nat)
    (h : ∀ r st q, q < n → F r st q = G (φ r) st q) (rs : List ρ) (st : σ) :
    rs.foldlM (fun st r => (List.range n).foldlM (F r) st) st
      = (rs.map φ).foldlM (fun st r => (List.range n).foldlM (G r) st) st := by
  induction rs generalizing st with
  | nil => rfl
  | cons r rs ih =>
    rw [List.map_cons, List.foldlM_cons, List.foldlM_cons]
    have h1 : (List.range n).foldlM (F r) st = (List.range n).foldlM (G (φ r)) st :=
      foldlM_congr_mem _ _ _ (fun q hq s => h r s q (List.mem_range.mp hq)) st
    rw [h1]
    congr 1
    funext s'
    exact ih s'

/-- The level-0 accumulator depends on response and offset through the shifted
values only. -/
theorem accumulate_ml_Qsums_offset_congr (fuel numFunctions lev : Nat)
    (allResponses : List RealVector) (st : QSums) (offset offset' : RealVector)
    (f : RealVector → RealVector)
    (h : ∀ v i, i < 2 * numFunctions → shifted v offset i = shifted (f v) offset' i) :
    accumulate_ml_Qsums fuel numFunctions allResponses st lev offset
      = accumulate_ml_Qsums fuel numFunctions (allResponses.map f) st lev offset' := by
  unfold accumulate_ml_Qsums
  exact foldlM_batch_congr
    (fun r st q => accumulate_ml_Qsums_qoi fuel lev offset r st q)
    (fun r st q => accumulate_ml_Qsums_qoi fuel lev offset' r st q) f numFunctions
    (fun r st q hq => by
      simp only [accumulate_ml_Qsums_qoi, h r q (by omega)]) allResponses st

/-- The two-map `accumulate_mlcv_Qsums` depends on response and offset through
the shifted values only. -/
theorem accumulate_mlcv_Qsums2_offset_congr (fuel numFunctions lev : Nat)
    (allResponses : List RealVector) (st : RefinedSums) (offset offset' : RealVector)
    (f : RealVector → RealVector)
    (h : ∀ v i, i < 2 * numFunctions → shifted v offset i = shifted (f v) offset' i) :
    accumulate_mlcv_Qsums2 fuel numFunctions allResponses st lev offset
      = accumulate_mlcv_Qsums2 fuel numFunctions (allResponses.map f) st lev offset' := by
  unfold accumulate_mlcv_Qsums2
  by_cases hlev : lev = 0
  · rw [if_pos hlev, if_pos hlev,
      accumulate_ml_Qsums_offset_congr fuel numFunctions lev allResponses _ offset offset' f h]
  · rw [if_neg hlev, if_neg hlev]
    exact foldlM_batch_congr
      (fun r st q => accumulate_mlcv_Qsums2_qoi fuel numFunctions lev offset r st q)
      (fun r st q => accumulate_mlcv_Qsums2_qoi fuel numFunctions lev offset' r st q) f
      numFunctions
      (fun r st q hq => by
        simp only [accumulate_mlcv_Qsums2_qoi, h r q (by omega),
          h r (q + numFunctions) (by omega)]) allResponses st

/-- The one-map `accumulate_mlcv_Ysums` depends on response and offset through
the shifted values only. -/
theorem accumulate_mlcv_Ysums1_offset_congr (fuel numFunctions lev : Nat)
    (allResponses : List RealVector) (st : YSums) (offset offset' : RealVector)
    (f : RealVector → RealVector)
    (h : ∀ v i, i < 2 * numFunctions → shifted v offset i = shifted (f v) offset' i) :
    accumulate_mlcv_Ysums1 fuel numFunctions allResponses st lev offset
      = accumulate_mlcv_Ysums1 fuel numFunctions (allResponses.map f) st lev offset' := by
  unfold accumulate_mlcv_Ysums1
  by_cases hlev : lev = 0
  · rw [if_pos hlev, if_pos hlev,
      accumulate_ml_Qsums_offset_congr fuel numFunctions lev allResponses _ offset offset' f h]
  · rw [if_neg hlev, if_neg hlev]
    exact foldlM_batch_congr
      (fun r st q => accumulate_mlcv_Ysums1_qoi fuel numFunctions lev offset r st q)
      (fun r st q => accumulate_mlcv_Ysums1_qoi fuel numFunctions lev offset' r st q) f
      numFunctions
      (fun r st q hq => by
        simp only [accumulate_mlcv_Ysums1_qoi, h r q (by omega),
          h r (q + numFunctions) (by omega)]) allResponses st

/-- The six-map `accumulate_mlcv_Qsums` depends on responses and offsets through
the shifted values only. -/
theorem accumulate_mlcv_Qsums6_offset_congr (fuel numFunctions lev : Nat)
    (lf_resp_map hf_resp_map : List RealVector) (st : PairedSums)
    (lf_offset hf_offset lf_offset' hf_offset' : RealVector)
    (f g : RealVector → RealVector)
    (h1 : ∀ v i, i < 2 * numFunctions → shifted v lf_offset i = shifted (f v) lf_offset' i)
    (h2 : ∀ v i, i < 2 * numFunctions → shifted v hf_offset i = shifted (g v) hf_offset' i) :
    accumulate_mlcv_Qsums6 fuel numFunctions lf_resp_map hf_resp_map st lev lf_offset hf_offset
      = accumulate_mlcv_Qsums6 fuel numFunctions (lf_resp_map.map f) (hf_resp_map.map g) st
          lev lf_offset' hf_offset' := by
  unfold accumulate_mlcv_Qsums6
  rw [List.zip_map]
  exact foldlM_batch_congr
    (fun (r : RealVector × RealVector) st q =>
      accumulate_mlcv_Qsums6_qoi fuel lev lf_offset hf_offset r.1 r.2 st q)
    (fun (r : RealVector × RealVector) st q =>
      accumulate_mlcv_Qsums6_qoi fuel lev lf_offset' hf_offset' r.1 r.2 st q)
    (Prod.map f g) numFunctions
    (fun r st q hq => by
      simp only [accumulate_mlcv_Qsums6_qoi, Prod.map_fst, Prod.map_snd,
        h1 r.1 q (by omega), h2 r.2 q (by omega)])
    (List.zip lf_resp_map hf_resp_map) st

/-- The six-map `accumulate_mlcv_Ysums` depends on responses and offsets through
the shifted values only. -/
theorem accumulate_mlcv_Ysums6_offset_congr (fuel numFunctions lev : Nat)
    (lf_resp_map hf_resp_map : List RealVector) (st : PairedSums)
    (lf_offset hf_offset lf_offset' hf_offset' : RealVector)
    (f g : RealVector → RealVector)
    (h1 : ∀ v i, i < 2 * numFunctions → shifted v lf_offset i = shifted (f v) lf_offset' i)
    (h2 : ∀ v i, i < 2 * numFunctions → shifted v hf_offset i = shifted (g v) hf_offset' i) :
    accumulate_mlcv_Ysums6 fuel numFunctions lf_resp_map hf_resp_map st lev lf_offset hf_offset
      = accumulate_mlcv_Ysums6 fuel numFunctions (lf_resp_map.map f) (hf_resp_map.map g) st
          lev lf_offset' hf_offset' := by
  unfold accumulate_mlcv_Ysums6
  by_cases hlev : lev = 0
  · rw [if_pos hlev, if_pos hlev]
    exact accumulate_mlcv_Qsums6_offset_congr fuel numFunctions lev lf_resp_map hf_resp_map st
      lf_offset hf_offset lf_offset' hf_offset' f g h1 h2
  · rw [if_neg hlev, if_neg hlev, List.zip_map]
    exact foldlM_batch_congr
      (fun (r : RealVector × RealVector) st q =>
        accumulate_mlcv_Ysums6_qoi fuel numFunctions lev lf_offset hf_offset r.1 r.2 st q)
      (fun (r : RealVector × RealVector) st q =>
        accumulate_mlcv_Ysums6_qoi fuel numFunctions lev lf_offset' hf_offset' r.1 r.2 st q)
      (Prod.map f g) numFunctions
      (fun r st q hq => by
        simp only [accumulate_mlcv_Ysums6_qoi, Prod.map_fst, Prod.map_snd,
          h1 r.1 q (by omega), h2 r.2 q (by omega),
          h1 r.1 (q + numFunctions) (by omega), h2 r.2 (q + numFunctions) (by omega)])
      (List.zip lf_resp_map hf_resp_map) st

/-- The sixteen-map `accumulate_mlcv_Qsums` depends on responses and offsets
through the shifted values only. -/
theorem accumulate_mlcv_Qsums16_offset_congr (fuel numFunctions lev : Nat)
    (lf_resp_map hf_resp_map : List RealVector) (st : LevelSums)
    (lf_offset hf_offset lf_offset' hf_offset' : RealVector)
    (f g : RealVector → RealVector)
    (h1 : ∀ v i, i < 2 * numFunctions → shifted v lf_offset i = shifted (f v) lf_offset' i)
    (h2 : ∀ v i, i < 2 * numFunctions → shifted v hf_offset i = shifted (g v) hf_offset' i) :
    accumulate_mlcv_Qsums16 fuel numFunctions lf_resp_map hf_resp_map st lev lf_offset
        hf_offset
      = accumulate_mlcv_Qsums16 fuel numFunctions (lf_resp_map.map f) (hf_resp_map.map g) st
          lev lf_offset' hf_offset' := by
  unfold accumulate_mlcv_Qsums16
  by_cases hlev : lev = 0
  · rw [if_pos hlev, if_pos hlev,
      accumulate_mlcv_Qsums6_offset_congr fuel numFunctions lev lf_resp_map hf_resp_map _
        lf_offset hf_offset lf_offset' hf_offset' f g h1 h2]
  · rw [if_neg hlev, if_neg hlev, List.zip_map]
    exact foldlM_batch_congr
      (fun (r : RealVector × RealVector) st q =>
        accumulate_mlcv_Qsums16_qoi fuel numFunctions lev lf_offset hf_offset r.1 r.2 st q)
      (fun (r : RealVector × RealVector) st q =>
        accumulate_mlcv_Qsums16_qoi fuel numFunctions lev lf_offset' hf_offset' r.1 r.2 st q)
      (Prod.map f g) numFunctions
      (fun r st q hq => by
        simp only [accumulate_mlcv_Qsums16_qoi, Prod.map_fst, Prod.map_snd,
          h1 r.1 q (by omega), h2 r.2 q (by omega),
          h1 r.1 (q + numFunctions) (by omega), h2 r.2 (q + numFunctions) (by omega)])
      (List.zip lf_resp_map hf_resp_map) st

/-- C11: in every accumulator an empty offset leaves the raw response
values in use, and the result equals that of accumulating with an all-zero
offset; a supplied offset replaces each value `v` at index `i` of the response
(`i = q` for the level-`l` value of QoI `q`, `i = q + numFunctions` for the
level-`l-1` value) by `v - offset[i]` before the finiteness test and before any
power or product is formed: accumulating with the offset is accumulating the
pre-shifted responses with no offset. -/
theorem offsets_shift_before_test (fuel numFunctions lev n : Nat)
    (hn : 2 * numFunctions ≤ n)
    (allResponses lf_resp_map hf_resp_map : List RealVector)
    (offset lf_offset hf_offset : RealVector)
    (stQ : RefinedSums) (stY : YSums) (stP : PairedSums) (stL : LevelSums) :
    (∀ v : RealVector, applyOffset v [] = v)
    ∧ (∀ (v off : RealVector) (i : Nat), off ≠ [] →
        (applyOffset v off).elem i = v.elem i - off.elem i)
    ∧ accumulate_mlcv_Qsums2 fuel numFunctions allResponses stQ lev offset
        = accumulate_mlcv_Qsums2 fuel numFunctions
            (allResponses.map (fun v => applyOffset v offset)) stQ lev []
    ∧ accumulate_mlcv_Ysums1 fuel numFunctions allResponses stY lev offset
        = accumulate_mlcv_Ysums1 fuel numFunctions
            (allResponses.map (fun v => applyOffset v offset)) stY lev []
    ∧ accumulate_mlcv_Qsums6 fuel numFunctions lf_resp_map hf_resp_map stP lev
          lf_offset hf_offset
        = accumulate_mlcv_Qsums6 fuel numFunctions
            (lf_resp_map.map (fun v => applyOffset v lf_offset))
            (hf_resp_map.map (fun v => applyOffset v hf_offset)) stP lev [] []
    ∧ accumulate_mlcv_Ysums6 fuel numFunctions lf_resp_map hf_resp_map stP lev
          lf_offset hf_offset
        = accumulate_mlcv_Ysums6 fuel numFunctions
            (lf_resp_map.map (fun v => applyOffset v lf_offset))
            (hf_resp_map.map (fun v => applyOffset v hf_offset)) stP lev [] []
    ∧ accumulate_mlcv_Qsums16 fuel numFunctions lf_resp_map hf_resp_map stL lev
          lf_offset hf_offset
        = accumulate_mlcv_Qsums16 fuel numFunctions
            (lf_resp_map.map (fun v => applyOffset v lf_offset))
            (hf_resp_map.map (fun v => applyOffset v hf_offset)) stL lev [] []
    ∧ accumulate_mlcv_Qsums2 fuel numFunctions allResponses stQ lev []
        = accumulate_mlcv_Qsums2 fuel numFunctions allResponses stQ lev (zeroOffset n)
    ∧ accumulate_mlcv_Ysums1 fuel numFunctions allResponses stY lev []
        = accumulate_mlcv_Ysums1 fuel numFunctions allResponses stY lev (zeroOffset n)
    ∧ accumulate_mlcv_Qsums6 fuel numFunctions lf_resp_map hf_resp_map stP lev [] []
        = accumulate_mlcv_Qsums6 fuel numFunctions lf_resp_map hf_resp_map stP lev
            (zeroOffset n) (zeroOffset n)
    ∧ accumulate_mlcv_Ysums6 fuel numFunctions lf_resp_map hf_resp_map stP lev [] []
        = accumulate_mlcv_Ysums6 fuel numFunctions lf_resp_map hf_resp_map stP lev
            (zeroOffset n) (zeroOffset n)
    ∧ accumulate_mlcv_Qsums16 fuel numFunctions lf_resp_map hf_resp_map stL lev [] []
        = accumulate_mlcv_Qsums16 fuel numFunctions lf_resp_map hf_resp_map stL lev
            (zeroOffset n) (zeroOffset n) := by
  have hs : ∀ (off v : RealVector) (i : Nat), i < 2 * numFunctions →
      shifted v off i = shifted ((fun v => applyOffset v off) v) [] i :=
    fun off v i _ => shifted_applyOffset v off i
  have hz : ∀ (v : RealVector) (i : Nat), i < 2 * numFunctions →
      shifted v [] i = shifted (id v) (zeroOffset n) i :=
    fun v i hi => (shifted_zeroOffset v n i (by omega)).symm
  refine ⟨?_, ?_, ?_, ?_, ?_, ?_, ?_, ?_, ?_, ?_, ?_, ?_⟩
  · intro v
    simp [applyOffset]
  · intro v off i hoff
    have h := shifted_applyOffset v off i
    rw [shifted_nil] at h
    rw [← h]
    unfold shifted
    cases off with
    | nil => exact absurd rfl hoff
    | cons o os => simp
  · exact accumulate_mlcv_Qsums2_offset_congr fuel numFunctions lev allResponses stQ offset []
      _ (hs offset)
  · exact accumulate_mlcv_Ysums1_offset_congr fuel numFunctions lev allResponses stY offset []
      _ (hs offset)
  · exact accumulate_mlcv_Qsums6_offset_congr fuel numFunctions lev lf_resp_map hf_resp_map
      stP lf_offset hf_offset [] [] _ _ (hs lf_offset) (hs hf_offset)
  · exact accumulate_mlcv_Ysums6_offset_congr fuel numFunctions lev lf_resp_map hf_resp_map
      stP lf_offset hf_offset [] [] _ _ (hs lf_offset) (hs hf_offset)
  · exact accumulate_mlcv_Qsums16_offset_congr fuel numFunctions lev lf_resp_map hf_resp_map
      stL lf_offset hf_offset [] [] _ _ (hs lf_offset) (hs hf_offset)
  · have h := accumulate_mlcv_Qsums2_offset_congr fuel numFunctions lev allResponses stQ []
      (zeroOffset n) id hz
    rwa [List.map_id] at h
  · have h := accumulate_mlcv_Ysums1_offset_congr fuel numFunctions lev allResponses stY []
      (zeroOffset n) id hz
    rwa [List.map_id] at h
  · have h := accumulate_mlcv_Qsums6_offset_congr fuel numFunctions lev lf_resp_map
      hf_resp_map stP [] [] (zeroOffset n) (zeroOffset n) id id hz hz
    rwa [List.map_id, List.map_id] at h
  · have h := accumulate_mlcv_Ysums6_offset_congr fuel numFunctions lev lf_resp_map
      hf_resp_map stP [] [] (zeroOffset n) (zeroOffset n) id id hz hz
    rwa [List.map_id, List.map_id] at h
  · have h := accumulate_mlcv_Qsums16_offset_congr fuel numFunctions lev lf_resp_map
      hf_resp_map stL [] [] (zeroOffset n) (zeroOffset n) id id hz hz
    rwa [List.map_id, List.map_id] at h

/-- Witness for C11: one QoI at level 1, the response `[3, 1]` with the offset
`[1, 1]` accumulates as the response `[2, 0]` with no offset. -/
theorem offsets_shift_before_test_witness :
    accumulate_mlcv_Ysums1 4 1 [[Dbl.fin 3, Dbl.fin 1]] (freshYSums 1 2) 1
        [Dbl.fin 1, Dbl.fin 1]
      = accumulate_mlcv_Ysums1 4 1
          ([[Dbl.fin 3, Dbl.fin 1]].map (fun v => applyOffset v [Dbl.fin 1, Dbl.fin 1]))
          (freshYSums 1 2) 1 [] :=
  (offsets_shift_before_test 4 1 1 2 (by decide) [[Dbl.fin 3, Dbl.fin 1]] [] []
    [Dbl.fin 1, Dbl.fin 1] [] [] (freshRefinedSums 1 2) (freshYSums 1 2)
    (freshPairedSums 1 2 2) (freshLevelSums 1 2 2)).2.2.2.1

/-! ## Counts over a batch, every overload -/

/-- One QoI of one response in `accumulate_ml_Qsums`: the step succeeds, keeps
the sums well formed and counts the sample exactly when it is included. -/
theorem accumulate_ml_Qsums_qoi_step (K fuel lev : Nat) (offset : RealVector)
    (hfuel : K ≤ fuel) (fn_vals : RealVector) (st : QSums) (q : Nat) (hwf : st.WF K) :
    ∃ st', accumulate_ml_Qsums_qoi fuel lev offset fn_vals st q = some st' ∧
      st'.WF K ∧
      (∀ j, st'.num_Q j = st.num_Q j
        + if j = q ∧ (shifted fn_vals offset q).isfinite = true then 1 else 0) := by
  by_cases hi : (shifted fn_vals offset q).isfinite = true
  · obtain ⟨x, hx⟩ := (Dbl.isfinite_iff _).mp hi
    refine ⟨st.addQ q lev x,
      accumulate_ml_Qsums_qoi_included K fuel lev offset fn_vals st q x hwf hfuel hx,
      QSums_addQ_WF K st q lev x hwf, ?_⟩
    intro j
    by_cases hj : j = q <;> simp [QSums.addQ, SizetArray.incr, hj, hi]
  · simp only [Bool.not_eq_true] at hi
    refine ⟨st, accumulate_ml_Qsums_qoi_excluded fuel lev offset fn_vals st q hi, hwf, ?_⟩
    intro j; simp [hi]

/-- Counts after a batch in `accumulate_ml_Qsums`. -/
theorem accumulate_ml_Qsums_counts (K fuel numFunctions lev : Nat)
    (allResponses : List RealVector) (st : QSums) (offset : RealVector)
    (hwf : st.WF K) (hfuel : K ≤ fuel) :
    ∃ st', accumulate_ml_Qsums fuel numFunctions allResponses st lev offset = some st' ∧
      st'.WF K ∧
      (∀ j, st'.num_Q j = st.num_Q j + if j < numFunctions then
        allResponses.countP (fun r => (shifted r offset j).isfinite) else 0) := by
  obtain ⟨st', h1, w, a, _⟩ := foldlM_batch_counts
    (fun r st q => accumulate_ml_Qsums_qoi fuel lev offset r st q)
    (QSums.WF K) QSums.num_Q QSums.num_Q
    (fun r q => (shifted r offset q).isfinite) numFunctions
    (fun r st q hw =>
      let ⟨s, e, w, c⟩ := accumulate_ml_Qsums_qoi_step K fuel lev offset hfuel r st q hw
      ⟨s, e, w, c, c⟩)
    allResponses st hwf
  exact ⟨st', h1, w, a⟩

/-- Counts after a batch in the two-map `accumulate_mlcv_Qsums`. -/
theorem accumulate_mlcv_Qsums2_counts (K fuel numFunctions lev : Nat)
    (allResponses : List RealVector) (st : RefinedSums) (offset : RealVector)
    (hwf : st.WF K) (hfuel : K ≤ fuel) :
    ∃ st', accumulate_mlcv_Qsums2 fuel numFunctions allResponses st lev offset = some st' ∧
      st'.WF K ∧
      (∀ j, st'.num_Q j = st.num_Q j + if j < numFunctions then
        allResponses.countP (fun r => singleIncluded numFunctions lev offset r j) else 0) := by
  by_cases hlev : lev = 0
  · obtain ⟨r, h1, w, a⟩ := accumulate_ml_Qsums_counts K fuel numFunctions lev allResponses
      { sum_Q := st.sum_Ql, num_Q := st.num_Q } offset hwf.1 hfuel
    refine ⟨{ st with sum_Ql := r.sum_Q, num_Q := r.num_Q }, ?_, ⟨w, hwf.2⟩, ?_⟩
    · unfold accumulate_mlcv_Qsums2
      rw [if_pos hlev, h1]
      rfl
    · intro j
      have := a j
      simpa [singleIncluded, hlev] using this
  · obtain ⟨st', h1, w, a, _⟩ := foldlM_batch_counts
      (fun r st q => accumulate_mlcv_Qsums2_qoi fuel numFunctions lev offset r st q)
      (RefinedSums.WF K) RefinedSums.num_Q RefinedSums.num_Q
      (fun r q => levelIncluded numFunctions offset r q) numFunctions
      (fun r st q hw =>
        let ⟨s, e, w, c⟩ :=
          accumulate_mlcv_Qsums2_qoi_step K fuel numFunctions lev offset hfuel r st q hw
        ⟨s, e, w, c, c⟩)
      allResponses st hwf
    refine ⟨st', ?_, w, ?_⟩
    · unfold accumulate_mlcv_Qsums2
      rw [if_neg hlev]
      exact h1
    · intro j
      have := a j
      simpa [singleIncluded, hlev] using this

/-- Counts after a batch in the one-map `accumulate_mlcv_Ysums`. -/
theorem accumulate_mlcv_Ysums1_counts (K fuel numFunctions lev : Nat)
    (allResponses : List RealVector) (st : YSums) (offset : RealVector)
    (hwf : st.WF K) (hfuel : K ≤ fuel) :
    ∃ st', accumulate_mlcv_Ysums1 fuel numFunctions allResponses st lev offset = some st' ∧
      st'.WF K ∧
      (∀ j, st'.num_Y j = st.num_Y j + if j < numFunctions then
        allResponses.countP (fun r => singleIncluded numFunctions lev offset r j) else 0) := by
  by_cases hlev : lev = 0
  · obtain ⟨r, h1, w, a⟩ := accumulate_ml_Qsums_counts K fuel numFunctions lev allResponses
      { sum_Q := st.sum_Y, num_Q := st.num_Y } offset hwf hfuel
    refine ⟨{ sum_Y := r.sum_Q, num_Y := r.num_Q }, ?_, w, ?_⟩
    · unfold accumulate_mlcv_Ysums1
      rw [if_pos hlev, h1]
      rfl
    · intro j
      have := a j
      simpa [singleIncluded, hlev] using this
  · obtain ⟨st', h1, w, a, _⟩ := foldlM_batch_counts
      (fun r st q => accumulate_mlcv_Ysums1_qoi fuel numFunctions lev offset r st q)
      (YSums.WF K) YSums.num_Y YSums.num_Y
      (fun r q => levelIncluded numFunctions offset r q) numFunctions
      (fun r st q hw =>
        let ⟨s, e, w, c⟩ :=
          accumulate_mlcv_Ysums1_qoi_step K fuel numFunctions lev offset hfuel r st q hw
        ⟨s, e, w, c, c⟩)
      allResponses st hwf
    refine ⟨st', ?_, w, ?_⟩
    · unfold accumulate_mlcv_Ysums1
      rw [if_neg hlev]
      exact h1
    · intro j
      have := a j
      simpa [singleIncluded, hlev] using this

/-- Counts after a batch in the six-map `accumulate_mlcv_Qsums`, any level. -/
theorem accumulate_mlcv_Qsums6_counts (K fuel numFunctions lev : Nat)
    (lf_resp_map hf_resp_map : List RealVector) (st : PairedSums)
    (lf_offset hf_offset : RealVector) (hwf : st.WF K) (hfuel : K ≤ fuel) :
    ∃ st', accumulate_mlcv_Qsums6 fuel numFunctions lf_resp_map hf_resp_map st lev
        lf_offset hf_offset = some st' ∧
      st'.WF K ∧
      (∀ j, st'.num_L j = st.num_L j + if j < numFunctions then
        (List.zip lf_resp_map hf_resp_map).countP
          (fun r => rawPairIncluded lf_offset hf_offset r j) else 0) ∧
      (∀ j, st'.num_H j = st.num_H j + if j < numFunctions then
        (List.zip lf_resp_map hf_resp_map).countP
          (fun r => rawPairIncluded lf_offset hf_offset r j) else 0) := by
  unfold accumulate_mlcv_Qsums6
  exact foldlM_batch_counts
    (fun (r : RealVector × RealVector) st q =>
      accumulate_mlcv_Qsums6_qoi fuel lev lf_offset hf_offset r.1 r.2 st q)
    (PairedSums.WF K) PairedSums.num_L PairedSums.num_H
    (fun r q => rawPairIncluded lf_offset hf_offset r q) numFunctions
    (fun r st q hw => accumulate_mlcv_Qsums6_qoi_step K fuel lev lf_offset hf_offset hfuel r
      st q hw)
    (List.zip lf_resp_map hf_resp_map) st hwf

/-- Counts after a batch in the sixteen-map `accumulate_mlcv_Qsums`. -/
theorem accumulate_mlcv_Qsums16_counts (K fuel numFunctions lev : Nat)
    (lf_resp_map hf_resp_map : List RealVector) (st : LevelSums)
    (lf_offset hf_offset : RealVector) (hwf : st.WF K) (hfuel : K ≤ fuel) :
    ∃ st', accumulate_mlcv_Qsums16 fuel numFunctions lf_resp_map hf_resp_map st lev
        lf_offset hf_offset = some st' ∧
      st'.WF K ∧
      (∀ j, st'.num_L j = st.num_L j + if j < numFunctions then
        (List.zip lf_resp_map hf_resp_map).countP
          (fun r => pairedIncluded numFunctions lev lf_offset hf_offset r j) else 0) ∧
      (∀ j, st'.num_H j = st.num_H j + if j < numFunctions then
        (List.zip lf_resp_map hf_resp_map).countP
          (fun r => pairedIncluded numFunctions lev lf_offset hf_offset r j) else 0) := by
  obtain ⟨w1, w2, w3, w4, w5, w6, w7, w8, w9, w10, w11, w12, w13, w14, w15, w16⟩ := hwf
  by_cases hlev : lev = 0
  · obtain ⟨r, h1, w, a, b⟩ := accumulate_mlcv_Qsums6_counts K fuel numFunctions lev
      lf_resp_map hf_resp_map
      { sum_L_shared := st.sum_Ll, sum_L_refined := st.sum_Ll_refined, sum_H := st.sum_Hl,
        sum_LL := st.sum_Ll_Ll, sum_LH := st.sum_Hl_Ll, sum_HH := st.sum_Hl_Hl,
        num_L := st.num_L, num_H := st.num_H } lf_offset hf_offset
      ⟨w1, w3, w5, w7, w10, w14⟩ hfuel
    obtain ⟨r1, r2, r3, r4, r5, r6⟩ := w
    refine ⟨{ st with
        sum_Ll := r.sum_L_shared, sum_Ll_refined := r.sum_L_refined, sum_Hl := r.sum_H,
        sum_Ll_Ll := r.sum_LL, sum_Hl_Ll := r.sum_LH, sum_Hl_Hl := r.sum_HH,
        num_L := r.num_L, num_H := r.num_H }, ?_,
      ⟨r1, w2, r2, w4, r3, w6, r4, w8, w9, r5, w11, w12, w13, r6, w15, w16⟩, ?_, ?_⟩
    · unfold accumulate_mlcv_Qsums16
      rw [if_pos hlev, h1]
      rfl
    · intro j
      have := a j
      simpa [pairedIncluded, rawPairIncluded, hlev] using this
    · intro j
      have := b j
      simpa [pairedIncluded, rawPairIncluded, hlev] using this
  · obtain ⟨st', h1, w, a, b⟩ := foldlM_batch_counts
      (fun r st q =>
        accumulate_mlcv_Qsums16_qoi fuel numFunctions lev lf_offset hf_offset r.1 r.2 st q)
      (LevelSums.WF K) LevelSums.num_L LevelSums.num_H
      (fun r q => levelPairIncluded numFunctions lf_offset hf_offset r.1 r.2 q) numFunctions
      (fun r st q hw => accumulate_mlcv_Qsums16_qoi_step K fuel numFunctions lev lf_offset
        hf_offset hfuel r st q hw)
      (List.zip lf_resp_map hf_resp_map) st
      ⟨w1, w2, w3, w4, w5, w6, w7, w8, w9, w10, w11, w12, w13, w14, w15, w16⟩
    refine ⟨st', ?_, w, ?_, ?_⟩
    · unfold accumulate_mlcv_Qsums16
      rw [if_neg hlev]
      exact h1
    · intro j
      have := a j
      simpa [pairedIncluded, levelPairIncluded, hlev] using this
    · intro j
      have := b j
      simpa [pairedIncluded, levelPairIncluded, hlev] using this

/-- A count that grew by the number of included samples of a batch lies between
the old count and the old count plus the batch size. -/
theorem count_bounds {ρ : Type} (p : ρ → Bool) (rs : List ρ) (n j old new : Nat)
    (h : new = old + if j < n then rs.countP p else 0) :
    old ≤ new ∧ new ≤ old + rs.length := by
  have hc := List.countP_le_length p (l := rs)
  by_cases hj : j < n
  · rw [if_pos hj] at h
    omega
  · rw [if_neg hj] at h
    omega

/-- C12: every accumulator overload returns, and leaves each per-QoI count at
least as large as before and at most larger by the number of responses
(response pairs, for the paired overloads) in the batch. -/
theorem counts_monotone_bounded (K fuel numFunctions lev : Nat)
    (allResponses lf_resp_map hf_resp_map : List RealVector)
    (offset lf_offset hf_offset : RealVector)
    (stQ : RefinedSums) (stY : YSums) (stP : PairedSums) (stL : LevelSums)
    (hQ : stQ.WF K) (hY : stY.WF K) (hP : stP.WF K) (hL : stL.WF K) (hfuel : K ≤ fuel) :
    (∃ st', accumulate_mlcv_Qsums2 fuel numFunctions allResponses stQ lev offset = some st' ∧
      ∀ q, stQ.num_Q q ≤ st'.num_Q q ∧ st'.num_Q q ≤ stQ.num_Q q + allResponses.length)
    ∧ (∃ st', accumulate_mlcv_Ysums1 fuel numFunctions allResponses stY lev offset = some st' ∧
      ∀ q, stY.num_Y q ≤ st'.num_Y q ∧ st'.num_Y q ≤ stY.num_Y q + allResponses.length)
    ∧ (∃ st', accumulate_mlcv_Qsums6 fuel numFunctions lf_resp_map hf_resp_map stP lev
          lf_offset hf_offset = some st' ∧
      ∀ q, (stP.num_L q ≤ st'.num_L q
          ∧ st'.num_L q ≤ stP.num_L q + min lf_resp_map.length hf_resp_map.length)
        ∧ (stP.num_H q ≤ st'.num_H q
          ∧ st'.num_H q ≤ stP.num_H q + min lf_resp_map.length hf_resp_map.length))
    ∧ (∃ st', accumulate_mlcv_Ysums6 fuel numFunctions lf_resp_map hf_resp_map stP lev
          lf_offset hf_offset = some st' ∧
      ∀ q, (stP.num_L q ≤ st'.num_L q
          ∧ st'.num_L q ≤ stP.num_L q + min lf_resp_map.length hf_resp_map.length)
        ∧ (stP.num_H q ≤ st'.num_H q
          ∧ st'.num_H q ≤ stP.num_H q + min lf_resp_map.length hf_resp_map.length))
    ∧ (∃ st', accumulate_mlcv_Qsums16 fuel numFunctions lf_resp_map hf_resp_map stL lev
          lf_offset hf_offset = some st' ∧
      ∀ q, (stL.num_L q ≤ st'.num_L q
          ∧ st'.num_L q ≤ stL.num_L q + min lf_resp_map.length hf_resp_map.length)
        ∧ (stL.num_H q ≤ st'.num_H q
          ∧ st'.num_H q ≤ stL.num_H q + min lf_resp_map.length hf_resp_map.length)) := by
  have hz : (List.zip lf_resp_map hf_resp_map).length
      = min lf_resp_map.length hf_resp_map.length := List.length_zip _ _
  refine ⟨?_, ?_, ?_, ?_, ?_⟩
  · obtain ⟨st', h1, _, a⟩ := accumulate_mlcv_Qsums2_counts K fuel numFunctions lev
      allResponses stQ offset hQ hfuel
    exact ⟨st', h1, fun q => count_bounds _ _ _ _ _ _ (a q)⟩
  · obtain ⟨st', h1, _, a⟩ := accumulate_mlcv_Ysums1_counts K fuel numFunctions lev
      allResponses stY offset hY hfuel
    exact ⟨st', h1, fun q => count_bounds _ _ _ _ _ _ (a q)⟩
  · obtain ⟨st', h1, _, a, b⟩ := accumulate_mlcv_Qsums6_counts K fuel numFunctions lev
      lf_resp_map hf_resp_map stP lf_offset hf_offset hP hfuel
    refine ⟨st', h1, fun q => ?_⟩
    rw [← hz]
    exact ⟨count_bounds _ _ _ _ _ _ (a q), count_bounds _ _ _ _ _ _ (b q)⟩
  · obtain ⟨st', h1, _, _, a, b⟩ := accumulate_mlcv_Ysums6_counts K fuel numFunctions lev
      lf_resp_map hf_resp_map stP lf_offset hf_offset hP hfuel
    refine ⟨st', h1, fun q => ?_⟩
    rw [← hz]
    exact ⟨count_bounds _ _ _ _ _ _ (a q), count_bounds _ _ _ _ _ _ (b q)⟩
  · obtain ⟨st', h1, _, a, b⟩ := accumulate_mlcv_Qsums16_counts K fuel numFunctions lev
      lf_resp_map hf_resp_map stL lf_offset hf_offset hL hfuel
    refine ⟨st', h1, fun q => ?_⟩
    rw [← hz]
    exact ⟨count_bounds _ _ _ _ _ _ (a q), count_bounds _ _ _ _ _ _ (b q)⟩

/-- Witness for C12: fresh sums of orders `1..4`, one QoI at level 1, a batch
of two responses (one of them with a NaN). -/
theorem counts_monotone_bounded_witness :
    ∃ st', accumulate_mlcv_Ysums1 4 1 [[Dbl.fin 3, Dbl.fin 1], [Dbl.nan, Dbl.fin 1]]
        (freshYSums 1 2) 1 [] = some st' ∧
      ∀ q, (freshYSums 1 2).num_Y q ≤ st'.num_Y q
        ∧ st'.num_Y q ≤ (freshYSums 1 2).num_Y q
            + [[Dbl.fin 3, Dbl.fin 1], [Dbl.nan, Dbl.fin 1]].length :=
  (counts_monotone_bounded 4 4 1 1 [[Dbl.fin 3, Dbl.fin 1], [Dbl.nan, Dbl.fin 1]] [] []
    [] [] [] (freshRefinedSums 1 2) (freshYSums 1 2) (freshPairedSums 1 2 2)
    (freshLevelSums 1 2 2) ⟨zeroOrders_WF _ _, zeroOrders_WF _ _⟩ (zeroOrders_WF _ _)
    (freshPairedSums_WF _ _ _) (freshLevelSums_WF _ _ _) (le_refl 4)).2.1

/-! ## Incremental accumulation -/

/-- Lookup in a map grown at one entry. -/
theorem lookup_grow (f : Int → Dbl) (qoi lev : Nat) (m : IntRealMatrixMap) (k : Int) :
    (grow f qoi lev m).lookup k = (m.lookup k).map (fun M => M.addAt qoi lev (f k)) := by
  induction m with
  | nil => rfl
  | cons e m ih =>
    obtain ⟨a, M⟩ := e
    unfold grow at ih ⊢
    simp only [List.map_cons, List.lookup_cons]
    by_cases h : k = a
    · subst h; simp
    · have hb : (k == a) = false := by simpa using h
      simp only [hb]
      exact ih

/-- An entry of a map grown at `(qoi, lev)`. -/
theorem entryAt_grow (f : Int → Dbl) (qoi lev : Nat) (m : IntRealMatrixMap) (k : Int)
    (i j : Nat) (hk : hasOrder m k = true) :
    entryAt (grow f qoi lev m) k i j
      = if i = qoi ∧ j = lev then entryAt m k i j + f k else entryAt m k i j := by
  unfold entryAt hasOrder at *
  rw [lookup_grow]
  cases hm : m.lookup k with
  | none => rw [hm] at hk; cases hk
  | some M => simp [RealMatrix.addAt]

/-- C21: the mode switch of the `NonDEnsembleSampling` constructor leaves
`maxIterations = 0` in `PILOT_PROJECTION` mode, `maxIterations = 1` in
`OFFLINE_PILOT` mode, and in any other mode (the default, `ONLINE_PILOT`)
`maxIterations = 25` when it was `SZ_MAX` and the given value otherwise. -/
theorem mode_switch_iteration_cap (PILOT_PROJECTION OFFLINE_PILOT METHOD_ERROR : Int)
    (pilotMgmtMode : Int) (maxIterations maxFunctionEvals : Nat)
    (hdistinct : PILOT_PROJECTION ≠ OFFLINE_PILOT) :
    (pilotMgmtMode = PILOT_PROJECTION →
      (NonDEnsembleSampling_mode_switch PILOT_PROJECTION OFFLINE_PILOT METHOD_ERROR
        pilotMgmtMode maxIterations maxFunctionEvals).maxIterations = 0)
    ∧ (pilotMgmtMode = OFFLINE_PILOT →
      (NonDEnsembleSampling_mode_switch PILOT_PROJECTION OFFLINE_PILOT METHOD_ERROR
        pilotMgmtMode maxIterations maxFunctionEvals).maxIterations = 1)
    ∧ (pilotMgmtMode ≠ PILOT_PROJECTION → pilotMgmtMode ≠ OFFLINE_PILOT →
      (maxIterations = SZ_MAX →
        (NonDEnsembleSampling_mode_switch PILOT_PROJECTION OFFLINE_PILOT METHOD_ERROR
          pilotMgmtMode maxIterations maxFunctionEvals).maxIterations = 25)
      ∧ (maxIterations ≠ SZ_MAX →
        (NonDEnsembleSampling_mode_switch PILOT_PROJECTION OFFLINE_PILOT METHOD_ERROR
          pilotMgmtMode maxIterations maxFunctionEvals).maxIterations = maxIterations)) := by
  refine ⟨?_, ?_, ?_⟩
  · intro h
    simp [NonDEnsembleSampling_mode_switch, h]
  · intro h
    have h' : ¬ (OFFLINE_PILOT = PILOT_PROJECTION) := fun e => hdistinct e.symm
    simp [NonDEnsembleSampling_mode_switch, h, h']
  · intro h1 h2
    refine ⟨?_, ?_⟩
    · intro h
      simp [NonDEnsembleSampling_mode_switch, h1, h2, h]
    · intro h
      simp [NonDEnsembleSampling_mode_switch, h1, h2, h]

/-- Witness for C21 with the modes numbered `PILOT_PROJECTION = 2`,
`OFFLINE_PILOT = 1`: in offline mode with a budget of `1000` the cap is `1`. -/
theorem mode_switch_iteration_cap_witness :
    (NonDEnsembleSampling_mode_switch 2 1 (-7) 1 SZ_MAX 1000).maxIterations = 1 :=
  (mode_switch_iteration_cap 2 1 (-7) 1 SZ_MAX 1000 (by decide)).2.1 rfl

/-- C22: the mode switch of the `NonDEnsembleSampling` constructor calls
`abort_handler(METHOD_ERROR)` if and only if the mode is `OFFLINE_PILOT` and
`maxFunctionEvals == SZ_MAX`; in particular a missing budget is accepted in
`PILOT_PROJECTION` mode and in every other (`ONLINE_PILOT`) mode. -/
theorem mode_switch_abort_iff (PILOT_PROJECTION OFFLINE_PILOT METHOD_ERROR : Int)
    (pilotMgmtMode : Int) (maxIterations maxFunctionEvals : Nat)
    (hdistinct : PILOT_PROJECTION ≠ OFFLINE_PILOT) :
    ((NonDEnsembleSampling_mode_switch PILOT_PROJECTION OFFLINE_PILOT METHOD_ERROR
        pilotMgmtMode maxIterations maxFunctionEvals).abort = some METHOD_ERROR
      ↔ pilotMgmtMode = OFFLINE_PILOT ∧ maxFunctionEvals = SZ_MAX)
    ∧ (¬ (pilotMgmtMode = OFFLINE_PILOT ∧ maxFunctionEvals = SZ_MAX) →
      (NonDEnsembleSampling_mode_switch PILOT_PROJECTION OFFLINE_PILOT METHOD_ERROR
        pilotMgmtMode maxIterations maxFunctionEvals).abort = none)
    ∧ (pilotMgmtMode ≠ OFFLINE_PILOT →
      (NonDEnsembleSampling_mode_switch PILOT_PROJECTION OFFLINE_PILOT METHOD_ERROR
        pilotMgmtMode maxIterations SZ_MAX).abort = none) := by
  have key : ∀ mfe : Nat,
      (NonDEnsembleSampling_mode_switch PILOT_PROJECTION OFFLINE_PILOT METHOD_ERROR
        pilotMgmtMode maxIterations mfe).abort
      = if pilotMgmtMode = OFFLINE_PILOT ∧ mfe = SZ_MAX then some METHOD_ERROR else none := by
    intro mfe
    unfold NonDEnsembleSampling_mode_switch
    by_cases h1 : pilotMgmtMode = PILOT_PROJECTION
    · have h2 : ¬ (pilotMgmtMode = OFFLINE_PILOT) := fun e => hdistinct (h1.symm.trans e)
      rw [if_pos h1, if_neg (fun h => h2 h.1)]
    · by_cases h2 : pilotMgmtMode = OFFLINE_PILOT
      · rw [if_neg h1, if_pos h2]
        by_cases h3 : mfe = SZ_MAX
        · rw [if_pos h3, if_pos ⟨h2, h3⟩]
        · rw [if_neg h3, if_neg (fun h => h3 h.2)]
      · rw [if_neg h1, if_neg h2]
        show none = _
        rw [if_neg (fun h => h2 h.1)]
  refine ⟨?_, ?_, ?_⟩
  · rw [key]
    by_cases h : pilotMgmtMode = OFFLINE_PILOT ∧ maxFunctionEvals = SZ_MAX
    · simp [h]
    · simp [h]
  · intro h
    rw [key, if_neg h]
  · intro h
    rw [key]
    simp [h]

/-- Witness for C22 with the modes numbered `PILOT_PROJECTION = 2`,
`OFFLINE_PILOT = 1`: offline mode without a budget aborts. -/
theorem mode_switch_abort_iff_witness :
    (NonDEnsembleSampling_mode_switch 2 1 (-7) 1 25 SZ_MAX).abort = some (-7) :=
  (mode_switch_abort_iff 2 1 (-7) 1 25 SZ_MAX (by decide)).1.mpr ⟨rfl, rfl⟩

/-- The flag after the loop over the models: set before, or some model without
cost data. -/
theorem foldl_err_flag (model_ensemble : List Nat) (e : Bool) :
    model_ensemble.foldl
        (fun err_flag solution_levels_false =>
          if solution_levels_false = 0 then true else err_flag) e
      = (e || decide (∃ n, n ∈ model_ensemble ∧ n = 0)) := by
  induction model_ensemble generalizing e with
  | nil => simp
  | cons a m ih =>
    rw [List.foldl_cons, ih]
    by_cases ha : a = 0
    · simp [ha]
    · have ha' : ¬ (0 = a) := fun h => ha h.symm
      cases e <;> simp [ha, ha']

/-- C26: the validation of the `NonDNonHierarchSampling` constructor sets
`err_flag` and calls `abort_handler(METHOD_ERROR)` if and only if the surrogate
type is not `"non_hierarchical"` or some model of the ensemble has
`solution_levels(false) == 0`; a non-hierarchical ensemble in which every model
has at least one cost entry passes. -/
theorem nonhierarch_validation_iff (METHOD_ERROR : Int) (surrogate_type : String)
    (model_ensemble : List Nat) :
    ((NonDNonHierarchSampling_validate METHOD_ERROR surrogate_type model_ensemble).1 = true
      ↔ surrogate_type ≠ "non_hierarchical" ∨ ∃ n, n ∈ model_ensemble ∧ n = 0)
    ∧ ((NonDNonHierarchSampling_validate METHOD_ERROR surrogate_type model_ensemble).2
          = some METHOD_ERROR
      ↔ surrogate_type ≠ "non_hierarchical" ∨ ∃ n, n ∈ model_ensemble ∧ n = 0)
    ∧ (surrogate_type = "non_hierarchical" → (∀ n, n ∈ model_ensemble → 1 ≤ n) →
      NonDNonHierarchSampling_validate METHOD_ERROR surrogate_type model_ensemble
        = (false, none)) := by
  have key : (NonDNonHierarchSampling_validate METHOD_ERROR surrogate_type model_ensemble).1
      = true ↔ surrogate_type ≠ "non_hierarchical" ∨ ∃ n, n ∈ model_ensemble ∧ n = 0 := by
    unfold NonDNonHierarchSampling_validate
    simp only [foldl_err_flag]
    by_cases hs : surrogate_type = "non_hierarchical"
    · simp [hs]
    · simp [hs]
  have hsnd : (NonDNonHierarchSampling_validate METHOD_ERROR surrogate_type model_ensemble).2
      = if (NonDNonHierarchSampling_validate METHOD_ERROR surrogate_type model_ensemble).1
          = true then some METHOD_ERROR else none := by
    unfold NonDNonHierarchSampling_validate
    rfl
  refine ⟨key, ?_, ?_⟩
  · rw [hsnd, ← key]
    by_cases h : (NonDNonHierarchSampling_validate METHOD_ERROR surrogate_type
        model_ensemble).1 = true
    · simp [h]
    · simp [h]
  · intro hs hall
    have hno : ¬ (surrogate_type ≠ "non_hierarchical" ∨ ∃ n, n ∈ model_ensemble ∧ n = 0) := by
      rintro (h | ⟨n, hn, h0⟩)
      · exact h hs
      · have := hall n hn
        omega
    have h1 : (NonDNonHierarchSampling_validate METHOD_ERROR surrogate_type model_ensemble).1
        = false := by
      cases hv : (NonDNonHierarchSampling_validate METHOD_ERROR surrogate_type
          model_ensemble).1 with
      | false => rfl
      | true => exact absurd (key.mp hv) hno
    apply Prod.ext
    · exact h1
    · rw [hsnd, h1]
      simp

/-- Witness for C26: a non-hierarchical ensemble of three models with `1`, `3`
and `2` cost entries passes the validation. -/
theorem nonhierarch_validation_iff_witness :
    NonDNonHierarchSampling_validate (-7) "non_hierarchical" [1, 3, 2] = (false, none) :=
  (nonhierarch_validation_iff (-7) "non_hierarchical" [1, 3, 2]).2.2 rfl
    (by intro n hn; simp at hn; omega)

/-! ## The refinement loop of the drivers -/

/-- A loop whose test fails after `n` passes, and not before, returns the state
after `n` passes whenever the fuel allows `n` passes. -/
theorem whileLoop_iterate {σ : Type} (cond : σ → Bool) (body : σ → σ) :
    ∀ (fuel : Nat) (s : σ) (n : Nat), n ≤ fuel → cond (body^[n] s) = false →
      (∀ k, k < n → cond (body^[k] s) = true) →
      whileLoop cond body fuel s = some (body^[n] s) := by
  intro fuel
  induction fuel with
  | zero =>
    intro s n hn hstop _
    have h0 : n = 0 := by omega
    subst h0
    have hs : cond s = false := hstop
    simp [whileLoop, hs]
  | succ fuel ih =>
    intro s n hn hstop hrun
    cases n with
    | zero =>
      have hs : cond s = false := hstop
      simp [whileLoop, hs]
    | succ m =>
      have hs : cond s = true := hrun 0 (by omega)
      have h1 := ih (body s) m (by omega)
        (by rw [← Function.iterate_succ_apply]; exact hstop)
        (fun k hk => by
          rw [← Function.iterate_succ_apply]
          exact hrun (k + 1) (by omega))
      rw [Function.iterate_succ_apply]
      simp [whileLoop, hs, h1]

/-- While no wrap-around occurs, `mlmfIter` counts the passes made. -/
theorem mlmfIter_iterate {ρ : Type} (pass : Nat → List Nat → ρ → List Nat × ρ)
    (delta_N_hf : List Nat) (rest : ρ) :
    ∀ k, k < 2 ^ 64 →
      ((RefineState.body pass)^[k] (RefineState.start delta_N_hf rest)).mlmfIter = k := by
  intro k
  induction k with
  | zero => intro _; rfl
  | succ k ih =>
    intro hk
    rw [Function.iterate_succ_apply']
    simp only [RefineState.body]
    rw [ih (by omega)]
    exact Nat.mod_eq_of_lt hk

/-- The value of `max_iter` for a `size_t` or a non-negative `int`. -/
theorem driver_max_iter_nonneg (maxIterations : Int) (h : 0 ≤ maxIterations) :
    driver_max_iter maxIterations = maxIterations.toNat := by
  unfold driver_max_iter
  rw [if_neg (not_lt.mpr h)]

/-- C23: in both multilevel control-variate drivers the refinement loop makes a
pass only while the L1 norm of `delta_N_hf` is non-zero and
`mlmfIter <= max_iter`.  For every way the passes compute their increments, the
loop ends after `n <= max_iter + 1` passes (the pilot pass included), every
pass having started from a non-zero increment vector with `mlmfIter <= max_iter`;
no pass is made from a zero increment vector.  (`max_iter < SZ_MAX`, as the
constructor leaves it, so that `++mlmfIter` does not wrap.) -/
theorem refinement_loop_bounded {ρ : Type} (fuel : Nat) (maxIterations : Int)
    (pass : Nat → List Nat → ρ → List Nat × ρ) (delta_N_hf : List Nat) (rest : ρ)
    (hcap : driver_max_iter maxIterations < SZ_MAX)
    (hfuel : driver_max_iter maxIterations + 1 ≤ fuel) :
    (∃ n, n ≤ driver_max_iter maxIterations + 1
      ∧ multilevel_control_variate_mc_loop fuel maxIterations pass delta_N_hf rest
          = some ((RefineState.body pass)^[n] (RefineState.start delta_N_hf rest))
      ∧ (∀ k, k < n →
          l1_norm ((RefineState.body pass)^[k]
              (RefineState.start delta_N_hf rest)).delta_N_hf ≠ 0
          ∧ ((RefineState.body pass)^[k] (RefineState.start delta_N_hf rest)).mlmfIter
              ≤ driver_max_iter maxIterations)
      ∧ (l1_norm ((RefineState.body pass)^[n]
              (RefineState.start delta_N_hf rest)).delta_N_hf = 0
          ∨ driver_max_iter maxIterations
              < ((RefineState.body pass)^[n] (RefineState.start delta_N_hf rest)).mlmfIter)
      ∧ ((RefineState.body pass)^[n] (RefineState.start delta_N_hf rest)).mlmfIter = n)
    ∧ (l1_norm delta_N_hf = 0 →
        multilevel_control_variate_mc_loop fuel maxIterations pass delta_N_hf rest
          = some (RefineState.start delta_N_hf rest))
    ∧ (∀ s : RefineState ρ, l1_norm s.delta_N_hf = 0 →
        RefineState.cond (driver_max_iter maxIterations) s = false) := by
  have hlt : driver_max_iter maxIterations + 1 < 2 ^ 64 := by
    unfold SZ_MAX at hcap
    omega
  have hcapfalse : RefineState.cond (driver_max_iter maxIterations)
      ((RefineState.body pass)^[driver_max_iter maxIterations + 1]
        (RefineState.start delta_N_hf rest)) = false := by
    unfold RefineState.cond
    rw [mlmfIter_iterate pass delta_N_hf rest _ hlt]
    simp
  have hex : ∃ n, RefineState.cond (driver_max_iter maxIterations)
      ((RefineState.body pass)^[n] (RefineState.start delta_N_hf rest)) = false :=
    ⟨_, hcapfalse⟩
  obtain ⟨n, hstop, hrun⟩ : ∃ n,
      RefineState.cond (driver_max_iter maxIterations)
        ((RefineState.body pass)^[n] (RefineState.start delta_N_hf rest)) = false
      ∧ ∀ k, k < n → RefineState.cond (driver_max_iter maxIterations)
        ((RefineState.body pass)^[k] (RefineState.start delta_N_hf rest)) = true :=
    ⟨Nat.find hex, Nat.find_spec hex, fun k hk => by simpa using Nat.find_min hex hk⟩
  have hn : n ≤ driver_max_iter maxIterations + 1 := by
    by_contra hgt
    have := hrun (driver_max_iter maxIterations + 1) (by omega)
    rw [hcapfalse] at this
    cases this
  refine ⟨?_, ?_, ?_⟩
  · refine ⟨n, hn, ?_, ?_, ?_, ?_⟩
    · unfold multilevel_control_variate_mc_loop
      exact whileLoop_iterate _ _ fuel _ n (by omega) hstop hrun
    · intro k hk
      have h := hrun k hk
      unfold RefineState.cond at h
      simpa using h
    · have h := hstop
      unfold RefineState.cond at h
      simp only [Bool.and_eq_false_iff, decide_eq_false_iff_not, not_not, not_le] at h
      exact h
    · exact mlmfIter_iterate pass delta_N_hf rest n (by omega)
  · intro h0
    unfold multilevel_control_variate_mc_loop
    have := whileLoop_iterate (RefineState.cond (driver_max_iter maxIterations))
      (RefineState.body pass) fuel (RefineState.start delta_N_hf rest) 0 (Nat.zero_le _)
      (by simp [RefineState.cond, RefineState.start, h0])
      (fun k hk => absurd hk (Nat.not_lt_zero k))
    simpa using this
  · intro s hs
    simp [RefineState.cond, hs]

/-- Witness for C23: `maxIterations = 2`, increments that never vanish; the loop
stops by the cap, within three passes. -/
theorem refinement_loop_bounded_witness :
    ∃ n, n ≤ driver_max_iter 2 + 1
      ∧ multilevel_control_variate_mc_loop 3 2 (fun _ d (r : Unit) => (d, r)) [1] ()
          = some ((RefineState.body (fun _ d (r : Unit) => (d, r)))^[n]
              (RefineState.start [1] ())) := by
  obtain ⟨n, h1, h2, _⟩ :=
    (refinement_loop_bounded 3 2 (fun _ d (r : Unit) => (d, r)) [1] ()
      (by simp [driver_max_iter, SZ_MAX]) (by simp [driver_max_iter])).1
  exact ⟨n, h1, h2⟩

/-! ## Roll-up of the moments and the evaluation count -/

section DriverLemmas

variable {α : Type} [LinearOrderedField α]

/-- A mapped `range'` sums to the finite sum over the interval. -/
theorem sum_map_range' (f : Nat → α) (n : Nat) :
    ∀ a : Nat, ((List.range' a n).map f).sum = Finset.sum (Finset.Ico a (a + n)) f := by
  induction n with
  | zero => intro a; simp
  | succ n ih =>
    intro a
    rw [List.range'_succ, List.map_cons, List.sum_cons, ih (a + 1),
      Finset.sum_eq_sum_Ico_succ_bot (by omega : a < a + (n + 1))]
    have : a + 1 + n = a + (n + 1) := by omega
    rw [this]

/-- A running sum over `range'`, from any start. -/
theorem foldl_add_range' (f : Nat → α) (n : Nat) :
    ∀ (a : Nat) (e : α),
      (List.range' a n).foldl (fun acc i => acc + f i) e
        = e + Finset.sum (Finset.Ico a (a + n)) f := by
  induction n with
  | zero => intro a e; simp
  | succ n ih =>
    intro a e
    rw [List.range'_succ, List.foldl_cons, ih (a + 1),
      Finset.sum_eq_sum_Ico_succ_bot (by omega : a < a + (n + 1))]
    have : a + 1 + n = a + (n + 1) := by omega
    rw [this]
    ring

/-- One level of the roll-up for one QoI: the four columns of row `qoi` each
receive their quotient. -/
theorem rollup_level_eq (sum_H : Int → Nat → Nat → α) (N_hf : Nat → Nat → Nat)
    (Y : Nat → Nat → α) (qoi lev q c : Nat) :
    rollup_level sum_H N_hf qoi Y lev q c
      = if q = qoi ∧ c < 4 then Y q c + sum_H ((c : Int) + 1) q lev / (N_hf lev q : α)
        else Y q c := by
  unfold rollup_level setEntry
  by_cases hq : q = qoi
  · subst hq
    match c with
    | 0 => simp
    | 1 => simp
    | 2 => simp
    | 3 => simp
    | c + 4 => simp
  · simp [hq]

/-- The levels of a list rolled up for one QoI. -/
theorem rollup_levels_eq (sum_H : Int → Nat → Nat → α) (N_hf : Nat → Nat → Nat)
    (qoi : Nat) (L : List Nat) :
    ∀ (Y : Nat → Nat → α) (q c : Nat),
      L.foldl (rollup_level sum_H N_hf qoi) Y q c
        = Y q c + if q = qoi ∧ c < 4 then
            (L.map (fun lev => sum_H ((c : Int) + 1) q lev / (N_hf lev q : α))).sum
          else 0 := by
  induction L with
  | nil => intro Y q c; simp
  | cons lev L ih =>
    intro Y q c
    rw [List.foldl_cons, ih, rollup_level_eq]
    by_cases h : q = qoi ∧ c < 4
    · simp only [h, and_self, if_true, List.map_cons, List.sum_cons]
      ring
    · simp only [h, if_false]

/-- The levels of a list rolled up for the QoI `0 .. n-1`. -/
theorem rollup_qoi_eq (sum_H : Int → Nat → Nat → α) (N_hf : Nat → Nat → Nat)
    (L : List Nat) (n : Nat) :
    ∀ (Y : Nat → Nat → α) (q c : Nat),
      (List.range n).foldl (fun Y qoi => L.foldl (rollup_level sum_H N_hf qoi) Y) Y q c
        = Y q c + if q < n ∧ c < 4 then
            (L.map (fun lev => sum_H ((c : Int) + 1) q lev / (N_hf lev q : α))).sum
          else 0 := by
  induction n with
  | zero => intro Y q c; simp
  | succ n ih =>
    intro Y q c
    rw [List.range_succ, List.foldl_append, List.foldl_cons, List.foldl_nil,
      rollup_levels_eq, ih]
    by_cases hq : q = n
    · subst hq
      simp
    · have h1 : (q < n + 1) = (q < n) := by
        apply propext; constructor <;> intro h' <;> omega
      simp only [hq, false_and, if_false, add_zero, h1]

/-- Closed form of the roll-up. -/
theorem multilevel_control_variate_mc_rollup_eq (numFunctions num_hf_lev num_cv_lev : Nat)
    (sum_H : Int → Nat → Nat → α) (N_hf : Nat → Nat → Nat) (Y : Nat → Nat → α)
    (q c : Nat) :
    multilevel_control_variate_mc_rollup numFunctions num_hf_lev num_cv_lev sum_H N_hf Y q c
      = Y q c + if q < numFunctions ∧ c < 4 then
          Finset.sum (Finset.Ico num_cv_lev num_hf_lev)
            (fun lev => sum_H ((c : Int) + 1) q lev / (N_hf lev q : α))
        else 0 := by
  unfold multilevel_control_variate_mc_rollup
  by_cases h : num_hf_lev > num_cv_lev
  · rw [if_pos h, rollup_qoi_eq, sum_map_range']
    have : num_cv_lev + (num_hf_lev - num_cv_lev) = num_hf_lev := by omega
    rw [this]
  · rw [if_neg h]
    have : Finset.Ico num_cv_lev num_hf_lev = ∅ := Finset.Ico_eq_empty (by omega)
    rw [this]
    simp

/-- Closed form of `equivHFEvals`. -/
theorem equivHFEvals_eq (num_hf_lev num_cv_lev : Nat) (raw_N_hf raw_N_lf : Nat → Nat)
    (hf_cost lf_cost : Nat → α) :
    equivHFEvals num_hf_lev num_cv_lev raw_N_hf raw_N_lf hf_cost lf_cost
      = ((raw_N_hf 0 : α) * hf_cost 0 + (raw_N_lf 0 : α) * lf_cost 0
          + Finset.sum (Finset.Ico 1 num_hf_lev)
              (fun lev => (raw_N_hf lev : α) * (hf_cost lev + hf_cost (lev - 1)))
          + Finset.sum (Finset.Ico 1 num_cv_lev)
              (fun lev => (raw_N_lf lev : α) * (lf_cost lev + lf_cost (lev - 1))))
        / hf_cost (num_hf_lev - 1) := by
  have hI : ∀ n : Nat, Finset.Ico 1 (1 + (n - 1)) = Finset.Ico 1 n := by
    intro n
    rcases Nat.eq_zero_or_pos n with h | h
    · subst h
      simp
    · have : 1 + (n - 1) = n := by omega
      rw [this]
  unfold equivHFEvals
  simp only [foldl_add_range', hI]

end DriverLemmas

/-- C24: in the moment roll-up of both drivers, for every QoI and every order
`k` in `1..4`, the levels beyond the control-variate depth add exactly
`sum over lev in [num_cv_lev, num_hf_lev) of sum_H[k](qoi, lev) / N_hf[lev][qoi]`
to `Y_mlmc_mom(qoi, k-1)`, each level's sum divided by that level's own count
of the QoI; no other entry changes, and with `num_hf_lev = num_cv_lev` nothing
is added. -/
theorem rollup_beyond_cv_depth (numFunctions num_hf_lev num_cv_lev : Nat)
    (sum_H : Int → Nat → Nat → ℝ) (N_hf : Nat → Nat → Nat) (Y_mlmc_mom : Nat → Nat → ℝ) :
    (∀ qoi k, qoi < numFunctions → 1 ≤ k → k ≤ 4 →
      multilevel_control_variate_mc_rollup numFunctions num_hf_lev num_cv_lev sum_H N_hf
          Y_mlmc_mom qoi (k - 1)
        = Y_mlmc_mom qoi (k - 1)
          + Finset.sum (Finset.Ico num_cv_lev num_hf_lev)
              (fun lev => sum_H (k : Int) qoi lev / (N_hf lev qoi : ℝ)))
    ∧ (∀ qoi c, (numFunctions ≤ qoi ∨ 4 ≤ c) →
      multilevel_control_variate_mc_rollup numFunctions num_hf_lev num_cv_lev sum_H N_hf
          Y_mlmc_mom qoi c = Y_mlmc_mom qoi c)
    ∧ (num_hf_lev = num_cv_lev →
      multilevel_control_variate_mc_rollup numFunctions num_hf_lev num_cv_lev sum_H N_hf
          Y_mlmc_mom = Y_mlmc_mom) := by
  refine ⟨?_, ?_, ?_⟩
  · intro qoi k hq hk1 hk4
    rw [multilevel_control_variate_mc_rollup_eq]
    have hc : k - 1 < 4 := by omega
    have hk : ((k - 1 : Nat) : Int) + 1 = (k : Int) := by omega
    simp only [hq, hc, and_self, if_true, hk]
  · intro qoi c h
    rw [multilevel_control_variate_mc_rollup_eq]
    have : ¬ (qoi < numFunctions ∧ c < 4) := by omega
    simp [this]
  · intro h
    unfold multilevel_control_variate_mc_rollup
    rw [if_neg (by omega)]

/-- Witness for C24: one QoI, three levels of which one is a control-variate
level; `sum_H[2](0, lev) = 6` and `N_hf[lev][0] = lev + 1`, so the second raw
moment receives `6/2 + 6/3 = 5`. -/
theorem rollup_beyond_cv_depth_witness :
    multilevel_control_variate_mc_rollup 1 3 1 (fun _ _ _ => (6 : ℝ)) (fun lev _ => lev + 1)
        (fun _ _ => 0) 0 1 = 5 := by
  have h := (rollup_beyond_cv_depth 1 3 1 (fun _ _ _ => (6 : ℝ)) (fun lev _ => lev + 1)
    (fun _ _ => 0)).1 0 2 (by decide) (by decide) (by decide)
  rw [show (2 - 1 : Nat) = 1 from rfl] at h
  rw [h]
  have hI : Finset.Ico 1 3 = {1, 2} := by decide
  rw [hI]
  norm_num

/-- C25: `equivHFEvals` is the cost of all raw evaluations divided by the cost
of the truth model at its top level,
`(raw_N_hf[0]*hf_cost[0] + raw_N_lf[0]*lf_cost[0]
  + sum_{lev=1}^{num_hf_lev-1} raw_N_hf[lev]*(hf_cost[lev]+hf_cost[lev-1])
  + sum_{lev=1}^{num_cv_lev-1} raw_N_lf[lev]*(lf_cost[lev]+lf_cost[lev-1]))
 / hf_cost[num_hf_lev-1]`;
with a single level, no low-fidelity evaluation and a non-zero truth cost it is
the number of truth evaluations. -/
theorem equivHFEvals_formula (num_hf_lev num_cv_lev : Nat) (raw_N_hf raw_N_lf : Nat → Nat)
    (hf_cost lf_cost : Nat → ℝ) :
    equivHFEvals num_hf_lev num_cv_lev raw_N_hf raw_N_lf hf_cost lf_cost
      = ((raw_N_hf 0 : ℝ) * hf_cost 0 + (raw_N_lf 0 : ℝ) * lf_cost 0
          + Finset.sum (Finset.Ico 1 num_hf_lev)
              (fun lev => (raw_N_hf lev : ℝ) * (hf_cost lev + hf_cost (lev - 1)))
          + Finset.sum (Finset.Ico 1 num_cv_lev)
              (fun lev => (raw_N_lf lev : ℝ) * (lf_cost lev + lf_cost (lev - 1))))
        / hf_cost (num_hf_lev - 1)
    ∧ (num_hf_lev = 1 → num_cv_lev ≤ 1 → raw_N_lf 0 = 0 → hf_cost 0 ≠ 0 →
      equivHFEvals num_hf_lev num_cv_lev raw_N_hf raw_N_lf hf_cost lf_cost
        = (raw_N_hf 0 : ℝ)) := by
  refine ⟨equivHFEvals_eq _ _ _ _ _ _, ?_⟩
  intro h1 hcv h0 hc
  rw [equivHFEvals_eq]
  subst h1
  have hcvI : Finset.Ico 1 num_cv_lev = ∅ := Finset.Ico_eq_empty (by omega)
  rw [hcvI, h0]
  simp only [Finset.Ico_self, Finset.sum_empty, Nat.cast_zero, zero_mul, add_zero,
    Nat.sub_self]
  field_simp

/-- Witness for C25: one level of cost `4` with `10` truth evaluations and no
low-fidelity evaluation. -/
theorem equivHFEvals_formula_witness :
    equivHFEvals 1 1 (fun _ => 10) (fun _ => 0) (fun _ => (4 : ℝ)) (fun _ => 1)
      = ((10 : Nat) : ℝ) :=
  (equivHFEvals_formula 1 1 (fun _ => 10) (fun _ => 0) (fun _ => (4 : ℝ)) (fun _ => 1)).2
    rfl (le_refl 1) rfl (by norm_num)

/-! ## The reverse sweep -/

/-- Over the reals `std::max` is the maximum. -/
theorem stdMax_eq_max (a b : ℝ) : stdMax a b = max a b := by
  unfold stdMax
  split_ifs with h
  · exact (max_eq_right (le_of_lt h)).symm
  · exact (max_eq_left (not_lt.mp h)).symm

/-- Every unconstrained ratio from position `i` on is below the clamped ratio
at `i`. -/
theorem unconstrained_le_clampFrom_of_le (u : Nat → ℝ) (prev : ℝ) (k i j : Nat)
    (hij : i ≤ j) (hj : j < k) : u j ≤ clampFrom u prev k i := by
  have h := clampFrom_antitone u prev k (j - i) i (by omega)
  have e : i + (j - i) = j := by omega
  rw [e] at h
  exact le_trans (unconstrained_le_clampFrom u prev k j hj) h

/-- The clamped ratio is the starting value or one of the unconstrained ratios
from position `i` on. -/
theorem clampFrom_attained (u : Nat → ℝ) (prev : ℝ) (k : Nat) :
    ∀ (d i : Nat), i + d = k →
      clampFrom u prev k i = prev ∨ ∃ j, i ≤ j ∧ j < k ∧ clampFrom u prev k i = u j := by
  intro d
  induction d with
  | zero =>
    intro i hi
    exact Or.inl (clampFrom_ge u prev k i (by omega))
  | succ d ih =>
    intro i hi
    rw [clampFrom_lt u prev k i (by omega)]
    unfold stdMax
    split_ifs with h
    · rcases ih (i + 1) (by omega) with h1 | ⟨j, hj1, hj2, hj3⟩
      · exact Or.inl h1
      · exact Or.inr ⟨j, by omega, hj2, hj3⟩
    · exact Or.inr ⟨i, le_refl i, by omega, rfl⟩

/-- C27: the reverse sweep of `mfmc_reordered_analytic_solution` computes, for
the positions `i = numApprox-1` down to `0` with `r_{numApprox} := 1`,
`r_i = max(r_unconstrained[i], r_{i+1})`, that is the largest of `1` and the
`r_unconstrained[j]` with `j >= i`; it writes this value to every QoI row of
the approximation at position `i`, and `r_i >= r_unconstrained[i]`.
(`model_sequence` is a permutation of the approximations when it is used.) -/
theorem reverse_sweep_running_max (numFunctions numApprox : Nat)
    (rho2_LH : Nat → Nat → ℝ) (cost : Nat → ℝ) (ordered : Bool) (model_sequence : List Nat)
    (eval_ratios : Nat → Nat → ℝ) (r_unconstrained : Nat → ℝ)
    (hr : r_unconstrained
      = (r_unconstrained_loop Real.sqrt numApprox (average numFunctions rho2_LH) cost
          (cost numApprox / (1 - average numFunctions rho2_LH
            (if ordered then numApprox - 1 else model_sequence.getD (numApprox - 1) 0)))
          ordered model_sequence).1)
    (hperm : ordered = false → List.Perm model_sequence (List.range numApprox)) :
    clampFrom r_unconstrained 1 numApprox numApprox = 1
    ∧ ∀ i, i < numApprox →
      clampFrom r_unconstrained 1 numApprox i
          = max (r_unconstrained i) (clampFrom r_unconstrained 1 numApprox (i + 1))
      ∧ (∀ qoi, qoi < numFunctions →
          mfmc_reordered_analytic_solution Real.sqrt numFunctions numApprox rho2_LH cost
              ordered model_sequence eval_ratios qoi (seqApprox ordered model_sequence i)
            = clampFrom r_unconstrained 1 numApprox i)
      ∧ 1 ≤ clampFrom r_unconstrained 1 numApprox i
      ∧ (∀ j, i ≤ j → j < numApprox →
          r_unconstrained j ≤ clampFrom r_unconstrained 1 numApprox i)
      ∧ (clampFrom r_unconstrained 1 numApprox i = 1
          ∨ ∃ j, i ≤ j ∧ j < numApprox
              ∧ clampFrom r_unconstrained 1 numApprox i = r_unconstrained j)
      ∧ r_unconstrained i ≤ clampFrom r_unconstrained 1 numApprox i := by
  refine ⟨clampFrom_ge _ _ _ _ (le_refl _), ?_⟩
  intro i hi
  refine ⟨?_, ?_, ?_, ?_, ?_, ?_⟩
  · rw [clampFrom_lt _ _ _ _ hi, stdMax_eq_max]
  · intro qoi hq
    have h := reverse_sweep_at numFunctions numApprox r_unconstrained ordered model_sequence
      eval_ratios hperm i qoi hi hq
    rw [← h, hr]
    rfl
  · exact prev_le_clampFrom r_unconstrained 1 numApprox (numApprox - i) i (by omega)
  · intro j hij hj
    exact unconstrained_le_clampFrom_of_le r_unconstrained 1 numApprox i j hij hj
  · exact clampFrom_attained r_unconstrained 1 numApprox (numApprox - i) i (by omega)
  · exact unconstrained_le_clampFrom r_unconstrained 1 numApprox i hi

/-- Witness for C27: one QoI, two approximations in their given order, averaged
correlations `1/4` and `3/4`, costs `1, 1, 16`. -/
theorem reverse_sweep_running_max_witness :
    mfmc_reordered_analytic_solution Real.sqrt 1 2 (fun _ a => if a = 0 then 1 / 4 else 3 / 4)
        (fun a => if a = 2 then 16 else 1) true [] (fun _ _ => 0) 0 (seqApprox true [] 0)
      = clampFrom
          (r_unconstrained_loop Real.sqrt 2
            (average 1 (fun _ a => if a = 0 then (1 / 4 : ℝ) else 3 / 4))
            (fun a => if a = 2 then (16 : ℝ) else 1)
            ((fun a => if a = 2 then (16 : ℝ) else 1) 2
              / (1 - average 1 (fun _ a => if a = 0 then (1 / 4 : ℝ) else 3 / 4)
                (if true then 2 - 1 else ([] : List Nat).getD (2 - 1) 0)))
            true []).1 1 2 0 :=
  ((reverse_sweep_running_max 1 2 (fun _ a => if a = 0 then 1 / 4 else 3 / 4)
    (fun a => if a = 2 then 16 else 1) true [] (fun _ _ => 0) _ rfl
    (by intro h; cases h)).2 0 (by decide)).2.1 0 (by decide)

/-! ## Increments of the discrepancy and of the sixteen-sum accumulators -/

/-- C28: for `lev > 0` the six-map `accumulate_mlcv_Ysums` adds, for an included
sample with (offset-shifted) low values `l`, `lm1` and high values `h`, `hm1` at
levels `lev`, `lev-1`, under every order `k` present in the respective map,
`l^k - lm1^k` to `sum_L_shared[k]` and `sum_L_refined[k]`, `h^k - hm1^k` to
`sum_H[k]`, `(l^k - lm1^k)^2` to `sum_LL[k]`, `(l^k - lm1^k)*(h^k - hm1^k)` to
`sum_LH[k]` and `(h^k - hm1^k)^2` to `sum_HH[k]` at `(qoi, lev)`, and counts the
sample; above level 0 the batch function applies this step to every pair of
responses and every QoI, and at level 0 it is the raw-value accumulator. -/
theorem accumulate_mlcv_Ysums_discrepancy_increments (K fuel numFunctions lev : Nat)
    (lf_offset hf_offset lf_fn_vals hf_fn_vals : RealVector)
    (lf_resp_map hf_resp_map : List RealVector)
    (st : PairedSums) (qoi : Nat) (l lm1 h hm1 : ℚ)
    (hwf : st.WF K) (hfuel : K ≤ fuel)
    (hl : shifted lf_fn_vals lf_offset qoi = Dbl.fin l)
    (hlm1 : shifted lf_fn_vals lf_offset (qoi + numFunctions) = Dbl.fin lm1)
    (hh : shifted hf_fn_vals hf_offset qoi = Dbl.fin h)
    (hhm1 : shifted hf_fn_vals hf_offset (qoi + numFunctions) = Dbl.fin hm1) :
    (∃ st', accumulate_mlcv_Ysums6_qoi fuel numFunctions lev lf_offset hf_offset lf_fn_vals
        hf_fn_vals st qoi = some st' ∧
      st'.sum_L_shared
        = grow (fun k => Dbl.fin (l ^ k.toNat - lm1 ^ k.toNat)) qoi lev st.sum_L_shared ∧
      st'.sum_L_refined
        = grow (fun k => Dbl.fin (l ^ k.toNat - lm1 ^ k.toNat)) qoi lev st.sum_L_refined ∧
      st'.sum_H = grow (fun k => Dbl.fin (h ^ k.toNat - hm1 ^ k.toNat)) qoi lev st.sum_H ∧
      st'.sum_LL
        = grow (fun k => Dbl.fin ((l ^ k.toNat - lm1 ^ k.toNat) ^ 2)) qoi lev st.sum_LL ∧
      st'.sum_LH
        = grow (fun k => Dbl.fin ((l ^ k.toNat - lm1 ^ k.toNat)
            * (h ^ k.toNat - hm1 ^ k.toNat))) qoi lev st.sum_LH ∧
      st'.sum_HH
        = grow (fun k => Dbl.fin ((h ^ k.toNat - hm1 ^ k.toNat) ^ 2)) qoi lev st.sum_HH ∧
      st'.num_L = st.num_L.incr qoi ∧ st'.num_H = st.num_H.incr qoi)
    ∧ (lev ≠ 0 →
      accumulate_mlcv_Ysums6 fuel numFunctions lf_resp_map hf_resp_map st lev
          lf_offset hf_offset
        = (List.zip lf_resp_map hf_resp_map).foldlM
            (fun st r =>
              (List.range numFunctions).foldlM
                (accumulate_mlcv_Ysums6_qoi fuel numFunctions lev lf_offset hf_offset r.1 r.2)
                st)
            st)
    ∧ accumulate_mlcv_Ysums6 fuel numFunctions lf_resp_map hf_resp_map st 0
          lf_offset hf_offset
        = accumulate_mlcv_Qsums6 fuel numFunctions lf_resp_map hf_resp_map st 0
            lf_offset hf_offset := by
  refine ⟨⟨st.addY qoi lev l lm1 h hm1,
      accumulate_mlcv_Ysums6_qoi_included K fuel numFunctions lev lf_offset hf_offset lf_fn_vals
        hf_fn_vals st qoi l lm1 h hm1 hwf hfuel hl hlm1 hh hhm1,
      rfl, rfl, rfl, ?_, rfl, ?_, rfl, rfl⟩, ?_, ?_⟩
  · simp only [pow_two]; rfl
  · simp only [pow_two]; rfl
  · intro hlev
    unfold accumulate_mlcv_Ysums6
    rw [if_neg hlev]
  · unfold accumulate_mlcv_Ysums6
    rw [if_pos rfl]

/-- Witness for C28: low values `3`, `1` and high values `5`, `2` at levels `1`,
`0` of a single QoI, into fresh sums. -/
theorem accumulate_mlcv_Ysums_discrepancy_increments_witness :
    ∃ st', accumulate_mlcv_Ysums6_qoi 4 1 1 [] [] [Dbl.fin 3, Dbl.fin 1]
        [Dbl.fin 5, Dbl.fin 2] (freshPairedSums 1 2 2) 0 = some st' ∧
      st'.sum_LH
        = grow (fun k => Dbl.fin (((3 : ℚ) ^ k.toNat - 1 ^ k.toNat)
            * (5 ^ k.toNat - 2 ^ k.toNat))) 0 1 (freshPairedSums 1 2 2).sum_LH := by
  obtain ⟨st', h1, _, _, _, _, h5, _⟩ :=
    (accumulate_mlcv_Ysums_discrepancy_increments 4 4 1 1 [] [] [Dbl.fin 3, Dbl.fin 1]
      [Dbl.fin 5, Dbl.fin 2] [] [] (freshPairedSums 1 2 2) 0 3 1 5 2
      (freshPairedSums_WF 1 2 2) le_rfl rfl rfl rfl rfl).1
  exact ⟨st', h1, h5⟩

/-- C29: for `lev > 0` the sixteen-sum `accumulate_mlcv_Qsums` adds, for an
included sample with (offset-shifted) low values `l`, `lm1` and high values `h`,
`hm1` at levels `lev`, `lev-1`, under every order `k` present in the respective
map, the `k`-th power to each single sum and the product of the two `k`-th
powers to each cross sum at `(qoi, lev)`; the refined low sums receive the
increments of `sum_Ll` and `sum_Llm1`, and both counts go up by one. -/
theorem accumulate_mlcv_Qsums16_increments (K fuel numFunctions lev : Nat)
    (lf_offset hf_offset lf_fn_vals hf_fn_vals : RealVector)
    (st : LevelSums) (qoi : Nat) (l lm1 h hm1 : ℚ)
    (hwf : st.WF K) (hfuel : K ≤ fuel)
    (hl : shifted lf_fn_vals lf_offset qoi = Dbl.fin l)
    (hlm1 : shifted lf_fn_vals lf_offset (qoi + numFunctions) = Dbl.fin lm1)
    (hh : shifted hf_fn_vals hf_offset qoi = Dbl.fin h)
    (hhm1 : shifted hf_fn_vals hf_offset (qoi + numFunctions) = Dbl.fin hm1) :
    ∃ st', accumulate_mlcv_Qsums16_qoi fuel numFunctions lev lf_offset hf_offset lf_fn_vals
        hf_fn_vals st qoi = some st' ∧
      st'.sum_Ll = grow (fun k => Dbl.fin (l ^ k.toNat)) qoi lev st.sum_Ll ∧
      st'.sum_Llm1 = grow (fun k => Dbl.fin (lm1 ^ k.toNat)) qoi lev st.sum_Llm1 ∧
      st'.sum_Ll_refined = grow (fun k => Dbl.fin (l ^ k.toNat)) qoi lev st.sum_Ll_refined ∧
      st'.sum_Llm1_refined
        = grow (fun k => Dbl.fin (lm1 ^ k.toNat)) qoi lev st.sum_Llm1_refined ∧
      st'.sum_Hl = grow (fun k => Dbl.fin (h ^ k.toNat)) qoi lev st.sum_Hl ∧
      st'.sum_Hlm1 = grow (fun k => Dbl.fin (hm1 ^ k.toNat)) qoi lev st.sum_Hlm1 ∧
      st'.sum_Ll_Ll
        = grow (fun k => Dbl.fin (l ^ k.toNat * l ^ k.toNat)) qoi lev st.sum_Ll_Ll ∧
      st'.sum_Ll_Llm1
        = grow (fun k => Dbl.fin (l ^ k.toNat * lm1 ^ k.toNat)) qoi lev st.sum_Ll_Llm1 ∧
      st'.sum_Llm1_Llm1
        = grow (fun k => Dbl.fin (lm1 ^ k.toNat * lm1 ^ k.toNat)) qoi lev st.sum_Llm1_Llm1 ∧
      st'.sum_Hl_Ll
        = grow (fun k => Dbl.fin (h ^ k.toNat * l ^ k.toNat)) qoi lev st.sum_Hl_Ll ∧
      st'.sum_Hl_Llm1
        = grow (fun k => Dbl.fin (h ^ k.toNat * lm1 ^ k.toNat)) qoi lev st.sum_Hl_Llm1 ∧
      st'.sum_Hlm1_Ll
        = grow (fun k => Dbl.fin (hm1 ^ k.toNat * l ^ k.toNat)) qoi lev st.sum_Hlm1_Ll ∧
      st'.sum_Hlm1_Llm1
        = grow (fun k => Dbl.fin (hm1 ^ k.toNat * lm1 ^ k.toNat)) qoi lev st.sum_Hlm1_Llm1 ∧
      st'.sum_Hl_Hl
        = grow (fun k => Dbl.fin (h ^ k.toNat * h ^ k.toNat)) qoi lev st.sum_Hl_Hl ∧
      st'.sum_Hl_Hlm1
        = grow (fun k => Dbl.fin (h ^ k.toNat * hm1 ^ k.toNat)) qoi lev st.sum_Hl_Hlm1 ∧
      st'.sum_Hlm1_Hlm1
        = grow (fun k => Dbl.fin (hm1 ^ k.toNat * hm1 ^ k.toNat)) qoi lev st.sum_Hlm1_Hlm1 ∧
      st'.num_L = st.num_L.incr qoi ∧ st'.num_H = st.num_H.incr qoi :=
  ⟨st.addQ qoi lev l lm1 h hm1,
    accumulate_mlcv_Qsums16_qoi_included K fuel numFunctions lev lf_offset hf_offset lf_fn_vals
      hf_fn_vals st qoi l lm1 h hm1 hwf hfuel hl hlm1 hh hhm1,
    rfl, rfl, rfl, rfl, rfl, rfl, rfl, rfl, rfl, rfl, rfl, rfl, rfl, rfl, rfl, rfl, rfl, rfl⟩

/-- Witness for C29: low values `3`, `1` and high values `5`, `2` at levels `1`,
`0` of a single QoI, into fresh sums. -/
theorem accumulate_mlcv_Qsums16_increments_witness :
    ∃ st', accumulate_mlcv_Qsums16_qoi 4 1 1 [] [] [Dbl.fin 3, Dbl.fin 1]
        [Dbl.fin 5, Dbl.fin 2] (freshLevelSums 1 2 2) 0 = some st' ∧
      st'.sum_Hlm1_Ll
        = grow (fun k => Dbl.fin ((2 : ℚ) ^ k.toNat * 3 ^ k.toNat)) 0 1
            (freshLevelSums 1 2 2).sum_Hlm1_Ll := by
  obtain ⟨st', h1, _, _, _, _, _, _, _, _, _, _, _, h12, _⟩ :=
    accumulate_mlcv_Qsums16_increments 4 4 1 1 [] [] [Dbl.fin 3, Dbl.fin 1]
      [Dbl.fin 5, Dbl.fin 2] (freshLevelSums 1 2 2) 0 3 1 5 2
      (freshLevelSums_WF 1 2 2) le_rfl rfl rfl rfl rfl
  exact ⟨st', h1, h12⟩

/-! ## Initialization of the six sum maps -/

/-- Inserting and shaping the orders `1, 2, 3, 4` in turn, into an empty map or
into one that holds exactly these orders, leaves zero matrices under them. -/
theorem insertShape_orders (numRows numCols : Nat) (m : IntRealMatrixMap)
    (h : m = [] ∨ m.map Prod.fst = [1, 2, 3, 4]) :
    insertShape 4 numRows numCols (insertShape 3 numRows numCols
      (insertShape 2 numRows numCols (insertShape 1 numRows numCols m)))
      = zeroOrders numRows numCols := by
  rcases h with rfl | h
  · simp [insertShape, zeroOrders]
  · rcases m with _ | ⟨⟨k1, a⟩, _ | ⟨⟨k2, b⟩, _ | ⟨⟨k3, c⟩, _ | ⟨⟨k4, d⟩, _ | ⟨e, m⟩⟩⟩⟩⟩ <;>
      simp at h
    obtain ⟨rfl, rfl, rfl, rfl⟩ := h
    simp [insertShape, zeroOrders]

/-- Inserting and shaping the order `1`, into an empty map or into one that
holds exactly this order, leaves a zero matrix under it. -/
theorem insertShape_first (numRows numCols : Nat) (m : IntRealMatrixMap)
    (h : m = [] ∨ m.map Prod.fst = [1]) :
    insertShape 1 numRows numCols m = [(1, zeroMatrix numRows numCols)] := by
  rcases h with rfl | h
  · simp [insertShape]
  · rcases m with _ | ⟨⟨k1, a⟩, _ | ⟨e, m⟩⟩ <;> simp at h
    obtain rfl := h
    simp [insertShape]

/-- Every entry read from a map of zero matrices is zero. -/
theorem entryAt_zero (numRows numCols : Nat) (m : IntRealMatrixMap)
    (h : ∀ e ∈ m, e.2 = zeroMatrix numRows numCols) (k : Int) (i j : Nat) :
    entryAt m k i j = Dbl.fin 0 := by
  induction m with
  | nil => rfl
  | cons e m ih =>
    have ih' := ih (fun e' he' => h e' (List.mem_cons_of_mem _ he'))
    have he := h e (List.mem_cons_self _ _)
    unfold entryAt at ih' ⊢
    rcases e with ⟨k', M⟩
    simp only [List.lookup]
    cases hk : (k == k')
    · exact ih'
    · simp only at he
      rw [he]
      rfl

/-- C30: after the six-map `initialize_mlcv_sums`, called on empty maps or on
maps already populated by an earlier call (orders `1..4`, order `1` for
`sum_HH`, arbitrary entries), `sum_L_shared`, `sum_L_refined`, `sum_LL`,
`sum_LH` and `sum_H` hold exactly the orders 1, 2, 3, 4 and `sum_HH` exactly
order 1; every matrix is the zero matrix, `numFunctions x num_cv_lev` for the
low and cross sums and `numFunctions x num_ml_lev` for `sum_H` and `sum_HH`. -/
theorem initialize_mlcv_sums_zero (numFunctions num_ml_lev num_cv_lev : Nat) (st : PairedSums)
    (hLs : st.sum_L_shared = [] ∨ st.sum_L_shared.map Prod.fst = [1, 2, 3, 4])
    (hLr : st.sum_L_refined = [] ∨ st.sum_L_refined.map Prod.fst = [1, 2, 3, 4])
    (hH : st.sum_H = [] ∨ st.sum_H.map Prod.fst = [1, 2, 3, 4])
    (hLL : st.sum_LL = [] ∨ st.sum_LL.map Prod.fst = [1, 2, 3, 4])
    (hLH : st.sum_LH = [] ∨ st.sum_LH.map Prod.fst = [1, 2, 3, 4])
    (hHH : st.sum_HH = [] ∨ st.sum_HH.map Prod.fst = [1]) :
    ((initialize_mlcv_sums numFunctions st num_ml_lev num_cv_lev).sum_L_shared.map Prod.fst
        = [1, 2, 3, 4]
      ∧ (initialize_mlcv_sums numFunctions st num_ml_lev num_cv_lev).sum_L_refined.map Prod.fst
        = [1, 2, 3, 4]
      ∧ (initialize_mlcv_sums numFunctions st num_ml_lev num_cv_lev).sum_LL.map Prod.fst
        = [1, 2, 3, 4]
      ∧ (initialize_mlcv_sums numFunctions st num_ml_lev num_cv_lev).sum_LH.map Prod.fst
        = [1, 2, 3, 4]
      ∧ (initialize_mlcv_sums numFunctions st num_ml_lev num_cv_lev).sum_H.map Prod.fst
        = [1, 2, 3, 4]
      ∧ (initialize_mlcv_sums numFunctions st num_ml_lev num_cv_lev).sum_HH.map Prod.fst
        = [1])
    ∧ ((∀ e ∈ (initialize_mlcv_sums numFunctions st num_ml_lev num_cv_lev).sum_L_shared,
          e.2 = zeroMatrix numFunctions num_cv_lev)
      ∧ (∀ e ∈ (initialize_mlcv_sums numFunctions st num_ml_lev num_cv_lev).sum_L_refined,
          e.2 = zeroMatrix numFunctions num_cv_lev)
      ∧ (∀ e ∈ (initialize_mlcv_sums numFunctions st num_ml_lev num_cv_lev).sum_LL,
          e.2 = zeroMatrix numFunctions num_cv_lev)
      ∧ (∀ e ∈ (initialize_mlcv_sums numFunctions st num_ml_lev num_cv_lev).sum_LH,
          e.2 = zeroMatrix numFunctions num_cv_lev)
      ∧ (∀ e ∈ (initialize_mlcv_sums numFunctions st num_ml_lev num_cv_lev).sum_H,
          e.2 = zeroMatrix numFunctions num_ml_lev)
      ∧ (∀ e ∈ (initialize_mlcv_sums numFunctions st num_ml_lev num_cv_lev).sum_HH,
          e.2 = zeroMatrix numFunctions num_ml_lev))
    ∧ (∀ numRows numCols : Nat,
        (zeroMatrix numRows numCols).numRows = numRows
        ∧ (zeroMatrix numRows numCols).numCols = numCols
        ∧ ∀ i j, (zeroMatrix numRows numCols).entry i j = Dbl.fin 0)
    ∧ (∀ k i j,
        entryAt (initialize_mlcv_sums numFunctions st num_ml_lev num_cv_lev).sum_L_shared k i j
          = Dbl.fin 0
        ∧ entryAt (initialize_mlcv_sums numFunctions st num_ml_lev num_cv_lev).sum_L_refined k i j
          = Dbl.fin 0
        ∧ entryAt (initialize_mlcv_sums numFunctions st num_ml_lev num_cv_lev).sum_LL k i j
          = Dbl.fin 0
        ∧ entryAt (initialize_mlcv_sums numFunctions st num_ml_lev num_cv_lev).sum_LH k i j
          = Dbl.fin 0
        ∧ entryAt (initialize_mlcv_sums numFunctions st num_ml_lev num_cv_lev).sum_H k i j
          = Dbl.fin 0
        ∧ entryAt (initialize_mlcv_sums numFunctions st num_ml_lev num_cv_lev).sum_HH k i j
          = Dbl.fin 0)
    ∧ (initialize_mlcv_sums numFunctions st num_ml_lev num_cv_lev).num_L = st.num_L
    ∧ (initialize_mlcv_sums numFunctions st num_ml_lev num_cv_lev).num_H = st.num_H := by
  have e1 : (initialize_mlcv_sums numFunctions st num_ml_lev num_cv_lev).sum_L_shared
      = zeroOrders numFunctions num_cv_lev := insertShape_orders _ _ _ hLs
  have e2 : (initialize_mlcv_sums numFunctions st num_ml_lev num_cv_lev).sum_L_refined
      = zeroOrders numFunctions num_cv_lev := insertShape_orders _ _ _ hLr
  have e3 : (initialize_mlcv_sums numFunctions st num_ml_lev num_cv_lev).sum_LL
      = zeroOrders numFunctions num_cv_lev := insertShape_orders _ _ _ hLL
  have e4 : (initialize_mlcv_sums numFunctions st num_ml_lev num_cv_lev).sum_LH
      = zeroOrders numFunctions num_cv_lev := insertShape_orders _ _ _ hLH
  have e5 : (initialize_mlcv_sums numFunctions st num_ml_lev num_cv_lev).sum_H
      = zeroOrders numFunctions num_ml_lev := insertShape_orders _ _ _ hH
  have e6 : (initialize_mlcv_sums numFunctions st num_ml_lev num_cv_lev).sum_HH
      = [(1, zeroMatrix numFunctions num_ml_lev)] := insertShape_first _ _ _ hHH
  have hz : ∀ (r c : Nat) (k : Int) (i j : Nat), entryAt (zeroOrders r c) k i j = Dbl.fin 0 := by
    intro r c k i j
    apply entryAt_zero r c
    intro e he; simp [zeroOrders] at he; rcases he with rfl | rfl | rfl | rfl <;> rfl
  have hz1 : ∀ (r c : Nat) (k : Int) (i j : Nat),
      entryAt [(1, zeroMatrix r c)] k i j = Dbl.fin 0 := by
    intro r c k i j
    apply entryAt_zero r c
    intro e he; simp at he; subst he; rfl
  rw [e1, e2, e3, e4, e5, e6]
  refine ⟨⟨rfl, rfl, rfl, rfl, rfl, rfl⟩, ⟨?_, ?_, ?_, ?_, ?_, ?_⟩, ?_, ?_, rfl, rfl⟩
  · intro e he; simp [zeroOrders] at he; rcases he with rfl | rfl | rfl | rfl <;> rfl
  · intro e he; simp [zeroOrders] at he; rcases he with rfl | rfl | rfl | rfl <;> rfl
  · intro e he; simp [zeroOrders] at he; rcases he with rfl | rfl | rfl | rfl <;> rfl
  · intro e he; simp [zeroOrders] at he; rcases he with rfl | rfl | rfl | rfl <;> rfl
  · intro e he; simp [zeroOrders] at he; rcases he with rfl | rfl | rfl | rfl <;> rfl
  · intro e he; simp at he; subst he; rfl
  · intro r c; exact ⟨rfl, rfl, fun _ _ => rfl⟩
  · intro k i j
    exact ⟨hz _ _ k i j, hz _ _ k i j, hz _ _ k i j, hz _ _ k i j, hz _ _ k i j, hz1 _ _ k i j⟩

/-- Witness for C30: the sums of one QoI on two levels after one accumulated
sample (non-zero entries at level 1) are reset by a second call. -/
theorem initialize_mlcv_sums_zero_witness :
    (∀ e ∈ (initialize_mlcv_sums 1 ((freshPairedSums 1 2 2).addY 0 1 3 1 5 2) 2 2).sum_LH,
        e.2 = zeroMatrix 1 2)
    ∧ entryAt ((freshPairedSums 1 2 2).addY 0 1 3 1 5 2).sum_LH 1 0 1 = Dbl.fin 6
    ∧ entryAt (initialize_mlcv_sums 1 ((freshPairedSums 1 2 2).addY 0 1 3 1 5 2) 2 2).sum_LH
        1 0 1 = Dbl.fin 0 :=
  ⟨(initialize_mlcv_sums_zero 1 2 2 ((freshPairedSums 1 2 2).addY 0 1 3 1 5 2)
      (Or.inr rfl) (Or.inr rfl) (Or.inr rfl) (Or.inr rfl) (Or.inr rfl) (Or.inr rfl)).2.1.2.2.2.1,
    by
      rw [show ((freshPairedSums 1 2 2).addY 0 1 3 1 5 2).sum_LH
        = grow (diffProdInc 3 1 5 2) 0 1 (zeroOrders 1 2) from rfl,
        entryAt_grow (diffProdInc 3 1 5 2) 0 1 (zeroOrders 1 2) 1 0 1 rfl]
      simp only [and_self, if_true]
      show (Dbl.fin 0 : Dbl) + Dbl.fin (((3 : ℚ) ^ 1 - 1 ^ 1) * (5 ^ 1 - 2 ^ 1)) = Dbl.fin 6
      rw [Dbl.fin_add_fin]
      norm_num,
    rfl⟩

/-! ## Variable bounds, recovery of the results and the two parameterizations -/

/-- C31: the variable bounds set up by `nonhierarch_numerical_solution`.  In
the `R_ONLY_LINEAR_CONSTRAINT` and `R_AND_N_NONLINEAR_CONSTRAINT` forms every
ratio variable has lower bound `1`; in the `R_AND_N_NONLINEAR_CONSTRAINT` form
the truth-count variable has lower bound `avg_N_H`, or `1` when the mode is
`OFFLINE_PILOT`; every upper bound is `DBL_MAX` in all three forms.  So a point
within the bounds has ratios `>= 1` and, outside `OFFLINE_PILOT`, a truth count
`>= avg_N_H`. -/
theorem variable_bounds_floor (DBL_MAX RATIO_NUDGE : ℝ) (OFFLINE_PILOT solutionMode : Int)
    (mlmfIter maxFunctionEvals numApprox : Nat) (pilotSamples : Nat → Nat)
    (avg_N_H : ℝ) (cost avg_eval_ratios : Nat → ℝ) (avg_hf_target : ℝ) :
    (∀ i, i < numApprox →
      (formulate_subproblem DBL_MAX RATIO_NUDGE OFFLINE_PILOT .R_ONLY_LINEAR_CONSTRAINT
        solutionMode mlmfIter maxFunctionEvals numApprox pilotSamples avg_N_H cost
        avg_eval_ratios avg_hf_target).x_lb i = 1)
    ∧ (∀ i, i < numApprox →
      (formulate_subproblem DBL_MAX RATIO_NUDGE OFFLINE_PILOT .R_AND_N_NONLINEAR_CONSTRAINT
        solutionMode mlmfIter maxFunctionEvals numApprox pilotSamples avg_N_H cost
        avg_eval_ratios avg_hf_target).x_lb i = 1)
    ∧ (solutionMode ≠ OFFLINE_PILOT →
      (formulate_subproblem DBL_MAX RATIO_NUDGE OFFLINE_PILOT .R_AND_N_NONLINEAR_CONSTRAINT
        solutionMode mlmfIter maxFunctionEvals numApprox pilotSamples avg_N_H cost
        avg_eval_ratios avg_hf_target).x_lb numApprox = avg_N_H)
    ∧ (solutionMode = OFFLINE_PILOT →
      (formulate_subproblem DBL_MAX RATIO_NUDGE OFFLINE_PILOT .R_AND_N_NONLINEAR_CONSTRAINT
        solutionMode mlmfIter maxFunctionEvals numApprox pilotSamples avg_N_H cost
        avg_eval_ratios avg_hf_target).x_lb numApprox = 1)
    ∧ (∀ (form : SubProblemForm) (i : Nat),
      (formulate_subproblem DBL_MAX RATIO_NUDGE OFFLINE_PILOT form
        solutionMode mlmfIter maxFunctionEvals numApprox pilotSamples avg_N_H cost
        avg_eval_ratios avg_hf_target).x_ub i = DBL_MAX)
    ∧ (formulate_subproblem DBL_MAX RATIO_NUDGE OFFLINE_PILOT .R_ONLY_LINEAR_CONSTRAINT
        solutionMode mlmfIter maxFunctionEvals numApprox pilotSamples avg_N_H cost
        avg_eval_ratios avg_hf_target).num_cdv = numApprox
    ∧ (formulate_subproblem DBL_MAX RATIO_NUDGE OFFLINE_PILOT .R_AND_N_NONLINEAR_CONSTRAINT
        solutionMode mlmfIter maxFunctionEvals numApprox pilotSamples avg_N_H cost
        avg_eval_ratios avg_hf_target).num_cdv = numApprox + 1
    ∧ (∀ x : Nat → ℝ,
        (∀ i, i < numApprox + 1 →
          (formulate_subproblem DBL_MAX RATIO_NUDGE OFFLINE_PILOT
            .R_AND_N_NONLINEAR_CONSTRAINT solutionMode mlmfIter maxFunctionEvals numApprox
            pilotSamples avg_N_H cost avg_eval_ratios avg_hf_target).x_lb i ≤ x i) →
        (∀ i, i < numApprox → 1 ≤ x i)
        ∧ (solutionMode ≠ OFFLINE_PILOT → avg_N_H ≤ x numApprox)) := by
  have hlb : ∀ i, i < numApprox →
      (formulate_subproblem DBL_MAX RATIO_NUDGE OFFLINE_PILOT .R_AND_N_NONLINEAR_CONSTRAINT
        solutionMode mlmfIter maxFunctionEvals numApprox pilotSamples avg_N_H cost
        avg_eval_ratios avg_hf_target).x_lb i = 1 := by
    intro i hi
    have hne : i ≠ numApprox := by omega
    by_cases hm : solutionMode = OFFLINE_PILOT
    · simp [formulate_subproblem, hm]
    · simp [formulate_subproblem, hm, setAt, hne]
  have hN : solutionMode ≠ OFFLINE_PILOT →
      (formulate_subproblem DBL_MAX RATIO_NUDGE OFFLINE_PILOT .R_AND_N_NONLINEAR_CONSTRAINT
        solutionMode mlmfIter maxFunctionEvals numApprox pilotSamples avg_N_H cost
        avg_eval_ratios avg_hf_target).x_lb numApprox = avg_N_H := by
    intro hm
    simp [formulate_subproblem, hm, setAt]
  refine ⟨?_, hlb, hN, ?_, ?_, rfl, rfl, ?_⟩
  · intro i _
    rfl
  · intro hm
    simp [formulate_subproblem, hm]
  · intro form i
    cases form <;> rfl
  · intro x hx
    refine ⟨?_, ?_⟩
    · intro i hi
      have := hx i (by omega)
      rw [hlb i hi] at this
      exact this
    · intro hm
      have := hx numApprox (by omega)
      rw [hN hm] at this
      exact this

/-- Witness for C31: two approximations, on-line pilot (mode `0`, with
`OFFLINE_PILOT = 1`), `avg_N_H = 10`. -/
theorem variable_bounds_floor_witness :
    (formulate_subproblem (1000 : ℝ) (1 / 1000) 1 .R_AND_N_NONLINEAR_CONSTRAINT
        0 0 100 2 (fun _ => 0) 10 (fun _ => 1) (fun _ => 3) 10).x_lb 1 = 1
    ∧ (formulate_subproblem (1000 : ℝ) (1 / 1000) 1 .R_AND_N_NONLINEAR_CONSTRAINT
        0 0 100 2 (fun _ => 0) 10 (fun _ => 1) (fun _ => 3) 10).x_lb 2 = 10 :=
  ⟨(variable_bounds_floor (1000 : ℝ) (1 / 1000) 1 0 0 100 2 (fun _ => 0) 10 (fun _ => 1)
      (fun _ => 3) 10).2.1 1 (by decide),
    (variable_bounds_floor (1000 : ℝ) (1 / 1000) 1 0 0 100 2 (fun _ => 0) 10 (fun _ => 1)
      (fun _ => 3) 10).2.2.1 (by decide)⟩

/-- C32: in the `R_ONLY_LINEAR_CONSTRAINT` form with no evaluation budget
(`maxFunctionEvals == SZ_MAX`) the recovery sets
`avg_hf_target = avg_estvar * avg_N_H / (convergenceTol * average(estVarIter0))`,
with `avg_estvar = exp(fn_star(0))` and the ratios copied from the optimizer.
For a non-zero tolerance and pilot variance the target times
`convergenceTol * average(estVarIter0)` is `avg_estvar * avg_N_H`; so the
variance rescaled to the target, `avg_estvar * avg_N_H / avg_hf_target`, is
`convergenceTol * average(estVarIter0)` (the current truth count `avg_N_H` being
non-zero, so that the target is). -/
theorem accuracy_target_rescaling (allocate_budget : (Nat → ℝ) → (Nat → ℝ) → ℝ)
    (numFunctions numApprox : Nat) (convergenceTol avg_N_H : ℝ)
    (estVarIter0 cost cv_star : Nat → ℝ) (fn_star_0 : ℝ) (r : Recovery ℝ)
    (hr : r = recover_results Real.exp allocate_budget .R_ONLY_LINEAR_CONSTRAINT
      numFunctions numApprox SZ_MAX convergenceTol avg_N_H estVarIter0 cost cv_star
      fn_star_0) :
    r.avg_estvar = Real.exp fn_star_0
    ∧ r.avg_eval_ratios = cv_star
    ∧ r.avg_hf_target
        = r.avg_estvar * avg_N_H / (convergenceTol * averageVector numFunctions estVarIter0)
    ∧ (convergenceTol ≠ 0 → averageVector numFunctions estVarIter0 ≠ 0 →
        r.avg_hf_target * (convergenceTol * averageVector numFunctions estVarIter0)
          = r.avg_estvar * avg_N_H
        ∧ (avg_N_H ≠ 0 →
          r.avg_hf_target ≠ 0
          ∧ r.avg_estvar * avg_N_H / r.avg_hf_target
              = convergenceTol * averageVector numFunctions estVarIter0)) := by
  subst hr
  have ht : (recover_results Real.exp allocate_budget .R_ONLY_LINEAR_CONSTRAINT
      numFunctions numApprox SZ_MAX convergenceTol avg_N_H estVarIter0 cost cv_star
      fn_star_0).avg_hf_target
      = Real.exp fn_star_0 * avg_N_H
          / (convergenceTol * averageVector numFunctions estVarIter0) := by
    simp [recover_results]
  refine ⟨rfl, ?_, ht, ?_⟩
  · simp [recover_results]
  · intro htol hvar
    have hd : convergenceTol * averageVector numFunctions estVarIter0 ≠ 0 :=
      mul_ne_zero htol hvar
    have he : Real.exp fn_star_0 ≠ 0 := (Real.exp_pos fn_star_0).ne'
    rw [ht]
    show _ = Real.exp fn_star_0 * avg_N_H ∧ (_ → _ ∧ Real.exp fn_star_0 * avg_N_H / _ = _)
    refine ⟨by field_simp, ?_⟩
    intro hN
    have hn : Real.exp fn_star_0 * avg_N_H ≠ 0 := mul_ne_zero he hN
    refine ⟨div_ne_zero hn hd, ?_⟩
    field_simp

/-- Witness for C32: one QoI, `fn_star(0) = 0` (so `avg_estvar = 1`),
`avg_N_H = 10`, tolerance `1/100` and pilot variance `2`: the target is `500`. -/
theorem accuracy_target_rescaling_witness :
    (recover_results Real.exp (fun _ _ => 0) .R_ONLY_LINEAR_CONSTRAINT 1 1 SZ_MAX
        (1 / 100 : ℝ) 10 (fun _ => 2) (fun _ => 1) (fun _ => 3) 0).avg_hf_target = 500 := by
  have h := (accuracy_target_rescaling (fun _ _ => 0) 1 1 (1 / 100 : ℝ) 10 (fun _ => 2)
    (fun _ => 1) (fun _ => 3) 0 _ rfl).2.2.1
  rw [h]
  show Real.exp 0 * 10 / (1 / 100 * averageVector 1 (fun _ => (2 : ℝ))) = 500
  simp [averageVector]
  norm_num

/-- C35: in the `N_VECTOR_LINEAR_CONSTRAINT` form the starting point is
`x0 = [r_0*N, ..., r_{M-1}*N, N]` with `N = avg_N_H` when `mlmfIter` is not zero
and `N = avg_hf_target` at iteration 0; the recovery reads `avg_hf_target = N*`
from the last entry of the result and the ratios as `N*_i / N*`; recovering
from a result equal to `x0` with `N != 0` gives back `N` and the ratios `r`. -/
theorem counts_form_roundtrip (exp : ℝ → ℝ) (allocate_budget : (Nat → ℝ) → (Nat → ℝ) → ℝ)
    (DBL_MAX RATIO_NUDGE : ℝ) (OFFLINE_PILOT solutionMode : Int)
    (mlmfIter maxFunctionEvals numFunctions numApprox : Nat) (pilotSamples : Nat → Nat)
    (convergenceTol avg_N_H : ℝ) (estVarIter0 cost avg_eval_ratios : Nat → ℝ)
    (avg_hf_target fn_star_0 : ℝ) (N : ℝ) (x0 : Nat → ℝ)
    (hN : N = if mlmfIter ≠ 0 then avg_N_H else avg_hf_target)
    (hx0 : x0 = (formulate_subproblem DBL_MAX RATIO_NUDGE OFFLINE_PILOT
      .N_VECTOR_LINEAR_CONSTRAINT solutionMode mlmfIter maxFunctionEvals numApprox
      pilotSamples avg_N_H cost avg_eval_ratios avg_hf_target).x0) :
    (∀ i, i < numApprox → x0 i = avg_eval_ratios i * N)
    ∧ x0 numApprox = N
    ∧ (∀ cv_star : Nat → ℝ,
        (recover_results exp allocate_budget .N_VECTOR_LINEAR_CONSTRAINT numFunctions
          numApprox maxFunctionEvals convergenceTol avg_N_H estVarIter0 cost cv_star
          fn_star_0).avg_hf_target = cv_star numApprox
        ∧ ∀ i, i < numApprox →
          (recover_results exp allocate_budget .N_VECTOR_LINEAR_CONSTRAINT numFunctions
            numApprox maxFunctionEvals convergenceTol avg_N_H estVarIter0 cost cv_star
            fn_star_0).avg_eval_ratios i = cv_star i / cv_star numApprox)
    ∧ (N ≠ 0 →
        (recover_results exp allocate_budget .N_VECTOR_LINEAR_CONSTRAINT numFunctions
          numApprox maxFunctionEvals convergenceTol avg_N_H estVarIter0 cost x0
          fn_star_0).avg_hf_target = N
        ∧ ∀ i, i < numApprox →
          (recover_results exp allocate_budget .N_VECTOR_LINEAR_CONSTRAINT numFunctions
            numApprox maxFunctionEvals convergenceTol avg_N_H estVarIter0 cost x0
            fn_star_0).avg_eval_ratios i = avg_eval_ratios i) := by
  have hrec : ∀ cv_star : Nat → ℝ,
      (recover_results exp allocate_budget .N_VECTOR_LINEAR_CONSTRAINT numFunctions
        numApprox maxFunctionEvals convergenceTol avg_N_H estVarIter0 cost cv_star
        fn_star_0).avg_hf_target = cv_star numApprox
      ∧ ∀ i, i < numApprox →
        (recover_results exp allocate_budget .N_VECTOR_LINEAR_CONSTRAINT numFunctions
          numApprox maxFunctionEvals convergenceTol avg_N_H estVarIter0 cost cv_star
          fn_star_0).avg_eval_ratios i = cv_star i / cv_star numApprox := by
    intro cv_star
    refine ⟨rfl, ?_⟩
    intro i hi
    simp [recover_results, hi, div_eq_mul_inv]
  have hlead : ∀ i, i < numApprox → x0 i = avg_eval_ratios i * N := by
    intro i hi
    have hne : i ≠ numApprox := by omega
    subst hx0 hN
    by_cases hm : mlmfIter = 0
    · simp [formulate_subproblem, hm, setAt, hne, hi]
    · simp [formulate_subproblem, hm, setAt, hne, hi]
  have hlast : x0 numApprox = N := by
    subst hx0 hN
    by_cases hm : mlmfIter = 0
    · simp [formulate_subproblem, hm, setAt]
    · simp [formulate_subproblem, hm, setAt]
  refine ⟨hlead, hlast, hrec, ?_⟩
  intro hN0
  refine ⟨by rw [(hrec x0).1, hlast], ?_⟩
  intro i hi
  rw [(hrec x0).2 i hi, hlead i hi, hlast]
  field_simp

/-- Witness for C35: two approximations with ratios `3` and `2`, iteration 1,
`avg_N_H = 10`: the starting point is `[30, 20, 10]` and the recovery returns
the ratio `3` for approximation 0. -/
theorem counts_form_roundtrip_witness :
    (recover_results Real.exp (fun _ _ => 0) .N_VECTOR_LINEAR_CONSTRAINT 1 2 100
        (1 / 100 : ℝ) 10 (fun _ => 2) (fun _ => 1)
        (formulate_subproblem (1000 : ℝ) (1 / 1000) 1 .N_VECTOR_LINEAR_CONSTRAINT 0 1 100 2
          (fun _ => 0) 10 (fun _ => 1) (fun i => if i = 0 then 3 else 2) 7).x0
        0).avg_eval_ratios 0 = 3 := by
  have h := (counts_form_roundtrip Real.exp (fun _ _ => 0) (1000 : ℝ) (1 / 1000) 1 0 1 100 1 2
    (fun _ => 0) (1 / 100) 10 (fun _ => 2) (fun _ => 1) (fun i => if i = 0 then 3 else 2)
    7 0 10 _ (by norm_num) rfl).2.2.2 (by norm_num)
  have h0 := h.2 0 (by decide)
  simpa using h0

/-- C37: the objective is the same function under the counts and the
ratios-plus-N parameterizations.  For the same `varH` and the same chain from
the vector given to `compute_F_matrix` to `R_sq` (which reads only the leading
`numApprox` entries of that vector), any `N != 0` and any counts `N_i`,
`objective_function` in the `N_VECTOR_LINEAR_CONSTRAINT` form at
`[N_0, ..., N_{M-1}, N]` equals `objective_function` in the
`R_AND_N_NONLINEAR_CONSTRAINT` form at `[N_0/N, ..., N_{M-1}/N, N]`, the point
whose ratios times `N` are the counts. -/
theorem objective_counts_vs_ratios (numFunctions numApprox : Nat)
    (varH : Nat → ℝ) (numH : Nat → Nat) (compute_Rsq : (Nat → ℝ) → Nat → ℝ)
    (x y : Nat → ℝ)
    (hlead : ∀ r r' : Nat → ℝ, (∀ i, i < numApprox → r i = r' i) →
      compute_Rsq r = compute_Rsq r')
    (hN : x numApprox ≠ 0) (hyN : y numApprox = x numApprox)
    (hy : ∀ i, i < numApprox → y i = x i / x numApprox) :
    objective_function Real.log .N_VECTOR_LINEAR_CONSTRAINT numFunctions numApprox varH numH
        compute_Rsq x
      = objective_function Real.log .R_AND_N_NONLINEAR_CONSTRAINT numFunctions numApprox varH
          numH compute_Rsq y
    ∧ objective_avg_est_var .N_VECTOR_LINEAR_CONSTRAINT numFunctions numApprox varH numH
        compute_Rsq x
      = objective_avg_est_var .R_AND_N_NONLINEAR_CONSTRAINT numFunctions numApprox varH numH
          compute_Rsq y
    ∧ ∀ i, i < numApprox → y i * y numApprox = x i := by
  have hR : compute_Rsq (objective_ratios .N_VECTOR_LINEAR_CONSTRAINT numApprox x)
      = compute_Rsq (objective_ratios .R_AND_N_NONLINEAR_CONSTRAINT numApprox y) := by
    apply hlead
    intro i hi
    simp only [objective_ratios, hi, if_true]
    rw [hy i hi]
    ring
  have havg : objective_avg_est_var .N_VECTOR_LINEAR_CONSTRAINT numFunctions numApprox varH
        numH compute_Rsq x
      = objective_avg_est_var .R_AND_N_NONLINEAR_CONSTRAINT numFunctions numApprox varH numH
          compute_Rsq y := by
    rw [objective_avg_est_var_eq, objective_avg_est_var_eq, hR]
    simp only [objective_N, hyN]
  refine ⟨?_, havg, ?_⟩
  · unfold objective_function
    rw [havg]
  · intro i hi
    rw [hy i hi, hyN]
    field_simp

/-- Witness for C37: one approximation and one QoI, `R_sq` read from the leading
entry of the vector, counts `[20, 10]` against ratios `[2, 10]`. -/
theorem objective_counts_vs_ratios_witness :
    objective_function Real.log .N_VECTOR_LINEAR_CONSTRAINT 1 1 (fun _ => (4 : ℝ))
        (fun _ => 7) (fun r _ => 1 - 1 / r 0) (fun i => if i = 0 then 20 else 10)
      = objective_function Real.log .R_AND_N_NONLINEAR_CONSTRAINT 1 1 (fun _ => (4 : ℝ))
          (fun _ => 7) (fun r _ => 1 - 1 / r 0) (fun i => if i = 0 then 2 else 10) :=
  (objective_counts_vs_ratios 1 1 (fun _ => (4 : ℝ)) (fun _ => 7) (fun r _ => 1 - 1 / r 0)
    (fun i => if i = 0 then 20 else 10) (fun i => if i = 0 then 2 else 10)
    (by
      intro r r' h
      funext q
      show 1 - 1 / r 0 = 1 - 1 / r' 0
      rw [h 0 (by decide)])
    (by norm_num) (by norm_num)
    (by
      intro i hi
      have : i = 0 := by omega
      subst this
      norm_num)).1

/-! ## The control-variate factor and the sample targets -/

/-- The control-variate factor, for a non-zero ratio, is `1 - rho2 + rho2 / r`. -/
theorem Lambda_factor_eq (avg_rho2 r : ℝ) (hr : r ≠ 0) :
    Lambda_factor avg_rho2 r = 1 - avg_rho2 + avg_rho2 / r := by
  unfold Lambda_factor
  field_simp
  ring

/-- The control-variate factor is positive for a correlation in `[0,1)` and a
positive ratio. -/
theorem Lambda_factor_pos (avg_rho2 r : ℝ) (h0 : 0 ≤ avg_rho2) (h1 : avg_rho2 < 1)
    (hr : 0 < r) : 0 < Lambda_factor avg_rho2 r := by
  rw [Lambda_factor_eq avg_rho2 r hr.ne']
  have : 0 ≤ avg_rho2 / r := div_nonneg h0 hr.le
  linarith

/-- C34 (counterexample to the claim as worded): with `avg_rho2 = 0` (in `[0,1)`) and
`r = 1` the factor is `1 = 1 - avg_rho2`, so the strict lower bound
`1 - avg_rho2 < Lambda` fails. -/
theorem Lambda_strict_bound_counterexample :
    (0 : ℝ) ≤ 0 ∧ (0 : ℝ) < 1 ∧ (1 : ℝ) ≤ 1
    ∧ Lambda_factor (0 : ℝ) 1 = 1
    ∧ ¬ (1 - (0 : ℝ) < Lambda_factor (0 : ℝ) 1) := by
  have h : Lambda_factor (0 : ℝ) 1 = 1 := by
    unfold Lambda_factor
    norm_num
  refine ⟨le_rfl, by norm_num, le_rfl, h, ?_⟩
  rw [h]
  norm_num

/-- C34 (as amended): the control-variate factor
`Lambda = 1 - avg_rho2 * (r - 1) / r` satisfies `1 - avg_rho2 <= Lambda <= 1` for
every `avg_rho2` in `[0,1)` and every `r >= 1`, the lower bound being strict
exactly when `avg_rho2 > 0`; it is non-increasing in `r`, and it equals `1`
exactly when `r = 1` or `avg_rho2 = 0`. -/
theorem Lambda_factor_bounds (avg_rho2 r r' : ℝ) (h0 : 0 ≤ avg_rho2) (h1 : avg_rho2 < 1)
    (hr : 1 ≤ r) (hrr : r ≤ r') :
    1 - avg_rho2 ≤ Lambda_factor avg_rho2 r
    ∧ Lambda_factor avg_rho2 r ≤ 1
    ∧ (1 - avg_rho2 < Lambda_factor avg_rho2 r ↔ 0 < avg_rho2)
    ∧ Lambda_factor avg_rho2 r' ≤ Lambda_factor avg_rho2 r
    ∧ (Lambda_factor avg_rho2 r = 1 ↔ r = 1 ∨ avg_rho2 = 0)
    ∧ 0 < Lambda_factor avg_rho2 r := by
  have hr0 : 0 < r := by linarith
  have hr0' : 0 < r' := by linarith
  have hq : 0 ≤ avg_rho2 / r := div_nonneg h0 hr0.le
  have hq1 : avg_rho2 / r ≤ avg_rho2 := div_le_self h0 hr
  rw [Lambda_factor_eq avg_rho2 r hr0.ne', Lambda_factor_eq avg_rho2 r' hr0'.ne']
  refine ⟨by linarith, by linarith, ?_, ?_, ?_, by linarith⟩
  · constructor
    · intro h
      have h2 : 0 < avg_rho2 / r := by linarith
      rcases h0.lt_or_eq with h3 | h3
      · exact h3
      · rw [← h3] at h2
        simp at h2
    · intro h
      have : 0 < avg_rho2 / r := div_pos h hr0
      linarith
  · have : avg_rho2 / r' ≤ avg_rho2 / r := div_le_div_of_nonneg_left h0 hr0 hrr
    linarith
  · constructor
    · intro h
      have h2 : avg_rho2 / r = avg_rho2 := by linarith
      rw [div_eq_iff hr0.ne'] at h2
      have h3 : avg_rho2 * (r - 1) = 0 := by linarith
      rcases mul_eq_zero.mp h3 with h4 | h4
      · exact Or.inr h4
      · exact Or.inl (by linarith)
    · rintro (h | h)
      · subst h
        simp
      · subst h
        simp

/-- Witness for C34: `avg_rho2 = 1/2`, `r = 2`, `r' = 4`: the factor is `3/4`
at `r = 2`. -/
theorem Lambda_factor_bounds_witness :
    1 - (1 / 2 : ℝ) < Lambda_factor (1 / 2 : ℝ) 2 ∧ Lambda_factor (1 / 2 : ℝ) 2 ≤ 1 :=
  ⟨(Lambda_factor_bounds (1 / 2) 2 4 (by norm_num) (by norm_num) (by norm_num)
      (by norm_num)).2.2.1.mpr (by norm_num),
    (Lambda_factor_bounds (1 / 2) 2 4 (by norm_num) (by norm_num) (by norm_num)
      (by norm_num)).2.1⟩

/-- The sum of the square roots behind the targets, as a finite sum. -/
theorem sum_sqrt_var_cost_eq (num_hf_lev num_cv_lev : Nat)
    (agg_var_hf hf_cost avg_rho_dot2_LH Lambda : Nat → ℝ) :
    sum_sqrt_var_cost Real.sqrt num_hf_lev num_cv_lev agg_var_hf hf_cost avg_rho_dot2_LH Lambda
      = Finset.sum (Finset.range num_hf_lev)
          (fun lev =>
            if lev < num_cv_lev then
              Real.sqrt (agg_var_hf lev * level_cost hf_cost lev / (1 - avg_rho_dot2_LH lev))
                * Lambda lev
            else Real.sqrt (agg_var_hf lev * level_cost hf_cost lev)) := by
  unfold sum_sqrt_var_cost
  exact foldl_add_range _ _

/-- For a positive variance `v`, cost `c` and `d = 1 - rho2`, the variance over
the square root in the target is the square root in the sum. -/
theorem var_div_sqrt (v c d : ℝ) (hv : 0 < v) (hc : 0 < c) (hd : 0 < d) :
    v / Real.sqrt (v / c * d) = Real.sqrt (v * c / d) := by
  have h1 : 0 < v / c * d := mul_pos (div_pos hv hc) hd
  have h2 : 0 < Real.sqrt (v / c * d) := Real.sqrt_pos.mpr h1
  rw [div_eq_iff h2.ne', ← Real.sqrt_mul (div_pos (mul_pos hv hc) hd).le]
  have h3 : v * c / d * (v / c * d) = v ^ 2 := by
    field_simp
    ring
  rw [h3, Real.sqrt_sq hv.le]

/-- One term of the projected variance, with the target written out. -/
theorem target_term_eq (v L S e t : ℝ) (hS : S ≠ 0) (ht : t ≠ 0) :
    v * L / (S / e * t) = e / S * (v / t * L) := by
  field_simp
  ring

/-- C33: the sample targets computed at the end of a pass of the multilevel
control-variate loop meet the variance target.  With `agg_var_hf[l] > 0`,
level costs `level_cost(hf_cost, l) > 0`, `avg_rho_dot2_LH[l]` in `[0,1)` and
`Lambda[l]` as computed from a positive evaluation ratio on the control-variate
levels, and `N_target(l) = (sum_sqrt_var_cost / eps_sq_div_2)
* sqrt(agg_var_hf[l] / C_l * (1 - rho_l^2))` (no factor `1 - rho_l^2` on the
levels without a control variate), the projected estimator variance, the sum
over the levels of `agg_var_hf[l] * Lambda_l / N_target(l)` with `Lambda_l = 1`
on the levels without a control variate, is `eps_sq_div_2`. -/
theorem targets_meet_variance (num_hf_lev num_cv_lev : Nat)
    (agg_var_hf hf_cost avg_rho_dot2_LH avg_eval_ratios Lambda : Nat → ℝ)
    (eps_sq_div_2 : ℝ)
    (hlev : 0 < num_hf_lev)
    (hv : ∀ l, l < num_hf_lev → 0 < agg_var_hf l)
    (hC : ∀ l, l < num_hf_lev → 0 < level_cost hf_cost l)
    (hrho : ∀ l, l < num_cv_lev → 0 ≤ avg_rho_dot2_LH l ∧ avg_rho_dot2_LH l < 1)
    (hr : ∀ l, l < num_cv_lev → 0 < avg_eval_ratios l)
    (hL : ∀ l, l < num_cv_lev →
      Lambda l = Lambda_factor (avg_rho_dot2_LH l) (avg_eval_ratios l)) :
    projected_estimator_variance Real.sqrt num_hf_lev num_cv_lev agg_var_hf hf_cost
        avg_rho_dot2_LH Lambda eps_sq_div_2 = eps_sq_div_2
    ∧ 0 < sum_sqrt_var_cost Real.sqrt num_hf_lev num_cv_lev agg_var_hf hf_cost
        avg_rho_dot2_LH Lambda
    ∧ (0 < eps_sq_div_2 → ∀ l, l < num_hf_lev →
        0 < N_target Real.sqrt num_cv_lev agg_var_hf hf_cost avg_rho_dot2_LH
          (sum_sqrt_var_cost Real.sqrt num_hf_lev num_cv_lev agg_var_hf hf_cost
            avg_rho_dot2_LH Lambda) eps_sq_div_2 l) := by
  have hLpos : ∀ l, l < num_cv_lev → 0 < Lambda l := by
    intro l hl
    rw [hL l hl]
    exact Lambda_factor_pos _ _ (hrho l hl).1 (hrho l hl).2 (hr l hl)
  have hterm : ∀ l, l < num_hf_lev →
      0 < (if l < num_cv_lev then
              Real.sqrt (agg_var_hf l * level_cost hf_cost l / (1 - avg_rho_dot2_LH l))
                * Lambda l
            else Real.sqrt (agg_var_hf l * level_cost hf_cost l)) := by
    intro l hl
    by_cases hc : l < num_cv_lev
    · rw [if_pos hc]
      have hd : 0 < 1 - avg_rho_dot2_LH l := by linarith [(hrho l hc).2]
      exact mul_pos (Real.sqrt_pos.mpr (div_pos (mul_pos (hv l hl) (hC l hl)) hd)) (hLpos l hc)
    · rw [if_neg hc]
      exact Real.sqrt_pos.mpr (mul_pos (hv l hl) (hC l hl))
  have hS : 0 < sum_sqrt_var_cost Real.sqrt num_hf_lev num_cv_lev agg_var_hf hf_cost
      avg_rho_dot2_LH Lambda := by
    rw [sum_sqrt_var_cost_eq]
    apply Finset.sum_pos
    · intro l hl
      exact hterm l (Finset.mem_range.mp hl)
    · exact ⟨0, Finset.mem_range.mpr hlev⟩
  have hT : ∀ l, l < num_hf_lev →
      N_target Real.sqrt num_cv_lev agg_var_hf hf_cost avg_rho_dot2_LH
          (sum_sqrt_var_cost Real.sqrt num_hf_lev num_cv_lev agg_var_hf hf_cost
            avg_rho_dot2_LH Lambda) eps_sq_div_2 l
        = sum_sqrt_var_cost Real.sqrt num_hf_lev num_cv_lev agg_var_hf hf_cost
            avg_rho_dot2_LH Lambda / eps_sq_div_2
          * Real.sqrt (agg_var_hf l / level_cost hf_cost l
              * (if l < num_cv_lev then 1 - avg_rho_dot2_LH l else 1)) := by
    intro l _
    unfold N_target level_cost
    by_cases hc : l < num_cv_lev
    · simp only [if_pos hc]
    · simp only [if_neg hc, mul_one]
  have hd : ∀ l, l < num_hf_lev →
      0 < (if l < num_cv_lev then 1 - avg_rho_dot2_LH l else 1) := by
    intro l _
    by_cases hc : l < num_cv_lev
    · rw [if_pos hc]
      linarith [(hrho l hc).2]
    · rw [if_neg hc]
      exact one_pos
  refine ⟨?_, hS, ?_⟩
  · unfold projected_estimator_variance
    rw [sum_map_range]
    have hkey : ∀ l, l ∈ Finset.range num_hf_lev →
        agg_var_hf l * (if l < num_cv_lev then Lambda l else 1)
          / N_target Real.sqrt num_cv_lev agg_var_hf hf_cost avg_rho_dot2_LH
              (sum_sqrt_var_cost Real.sqrt num_hf_lev num_cv_lev agg_var_hf hf_cost
                avg_rho_dot2_LH Lambda) eps_sq_div_2 l
        = eps_sq_div_2
            / sum_sqrt_var_cost Real.sqrt num_hf_lev num_cv_lev agg_var_hf hf_cost
                avg_rho_dot2_LH Lambda
          * (if l < num_cv_lev then
              Real.sqrt (agg_var_hf l * level_cost hf_cost l / (1 - avg_rho_dot2_LH l))
                * Lambda l
            else Real.sqrt (agg_var_hf l * level_cost hf_cost l)) := by
      intro l hl
      have hl' := Finset.mem_range.mp hl
      rw [hT l hl']
      have hsq := var_div_sqrt (agg_var_hf l) (level_cost hf_cost l)
        (if l < num_cv_lev then 1 - avg_rho_dot2_LH l else 1) (hv l hl') (hC l hl') (hd l hl')
      have hpos : 0 < Real.sqrt (agg_var_hf l / level_cost hf_cost l
          * (if l < num_cv_lev then 1 - avg_rho_dot2_LH l else 1)) :=
        Real.sqrt_pos.mpr (mul_pos (div_pos (hv l hl') (hC l hl')) (hd l hl'))
      have hrw : (if l < num_cv_lev then
              Real.sqrt (agg_var_hf l * level_cost hf_cost l / (1 - avg_rho_dot2_LH l))
                * Lambda l
            else Real.sqrt (agg_var_hf l * level_cost hf_cost l))
          = agg_var_hf l / Real.sqrt (agg_var_hf l / level_cost hf_cost l
              * (if l < num_cv_lev then 1 - avg_rho_dot2_LH l else 1))
            * (if l < num_cv_lev then Lambda l else 1) := by
        rw [hsq]
        by_cases hc : l < num_cv_lev
        · simp only [if_pos hc]
        · simp only [if_neg hc, mul_one, div_one]
      rw [hrw]
      exact target_term_eq _ _ _ _ _ hS.ne' hpos.ne'
    rw [Finset.sum_congr rfl hkey, ← Finset.mul_sum, ← sum_sqrt_var_cost_eq]
    field_simp
  · intro he l hl
    rw [hT l hl]
    exact mul_pos (div_pos hS he)
      (Real.sqrt_pos.mpr (mul_pos (div_pos (hv l hl) (hC l hl)) (hd l hl)))

/-- Witness for C33: two levels, one with a control variate (correlation `1/2`,
ratio `2`, hence `Lambda = 3/4`), variances `4`, costs `1`, target `1/10`. -/
theorem targets_meet_variance_witness :
    projected_estimator_variance Real.sqrt 2 1 (fun _ => 4) (fun _ => 1) (fun _ => 1 / 2)
      (fun _ => 3 / 4) (1 / 10) = 1 / 10 :=
  (targets_meet_variance 2 1 (fun _ => 4) (fun _ => 1) (fun _ => 1 / 2) (fun _ => 2)
    (fun _ => 3 / 4) (1 / 10) (by decide) (fun _ _ => by norm_num)
    (fun l _ => by unfold level_cost; split_ifs <;> norm_num)
    (fun _ _ => by norm_num) (fun _ _ => by norm_num)
    (fun _ _ => by unfold Lambda_factor; norm_num)).1

/-! ## The reordered estimator against the plain one -/

section ReorderedLemmas

variable {α : Type} [LinearOrderedField α]

/-- Closed form of the first loop of `mfmc_reordered_analytic_solution`: entry
`i` of `r_unconstrained`, and the carried `prev_rho2`. -/
theorem r_unconstrained_loop_spec (sqrt : α → α) (avg_rho2_LH cost : Nat → α) (factor : α)
    (ordered : Bool) (ms : List Nat) (n : Nat) :
    (∀ i, i < n →
      (r_unconstrained_loop sqrt n avg_rho2_LH cost factor ordered ms).1 i
        = sqrt (factor / cost (seqApprox ordered ms i)
            * (if i ≠ 0 then avg_rho2_LH (seqApprox ordered ms i)
                  - avg_rho2_LH (seqApprox ordered ms (i - 1))
                else avg_rho2_LH (seqApprox ordered ms i))))
    ∧ (0 < n →
      (r_unconstrained_loop sqrt n avg_rho2_LH cost factor ordered ms).2
        = avg_rho2_LH (seqApprox ordered ms (n - 1))) := by
  induction n with
  | zero => exact ⟨fun i hi => absurd hi (Nat.not_lt_zero _), fun h => absurd h (lt_irrefl _)⟩
  | succ n ih =>
    obtain ⟨ih1, ih2⟩ := ih
    unfold r_unconstrained_loop at ih1 ih2 ⊢
    rw [List.range_succ, List.foldl_append]
    simp only [List.foldl_cons, List.foldl_nil]
    refine ⟨?_, fun _ => by simp⟩
    intro i hi
    by_cases hin : i = n
    · subst hin
      simp only [setAt, if_true]
      by_cases h0 : i = 0
      · subst h0
        simp
      · rw [ih2 (by omega)]
    · simp only [setAt, hin, if_false]
      exact ih1 i (by omega)

/-- The average over a single QoI is the value of that QoI. -/
theorem average_one (rho2_LH : Nat → Nat → α) (a : Nat) :
    average 1 rho2_LH a = rho2_LH 0 a := by
  unfold average
  simp [List.range_succ]

/-- A reverse sweep over ratios that do not increase along the positions and
end at or above the starting value leaves every ratio as it is. -/
theorem clampFrom_of_antitone (u : Nat → α) (prev : α) (k : Nat)
    (hdec : ∀ i, i + 1 < k → u (i + 1) ≤ u i) (hlast : 0 < k → prev ≤ u (k - 1)) :
    ∀ (d i : Nat), i + d + 1 = k → clampFrom u prev k i = u i := by
  intro d
  induction d with
  | zero =>
    intro i hi
    rw [clampFrom_lt u prev k i (by omega), clampFrom_ge u prev k (i + 1) (by omega)]
    have h := hlast (by omega)
    have e : k - 1 = i := by omega
    rw [e] at h
    unfold stdMax
    rw [if_neg (not_lt.mpr h)]
  | succ d ih =>
    intro i hi
    rw [clampFrom_lt u prev k i (by omega), ih (i + 1) (by omega)]
    unfold stdMax
    rw [if_neg (not_lt.mpr (hdec i (by omega)))]

end ReorderedLemmas

/-- C36: the reordered analytic estimator reduces to the plain one when no
reordering or clamping is needed.  For a single QoI whose correlations do not
decrease with the approximation index (for which `ordered_model_sequence`
keeps the given order), and analytic ratios that do not increase with the
approximation index and whose last one is `>= 1`,
`mfmc_reordered_analytic_solution` and `mfmc_analytic_solution` write the same
`eval_ratios`. -/
theorem reordered_reduces_to_analytic (numApprox : Nat)
    (rho2_LH : Nat → Nat → ℝ) (cost : Nat → ℝ) (ordered : Bool) (model_sequence : List Nat)
    (eval_ratios : Nat → Nat → ℝ)
    (hmono : ∀ a b, a ≤ b → b < numApprox → rho2_LH 0 a ≤ rho2_LH 0 b)
    (hkeep : (∀ a b, a ≤ b → b < numApprox → average 1 rho2_LH a ≤ average 1 rho2_LH b) →
      ∀ i, i < numApprox → seqApprox ordered model_sequence i = i)
    (hdec : ∀ a, a + 1 < numApprox →
      mfmc_analytic_solution Real.sqrt 1 numApprox rho2_LH cost eval_ratios 0 (a + 1)
        ≤ mfmc_analytic_solution Real.sqrt 1 numApprox rho2_LH cost eval_ratios 0 a)
    (hlast : 0 < numApprox →
      1 ≤ mfmc_analytic_solution Real.sqrt 1 numApprox rho2_LH cost eval_ratios 0
            (numApprox - 1)) :
    mfmc_reordered_analytic_solution Real.sqrt 1 numApprox rho2_LH cost ordered model_sequence
        eval_ratios
      = mfmc_analytic_solution Real.sqrt 1 numApprox rho2_LH cost eval_ratios := by
  have hseq : ∀ i, i < numApprox → seqApprox ordered model_sequence i = i :=
    hkeep (fun a b hab hb => by
      rw [average_one, average_one]
      exact hmono a b hab hb)
  have hmost : 0 < numApprox →
      (if ordered = true then numApprox - 1 else model_sequence.getD (numApprox - 1) 0)
        = numApprox - 1 := by
    intro hn
    have := hseq (numApprox - 1) (by omega)
    unfold seqApprox at this
    exact this
  have hinj : ∀ i j, i < numApprox → j < numApprox →
      seqApprox ordered model_sequence i = seqApprox ordered model_sequence j → i = j := by
    intro i j hi hj h
    rw [hseq i hi, hseq j hj] at h
    exact h
  -- the unconstrained ratios are the analytic ones
  have hu : ∀ i, i < numApprox →
      (r_unconstrained_loop Real.sqrt numApprox (average 1 rho2_LH) cost
        (cost numApprox / (1 - average 1 rho2_LH
          (if ordered = true then numApprox - 1 else model_sequence.getD (numApprox - 1) 0)))
        ordered model_sequence).1 i
        = mfmc_analytic_solution Real.sqrt 1 numApprox rho2_LH cost eval_ratios 0 i := by
    intro i hi
    rw [(r_unconstrained_loop_spec Real.sqrt _ _ _ ordered model_sequence numApprox).1 i hi,
      mfmc_analytic_solution_eq, hmost (by omega), hseq i hi]
    simp only [average_one, hi, Nat.lt_one_iff, and_self, if_true]
    by_cases h0 : i = 0
    · simp [h0]
    · rw [hseq (i - 1) (by omega)]
  have hclamp : ∀ i, i < numApprox →
      clampFrom (r_unconstrained_loop Real.sqrt numApprox (average 1 rho2_LH) cost
        (cost numApprox / (1 - average 1 rho2_LH
          (if ordered = true then numApprox - 1 else model_sequence.getD (numApprox - 1) 0)))
        ordered model_sequence).1 1 numApprox i
        = mfmc_analytic_solution Real.sqrt 1 numApprox rho2_LH cost eval_ratios 0 i := by
    intro i hi
    rw [clampFrom_of_antitone _ 1 numApprox
      (fun a ha => by rw [hu a (by omega), hu (a + 1) ha]; exact hdec a ha)
      (fun hn => by rw [hu (numApprox - 1) (by omega)]; exact hlast hn)
      (numApprox - i - 1) i (by omega)]
    exact hu i hi
  funext q a
  have hspec := sweep_foldl_spec 1 numApprox
    (r_unconstrained_loop Real.sqrt numApprox (average 1 rho2_LH) cost
      (cost numApprox / (1 - average 1 rho2_LH
        (if ordered = true then numApprox - 1 else model_sequence.getD (numApprox - 1) 0)))
      ordered model_sequence).1 ordered model_sequence hinj numApprox le_rfl eval_ratios 1
  by_cases hqa : q < 1 ∧ a < numApprox
  · obtain ⟨hq, ha⟩ := hqa
    have hq0 : q = 0 := by omega
    subst hq0
    have h1 := hspec.1 a ha 0 hq
    rw [hseq a ha] at h1
    unfold mfmc_reordered_analytic_solution reverse_sweep
    rw [h1]
    exact hclamp a ha
  · have h2 := hspec.2 q a (by
      by_cases hq : q < 1
      · right
        intro i hi
        rw [hseq i hi]
        intro hia
        exact hqa ⟨hq, by omega⟩
      · left
        omega)
    unfold mfmc_reordered_analytic_solution reverse_sweep
    rw [h2, mfmc_analytic_solution_eq]
    simp only [hqa, if_false]

/-- Witness for C36: one QoI, two approximations with correlations `1/4`, `3/4`
and costs `1`, `8` against a truth cost `16`: the analytic ratios are `4` and
`2`. -/
theorem reordered_reduces_to_analytic_witness :
    mfmc_reordered_analytic_solution Real.sqrt 1 2 (fun _ a => if a = 0 then 1 / 4 else 3 / 4)
        (fun a => if a = 0 then 1 else if a = 1 then 8 else 16) true [] (fun _ _ => 0)
      = mfmc_analytic_solution Real.sqrt 1 2 (fun _ a => if a = 0 then 1 / 4 else 3 / 4)
          (fun a => if a = 0 then 1 else if a = 1 then 8 else 16) (fun _ _ => 0) := by
  have e0 : mfmc_analytic_solution Real.sqrt 1 2
      (fun _ a => if a = 0 then (1 / 4 : ℝ) else 3 / 4)
      (fun a => if a = 0 then (1 : ℝ) else if a = 1 then 8 else 16) (fun _ _ => 0) 0 0
      = Real.sqrt 16 := by
    rw [mfmc_analytic_solution_eq]
    norm_num
  have e1 : mfmc_analytic_solution Real.sqrt 1 2
      (fun _ a => if a = 0 then (1 / 4 : ℝ) else 3 / 4)
      (fun a => if a = 0 then (1 : ℝ) else if a = 1 then 8 else 16) (fun _ _ => 0) 0 1
      = Real.sqrt 4 := by
    rw [mfmc_analytic_solution_eq]
    norm_num
  exact reordered_reduces_to_analytic 2 (fun _ a => if a = 0 then 1 / 4 else 3 / 4)
    (fun a => if a = 0 then 1 else if a = 1 then 8 else 16) true [] (fun _ _ => 0)
    (fun a b hab hb => by
      have ha : a = 0 ∨ a = 1 := by omega
      have hb' : b = 0 ∨ b = 1 := by omega
      rcases ha with rfl | rfl <;> rcases hb' with rfl | rfl <;> norm_num at hab ⊢)
    (fun _ i _ => rfl)
    (fun a ha => by
      have h0 : a = 0 := by omega
      subst h0
      rw [e1, e0]
      exact Real.sqrt_le_sqrt (by norm_num))
    (fun _ => by
      show 1 ≤ mfmc_analytic_solution Real.sqrt 1 2
        (fun _ a => if a = 0 then (1 / 4 : ℝ) else 3 / 4)
        (fun a => if a = 0 then (1 : ℝ) else if a = 1 then 8 else 16) (fun _ _ => 0) 0 1
      rw [e1]
      rw [Real.le_sqrt (by norm_num)] <;> norm_num)

/-! ## The refined low sums stay in step with the shared ones -/

/-- Growing two maps with the same orders and entries by the same increments
leaves them with the same orders and entries. -/
theorem sameOrdersAndEntries_grow (f : Int → Dbl) (qoi lev : Nat) (m m' : IntRealMatrixMap)
    (h : sameOrdersAndEntries m m') :
    sameOrdersAndEntries (grow f qoi lev m) (grow f qoi lev m') := by
  unfold sameOrdersAndEntries at h ⊢
  have key : ∀ m : IntRealMatrixMap,
      (grow f qoi lev m).map (fun e => (e.1, e.2.entry))
        = (m.map (fun e => (e.1, e.2.entry))).map
            (fun e => (e.1, fun i j => if i = qoi ∧ j = lev then e.2 i j + f e.1 else e.2 i j)) := by
    intro m
    unfold grow
    rw [List.map_map, List.map_map]
    rfl
  rw [key m, key m', h]

/-- A batch loop keeps an invariant that every step keeps. -/
theorem foldlM_batch_inv {ρ σ : Type} (step : ρ → σ → Nat → Option σ) (Inv : σ → Prop)
    (n : Nat) (hstep : ∀ r st q, Inv st → ∃ st', step r st q = some st' ∧ Inv st')
    (rs : List ρ) (st : σ) (hinv : Inv st) :
    ∃ st', rs.foldlM (fun st r => (List.range n).foldlM (step r) st) st = some st' ∧ Inv st' := by
  obtain ⟨st', h1, h2, _⟩ := foldlM_batch_counts step Inv (fun _ _ => 0) (fun _ _ => 0)
    (fun _ _ => false) n
    (fun r st q h => by
      obtain ⟨st', h1, h2⟩ := hstep r st q h
      exact ⟨st', h1, h2, by simp, by simp⟩)
    rs st hinv
  exact ⟨st', h1, h2⟩

/-- One sample of one QoI in the six-map `accumulate_mlcv_Qsums`: the two low
maps and the two counts stay in step. -/
theorem accumulate_mlcv_Qsums6_qoi_in_step (K fuel lev : Nat) (lf_offset hf_offset : RealVector)
    (hfuel : K ≤ fuel) (r : RealVector × RealVector) (st : PairedSums) (q : Nat)
    (hwf : st.WF K) :
    ∃ st', accumulate_mlcv_Qsums6_qoi fuel lev lf_offset hf_offset r.1 r.2 st q = some st' ∧
      st'.WF K ∧
      (sameOrdersAndEntries st.sum_L_shared st.sum_L_refined →
        sameOrdersAndEntries st'.sum_L_shared st'.sum_L_refined) ∧
      (st.num_L = st.num_H → st'.num_L = st'.num_H) := by
  by_cases hi : ((shifted r.1 lf_offset q).isfinite && (shifted r.2 hf_offset q).isfinite) = true
  · have hi' := hi
    simp only [Bool.and_eq_true] at hi'
    obtain ⟨l, hl⟩ := (Dbl.isfinite_iff _).mp hi'.1
    obtain ⟨h, hh⟩ := (Dbl.isfinite_iff _).mp hi'.2
    refine ⟨st.addQ q lev l h,
      accumulate_mlcv_Qsums6_qoi_included K fuel lev lf_offset hf_offset r.1 r.2 st q l h hwf
        hfuel hl hh, PairedSums_addQ_WF K st q lev l h hwf, ?_, ?_⟩
    · intro hs
      exact sameOrdersAndEntries_grow _ q lev _ _ hs
    · intro hn
      show st.num_L.incr q = st.num_H.incr q
      rw [hn]
  · simp only [Bool.not_eq_true] at hi
    exact ⟨st,
      accumulate_mlcv_Qsums6_qoi_excluded fuel lev lf_offset hf_offset r.1 r.2 st q hi, hwf,
      fun hs => hs, fun hn => hn⟩

/-- One sample of one QoI in the six-map `accumulate_mlcv_Ysums` (`lev > 0`):
the two low maps and the two counts stay in step. -/
theorem accumulate_mlcv_Ysums6_qoi_in_step (K fuel numFunctions lev : Nat)
    (lf_offset hf_offset : RealVector) (hfuel : K ≤ fuel) (r : RealVector × RealVector)
    (st : PairedSums) (q : Nat) (hwf : st.WF K) :
    ∃ st', accumulate_mlcv_Ysums6_qoi fuel numFunctions lev lf_offset hf_offset r.1 r.2 st q
        = some st' ∧
      st'.WF K ∧
      (sameOrdersAndEntries st.sum_L_shared st.sum_L_refined →
        sameOrdersAndEntries st'.sum_L_shared st'.sum_L_refined) ∧
      (st.num_L = st.num_H → st'.num_L = st'.num_H) := by
  by_cases hi : ((shifted r.1 lf_offset q).isfinite
      && (shifted r.1 lf_offset (q + numFunctions)).isfinite
      && (shifted r.2 hf_offset q).isfinite
      && (shifted r.2 hf_offset (q + numFunctions)).isfinite) = true
  · have hi' := hi
    simp only [Bool.and_eq_true] at hi'
    obtain ⟨l, hl⟩ := (Dbl.isfinite_iff _).mp hi'.1.1.1
    obtain ⟨lm1, hlm1⟩ := (Dbl.isfinite_iff _).mp hi'.1.1.2
    obtain ⟨h, hh⟩ := (Dbl.isfinite_iff _).mp hi'.1.2
    obtain ⟨hm1, hhm1⟩ := (Dbl.isfinite_iff _).mp hi'.2
    refine ⟨st.addY q lev l lm1 h hm1,
      accumulate_mlcv_Ysums6_qoi_included K fuel numFunctions lev lf_offset hf_offset r.1 r.2 st
        q l lm1 h hm1 hwf hfuel hl hlm1 hh hhm1,
      PairedSums_addY_WF K st q lev l lm1 h hm1 hwf, ?_, ?_⟩
    · intro hs
      exact sameOrdersAndEntries_grow _ q lev _ _ hs
    · intro hn
      show st.num_L.incr q = st.num_H.incr q
      rw [hn]
  · simp only [Bool.not_eq_true] at hi
    exact ⟨st,
      accumulate_mlcv_Ysums6_qoi_excluded fuel numFunctions lev lf_offset hf_offset r.1 r.2 st q
        hi, hwf, fun hs => hs, fun hn => hn⟩

/-- A batch in the six-map `accumulate_mlcv_Qsums`: the two low maps and the
two counts stay in step. -/
theorem accumulate_mlcv_Qsums6_in_step (K fuel numFunctions lev : Nat)
    (lf_resp_map hf_resp_map : List RealVector) (st : PairedSums)
    (lf_offset hf_offset : RealVector) (hwf : st.WF K) (hfuel : K ≤ fuel) :
    ∃ st', accumulate_mlcv_Qsums6 fuel numFunctions lf_resp_map hf_resp_map st lev
        lf_offset hf_offset = some st' ∧
      st'.WF K ∧
      (sameOrdersAndEntries st.sum_L_shared st.sum_L_refined →
        sameOrdersAndEntries st'.sum_L_shared st'.sum_L_refined) ∧
      (st.num_L = st.num_H → st'.num_L = st'.num_H) := by
  obtain ⟨st', h1, w, a, b⟩ := foldlM_batch_inv
    (fun r s q => accumulate_mlcv_Qsums6_qoi fuel lev lf_offset hf_offset r.1 r.2 s q)
    (fun s => s.WF K ∧
      (sameOrdersAndEntries st.sum_L_shared st.sum_L_refined →
        sameOrdersAndEntries s.sum_L_shared s.sum_L_refined) ∧
      (st.num_L = st.num_H → s.num_L = s.num_H))
    numFunctions
    (fun r s q hinv => by
      obtain ⟨s', e, w', a', b'⟩ :=
        accumulate_mlcv_Qsums6_qoi_in_step K fuel lev lf_offset hf_offset hfuel r s q hinv.1
      exact ⟨s', e, w', fun h0 => a' (hinv.2.1 h0), fun h0 => b' (hinv.2.2 h0)⟩)
    (List.zip lf_resp_map hf_resp_map) st ⟨hwf, fun h => h, fun h => h⟩
  exact ⟨st', h1, w, a, b⟩

/-- C38: the paired accumulators keep the refined low-fidelity sums in step
with the shared ones.  The six-map `accumulate_mlcv_Qsums` and
`accumulate_mlcv_Ysums` add, for an included sample, the same increments to
`sum_L_shared[k]` and `sum_L_refined[k]` and increment `num_L[qoi]` and
`num_H[qoi]` together; so a batch that starts from two maps with the same
orders and equal entries ends with such maps, and one that starts from
`num_L = num_H` ends with `num_L = num_H`. -/
theorem refined_sums_in_step (K fuel numFunctions lev : Nat)
    (lf_resp_map hf_resp_map : List RealVector) (st : PairedSums)
    (lf_offset hf_offset : RealVector) (hwf : st.WF K) (hfuel : K ≤ fuel) :
    (∃ st', accumulate_mlcv_Qsums6 fuel numFunctions lf_resp_map hf_resp_map st lev
        lf_offset hf_offset = some st' ∧
      (sameOrdersAndEntries st.sum_L_shared st.sum_L_refined →
        sameOrdersAndEntries st'.sum_L_shared st'.sum_L_refined) ∧
      (st.num_L = st.num_H → st'.num_L = st'.num_H))
    ∧ (∃ st', accumulate_mlcv_Ysums6 fuel numFunctions lf_resp_map hf_resp_map st lev
        lf_offset hf_offset = some st' ∧
      (sameOrdersAndEntries st.sum_L_shared st.sum_L_refined →
        sameOrdersAndEntries st'.sum_L_shared st'.sum_L_refined) ∧
      (st.num_L = st.num_H → st'.num_L = st'.num_H))
    ∧ (∀ (lf_fn_vals hf_fn_vals : RealVector) (qoi : Nat) (l h : ℚ),
        shifted lf_fn_vals lf_offset qoi = Dbl.fin l →
        shifted hf_fn_vals hf_offset qoi = Dbl.fin h →
        ∃ st', accumulate_mlcv_Qsums6_qoi fuel lev lf_offset hf_offset lf_fn_vals hf_fn_vals
            st qoi = some st' ∧
          st'.sum_L_shared = grow (fun k => Dbl.fin (l ^ k.toNat)) qoi lev st.sum_L_shared ∧
          st'.sum_L_refined = grow (fun k => Dbl.fin (l ^ k.toNat)) qoi lev st.sum_L_refined ∧
          st'.num_L = st.num_L.incr qoi ∧ st'.num_H = st.num_H.incr qoi)
    ∧ (∀ (lf_fn_vals hf_fn_vals : RealVector) (qoi : Nat) (l lm1 h hm1 : ℚ),
        shifted lf_fn_vals lf_offset qoi = Dbl.fin l →
        shifted lf_fn_vals lf_offset (qoi + numFunctions) = Dbl.fin lm1 →
        shifted hf_fn_vals hf_offset qoi = Dbl.fin h →
        shifted hf_fn_vals hf_offset (qoi + numFunctions) = Dbl.fin hm1 →
        ∃ st', accumulate_mlcv_Ysums6_qoi fuel numFunctions lev lf_offset hf_offset lf_fn_vals
            hf_fn_vals st qoi = some st' ∧
          st'.sum_L_shared
            = grow (fun k => Dbl.fin (l ^ k.toNat - lm1 ^ k.toNat)) qoi lev st.sum_L_shared ∧
          st'.sum_L_refined
            = grow (fun k => Dbl.fin (l ^ k.toNat - lm1 ^ k.toNat)) qoi lev st.sum_L_refined ∧
          st'.num_L = st.num_L.incr qoi ∧ st'.num_H = st.num_H.incr qoi) := by
  have hQ := accumulate_mlcv_Qsums6_in_step K fuel numFunctions lev lf_resp_map hf_resp_map st
    lf_offset hf_offset hwf hfuel
  refine ⟨?_, ?_, ?_, ?_⟩
  · obtain ⟨st', h1, _, a, b⟩ := hQ
    exact ⟨st', h1, a, b⟩
  · by_cases hlev : lev = 0
    · obtain ⟨st', h1, _, a, b⟩ := hQ
      refine ⟨st', ?_, a, b⟩
      unfold accumulate_mlcv_Ysums6
      rw [if_pos hlev]
      exact h1
    · obtain ⟨st', h1, _, a, b⟩ := foldlM_batch_inv
        (fun r s q =>
          accumulate_mlcv_Ysums6_qoi fuel numFunctions lev lf_offset hf_offset r.1 r.2 s q)
        (fun s => s.WF K ∧
          (sameOrdersAndEntries st.sum_L_shared st.sum_L_refined →
            sameOrdersAndEntries s.sum_L_shared s.sum_L_refined) ∧
          (st.num_L = st.num_H → s.num_L = s.num_H))
        numFunctions
        (fun r s q hinv => by
          obtain ⟨s', e, w', a', b'⟩ :=
            accumulate_mlcv_Ysums6_qoi_in_step K fuel numFunctions lev lf_offset hf_offset hfuel
              r s q hinv.1
          exact ⟨s', e, w', fun h0 => a' (hinv.2.1 h0), fun h0 => b' (hinv.2.2 h0)⟩)
        (List.zip lf_resp_map hf_resp_map) st ⟨hwf, fun h => h, fun h => h⟩
      refine ⟨st', ?_, a, b⟩
      unfold accumulate_mlcv_Ysums6
      rw [if_neg hlev]
      exact h1
  · intro lf_fn_vals hf_fn_vals qoi l h hl hh
    exact ⟨st.addQ qoi lev l h,
      accumulate_mlcv_Qsums6_qoi_included K fuel lev lf_offset hf_offset lf_fn_vals hf_fn_vals
        st qoi l h hwf hfuel hl hh, rfl, rfl, rfl, rfl⟩
  · intro lf_fn_vals hf_fn_vals qoi l lm1 h hm1 hl hlm1 hh hhm1
    exact ⟨st.addY qoi lev l lm1 h hm1,
      accumulate_mlcv_Ysums6_qoi_included K fuel numFunctions lev lf_offset hf_offset lf_fn_vals
        hf_fn_vals st qoi l lm1 h hm1 hwf hfuel hl hlm1 hh hhm1, rfl, rfl, rfl, rfl⟩

/-- Witness for C38: one pair of responses of a single QoI at level 1 (low
values `3`, `1`, high values `5`, `2`), into fresh sums. -/
theorem refined_sums_in_step_witness :
    ∃ st', accumulate_mlcv_Ysums6 4 1 [[Dbl.fin 3, Dbl.fin 1]] [[Dbl.fin 5, Dbl.fin 2]]
        (freshPairedSums 1 2 2) 1 [] [] = some st' ∧
      sameOrdersAndEntries st'.sum_L_shared st'.sum_L_refined ∧ st'.num_L = st'.num_H := by
  obtain ⟨st', h1, a, b⟩ := (refined_sums_in_step 4 4 1 1 [[Dbl.fin 3, Dbl.fin 1]]
    [[Dbl.fin 5, Dbl.fin 2]] (freshPairedSums 1 2 2) [] [] (freshPairedSums_WF 1 2 2)
    le_rfl).2.1
  exact ⟨st', h1, a rfl, b rfl⟩

/-! ## The order-synchronised inner loops -/

/-- A loop whose test holds before each of the first `fuel + 1` passes runs out
of fuel. -/
theorem whileLoop_none {σ : Type} (cond : σ → Bool) (body : σ → σ) :
    ∀ (fuel : Nat) (s : σ), (∀ k, k ≤ fuel → cond (body^[k] s) = true) →
      whileLoop cond body fuel s = none := by
  intro fuel
  induction fuel with
  | zero =>
    intro s h
    have h0 : cond s = true := h 0 le_rfl
    simp [whileLoop, h0]
  | succ fuel ih =>
    intro s h
    have h0 : cond s = true := h 0 (Nat.zero_le _)
    have h1 := ih (body s) (fun k hk => by
      rw [← Function.iterate_succ_apply]
      exact h (k + 1) (by omega))
    simp [whileLoop, h0, h1]

/-- The running maximum of a list of orders is below a bound exactly when the
bound is non-negative and above every order. -/
theorem foldr_max_le (l : List Int) (k : Int) :
    l.foldr max 0 ≤ k ↔ 0 ≤ k ∧ ∀ x, x ∈ l → x ≤ k := by
  induction l with
  | nil => simp
  | cons a l ih =>
    rw [List.foldr_cons, max_le_iff, ih]
    constructor
    · rintro ⟨ha, h0, hl⟩
      refine ⟨h0, ?_⟩
      intro x hx
      rcases List.mem_cons.mp hx with rfl | hx
      · exact ha
      · exact hl x hx
    · rintro ⟨h0, hl⟩
      exact ⟨hl a (List.mem_cons_self _ _), h0, fun x hx => hl x (List.mem_cons_of_mem _ hx)⟩

/-- The largest order of a collection is below a bound exactly when the bound
is non-negative and above every order of every list. -/
theorem largestOrder_le (ms : List (List Int)) (k : Int) :
    largestOrder ms ≤ k ↔ 0 ≤ k ∧ ∀ ks, ks ∈ ms → ∀ x, x ∈ ks → x ≤ k := by
  unfold largestOrder
  rw [foldr_max_le]
  constructor
  · rintro ⟨h0, h⟩
    refine ⟨h0, ?_⟩
    intro ks hks x hx
    have := h (ks.foldr max 0) (List.mem_map.mpr ⟨ks, hks, rfl⟩)
    exact ((foldr_max_le ks k).mp this).2 x hx
  · rintro ⟨h0, h⟩
    refine ⟨h0, ?_⟩
    intro y hy
    obtain ⟨ks, hks, rfl⟩ := List.mem_map.mp hy
    exact (foldr_max_le ks k).mpr ⟨h0, h ks hks⟩

/-- The largest order is not negative. -/
theorem largestOrder_nonneg (ms : List (List Int)) : 0 ≤ largestOrder ms :=
  ((largestOrder_le ms (largestOrder ms)).mp le_rfl).1

/-- On ascending orders that start at the active order or above, one pass
leaves the orders above the active one. -/
theorem advanceOrders_filter (a : Int) (ks : List Int)
    (hs : ks.Pairwise (fun x y => x < y)) (hge : ∀ x, x ∈ ks → a ≤ x) :
    advanceOrders a ks = ks.filter (fun x => decide (a < x)) := by
  cases ks with
  | nil => rfl
  | cons k t =>
    have hk := hge k (List.mem_cons_self _ _)
    have ht : ∀ x, x ∈ t → k < x := (List.pairwise_cons.mp hs).1
    have hall : t.filter (fun x => decide (a < x)) = t := by
      rw [List.filter_eq_self]
      intro x hx
      have := ht x hx
      simp only [decide_eq_true_eq]
      omega
    show (if k = a then t else k :: t) = _
    by_cases hka : k = a
    · subst hka
      rw [if_pos rfl, List.filter_cons]
      simp [hall]
    · have hlt : a < k := lt_of_le_of_ne hk (Ne.symm hka)
      rw [if_neg hka, List.filter_cons]
      simp [hlt, hall]

/-- An order `<= 0` at the front is not passed by an active order `>= 1`. -/
theorem advanceOrders_stuck (a k : Int) (t : List Int) (ha : 1 ≤ a) (hk : k ≤ 0) :
    advanceOrders a (k :: t) = k :: t := by
  show (if k = a then t else k :: t) = _
  rw [if_neg (by omega)]

/-- An order at the front that is not the active one is not passed. -/
theorem advanceOrders_ne (a k : Int) (t : List Int) (h : k ≠ a) :
    advanceOrders a (k :: t) = k :: t := by
  show (if k = a then t else k :: t) = _
  rw [if_neg h]

/-- The active order at the front is passed. -/
theorem advanceOrders_eq (k : Int) (t : List Int) : advanceOrders k (k :: t) = t := by
  show (if k = k then t else k :: t) = _
  rw [if_pos rfl]

/-- Ascending orders with an order `<= 0` among them start with such an order. -/
theorem head_nonpos_of_sorted (ks : List Int) (hs : ks.Pairwise (fun x y => x < y))
    (hneg : ∃ x, x ∈ ks ∧ x ≤ 0) : ∃ k t, ks = k :: t ∧ k ≤ 0 := by
  cases ks with
  | nil =>
    obtain ⟨x, hx, _⟩ := hneg
    cases hx
  | cons k t =>
    refine ⟨k, t, rfl, ?_⟩
    obtain ⟨x, hx, hx0⟩ := hneg
    rcases List.mem_cons.mp hx with rfl | hxt
    · exact hx0
    · have := (List.pairwise_cons.mp hs).1 x hxt
      omega

section SyncLoop

variable {σ : Type} (cond : σ → Bool) (body : σ → σ) (pend : σ → List (List Int))
  (ord : σ → Int)

/-- The active order after `n` passes, with the wrap of the `int` counter. -/
theorem syncLoop_ord_wrap (hord : ∀ s, ord (body s) = int_incr (ord s)) (s0 : σ)
    (h1 : ord s0 = 1) (n : Nat) :
    ord (body^[n] s0) = ((n : Int) + 1 + 2147483648) % 4294967296 - 2147483648 := by
  induction n with
  | zero =>
    show ord s0 = _
    rw [h1]
    norm_num
  | succ n ih =>
    rw [Function.iterate_succ_apply', hord, ih]
    unfold int_incr
    push_cast
    omega

/-- The active order after `n` passes, as long as the counter has not
overflowed. -/
theorem syncLoop_ord (hord : ∀ s, ord (body s) = int_incr (ord s)) (s0 : σ) (h1 : ord s0 = 1)
    (n : Nat) (hn : (n : Int) < INT_MAX) : ord (body^[n] s0) = (n : Int) + 1 := by
  rw [syncLoop_ord_wrap body ord hord s0 h1 n]
  unfold INT_MAX at hn
  omega

/-- The orders still ahead after `n` passes are the orders above `n`. -/
theorem syncLoop_pending
    (hpend : ∀ s, pend (body s) = (pend s).map (advanceOrders (ord s)))
    (hord : ∀ s, ord (body s) = int_incr (ord s)) (s0 : σ) (h1 : ord s0 = 1)
    (hP : OrdersFromOne (pend s0)) (n : Nat) (hn : (n : Int) < INT_MAX) :
    pend (body^[n] s0)
      = (pend s0).map (fun ks => ks.filter (fun x => decide ((n : Int) < x))) := by
  induction n with
  | zero =>
    show pend s0 = _
    have hid : (pend s0).map (fun ks => ks.filter (fun x => decide (((0 : Nat) : Int) < x)))
        = (pend s0).map id := by
      apply List.map_congr_left
      intro ks hks
      rw [id, List.filter_eq_self]
      intro x hx
      have := ((hP ks hks).2 x hx).1
      simp only [Nat.cast_zero, decide_eq_true_eq]
      omega
    rw [hid, List.map_id]
  | succ n ih =>
    have hn' : (n : Int) < INT_MAX := by
      push_cast at hn
      omega
    rw [Function.iterate_succ_apply', hpend, ih hn', List.map_map,
      syncLoop_ord body ord hord s0 h1 n hn']
    apply List.map_congr_left
    intro ks hks
    obtain ⟨hs, _⟩ := hP ks hks
    rw [Function.comp_apply, advanceOrders_filter _ _ (hs.filter _)
      (fun x hx => by
        have := (List.mem_filter.mp hx).2
        simp only [decide_eq_true_eq] at this
        omega),
      List.filter_filter]
    apply List.filter_congr
    intro x _
    by_cases hx : (n : Int) + 1 < x
    · have h2 : (n : Int) < x := by omega
      simp [hx, h2]
    · simp [hx]

/-- The loop test after `n` passes: some order above `n` is left. -/
theorem syncLoop_cond
    (hcond : ∀ s, cond s = (pend s).any (fun ks => !ks.isEmpty))
    (hpend : ∀ s, pend (body s) = (pend s).map (advanceOrders (ord s)))
    (hord : ∀ s, ord (body s) = int_incr (ord s)) (s0 : σ) (h1 : ord s0 = 1)
    (hP : OrdersFromOne (pend s0)) (n : Nat) (hn : (n : Int) < INT_MAX) :
    cond (body^[n] s0) = true ↔ (n : Int) < largestOrder (pend s0) := by
  rw [hcond, syncLoop_pending body pend ord hpend hord s0 h1 hP n hn, ← not_le,
    largestOrder_le]
  simp only [List.any_map, List.any_eq_true, Function.comp_apply, Bool.not_eq_true',
    List.isEmpty_eq_false, not_and, not_forall]
  constructor
  · rintro ⟨ks, hks, hne⟩ _
    obtain ⟨x, hx⟩ := List.exists_mem_of_ne_nil _ hne
    have hx' := List.mem_filter.mp hx
    refine ⟨ks, hks, x, hx'.1, ?_⟩
    have := hx'.2
    simp only [decide_eq_true_eq] at this
    omega
  · intro h
    obtain ⟨ks, hks, x, hx, hlt⟩ := h (Nat.cast_nonneg n)
    refine ⟨ks, hks, ?_⟩
    apply List.ne_nil_of_mem (a := x)
    rw [List.mem_filter]
    refine ⟨hx, ?_⟩
    simp only [decide_eq_true_eq]
    omega

/-- The largest of ascending orders `>= 1` below `INT_MAX` is below `INT_MAX`. -/
theorem largestOrder_lt_INT_MAX (ms : List (List Int)) (hP : OrdersFromOne ms) :
    largestOrder ms < INT_MAX := by
  have h : largestOrder ms ≤ INT_MAX - 1 := by
    rw [largestOrder_le]
    refine ⟨by unfold INT_MAX; omega, ?_⟩
    intro ks hks x hx
    have := ((hP ks hks).2 x hx).2
    omega
  omega

/-- An order-synchronised loop over ascending orders `>= 1` below `INT_MAX`
makes exactly as many passes as the largest order. -/
theorem syncLoop_run
    (hcond : ∀ s, cond s = (pend s).any (fun ks => !ks.isEmpty))
    (hpend : ∀ s, pend (body s) = (pend s).map (advanceOrders (ord s)))
    (hord : ∀ s, ord (body s) = int_incr (ord s)) (s0 : σ) (h1 : ord s0 = 1)
    (hP : OrdersFromOne (pend s0)) (fuel : Nat) :
    whileLoop cond body fuel s0
      = if (largestOrder (pend s0)).toNat ≤ fuel then
          some (body^[(largestOrder (pend s0)).toNat] s0)
        else none := by
  have hM : (((largestOrder (pend s0)).toNat : Nat) : Int) = largestOrder (pend s0) :=
    Int.toNat_of_nonneg (largestOrder_nonneg _)
  have hlt := largestOrder_lt_INT_MAX (pend s0) hP
  have hc := syncLoop_cond cond body pend ord hcond hpend hord s0 h1 hP
  by_cases hf : (largestOrder (pend s0)).toNat ≤ fuel
  · rw [if_pos hf]
    apply whileLoop_iterate cond body fuel s0 _ hf
    · cases hb : cond (body^[(largestOrder (pend s0)).toNat] s0) with
      | false => rfl
      | true =>
        have := (hc _ (by omega)).mp hb
        omega
    · intro k hk
      apply (hc k (by omega)).mpr
      omega
  · rw [if_neg hf]
    apply whileLoop_none
    intro k hk
    apply (hc k (by omega)).mpr
    omega

/-- An order-synchronised loop does not pass an order `<= 0` while its counter
has not overflowed: during the first `INT_MAX - 1` passes the iterator of a map
that holds one stays where it is, and the loop does not end. -/
theorem syncLoop_stuck
    (hcond : ∀ s, cond s = (pend s).any (fun ks => !ks.isEmpty))
    (hpend : ∀ s, pend (body s) = (pend s).map (advanceOrders (ord s)))
    (hord : ∀ s, ord (body s) = int_incr (ord s)) (s0 : σ) (h1 : ord s0 = 1)
    (i : Nat) (ks : List Int) (hi : (pend s0)[i]? = some ks)
    (hs : ks.Pairwise (fun x y => x < y)) (hneg : ∃ x, x ∈ ks ∧ x ≤ 0) :
    (∀ n : Nat, (n : Int) < INT_MAX → (pend (body^[n] s0))[i]? = some ks)
    ∧ ∀ fuel : Nat, (fuel : Int) < INT_MAX → whileLoop cond body fuel s0 = none := by
  obtain ⟨k, t, rfl, hk⟩ := head_nonpos_of_sorted ks hs hneg
  have hstay : ∀ n : Nat, (n : Int) < INT_MAX → (pend (body^[n] s0))[i]? = some (k :: t) := by
    intro n
    induction n with
    | zero => intro _; exact hi
    | succ n ih =>
      intro hn
      have hn' : (n : Int) < INT_MAX := by
        push_cast at hn
        omega
      rw [Function.iterate_succ_apply', hpend, List.getElem?_map, ih hn', Option.map_some',
        syncLoop_ord body ord hord s0 h1 n hn', advanceOrders_stuck _ _ _ (by omega) hk]
  refine ⟨hstay, ?_⟩
  intro fuel hfuel
  apply whileLoop_none
  intro n hn
  rw [hcond, List.any_eq_true]
  refine ⟨k :: t, List.getElem?_mem (hstay n (by omega)), rfl⟩

/-- An order-synchronised loop whose maps all hold the single order `0` comes
to an end once the `int` counter has wrapped round to `0`: it makes exactly
`2^32` passes, the last of which passes the order `0` in every map. -/
theorem syncLoop_wrap_zero
    (hcond : ∀ s, cond s = (pend s).any (fun ks => !ks.isEmpty))
    (hpend : ∀ s, pend (body s) = (pend s).map (advanceOrders (ord s)))
    (hord : ∀ s, ord (body s) = int_incr (ord s)) (s0 : σ) (h1 : ord s0 = 1)
    (hz : ∀ ks, ks ∈ pend s0 → ks = [0]) (hne : pend s0 ≠ []) (fuel : Nat) :
    whileLoop cond body fuel s0
      = (if 4294967296 ≤ fuel then some (body^[4294967296] s0) else none)
    ∧ pend (body^[4294967296] s0) = (pend s0).map (fun _ => []) := by
  have hstay : ∀ n : Nat, n < 4294967296 → pend (body^[n] s0) = pend s0 := by
    intro n
    induction n with
    | zero => intro _; rfl
    | succ n ih =>
      intro hn
      rw [Function.iterate_succ_apply', hpend, ih (by omega),
        syncLoop_ord_wrap body ord hord s0 h1 n]
      have hw : (0 : Int) ≠ ((n : Int) + 1 + 2147483648) % 4294967296 - 2147483648 := by
        omega
      have hid : (pend s0).map
            (advanceOrders (((n : Int) + 1 + 2147483648) % 4294967296 - 2147483648))
          = (pend s0).map id := by
        apply List.map_congr_left
        intro ks hks
        rw [hz ks hks, advanceOrders_ne _ _ _ hw]
        rfl
      rw [hid, List.map_id]
  have hstep : ∀ n : Nat, n = 4294967295 →
      pend (body^[n + 1] s0) = (pend s0).map (fun _ => []) := by
    intro n hn
    rw [Function.iterate_succ_apply', hpend, hstay n (by omega),
      syncLoop_ord_wrap body ord hord s0 h1 n]
    have hw : ((n : Int) + 1 + 2147483648) % 4294967296 - 2147483648 = 0 := by
      omega
    rw [hw]
    apply List.map_congr_left
    intro ks hks
    rw [hz ks hks, advanceOrders_eq]
  have hlast : pend (body^[4294967296] s0) = (pend s0).map (fun _ => []) :=
    hstep 4294967295 rfl
  have hrun : ∀ k : Nat, k < 4294967296 → cond (body^[k] s0) = true := by
    intro k hk
    obtain ⟨ks, hks⟩ := List.exists_mem_of_ne_nil _ hne
    rw [hcond, hstay k hk, List.any_eq_true]
    refine ⟨ks, hks, ?_⟩
    rw [hz ks hks]
    rfl
  refine ⟨?_, hlast⟩
  by_cases hf : 4294967296 ≤ fuel
  · rw [if_pos hf]
    apply whileLoop_iterate cond body fuel s0 _ hf
    · rw [hcond, hlast, List.any_map]
      apply List.any_eq_false.mpr
      intro ks _
      simp
    · exact hrun
  · rw [if_neg hf]
    apply whileLoop_none
    intro k hk
    exact hrun k (by omega)

end SyncLoop

/-- One pass of the block of an iterator, seen on the orders ahead of it. -/
theorem ordersOf_visit (it : MapIter) (active_ord : Int) (qoi lev : Nat) (inc : Dbl) :
    ordersOf (it.visit active_ord qoi lev inc).rest = advanceOrders active_ord (ordersOf it.rest) := by
  unfold MapIter.visit ordersOf
  cases hr : it.rest with
  | nil => simp [hr, advanceOrders]
  | cons e r =>
    simp only [List.map_cons]
    show _ = if e.1 = active_ord then _ else _
    by_cases he : e.1 = active_ord
    · simp [he]
    · simp [he, hr]

/-- The test `it != end()` seen on the orders ahead of the iterator. -/
theorem not_atEnd_eq (it : MapIter) : (!it.atEnd) = !(ordersOf it.rest).isEmpty := by
  unfold MapIter.atEnd ordersOf
  cases it.rest <;> rfl

/-- A map whose orders are among ascending orders `>= 1` below `INT_MAX` is
well formed, with the largest order as bound. -/
theorem MapWF_of_orders (m : IntRealMatrixMap) (P : List (List Int)) (hm : ordersOf m ∈ P)
    (hP : OrdersFromOne P) : MapWF (largestOrder P).toNat m := by
  obtain ⟨hs, h1⟩ := hP _ hm
  unfold MapWF MapIter.Ready MapIter.start
  simp only
  refine ⟨?_, ?_⟩
  · unfold ordersOf at hs
    rwa [List.pairwise_map] at hs
  · intro e he
    have hmem : e.1 ∈ ordersOf m := List.mem_map.mpr ⟨e, he, rfl⟩
    refine ⟨(h1 _ hmem).1, le_min ?_ ?_⟩
    · rw [Int.toNat_of_nonneg (largestOrder_nonneg P)]
      exact ((largestOrder_le P _).mp le_rfl).2 _ hm _ hmem
    · have := (h1 _ hmem).2
      omega

theorem QLoop2_cond_pending (s : QLoop2) :
    QLoop2.cond s = (QLoop2.pending s).any (fun ks => !ks.isEmpty) := by
  simp only [QLoop2.cond, QLoop2.pending, List.any_cons, List.any_nil, Bool.or_false,
    not_atEnd_eq]

theorem QLoop2_body_pending (qoi lev : Nat) (q_l q_lm1 : Dbl) (s : QLoop2) :
    QLoop2.pending (QLoop2.body qoi lev q_l q_lm1 s)
      = (QLoop2.pending s).map (advanceOrders s.active_ord) := by
  simp only [QLoop2.body, QLoop2.pending, List.map_cons, List.map_nil, ordersOf_visit]

theorem RefinedSums_WF_of_orders (st : RefinedSums) (hP : OrdersFromOne st.orders) :
    st.WF (largestOrder st.orders).toNat :=
  ⟨MapWF_of_orders _ _ (by simp [RefinedSums.orders]) hP,
    MapWF_of_orders _ _ (by simp [RefinedSums.orders]) hP⟩

theorem QLoop6_cond_pending (s : QLoop6) :
    QLoop6.cond s = (QLoop6.pending s).any (fun ks => !ks.isEmpty) := by
  simp only [QLoop6.cond, QLoop6.pending, List.any_cons, List.any_nil, Bool.or_false,
    not_atEnd_eq, Bool.or_assoc]

theorem QLoop6_body_pending (qoi lev : Nat) (lf_l hf_l : Dbl) (s : QLoop6) :
    QLoop6.pending (QLoop6.body qoi lev lf_l hf_l s)
      = (QLoop6.pending s).map (advanceOrders s.active_ord) := by
  simp only [QLoop6.body, QLoop6.pending, List.map_cons, List.map_nil, ordersOf_visit]

theorem PairedSums_WF_of_orders (st : PairedSums) (hP : OrdersFromOne st.orders) :
    st.WF (largestOrder st.orders).toNat :=
  ⟨MapWF_of_orders _ _ (by simp [PairedSums.orders]) hP,
    MapWF_of_orders _ _ (by simp [PairedSums.orders]) hP,
    MapWF_of_orders _ _ (by simp [PairedSums.orders]) hP,
    MapWF_of_orders _ _ (by simp [PairedSums.orders]) hP,
    MapWF_of_orders _ _ (by simp [PairedSums.orders]) hP,
    MapWF_of_orders _ _ (by simp [PairedSums.orders]) hP⟩

theorem QLoop16_cond_pending (s : QLoop16) :
    QLoop16.cond s = (QLoop16.pending s).any (fun ks => !ks.isEmpty) := by
  simp only [QLoop16.cond, QLoop16.pending, List.any_cons, List.any_nil, Bool.or_false,
    not_atEnd_eq, Bool.or_assoc]

theorem QLoop16_body_pending (qoi lev : Nat) (lf_l lf_lm1 hf_l hf_lm1 : Dbl) (s : QLoop16) :
    QLoop16.pending (QLoop16.body qoi lev lf_l lf_lm1 hf_l hf_lm1 s)
      = (QLoop16.pending s).map (advanceOrders s.active_ord) := by
  simp only [QLoop16.body, QLoop16.pending, List.map_cons, List.map_nil, ordersOf_visit]

theorem LevelSums_WF_of_orders (st : LevelSums) (hP : OrdersFromOne st.orders) :
    st.WF (largestOrder st.orders).toNat :=
  ⟨MapWF_of_orders _ _ (by simp [LevelSums.orders]) hP,
    MapWF_of_orders _ _ (by simp [LevelSums.orders]) hP,
    MapWF_of_orders _ _ (by simp [LevelSums.orders]) hP,
    MapWF_of_orders _ _ (by simp [LevelSums.orders]) hP,
    MapWF_of_orders _ _ (by simp [LevelSums.orders]) hP,
    MapWF_of_orders _ _ (by simp [LevelSums.orders]) hP,
    MapWF_of_orders _ _ (by simp [LevelSums.orders]) hP,
    MapWF_of_orders _ _ (by simp [LevelSums.orders]) hP,
    MapWF_of_orders _ _ (by simp [LevelSums.orders]) hP,
    MapWF_of_orders _ _ (by simp [LevelSums.orders]) hP,
    MapWF_of_orders _ _ (by simp [LevelSums.orders]) hP,
    MapWF_of_orders _ _ (by simp [LevelSums.orders]) hP,
    MapWF_of_orders _ _ (by simp [LevelSums.orders]) hP,
    MapWF_of_orders _ _ (by simp [LevelSums.orders]) hP,
    MapWF_of_orders _ _ (by simp [LevelSums.orders]) hP,
    MapWF_of_orders _ _ (by simp [LevelSums.orders]) hP⟩

/-- The two-map loop makes exactly as many passes as the largest order, and
leaves the sums of `RefinedSums.addQ`. -/
theorem QLoop2_passes (q qm1 : ℚ) (qoi lev fuel : Nat) (st : RefinedSums)
    (hP : OrdersFromOne st.orders) :
    whileLoop QLoop2.cond (QLoop2.body qoi lev (Dbl.fin q) (Dbl.fin qm1)) fuel
        (QLoop2.init st (Dbl.fin q) (Dbl.fin qm1))
      = (if (largestOrder st.orders).toNat ≤ fuel then
          some ((QLoop2.body qoi lev (Dbl.fin q) (Dbl.fin qm1))^[(largestOrder st.orders).toNat]
            (QLoop2.init st (Dbl.fin q) (Dbl.fin qm1)))
        else none)
    ∧ QLoop2.finish st qoi
        ((QLoop2.body qoi lev (Dbl.fin q) (Dbl.fin qm1))^[(largestOrder st.orders).toNat]
          (QLoop2.init st (Dbl.fin q) (Dbl.fin qm1)))
      = st.addQ qoi lev q qm1 := by
  have run := fun fuel => syncLoop_run QLoop2.cond (QLoop2.body qoi lev (Dbl.fin q) (Dbl.fin qm1))
    QLoop2.pending (fun s => s.active_ord) QLoop2_cond_pending
    (QLoop2_body_pending qoi lev (Dbl.fin q) (Dbl.fin qm1)) (fun _ => rfl)
    (QLoop2.init st (Dbl.fin q) (Dbl.fin qm1)) rfl hP fuel
  refine ⟨run fuel, ?_⟩
  have h := QLoop2_run q qm1 qoi lev _ _ st (RefinedSums_WF_of_orders st hP) le_rfl
  have r := run (largestOrder st.orders).toNat
  rw [show QLoop2.pending (QLoop2.init st (Dbl.fin q) (Dbl.fin qm1)) = st.orders from rfl,
    if_pos le_rfl] at r
  rw [r] at h
  simpa using h

/-- The six-map loop makes exactly as many passes as the largest order, and
leaves the sums of `PairedSums.addQ`. -/
theorem QLoop6_passes (l h : ℚ) (qoi lev fuel : Nat) (st : PairedSums)
    (hP : OrdersFromOne st.orders) :
    whileLoop QLoop6.cond (QLoop6.body qoi lev (Dbl.fin l) (Dbl.fin h)) fuel
        (QLoop6.init st (Dbl.fin l) (Dbl.fin h))
      = (if (largestOrder st.orders).toNat ≤ fuel then
          some ((QLoop6.body qoi lev (Dbl.fin l) (Dbl.fin h))^[(largestOrder st.orders).toNat]
            (QLoop6.init st (Dbl.fin l) (Dbl.fin h)))
        else none)
    ∧ QLoop6.finish st qoi
        ((QLoop6.body qoi lev (Dbl.fin l) (Dbl.fin h))^[(largestOrder st.orders).toNat]
          (QLoop6.init st (Dbl.fin l) (Dbl.fin h)))
      = st.addQ qoi lev l h := by
  have run := fun fuel => syncLoop_run QLoop6.cond (QLoop6.body qoi lev (Dbl.fin l) (Dbl.fin h))
    QLoop6.pending (fun s => s.active_ord) QLoop6_cond_pending
    (QLoop6_body_pending qoi lev (Dbl.fin l) (Dbl.fin h)) (fun _ => rfl)
    (QLoop6.init st (Dbl.fin l) (Dbl.fin h)) rfl hP fuel
  refine ⟨run fuel, ?_⟩
  have h6 := QLoop6_run l h qoi lev _ _ st (PairedSums_WF_of_orders st hP) le_rfl
  have r := run (largestOrder st.orders).toNat
  rw [show QLoop6.pending (QLoop6.init st (Dbl.fin l) (Dbl.fin h)) = st.orders from rfl,
    if_pos le_rfl] at r
  rw [r] at h6
  simpa using h6

/-- The sixteen-map loop makes exactly as many passes as the largest order,
and leaves the sums of `LevelSums.addQ`. -/
theorem QLoop16_passes (l lm1 h hm1 : ℚ) (qoi lev fuel : Nat) (st : LevelSums)
    (hP : OrdersFromOne st.orders) :
    whileLoop QLoop16.cond
        (QLoop16.body qoi lev (Dbl.fin l) (Dbl.fin lm1) (Dbl.fin h) (Dbl.fin hm1)) fuel
        (QLoop16.init st (Dbl.fin l) (Dbl.fin lm1) (Dbl.fin h) (Dbl.fin hm1))
      = (if (largestOrder st.orders).toNat ≤ fuel then
          some ((QLoop16.body qoi lev (Dbl.fin l) (Dbl.fin lm1) (Dbl.fin h)
              (Dbl.fin hm1))^[(largestOrder st.orders).toNat]
            (QLoop16.init st (Dbl.fin l) (Dbl.fin lm1) (Dbl.fin h) (Dbl.fin hm1)))
        else none)
    ∧ QLoop16.finish st qoi
        ((QLoop16.body qoi lev (Dbl.fin l) (Dbl.fin lm1) (Dbl.fin h)
            (Dbl.fin hm1))^[(largestOrder st.orders).toNat]
          (QLoop16.init st (Dbl.fin l) (Dbl.fin lm1) (Dbl.fin h) (Dbl.fin hm1)))
      = st.addQ qoi lev l lm1 h hm1 := by
  have run := fun fuel => syncLoop_run QLoop16.cond
    (QLoop16.body qoi lev (Dbl.fin l) (Dbl.fin lm1) (Dbl.fin h) (Dbl.fin hm1))
    QLoop16.pending (fun s => s.active_ord) QLoop16_cond_pending
    (QLoop16_body_pending qoi lev (Dbl.fin l) (Dbl.fin lm1) (Dbl.fin h) (Dbl.fin hm1))
    (fun _ => rfl)
    (QLoop16.init st (Dbl.fin l) (Dbl.fin lm1) (Dbl.fin h) (Dbl.fin hm1)) rfl hP fuel
  refine ⟨run fuel, ?_⟩
  have h16 := QLoop16_run l lm1 h hm1 qoi lev _ _ st (LevelSums_WF_of_orders st hP) le_rfl
  have r := run (largestOrder st.orders).toNat
  rw [show QLoop16.pending (QLoop16.init st (Dbl.fin l) (Dbl.fin lm1) (Dbl.fin h) (Dbl.fin hm1))
      = st.orders from rfl, if_pos le_rfl] at r
  rw [r] at h16
  simpa using h16

/-- C39: the order-synchronised inner loops of the accumulators (two, six and
sixteen maps), which walk the maps in parallel with a running active order that
starts at 1.  When the orders of every map are `>= 1` and below `INT_MAX` (and
ascending, as the keys of a `std::map`), the loop ends after exactly as many
passes as the largest order over all maps (with fewer passes allowed it has
not ended), and the sums it leaves are those in which every order `k` of every
map has received, once, the increment built from the `k`-th powers of the
values.  A map that holds an order `<= 0` is not advanced as long as the `int`
counter `active_ord` has not overflowed: after each of the first `INT_MAX - 1`
passes its iterator is still at `begin()`, and the loop has not ended within
that many passes. -/
theorem synchronised_loops_terminate (qoi lev fuel : Nat) (st2 : RefinedSums)
    (st6 : PairedSums) (st16 : LevelSums) (q qm1 l lm1 h hm1 : ℚ) :
    (OrdersFromOne st2.orders →
      whileLoop QLoop2.cond (QLoop2.body qoi lev (Dbl.fin q) (Dbl.fin qm1)) fuel
          (QLoop2.init st2 (Dbl.fin q) (Dbl.fin qm1))
        = (if (largestOrder st2.orders).toNat ≤ fuel then
            some ((QLoop2.body qoi lev (Dbl.fin q)
                (Dbl.fin qm1))^[(largestOrder st2.orders).toNat]
              (QLoop2.init st2 (Dbl.fin q) (Dbl.fin qm1)))
          else none)
      ∧ QLoop2.finish st2 qoi
          ((QLoop2.body qoi lev (Dbl.fin q) (Dbl.fin qm1))^[(largestOrder st2.orders).toNat]
            (QLoop2.init st2 (Dbl.fin q) (Dbl.fin qm1)))
        = st2.addQ qoi lev q qm1)
    ∧ (OrdersFromOne st6.orders →
      whileLoop QLoop6.cond (QLoop6.body qoi lev (Dbl.fin l) (Dbl.fin h)) fuel
          (QLoop6.init st6 (Dbl.fin l) (Dbl.fin h))
        = (if (largestOrder st6.orders).toNat ≤ fuel then
            some ((QLoop6.body qoi lev (Dbl.fin l)
                (Dbl.fin h))^[(largestOrder st6.orders).toNat]
              (QLoop6.init st6 (Dbl.fin l) (Dbl.fin h)))
          else none)
      ∧ QLoop6.finish st6 qoi
          ((QLoop6.body qoi lev (Dbl.fin l) (Dbl.fin h))^[(largestOrder st6.orders).toNat]
            (QLoop6.init st6 (Dbl.fin l) (Dbl.fin h)))
        = st6.addQ qoi lev l h)
    ∧ (OrdersFromOne st16.orders →
      whileLoop QLoop16.cond
          (QLoop16.body qoi lev (Dbl.fin l) (Dbl.fin lm1) (Dbl.fin h) (Dbl.fin hm1)) fuel
          (QLoop16.init st16 (Dbl.fin l) (Dbl.fin lm1) (Dbl.fin h) (Dbl.fin hm1))
        = (if (largestOrder st16.orders).toNat ≤ fuel then
            some ((QLoop16.body qoi lev (Dbl.fin l) (Dbl.fin lm1) (Dbl.fin h)
                (Dbl.fin hm1))^[(largestOrder st16.orders).toNat]
              (QLoop16.init st16 (Dbl.fin l) (Dbl.fin lm1) (Dbl.fin h) (Dbl.fin hm1)))
          else none)
      ∧ QLoop16.finish st16 qoi
          ((QLoop16.body qoi lev (Dbl.fin l) (Dbl.fin lm1) (Dbl.fin h)
              (Dbl.fin hm1))^[(largestOrder st16.orders).toNat]
            (QLoop16.init st16 (Dbl.fin l) (Dbl.fin lm1) (Dbl.fin h) (Dbl.fin hm1)))
        = st16.addQ qoi lev l lm1 h hm1)
    ∧ (∀ (i : Nat) (ks : List Int), st2.orders[i]? = some ks →
        ks.Pairwise (fun x y => x < y) → (∃ x, x ∈ ks ∧ x ≤ 0) →
        (∀ n : Nat, (n : Int) < INT_MAX →
          (QLoop2.pending ((QLoop2.body qoi lev (Dbl.fin q) (Dbl.fin qm1))^[n]
            (QLoop2.init st2 (Dbl.fin q) (Dbl.fin qm1))))[i]? = some ks)
        ∧ ((fuel : Int) < INT_MAX →
          whileLoop QLoop2.cond (QLoop2.body qoi lev (Dbl.fin q) (Dbl.fin qm1)) fuel
            (QLoop2.init st2 (Dbl.fin q) (Dbl.fin qm1)) = none))
    ∧ (∀ (i : Nat) (ks : List Int), st6.orders[i]? = some ks →
        ks.Pairwise (fun x y => x < y) → (∃ x, x ∈ ks ∧ x ≤ 0) →
        (∀ n : Nat, (n : Int) < INT_MAX →
          (QLoop6.pending ((QLoop6.body qoi lev (Dbl.fin l) (Dbl.fin h))^[n]
            (QLoop6.init st6 (Dbl.fin l) (Dbl.fin h))))[i]? = some ks)
        ∧ ((fuel : Int) < INT_MAX →
          whileLoop QLoop6.cond (QLoop6.body qoi lev (Dbl.fin l) (Dbl.fin h)) fuel
            (QLoop6.init st6 (Dbl.fin l) (Dbl.fin h)) = none))
    ∧ (∀ (i : Nat) (ks : List Int), st16.orders[i]? = some ks →
        ks.Pairwise (fun x y => x < y) → (∃ x, x ∈ ks ∧ x ≤ 0) →
        (∀ n : Nat, (n : Int) < INT_MAX →
          (QLoop16.pending ((QLoop16.body qoi lev (Dbl.fin l) (Dbl.fin lm1) (Dbl.fin h)
              (Dbl.fin hm1))^[n]
            (QLoop16.init st16 (Dbl.fin l) (Dbl.fin lm1) (Dbl.fin h) (Dbl.fin hm1))))[i]?
          = some ks)
        ∧ ((fuel : Int) < INT_MAX →
          whileLoop QLoop16.cond
            (QLoop16.body qoi lev (Dbl.fin l) (Dbl.fin lm1) (Dbl.fin h) (Dbl.fin hm1)) fuel
            (QLoop16.init st16 (Dbl.fin l) (Dbl.fin lm1) (Dbl.fin h) (Dbl.fin hm1))
            = none)) := by
  refine ⟨QLoop2_passes q qm1 qoi lev fuel st2, QLoop6_passes l h qoi lev fuel st6,
    QLoop16_passes l lm1 h hm1 qoi lev fuel st16, ?_, ?_, ?_⟩
  · intro i ks hi hs hneg
    have hst := syncLoop_stuck QLoop2.cond (QLoop2.body qoi lev (Dbl.fin q) (Dbl.fin qm1))
      QLoop2.pending (fun s => s.active_ord) QLoop2_cond_pending
      (QLoop2_body_pending qoi lev (Dbl.fin q) (Dbl.fin qm1)) (fun _ => rfl)
      (QLoop2.init st2 (Dbl.fin q) (Dbl.fin qm1)) rfl i ks hi hs hneg
    exact ⟨hst.1, hst.2 fuel⟩
  · intro i ks hi hs hneg
    have hst := syncLoop_stuck QLoop6.cond (QLoop6.body qoi lev (Dbl.fin l) (Dbl.fin h))
      QLoop6.pending (fun s => s.active_ord) QLoop6_cond_pending
      (QLoop6_body_pending qoi lev (Dbl.fin l) (Dbl.fin h)) (fun _ => rfl)
      (QLoop6.init st6 (Dbl.fin l) (Dbl.fin h)) rfl i ks hi hs hneg
    exact ⟨hst.1, hst.2 fuel⟩
  · intro i ks hi hs hneg
    have hst := syncLoop_stuck QLoop16.cond
      (QLoop16.body qoi lev (Dbl.fin l) (Dbl.fin lm1) (Dbl.fin h) (Dbl.fin hm1))
      QLoop16.pending (fun s => s.active_ord) QLoop16_cond_pending
      (QLoop16_body_pending qoi lev (Dbl.fin l) (Dbl.fin lm1) (Dbl.fin h) (Dbl.fin hm1))
      (fun _ => rfl)
      (QLoop16.init st16 (Dbl.fin l) (Dbl.fin lm1) (Dbl.fin h) (Dbl.fin hm1)) rfl i ks hi hs
      hneg
    exact ⟨hst.1, hst.2 fuel⟩

/-- Both iterators of the two-map loop are at `end()` when no order is ahead
of either. -/
theorem QLoop2_atEnd_of_pending (s : QLoop2) (h : QLoop2.pending s = [[], []]) :
    s.l1_it.atEnd = true ∧ s.l2_it.atEnd = true := by
  simp only [QLoop2.pending, ordersOf, List.cons.injEq, List.map_eq_nil_iff, and_true] at h
  rw [MapIter.atEnd_iff, MapIter.atEnd_iff]
  exact h

/-- Counterexample to the last part of C39 (a map with a key `<= 0` is never
advanced past that key): on two sum maps that hold the single order `0`, the
two-map loop has not ended after `2^32 - 1` passes, but `++active_ord`, having
overflowed at `INT_MAX` and wrapped to `-2^31`, arrives at `0` in pass `2^32`;
that pass advances both iterators past the order `0`, and the loop ends with
both at `end()`. -/
theorem key_zero_passed_after_wrap :
    zeroKeySums.orders = [[0], [0]]
    ∧ whileLoop QLoop2.cond (QLoop2.body 0 1 (Dbl.fin 1) (Dbl.fin 1)) 4294967295
        (QLoop2.init zeroKeySums (Dbl.fin 1) (Dbl.fin 1)) = none
    ∧ ∃ s, whileLoop QLoop2.cond (QLoop2.body 0 1 (Dbl.fin 1) (Dbl.fin 1)) 4294967296
          (QLoop2.init zeroKeySums (Dbl.fin 1) (Dbl.fin 1)) = some s
        ∧ QLoop2.pending s = [[], []]
        ∧ s.l1_it.atEnd = true ∧ s.l2_it.atEnd = true := by
  have hz : ∀ ks, ks ∈ QLoop2.pending (QLoop2.init zeroKeySums (Dbl.fin 1) (Dbl.fin 1)) →
      ks = [0] := by
    intro ks hks
    have hp : QLoop2.pending (QLoop2.init zeroKeySums (Dbl.fin 1) (Dbl.fin 1)) = [[0], [0]] :=
      rfl
    rw [hp] at hks
    simp only [List.mem_cons, List.mem_singleton, List.not_mem_nil, or_false, or_self] at hks
    exact hks
  have hne : QLoop2.pending (QLoop2.init zeroKeySums (Dbl.fin 1) (Dbl.fin 1)) ≠ [] := by
    intro h
    cases h
  have run := fun fuel => syncLoop_wrap_zero QLoop2.cond
    (QLoop2.body 0 1 (Dbl.fin 1) (Dbl.fin 1)) QLoop2.pending (fun s => s.active_ord)
    QLoop2_cond_pending (QLoop2_body_pending 0 1 (Dbl.fin 1) (Dbl.fin 1)) (fun _ => rfl)
    (QLoop2.init zeroKeySums (Dbl.fin 1) (Dbl.fin 1)) rfl hz hne fuel
  refine ⟨rfl, ?_, ?_⟩
  · rw [(run 4294967295).1, if_neg (by omega)]
  · have hp := (run 4294967296).2
    have hend : QLoop2.pending ((QLoop2.body 0 1 (Dbl.fin 1) (Dbl.fin 1))^[4294967296]
        (QLoop2.init zeroKeySums (Dbl.fin 1) (Dbl.fin 1))) = [[], []] := hp
    exact ⟨_, by rw [(run 4294967296).1, if_pos le_rfl], hend,
      QLoop2_atEnd_of_pending _ hend⟩

/-- Witness for C39: the six maps as initialized for one QoI on two levels
(orders `1..4`, order `1` for `sum_HH`): the loop ends after 4 passes, and has
not ended when only 3 are allowed; and on two maps that hold the order `0` the
two-map loop has not ended after 3 passes. -/
theorem synchronised_loops_terminate_witness :
    whileLoop QLoop6.cond (QLoop6.body 0 1 (Dbl.fin 3) (Dbl.fin 5)) 4
        (QLoop6.init (freshPairedSums 1 2 2) (Dbl.fin 3) (Dbl.fin 5))
      = some ((QLoop6.body 0 1 (Dbl.fin 3) (Dbl.fin 5))^[4]
          (QLoop6.init (freshPairedSums 1 2 2) (Dbl.fin 3) (Dbl.fin 5)))
    ∧ whileLoop QLoop6.cond (QLoop6.body 0 1 (Dbl.fin 3) (Dbl.fin 5)) 3
        (QLoop6.init (freshPairedSums 1 2 2) (Dbl.fin 3) (Dbl.fin 5)) = none
    ∧ whileLoop QLoop2.cond (QLoop2.body 0 1 (Dbl.fin 3) (Dbl.fin 1)) 3
        (QLoop2.init zeroKeySums (Dbl.fin 3) (Dbl.fin 1)) = none := by
  have hP : OrdersFromOne (freshPairedSums 1 2 2).orders := by
    intro ks hks
    simp only [PairedSums.orders, freshPairedSums, ordersOf, zeroOrders, List.map_cons,
      List.map_nil, List.mem_cons, List.mem_singleton, List.not_mem_nil, or_false] at hks
    rcases hks with rfl | rfl | rfl | rfl | rfl | rfl <;> decide
  have hM : (largestOrder (freshPairedSums 1 2 2).orders).toNat = 4 := by decide
  have h4 := ((synchronised_loops_terminate 0 1 4 (freshRefinedSums 1 2) (freshPairedSums 1 2 2)
    (freshLevelSums 1 2 2) 3 1 3 1 5 2).2.1 hP).1
  have h3 := ((synchronised_loops_terminate 0 1 3 (freshRefinedSums 1 2) (freshPairedSums 1 2 2)
    (freshLevelSums 1 2 2) 3 1 3 1 5 2).2.1 hP).1
  have h0 := ((synchronised_loops_terminate 0 1 3 zeroKeySums (freshPairedSums 1 2 2)
    (freshLevelSums 1 2 2) 3 1 3 1 5 2).2.2.2.1 0 [0] rfl (List.pairwise_singleton _ _)
    ⟨0, List.mem_singleton.mpr rfl, le_rfl⟩).2 (by decide)
  rw [hM] at h4 h3
  exact ⟨h4, h3, h0⟩

end Dakota
